import Mathlib

/-!
# ESL User Manager: pagination token codec and users

A shallow embedding of the `next_page` token codec of the user-manager service
(`internal/handlers/next_page.go` and its twin `internal/common/helpers.go`),
of the request decoders that consume it, of the listing handlers with their answers, and of
the Go standard-library routines the codec calls (`encoding/base64`, `encoding/json`, `time`);
and of the users: their validation (`internal/service/user.go`), the service that creates,
changes and deletes them (`internal/service/users.go`) and the PostgreSQL repository
(`internal/repository/pg/users.go`).

Conventions of the embedding:

* a Go `string` / `[]byte` is a list of bytes (`Bytes`), each byte a natural number below 256;
* a Go `int` is an `Int`, with the 64-bit wrap-around made explicit (`add64`, `sub64`);
* a Go `error` is a value of `Error`, whose method `Error.Error` renders the message;
* `time.Now()` is an explicit argument `now`;
* the pagination closure `func() (int, error)` is a state-passing function, so that
  "the closure was not called" is the statement that the state is returned unchanged;
  the repository, the notifier and the database connection are state-passing in the same way.
-/

set_option autoImplicit false
set_option linter.dupNamespace false
set_option maxRecDepth 4000

/-! ## Bytes, errors, machine integers -/

/-- Go strings and byte slices: sequences of bytes. -/
abbrev Bytes := List Nat

/-- The bytes of an ASCII literal. -/
def str (s : String) : Bytes := s.toList.map Char.toNat

/-- Go `error` values as far as the service distinguishes them:
plain messages (`errors.New`, `fmt.Errorf` without `%w`), wrapping with `%w`,
and the typed `*service.Error` / `*api.Error` carrying a code. -/
inductive Error where
  | text (msg : Bytes)
  | wrap (pfx : Bytes) (err : Error)
  | coded (code : Int) (msg : Bytes)
deriving DecidableEq, Repr

/-- The `Error()` method: the message of an error. -/
def Error.Error : Error → Bytes
  | .text msg => msg
  | .wrap pfx err => pfx ++ err.Error
  | .coded _ msg => msg

deriving instance DecidableEq for Except

/-- Reduction of an integer to the range of a Go `int` (64-bit two's complement). -/
def wrap64 (x : Int) : Int := (x + 2 ^ 63) % 2 ^ 64 - 2 ^ 63

/-- Go `+` on `int`. -/
def add64 (a b : Int) : Int := wrap64 (a + b)

/-- Go `-` on `int`. -/
def sub64 (a b : Int) : Int := wrap64 (a - b)

/-- The values of a Go `int`. -/
def isInt64 (x : Int) : Prop := -(2 ^ 63) ≤ x ∧ x < 2 ^ 63

instance (x : Int) : Decidable (isInt64 x) := by unfold isInt64; infer_instance

/-! ## Time

A `time.Time` is kept in civil form: the calendar fields and the zone offset it prints with.
Its position on the time line is `Time.unixNano`. -/

/-- Civil form of a `time.Time`; `zone` is the offset east of UTC in minutes. -/
structure Time where
  year : Int
  month : Nat
  day : Nat
  hour : Nat
  minute : Nat
  second : Nat
  nsec : Nat
  zone : Int
deriving DecidableEq, Repr

/-- The zero `time.Time`: January 1, year 1, 00:00:00 UTC. -/
def Time.zero : Time :=
  { year := 1, month := 1, day := 1, hour := 0, minute := 0, second := 0, nsec := 0, zone := 0 }

/-- Leap years of the proleptic Gregorian calendar. -/
def isLeap (year : Int) : Bool := year % 4 = 0 ∧ (year % 100 ≠ 0 ∨ year % 400 = 0)

/-- Number of days of a month (`time.daysIn`). -/
def daysIn (month : Nat) (year : Int) : Nat :=
  if month = 2 then (if isLeap year then 29 else 28)
  else if month = 4 ∨ month = 6 ∨ month = 9 ∨ month = 11 then 30
  else 31

/-- Days from 1970-01-01 to the given civil date. -/
def daysFromCivil (year : Int) (month day : Nat) : Int :=
  let y : Int := if month ≤ 2 then year - 1 else year
  let era : Int := y / 400
  let yoe : Int := y - era * 400
  let mp : Int := if month ≤ 2 then (month : Int) + 9 else (month : Int) - 3
  let doy : Int := (153 * mp + 2) / 5 + (day : Int) - 1
  let doe : Int := yoe * 365 + yoe / 4 - yoe / 100 + doy
  era * 146097 + doe - 719468

/-- The civil forms that a `time.Time` of the years 0 to 9999 takes: every field is in its
calendar range and the zone offset is less than a day. -/
def Time.wellFormed (t : Time) : Prop :=
  0 ≤ t.year ∧ t.year ≤ 9999 ∧ 1 ≤ t.month ∧ t.month ≤ 12 ∧ 1 ≤ t.day ∧
  t.day ≤ daysIn t.month t.year ∧ t.hour ≤ 23 ∧ t.minute ≤ 59 ∧ t.second ≤ 59 ∧
  t.nsec ≤ 999999999 ∧ t.zone.natAbs < 1440

instance (t : Time) : Decidable t.wellFormed := by unfold Time.wellFormed; infer_instance

/-- Nanoseconds from 1970-01-01T00:00:00Z to the instant. -/
def Time.unixNano (t : Time) : Int :=
  ((daysFromCivil t.year t.month t.day * 86400 + (t.hour : Int) * 3600 + (t.minute : Int) * 60
      + (t.second : Int)) - t.zone * 60) * 1000000000 + (t.nsec : Int)

/-- Largest `time.Duration`. -/
def maxDuration : Int := 2 ^ 63 - 1

/-- Smallest `time.Duration`. -/
def minDuration : Int := -(2 ^ 63)

/-- The duration `t.Sub(u)` in nanoseconds: the difference of the two instants,
saturated to the range of `time.Duration`. -/
def Time.Sub (t u : Time) : Int :=
  let d := t.unixNano - u.unixNano
  if d > maxDuration then maxDuration else if d < minDuration then minDuration else d

/-- The function `time.Since(t)`, which is `time.Now().Sub(t)`. -/
def Since (now t : Time) : Int := now.Sub t

/-- The method `Duration.Milliseconds`: whole milliseconds, truncated toward zero. -/
def Milliseconds (d : Int) : Int := Int.tdiv d 1000000

/-! ## The page token -/

/-- The constant `milliseconds30Minutes`. -/
def milliseconds30Minutes : Int := 1800000

/-- The struct `NextPage` (the same in `handlers` and in `common`). -/
structure handlers.NextPage where
  Limit : Int
  Offset : Int
  FilterBy : Bytes
  Filter : Bytes
  Time : Time
deriving DecidableEq, Repr

/-- The type `common.NextPage`. -/
abbrev common.NextPage : Type := handlers.NextPage

/-- The library routines the codec calls, as seen from the codec:
`b64.StdEncoding.DecodeString`, `json.Unmarshal` into a `*NextPage` holding the given value,
`json.Marshal` of a `NextPage`, and `b64.StdEncoding.EncodeToString`. -/
structure Codec where
  DecodeString : Bytes → Except Error Bytes
  Unmarshal : Bytes → handlers.NextPage → Except Error handlers.NextPage
  Marshal : handlers.NextPage → Except Error Bytes
  EncodeToString : Bytes → Bytes

/-- A pagination closure `func() (int, error)` over the state it may read or change. -/
abbrev PaginationFn (σ : Type) := σ → Except Error Int × σ

namespace service

/-- The struct `service.Filter`. -/
structure Filter where
  By : Bytes
  Query : Bytes
deriving DecidableEq, Repr

/-- The variable `filterByCountry`. -/
def filterByCountry : Bytes := str "country"

/-- The method `Filter.IsValid`. -/
def Filter.IsValid (f : Filter) : Bool :=
  if f.By ≠ [] ∧ f.Query ≠ [] then true else false

/-- The constructor `NewFilter`. -/
def NewFilter (fby query : Bytes) : Except Error Filter :=
  if query = [] then .error (.text (str "empty filter"))
  else if fby = filterByCountry then .ok { By := fby, Query := query }
  else .error (.text (str "filterBy parameter '" ++ fby ++ str "' not supported"))

end service

/-- The value `&NextPage{Limit: -1}` that `LoadNextPage` starts from. -/
def initialNextPage : handlers.NextPage :=
  { Limit := -1, Offset := 0, FilterBy := [], Filter := [], Time := Time.zero }

/-- The guard of line 66 of `next_page.go` (line 86 of `helpers.go`):
the token was minted less than 30 minutes ago. -/
def tokenIsLive (now : Time) (np : handlers.NextPage) : Bool :=
  Milliseconds (Since now np.Time) < milliseconds30Minutes

/-- Lines 71 to 91 of `LoadNextPage`: the path taken when no token was given or it has expired. -/
def freshParameters {σ : Type} (np : handlers.NextPage) (filter filterBy : Bytes)
    (paginationFn : PaginationFn σ) (s : σ) : Except Error handlers.NextPage × σ :=
  let np := { np with Limit := -1 }
  let np := { np with Offset := 0 }
  match paginationFn s with
  | (.error err, s) => (.error err, s)
  | (.ok pagination, s) =>
    let np := if pagination > 0 ∧ pagination ≠ np.Limit then { np with Limit := pagination } else np
    if (filter = [] ∧ filterBy ≠ []) ∨ (filter ≠ [] ∧ filterBy = []) then
      (.error (.text (str "parameters filter and filterBy should be used together")), s)
    else
      let np := if filter ≠ [] ∧ filterBy ≠ [] then
        { np with Filter := filter, FilterBy := filterBy } else np
      (.ok np, s)

namespace handlers

/-- The function `handlers.GenerateNextPage`. -/
def GenerateNextPage (c : Codec) (now : Time) (limit offset numUsers : Int)
    (filter : Option service.Filter) : Except Error Bytes :=
  if (limit > 0 ∧ offset ≥ 0) ∧ sub64 numUsers (add64 offset limit) > 0 then
    let nextPage : handlers.NextPage :=
      { Offset := limit, Limit := limit, Time := now, Filter := [], FilterBy := [] }
    let nextPage := match filter with
      | some f => if f.IsValid then { nextPage with FilterBy := f.By, Filter := f.Query } else nextPage
      | none => nextPage
    match c.Marshal nextPage with
    | .error err => .error err
    | .ok np => .ok (c.EncodeToString np)
  else .ok []

/-- The function `handlers.LoadNextPage`. -/
def LoadNextPage {σ : Type} (c : Codec) (now : Time) (nPage filter filterBy : Bytes)
    (paginationFn : PaginationFn σ) (s : σ) : Except Error handlers.NextPage × σ :=
  let np : handlers.NextPage := { Limit := -1, Offset := 0, FilterBy := [], Filter := [], Time := Time.zero }
  if nPage ≠ [] then
    match c.DecodeString nPage with
    | .error err => (.error (.wrap (str "could not decode next_page argument: ") err), s)
    | .ok sDec =>
      match c.Unmarshal sDec np with
      | .error err => (.error (.wrap (str "could not unmarshal limit offset: ") err), s)
      | .ok np =>
        if tokenIsLive now np then (.ok np, s)
        else freshParameters np filter filterBy paginationFn s
  else freshParameters np filter filterBy paginationFn s

end handlers

namespace common

/-- The function `common.GenerateNextPage`. -/
def GenerateNextPage (c : Codec) (now : Time) (limit offset numUsers : Int)
    (filter filterBy : Bytes) : Except Error Bytes :=
  if (limit > 0 ∧ offset ≥ 0) ∧ sub64 numUsers (add64 offset limit) > 0 then
    match c.Marshal { Offset := limit, Limit := limit, Time := now, Filter := filter,
                      FilterBy := filterBy } with
    | .error err => .error err
    | .ok np => .ok (c.EncodeToString np)
  else .ok []

/-- The function `common.loadNextPage`. -/
def loadNextPage {σ : Type} (c : Codec) (now : Time) (nPage filter filterBy : Bytes)
    (paginationFn : PaginationFn σ) (s : σ) : Except Error handlers.NextPage × σ :=
  let np : handlers.NextPage := { Limit := -1, Offset := 0, FilterBy := [], Filter := [], Time := Time.zero }
  if nPage ≠ [] then
    match c.DecodeString nPage with
    | .error err => (.error (.wrap (str "could not decode next_page argument: ") err), s)
    | .ok sDec =>
      match c.Unmarshal sDec np with
      | .error err => (.error (.wrap (str "could not unmarshal limit offset: ") err), s)
      | .ok np =>
        if tokenIsLive now np then (.ok np, s)
        else freshParameters np filter filterBy paginationFn s
  else freshParameters np filter filterBy paginationFn s

end common

/-! ## Standard library: `encoding/base64`, `StdEncoding` -/

namespace base64

/-- The padding character `=`. -/
def padChar : Nat := 61

/-- The standard alphabet: the character of a 6-bit value. -/
def encodeStd (n : Nat) : Nat :=
  if n < 26 then 65 + n
  else if n < 52 then 97 + (n - 26)
  else if n < 62 then 48 + (n - 52)
  else if n = 62 then 43
  else 47

/-- The decode map of the standard alphabet: the 6-bit value of a character, if it has one. -/
def decodeMap (c : Nat) : Option Nat :=
  if 65 ≤ c ∧ c ≤ 90 then some (c - 65)
  else if 97 ≤ c ∧ c ≤ 122 then some (c - 71)
  else if 48 ≤ c ∧ c ≤ 57 then some (c + 4)
  else if c = 43 then some 62
  else if c = 47 then some 63
  else none

/-- The method `EncodeToString` of `StdEncoding`: three bytes give four characters,
a final group of one or two bytes is padded with `=`. -/
def EncodeToString : Bytes → Bytes
  | [] => []
  | [a] => [encodeStd (a / 4), encodeStd (a % 4 * 16), padChar, padChar]
  | [a, b] => [encodeStd (a / 4), encodeStd (a % 4 * 16 + b / 16), encodeStd (b % 16 * 4), padChar]
  | a :: b :: c :: rest =>
    encodeStd (a / 4) :: encodeStd (a % 4 * 16 + b / 16) :: encodeStd (b % 16 * 4 + c / 64)
      :: encodeStd (c % 64) :: EncodeToString rest

/-- Skips carriage returns and line feeds; `si` is the index of the first byte of the input. -/
def skipNewlines : Bytes → Nat → Bytes × Nat
  | [], si => ([], si)
  | c :: cs, si => if c = 10 ∨ c = 13 then skipNewlines cs (si + 1) else (c :: cs, si)

/-- The decoding loop of `Encoding.Decode` with `decodeQuantum` inlined. `si` is the index of
the next input byte, `dbuf` the 6-bit values of the quantum read so far, `out` the bytes decoded
so far. Line breaks are skipped, non-zero padding bits are accepted (the encoding is not strict).
An error carries the offset of `CorruptInputError`. -/
def decode : Bytes → Nat → List Nat → Bytes → Except Nat Bytes
  | [], si, dbuf, out => if dbuf = [] then .ok out else .error (si - dbuf.length)
  | c :: cs, si, dbuf, out =>
    match decodeMap c with
    | some v =>
      match dbuf with
      | [x, y, z] =>
        decode cs (si + 1) [] (out ++ [x * 4 + y / 16, y % 16 * 16 + z / 4, z % 4 * 64 + v])
      | _ => decode cs (si + 1) (dbuf ++ [v]) out
    | none =>
      if c = 10 ∨ c = 13 then decode cs (si + 1) dbuf out
      else if c ≠ padChar then .error si
      else
        match dbuf with
        | [x, y] =>
          match skipNewlines cs (si + 1) with
          | ([], si) => .error si
          | (d :: rest, si) =>
            if d ≠ padChar then .error (si - 1)
            else
              match skipNewlines rest (si + 1) with
              | ([], _) => .ok (out ++ [x * 4 + y / 16])
              | (_ :: _, si) => .error si
        | [x, y, z] =>
          match skipNewlines cs (si + 1) with
          | ([], _) => .ok (out ++ [x * 4 + y / 16, y % 16 * 16 + z / 4])
          | (_ :: _, si) => .error si
        | _ => .error si

/-- The method `CorruptInputError.Error`. -/
def CorruptInputError (off : Nat) : Error :=
  .text (str "illegal base64 data at input byte " ++ str (toString off))

/-- The method `DecodeString` of `StdEncoding`. -/
def DecodeString (s : Bytes) : Except Error Bytes :=
  match decode s 0 [] [] with
  | .ok out => .ok out
  | .error off => .error (CorruptInputError off)

end base64

/-! ## Standard library: `strconv` -/

namespace strconv

/-- Decimal digits of a natural number, most significant first, in front of `acc`. -/
def digits : Nat → Nat → Bytes → Bytes
  | 0, _, acc => acc
  | fuel + 1, n, acc =>
    if n < 10 then (48 + n) :: acc else digits fuel (n / 10) ((48 + n % 10) :: acc)

/-- Decimal form of a natural number. -/
def formatNat (n : Nat) : Bytes := digits (n + 1) n []

/-- The function `strconv.FormatInt(i, 10)`. -/
def FormatInt (i : Int) : Bytes :=
  if i < 0 then 45 :: formatNat i.natAbs else formatNat i.natAbs

/-- Value of a string of decimal digits, continuing from `acc`; `none` at a byte that is no digit. -/
def parseDigits : Bytes → Nat → Option Nat
  | [], acc => some acc
  | c :: cs, acc => if 48 ≤ c ∧ c ≤ 57 then parseDigits cs (acc * 10 + (c - 48)) else none

/-- The function `strconv.ParseInt(s, 10, 64)`: an optional sign and decimal digits,
with a value in the range of `int64`. -/
def ParseInt (s : Bytes) : Option Int :=
  let (neg, ds) : Bool × Bytes := match s with
    | 45 :: ds => (true, ds)
    | 43 :: ds => (false, ds)
    | ds => (false, ds)
  if ds = [] then none
  else
    match parseDigits ds 0 with
    | none => none
    | some n =>
      let v : Int := if neg then -(n : Int) else (n : Int)
      if -(2 ^ 63) ≤ v ∧ v < 2 ^ 63 then some v else none

end strconv

/-! ## Standard library: `unicode/utf8` -/

namespace utf8

/-- The rune `utf8.RuneError`, U+FFFD. -/
def RuneError : Nat := 0xFFFD

/-- The function `utf8.DecodeRune`: the first rune of the input and the number of bytes it takes.
An invalid or truncated encoding gives `(RuneError, 1)`, empty input `(RuneError, 0)`. -/
def DecodeRune : Bytes → Nat × Nat
  | [] => (RuneError, 0)
  | p0 :: rest =>
    if p0 < 0x80 then (p0, 1)
    else if p0 < 0xC2 then (RuneError, 1)
    else if p0 < 0xE0 then
      match rest with
      | b1 :: _ =>
        if b1 < 0x80 ∨ 0xBF < b1 then (RuneError, 1)
        else (p0 % 32 * 64 + b1 % 64, 2)
      | _ => (RuneError, 1)
    else if p0 < 0xF0 then
      let lo := if p0 = 0xE0 then 0xA0 else 0x80
      let hi := if p0 = 0xED then 0x9F else 0xBF
      match rest with
      | b1 :: b2 :: _ =>
        if b1 < lo ∨ hi < b1 then (RuneError, 1)
        else if b2 < 0x80 ∨ 0xBF < b2 then (RuneError, 1)
        else (p0 % 16 * 4096 + b1 % 64 * 64 + b2 % 64, 3)
      | _ => (RuneError, 1)
    else if p0 < 0xF5 then
      let lo := if p0 = 0xF0 then 0x90 else 0x80
      let hi := if p0 = 0xF4 then 0x8F else 0xBF
      match rest with
      | b1 :: b2 :: b3 :: _ =>
        if b1 < lo ∨ hi < b1 then (RuneError, 1)
        else if b2 < 0x80 ∨ 0xBF < b2 then (RuneError, 1)
        else if b3 < 0x80 ∨ 0xBF < b3 then (RuneError, 1)
        else (p0 % 8 * 262144 + b1 % 64 * 4096 + b2 % 64 * 64 + b3 % 64, 4)
      | _ => (RuneError, 1)
    else (RuneError, 1)

/-- The function `utf8.EncodeRune` (`utf8.AppendRune`): surrogates and values above U+10FFFF
are written as U+FFFD. -/
def EncodeRune (r : Nat) : Bytes :=
  if r ≤ 0x7F then [r]
  else if r ≤ 0x7FF then [0xC0 + r / 64, 0x80 + r % 64]
  else if r > 0x10FFFF ∨ (0xD800 ≤ r ∧ r ≤ 0xDFFF) then [0xEF, 0xBF, 0xBD]
  else if r ≤ 0xFFFF then [0xE0 + r / 4096, 0x80 + r / 64 % 64, 0x80 + r % 64]
  else [0xF0 + r / 262144, 0x80 + r / 4096 % 64, 0x80 + r / 64 % 64, 0x80 + r % 64]

/-- The function `utf8.Valid`, with `fuel` bounding the number of runes read. -/
def validFuel : Nat → Bytes → Bool
  | _, [] => true
  | 0, _ :: _ => false
  | fuel + 1, b :: rest =>
    let (_, size) := DecodeRune (b :: rest)
    if size = 1 ∧ 0x80 ≤ b then false
    else validFuel fuel (rest.drop (size - 1))

/-- The function `utf8.Valid`: the bytes are a sequence of well-formed UTF-8 encodings. -/
def Valid (s : Bytes) : Bool := validFuel s.length s

end utf8

/-! ## Standard library: `time`, RFC 3339 -/

namespace time

/-- The helper `appendInt(b, x, width)` for `x ≥ 0`: decimal digits, zero-padded to `width`. -/
def appendInt (x width : Nat) : Bytes :=
  let ds := strconv.formatNat x
  List.replicate (width - ds.length) 48 ++ ds

/-- Removes the trailing `0` characters. -/
def trimZeros (ds : Bytes) : Bytes := (ds.reverse.dropWhile (fun c => c = 48)).reverse

/-- The helper `appendNano` for the layout `.999999999`: nothing for zero nanoseconds, otherwise
a dot and nine digits without their trailing zeros. -/
def appendNano (nsec : Nat) : Bytes :=
  if nsec = 0 then [] else 46 :: trimZeros (appendInt nsec 9)

/-- The zone suffix written by `appendFormatRFC3339`: `Z` for offset zero, else `±hh:mm`. -/
def appendZone (zone : Int) : Bytes :=
  if zone = 0 then [90]
  else
    (if zone < 0 then 45 else 43) :: (appendInt (zone.natAbs / 60) 2 ++ 58 ::
      appendInt (zone.natAbs % 60) 2)

/-- The method `Time.appendFormatRFC3339` with nanoseconds, for a year that is not negative. -/
def appendFormatRFC3339 (t : Time) : Bytes :=
  appendInt t.year.toNat 4 ++ 45 :: appendInt t.month 2 ++ 45 :: appendInt t.day 2 ++ 84 ::
    appendInt t.hour 2 ++ 58 :: appendInt t.minute 2 ++ 58 :: appendInt t.second 2 ++
    appendNano t.nsec ++ appendZone t.zone

/-- The method `Time.MarshalJSON`: the quoted RFC 3339 form, refused when the year is outside
`[0, 9999]` or the zone offset is 24 hours or more. -/
def MarshalJSON (t : Time) : Except Error Bytes :=
  if t.year < 0 ∨ 9999 < t.year then
    .error (.text (str "Time.MarshalJSON: year outside of range [0,9999]"))
  else if t.zone ≠ 0 ∧ 24 ≤ t.zone.natAbs / 60 then
    .error (.text (str "Time.MarshalJSON: timezone hour outside of range [0,23]"))
  else .ok (34 :: (appendFormatRFC3339 t ++ [34]))

/-- The closure `parseUint` of `parseRFC3339`: a string of digits with value in `[min, max]`. -/
def parseUint (s : Bytes) (min max : Nat) : Option Nat :=
  match strconv.parseDigits s 0 with
  | some x => if x < min ∨ max < x then none else some x
  | none => none

/-- The leading decimal digits of the input, and what follows them. -/
def spanDigits : Bytes → Bytes × Bytes
  | [] => ([], [])
  | c :: cs =>
    if 48 ≤ c ∧ c ≤ 57 then
      let (ds, rest) := spanDigits cs
      (c :: ds, rest)
    else ([], c :: cs)

/-- The helper `parseNanoseconds`: the value of the fraction digits in nanoseconds;
digits after the ninth are dropped. -/
def parseNanoseconds (ds : Bytes) : Nat :=
  let ds9 := ds.take 9
  (strconv.parseDigits ds9 0).getD 0 * 10 ^ (9 - ds9.length)

/-- The zone suffix read by `parseRFC3339`: `Z`, or `±hh:mm` with `hh ≤ 23` and `mm ≤ 59`.
The result is the offset in minutes. -/
def parseZone (s : Bytes) : Option Int :=
  match s with
  | [90] => some 0
  | [sg, h1, h2, c, m1, m2] =>
    match parseUint [h1, h2] 0 23, parseUint [m1, m2] 0 59 with
    | some hr, some mm =>
      if (sg = 45 ∨ sg = 43) ∧ c = 58 then
        some (if sg = 45 then -((hr * 60 + mm : Nat) : Int) else ((hr * 60 + mm : Nat) : Int))
      else none
    | _, _ => none
  | _ => none

/-- The fractional second read by `parseRFC3339`: a dot followed by at least one digit gives
the nanoseconds and the text after the digits; anything else is left in place. -/
def parseFraction (s : Bytes) : Nat × Bytes :=
  match s with
  | 46 :: r =>
    match spanDigits r with
    | ([], _) => (0, s)
    | (ds, r) => (parseNanoseconds ds, r)
  | _ => (0, s)

/-- The function `parseRFC3339`: the strict RFC 3339 reader used by `Time.UnmarshalJSON`. -/
def parseRFC3339 (s : Bytes) : Option Time :=
  match s with
  | y1 :: y2 :: y3 :: y4 :: d1 :: mo1 :: mo2 :: d2 :: da1 :: da2 :: tt :: h1 :: h2 :: c1 ::
      mi1 :: mi2 :: c2 :: s1 :: s2 :: rest =>
    match parseUint [y1, y2, y3, y4] 0 9999, parseUint [mo1, mo2] 1 12 with
    | some year, some month =>
      match parseUint [da1, da2] 1 (daysIn month year), parseUint [h1, h2] 0 23,
          parseUint [mi1, mi2] 0 59, parseUint [s1, s2] 0 59 with
      | some day, some hour, some min, some sec =>
        if d1 = 45 ∧ d2 = 45 ∧ tt = 84 ∧ c1 = 58 ∧ c2 = 58 then
          match parseZone (parseFraction rest).2 with
          | some zone =>
            some { year := year, month := month, day := day, hour := hour, minute := min,
                   second := sec, nsec := (parseFraction rest).1, zone := zone }
          | none => none
        else none
      | _, _, _, _ => none
    | _, _ => none
  | _ => none

/-- The constant `RFC3339`, the layout `Time.UnmarshalJSON` falls back to. -/
def RFC3339 : Bytes := str "2006-01-02T15:04:05Z07:00"

/-- The digit of `lowerhex` for a value below 16. -/
def lowerhex (n : Nat) : Nat := if n < 10 then 48 + n else 87 + n

/-- What the helper `quote` writes for one byte. The helper walks over the runes of the text
and writes every byte of a rune from U+0080 on, and every control character, as `\xhh`; a byte
from 0x80 on always lies in such a rune, so the helper acts byte by byte. A double quote and a
backslash get a backslash before them. -/
def quoteByte (c : Nat) : Bytes :=
  if 0x80 ≤ c ∨ c < 0x20 then [92, 120, lowerhex (c / 16), lowerhex (c % 16)]
  else if c = 34 ∨ c = 92 then [92, c]
  else [c]

/-- The bytes of a text as `quote` writes them, without the enclosing quotes. -/
def quoteLoop : Bytes → Bytes
  | [] => []
  | c :: cs => quoteByte c ++ quoteLoop cs

/-- The helper `quote` of the package `time`. -/
def quote (s : Bytes) : Bytes := 34 :: (quoteLoop s ++ [34])

/-- The fields `LayoutElem`, `ValueElem` and `Message` of a `*ParseError`; its `Layout` is
`RFC3339` and its `Value` the text being read. -/
structure ParseError where
  LayoutElem : Bytes
  ValueElem : Bytes
  Message : Bytes
deriving DecidableEq, Repr

/-- The method `ParseError.Error` for the text `value`. -/
def ParseError.Error (value : Bytes) (e : ParseError) : Bytes :=
  if e.Message = [] then
    str "parsing time " ++ quote value ++ str " as " ++ quote RFC3339 ++
      str ": cannot parse " ++ quote e.ValueElem ++ str " as " ++ quote e.LayoutElem
  else str "parsing time " ++ quote value ++ e.Message

/-- The helper `getnum`: the number written with the one or two leading digits, and the rest;
with `fixed` there must be two digits. -/
def getnum (s : Bytes) (fixed : Bool) : Option (Nat × Bytes) :=
  match s with
  | c0 :: c1 :: rest =>
    if 48 ≤ c0 ∧ c0 ≤ 57 then
      if 48 ≤ c1 ∧ c1 ≤ 57 then some ((c0 - 48) * 10 + (c1 - 48), rest)
      else if fixed then none else some (c0 - 48, c1 :: rest)
    else none
  | [c0] => if 48 ≤ c0 ∧ c0 ≤ 57 then (if fixed then none else some (c0 - 48, [])) else none
  | [] => none

/-- The element `2006` of the layout, at the start of the text: four characters, the first a
digit, read by `atoi`. -/
def Parse.longYear (value : Bytes) : Except ParseError (Nat × Bytes) :=
  match value with
  | y1 :: y2 :: y3 :: y4 :: rest =>
    if 48 ≤ y1 ∧ y1 ≤ 57 then
      match strconv.parseDigits [y1, y2, y3, y4] 0 with
      | some year => .ok (year, rest)
      | none => .error { LayoutElem := str "2006", ValueElem := value, Message := [] }
    else .error { LayoutElem := str "2006", ValueElem := value, Message := [] }
  | _ => .error { LayoutElem := str "2006", ValueElem := value, Message := [] }

/-- An element of the layout that is a number: the literal character `pfx` that precedes it
is passed over by `skip`, the number is read by `getnum`, and a number for which `inRange`
fails is reported as out of range under the name `rangeName`. -/
def Parse.number (pfx : Nat) (stdstr : String) (fixed : Bool) (inRange : Nat → Bool)
    (rangeName : String) (value : Bytes) : Except ParseError (Nat × Bytes) :=
  match value with
  | c :: hold =>
    if c = pfx then
      match getnum hold fixed with
      | none => .error { LayoutElem := str stdstr, ValueElem := hold, Message := [] }
      | some (x, rest) =>
        if inRange x then .ok (x, rest)
        else .error { LayoutElem := str stdstr, ValueElem := rest,
                      Message := str (": " ++ rangeName ++ " out of range") }
    else .error { LayoutElem := [pfx], ValueElem := value, Message := [] }
  | [] => .error { LayoutElem := [pfx], ValueElem := value, Message := [] }

/-- The fractional second that `Parse` reads after the seconds though the layout has none:
a period or a comma followed by at least one digit. -/
def Parse.fraction (s : Bytes) : Nat × Bytes :=
  match s with
  | c :: r =>
    if c = 46 ∨ c = 44 then
      match spanDigits r with
      | ([], _) => (0, s)
      | (ds, r) => (parseNanoseconds ds, r)
    else (0, s)
  | [] => (0, s)

/-- The element `Z07:00` of the layout: `Z`, or a sign, two digits, a colon and two digits.
Hours up to 24 and minutes up to 60 are let through. The result is the offset in minutes. -/
def Parse.zone (value : Bytes) : Except ParseError (Int × Bytes) :=
  match value with
  | 90 :: rest => .ok (0, rest)
  | sg :: h1 :: h2 :: c :: m1 :: m2 :: rest =>
    if c ≠ 58 then .error { LayoutElem := str "Z07:00", ValueElem := value, Message := [] }
    else
      let hr := (getnum [h1, h2] true).map Prod.fst
      let mm := if hr.isSome then (getnum [m1, m2] true).map Prod.fst else none
      if mm.getD 0 > 60 then
        .error { LayoutElem := str "Z07:00", ValueElem := rest,
                 Message := str ": time zone offset minute out of range" }
      else if hr.getD 0 > 24 then
        .error { LayoutElem := str "Z07:00", ValueElem := rest,
                 Message := str ": time zone offset hour out of range" }
      else
        match hr, mm with
        | some hr, some mm =>
          if sg = 43 then .ok (((hr * 60 + mm : Nat) : Int), rest)
          else if sg = 45 then .ok (-((hr * 60 + mm : Nat) : Int), rest)
          else .error { LayoutElem := str "Z07:00", ValueElem := value, Message := [] }
        | _, _ => .error { LayoutElem := str "Z07:00", ValueElem := value, Message := [] }
  | _ => .error { LayoutElem := str "Z07:00", ValueElem := value, Message := [] }

/-- The steps of `time.Parse` on the layout `RFC3339`, element by element, with the
`*ParseError` of the first step that fails. -/
def Parse.steps (value : Bytes) : Except ParseError Time :=
  match Parse.longYear value with
  | .error e => .error e
  | .ok (year, value) =>
  match Parse.number 45 "01" true (fun m => decide (0 < m ∧ m ≤ 12)) "month" value with
  | .error e => .error e
  | .ok (month, value) =>
  match Parse.number 45 "02" true (fun _ => true) "day" value with
  | .error e => .error e
  | .ok (day, value) =>
  match Parse.number 84 "15" false (fun h => decide (h < 24)) "hour" value with
  | .error e => .error e
  | .ok (hour, value) =>
  match Parse.number 58 "04" true (fun m => decide (m < 60)) "minute" value with
  | .error e => .error e
  | .ok (min, value) =>
  match Parse.number 58 "05" true (fun x => decide (x < 60)) "second" value with
  | .error e => .error e
  | .ok (sec, value) =>
  match Parse.zone (Parse.fraction value).2 with
  | .error e => .error e
  | .ok (zone, rest) =>
    if rest ≠ [] then
      .error { LayoutElem := [], ValueElem := rest,
               Message := str ": extra text: " ++ quote rest }
    else if day < 1 ∨ day > daysIn month year then
      .error { LayoutElem := [], ValueElem := rest, Message := str ": day out of range" }
    else
      .ok { year := year, month := month, day := day, hour := hour, minute := min,
            second := sec, nsec := (Parse.fraction value).1, zone := zone }

/-- The function `time.Parse(RFC3339, value)`, the layout-driven reader. -/
def Parse (value : Bytes) : Except Error Time :=
  match Parse.steps value with
  | .error e => .error (.text (e.Error value))
  | .ok t => .ok t

/-- The function `parseStrictRFC3339`: the strict reader `parseRFC3339` and, for a text it
refuses, the layout-driven `Parse`, whose stricter afterthoughts the library leaves switched
off. -/
def parseStrictRFC3339 (b : Bytes) : Except Error Time :=
  match parseRFC3339 b with
  | some t => .ok t
  | none => Parse b

/-- The method `Time.UnmarshalJSON` on the raw bytes of a JSON value: `null` leaves the time
as it is, anything but a quoted string is refused, and the text between the quotes is read
by `parseStrictRFC3339`. -/
def UnmarshalJSON (data : Bytes) (t : Time) : Except Error Time :=
  if data = str "null" then .ok t
  else if data.length < 2 ∨ data.head? ≠ some 34 ∨ data.getLast? ≠ some 34 then
    .error (.text (str "Time.UnmarshalJSON: input is not a JSON string"))
  else parseStrictRFC3339 data.tail.dropLast

end time

/-! ## Standard library: `encoding/json`, writing -/

namespace json

/-- The table `hex`: lower-case hexadecimal digits. -/
def hex (n : Nat) : Nat := if n < 10 then 48 + n else 87 + n

/-- The table `htmlSafeSet`: the ASCII bytes written as they are inside a JSON string,
all from space to DEL except the quote, the backslash and `<`, `>`, `&`. -/
def htmlSafeSet (b : Nat) : Bool :=
  0x20 ≤ b ∧ b < 0x80 ∧ b ≠ 34 ∧ b ≠ 92 ∧ b ≠ 60 ∧ b ≠ 62 ∧ b ≠ 38

/-- The escape written for an ASCII byte outside `htmlSafeSet`. -/
def escapeByte (b : Nat) : Bytes :=
  if b = 92 ∨ b = 34 then [92, b]
  else if b = 8 then [92, 98]
  else if b = 12 then [92, 102]
  else if b = 10 then [92, 110]
  else if b = 13 then [92, 114]
  else if b = 9 then [92, 116]
  else [92, 117, 48, 48, hex (b / 16), hex (b % 16)]

/-- The loop of `appendString` with HTML escaping on: the contents of the JSON string for `src`.
Invalid UTF-8 is replaced byte by byte with the escape of U+FFFD; U+2028 and U+2029 are escaped. -/
def appendStringLoop : Nat → Bytes → Bytes
  | _, [] => []
  | 0, _ :: _ => []
  | fuel + 1, b :: rest =>
    if b < 0x80 then
      if htmlSafeSet b then b :: appendStringLoop fuel rest
      else escapeByte b ++ appendStringLoop fuel rest
    else
      let (c, size) := utf8.DecodeRune (b :: rest)
      if c = utf8.RuneError ∧ size = 1 then
        [92, 117, 102, 102, 102, 100] ++ appendStringLoop fuel rest
      else if c = 0x2028 ∨ c = 0x2029 then
        [92, 117, 50, 48, 50, hex (c % 16)] ++ appendStringLoop fuel (rest.drop (size - 1))
      else (b :: rest).take size ++ appendStringLoop fuel (rest.drop (size - 1))

/-- The function `appendString`: a Go string as a JSON string literal. -/
def appendString (src : Bytes) : Bytes :=
  34 :: (appendStringLoop src.length src ++ [34])

/-- The function `json.Marshal` on a `NextPage`: the fields in declaration order under their
JSON names. It fails only when `Time.MarshalJSON` does. -/
def Marshal (v : handlers.NextPage) : Except Error Bytes :=
  match time.MarshalJSON v.Time with
  | .error err =>
    .error (.wrap (str "json: error calling MarshalJSON for type time.Time: ") err)
  | .ok t =>
    .ok (str "\x7b\"limit\":" ++ strconv.FormatInt v.Limit ++ str ",\"offset\":" ++
      strconv.FormatInt v.Offset ++ str ",\"filter_by\":" ++ appendString v.FilterBy ++
      str ",\"filter\":" ++ appendString v.Filter ++ str ",\"time\":" ++ t ++ str "\x7d")

/-! ## Standard library: `encoding/json`, reading -/

/-- A JSON text after syntax checking. Strings keep the raw bytes between their quotes
(escapes unresolved), numbers their literal. -/
inductive Value where
  | null
  | bool (b : Bool)
  | number (lit : Bytes)
  | string (raw : Bytes)
  | array (items : List Value)
  | object (members : List (Bytes × Value))

/-- The function `isSpace` of the scanner. -/
def isSpace (c : Nat) : Bool := c = 32 ∨ c = 9 ∨ c = 13 ∨ c = 10

/-- Drops leading JSON white space. -/
def skipSpace : Bytes → Bytes
  | [] => []
  | c :: cs => if isSpace c then skipSpace cs else c :: cs

/-- The function `quoteChar` of the scanner: a byte as it is shown in a syntax error. -/
def quoteChar (c : Nat) : Bytes :=
  if c = 39 then str "'\\''"
  else if c = 34 then str "'\"'"
  else if c = 92 then str "'\\\\'"
  else if c = 7 then str "'\\a'"
  else if c = 8 then str "'\\b'"
  else if c = 12 then str "'\\f'"
  else if c = 10 then str "'\\n'"
  else if c = 13 then str "'\\r'"
  else if c = 9 then str "'\\t'"
  else if c = 11 then str "'\\v'"
  else if c < 32 ∨ c = 127 then [39, 92, 120, hex (c / 16), hex (c % 16), 39]
  else if c < 127 then [39, c, 39]
  else if c < 161 ∨ c = 173 then [39, 92, 117, 48, 48, hex (c / 16), hex (c % 16), 39]
  else 39 :: (utf8.EncodeRune c ++ [39])

/-- The error of the scanner at byte `c`: a `SyntaxError`. -/
def syntaxError (c : Nat) (context : String) : Error :=
  .text (str "invalid character " ++ quoteChar c ++ str " " ++ str context)

/-- The error of the scanner at the end of an unfinished text. -/
def unexpectedEnd : Error := .text (str "unexpected end of JSON input")

/-- Hexadecimal digits, either case. -/
def isHex (c : Nat) : Bool := (48 ≤ c ∧ c ≤ 57) ∨ (97 ≤ c ∧ c ≤ 102) ∨ (65 ≤ c ∧ c ≤ 70)

/-- The states of the scanner inside a string literal: `stateInString`, `stateInStringEsc`,
`stateInStringEscU`, `stateInStringEscU1`, `stateInStringEscU12`, `stateInStringEscU123`. -/
inductive StringState where
  | inString | inStringEsc | inStringEscU | inStringEscU1 | inStringEscU12 | inStringEscU123
deriving DecidableEq, Repr

/-- The error of the scanner inside a `\u` escape. -/
def hexError (c : Nat) : Error := syntaxError c "in \\u hexadecimal character escape"

/-- Puts a byte in front of the raw contents scanned after it. -/
def consRaw (c : Nat) : Except Error (Bytes × Bytes) → Except Error (Bytes × Bytes)
  | .error err => .error err
  | .ok (raw, rest) => .ok (c :: raw, rest)

/-- Scans a string literal from inside it, in the given state: the raw contents up to the
closing quote and the text after that quote. Control characters and malformed escapes are
syntax errors; at the end of the text the scanner is fed a space. -/
def scanStringFrom : StringState → Bytes → Except Error (Bytes × Bytes)
  | .inString, [] => .error unexpectedEnd
  | .inStringEsc, [] => .error (syntaxError 32 "in string escape code")
  | _, [] => .error (hexError 32)
  | .inString, c :: rest =>
    if c = 34 then .ok ([], rest)
    else if c = 92 then consRaw c (scanStringFrom .inStringEsc rest)
    else if c < 0x20 then .error (syntaxError c "in string literal")
    else consRaw c (scanStringFrom .inString rest)
  | .inStringEsc, c :: rest =>
    if c = 98 ∨ c = 102 ∨ c = 110 ∨ c = 114 ∨ c = 116 ∨ c = 92 ∨ c = 47 ∨ c = 34 then
      consRaw c (scanStringFrom .inString rest)
    else if c = 117 then consRaw c (scanStringFrom .inStringEscU rest)
    else .error (syntaxError c "in string escape code")
  | .inStringEscU, c :: rest =>
    if isHex c then consRaw c (scanStringFrom .inStringEscU1 rest) else .error (hexError c)
  | .inStringEscU1, c :: rest =>
    if isHex c then consRaw c (scanStringFrom .inStringEscU12 rest) else .error (hexError c)
  | .inStringEscU12, c :: rest =>
    if isHex c then consRaw c (scanStringFrom .inStringEscU123 rest) else .error (hexError c)
  | .inStringEscU123, c :: rest =>
    if isHex c then consRaw c (scanStringFrom .inString rest) else .error (hexError c)

/-- Scans a string literal after its opening quote. -/
def scanString (s : Bytes) : Except Error (Bytes × Bytes) := scanStringFrom .inString s

/-- Scans the rest of a literal `true`, `false` or `null` after its first letter. -/
def scanLiteral (name : String) : Bytes → Bytes → Except Error Bytes
  | [], s => .ok s
  | e :: _, [] =>
    .error (syntaxError 32 ("in literal " ++ name ++ " (expecting '" ++ String.mk [Char.ofNat e] ++ "')"))
  | e :: es, c :: cs =>
    if c = e then scanLiteral name es cs
    else .error (syntaxError c
      ("in literal " ++ name ++ " (expecting '" ++ String.mk [Char.ofNat e] ++ "')"))

/-- Scans a number after its optional minus sign `sign`, from its first digit on:
the literal and the text after it. -/
def scanDigits (sign s : Bytes) : Except Error (Bytes × Bytes) :=
  match s with
  | [] => .error (syntaxError 32 "in numeric literal")
  | c :: r =>
    if c < 48 ∨ 57 < c then .error (syntaxError c "in numeric literal")
    else
      let (ds, s) : Bytes × Bytes := if c = 48 then ([], r) else time.spanDigits r
      let int := sign ++ c :: ds
      let fracPart : Except Error (Bytes × Bytes) := match s with
        | 46 :: r =>
          match time.spanDigits r with
          | ([], r) => .error (syntaxError (r.headD 32) "after decimal point in numeric literal")
          | (fs, r) => .ok (46 :: fs, r)
        | s => .ok ([], s)
      match fracPart with
      | .error err => .error err
      | .ok (frac, s) =>
        match s with
        | e :: r =>
          if e = 101 ∨ e = 69 then
            let (sg, r) : Bytes × Bytes := match r with
              | x :: r' => if x = 43 ∨ x = 45 then ([x], r') else ([], r)
              | [] => ([], [])
            match time.spanDigits r with
            | ([], r) => .error (syntaxError (r.headD 32) "in exponent of numeric literal")
            | (es, r) => .ok (int ++ frac ++ e :: sg ++ es, r)
          else .ok (int ++ frac, s)
        | [] => .ok (int ++ frac, [])

/-- Scans a number that starts at the head of the input (a minus sign or a digit):
the literal and the text after it. -/
def scanNumber (s : Bytes) : Except Error (Bytes × Bytes) :=
  match s with
  | 45 :: r => scanDigits [45] r
  | s => scanDigits [] s

/-- The constant `maxNestingDepth` of the scanner. -/
def maxNestingDepth : Nat := 10000

/-- The error of a parser that has run out of steps; `parse` gives enough of them. -/
def outOfFuel : Error := .text (str "json: out of steps")

mutual

/-- Reads one JSON value; `depth` is the number of enclosing arrays and objects. -/
def parseValue : Nat → Nat → Bytes → Except Error (Value × Bytes)
  | 0, _, _ => .error outOfFuel
  | fuel + 1, depth, s =>
    match skipSpace s with
    | [] => .error unexpectedEnd
    | c :: rest =>
      if c = 123 then
        if maxNestingDepth ≤ depth then .error (syntaxError c "exceeded max depth")
        else
          match skipSpace rest with
          | [] => .error unexpectedEnd
          | d :: rest' =>
            if d = 125 then .ok (.object [], rest')
            else parseMembers fuel (depth + 1) (d :: rest') []
      else if c = 91 then
        if maxNestingDepth ≤ depth then .error (syntaxError c "exceeded max depth")
        else
          match skipSpace rest with
          | [] => .error unexpectedEnd
          | d :: rest' =>
            if d = 93 then .ok (.array [], rest')
            else parseElements fuel (depth + 1) (d :: rest') []
      else if c = 34 then
        match scanString rest with
        | .error err => .error err
        | .ok (raw, rest) => .ok (.string raw, rest)
      else if c = 45 ∨ (48 ≤ c ∧ c ≤ 57) then
        match scanNumber (c :: rest) with
        | .error err => .error err
        | .ok (lit, rest) => .ok (.number lit, rest)
      else if c = 116 then
        match scanLiteral "true" [114, 117, 101] rest with
        | .error err => .error err
        | .ok rest => .ok (.bool true, rest)
      else if c = 102 then
        match scanLiteral "false" [97, 108, 115, 101] rest with
        | .error err => .error err
        | .ok rest => .ok (.bool false, rest)
      else if c = 110 then
        match scanLiteral "null" [117, 108, 108] rest with
        | .error err => .error err
        | .ok rest => .ok (.null, rest)
      else .error (syntaxError c "looking for beginning of value")

/-- Reads the members of an object from its first key on, after the members `acc`. -/
def parseMembers : Nat → Nat → Bytes → List (Bytes × Value) → Except Error (Value × Bytes)
  | 0, _, _, _ => .error outOfFuel
  | fuel + 1, depth, s, acc =>
    match skipSpace s with
    | [] => .error unexpectedEnd
    | c :: rest =>
      if c ≠ 34 then .error (syntaxError c "looking for beginning of object key string")
      else
        match scanString rest with
        | .error err => .error err
        | .ok (key, rest) =>
          match skipSpace rest with
          | [] => .error unexpectedEnd
          | c :: rest =>
            if c ≠ 58 then .error (syntaxError c "after object key")
            else
              match parseValue fuel depth rest with
              | .error err => .error err
              | .ok (v, rest) =>
                match skipSpace rest with
                | [] => .error unexpectedEnd
                | c :: rest =>
                  if c = 44 then parseMembers fuel depth rest (acc ++ [(key, v)])
                  else if c = 125 then .ok (.object (acc ++ [(key, v)]), rest)
                  else .error (syntaxError c "after object key:value pair")

/-- Reads the elements of an array from its first element on, after the elements `acc`. -/
def parseElements : Nat → Nat → Bytes → List Value → Except Error (Value × Bytes)
  | 0, _, _, _ => .error outOfFuel
  | fuel + 1, depth, s, acc =>
    match parseValue fuel depth s with
    | .error err => .error err
    | .ok (v, rest) =>
      match skipSpace rest with
      | [] => .error unexpectedEnd
      | c :: rest =>
        if c = 44 then parseElements fuel depth rest (acc ++ [v])
        else if c = 93 then .ok (.array (acc ++ [v]), rest)
        else .error (syntaxError c "after array element")

end

/-- The syntax check of `json.Unmarshal` (`checkValid`) together with the reading of the value:
exactly one JSON value, surrounded by optional white space. -/
def parse (data : Bytes) : Except Error Value :=
  match parseValue (2 * data.length + 2) 0 data with
  | .error err => .error err
  | .ok (v, rest) =>
    match skipSpace rest with
    | [] => .ok v
    | c :: _ => .error (syntaxError c "after top-level value")

/-- Value of a hexadecimal digit. -/
def hexVal (c : Nat) : Nat :=
  if 48 ≤ c ∧ c ≤ 57 then c - 48
  else if 97 ≤ c ∧ c ≤ 102 then c - 87
  else c - 55

/-- The function `getu4` on the four digits of a `\u` escape. -/
def getu4 (h1 h2 h3 h4 : Nat) : Nat :=
  hexVal h1 * 4096 + hexVal h2 * 256 + hexVal h3 * 16 + hexVal h4

/-- The character of a one-letter escape. -/
def unescape (e : Nat) : Nat :=
  if e = 98 then 8
  else if e = 102 then 12
  else if e = 110 then 10
  else if e = 114 then 13
  else if e = 116 then 9
  else e

/-- The loop of `unquoteBytes` on the raw contents of a syntax-checked string literal:
escapes are resolved, a `\u` escape pair of surrogates gives one rune, a lone surrogate gives
U+FFFD, and invalid UTF-8 is replaced byte by byte with U+FFFD. -/
def unquoteLoop : Nat → Bytes → Bytes
  | _, [] => []
  | 0, _ :: _ => []
  | fuel + 1, c :: rest =>
    if c = 92 then
      match rest with
      | [] => []
      | e :: rest =>
        if e = 117 then
          match rest with
          | h1 :: h2 :: h3 :: h4 :: rest =>
            let rr := getu4 h1 h2 h3 h4
            if 0xD800 ≤ rr ∧ rr < 0xE000 then
              match rest with
              | a :: u :: l1 :: l2 :: l3 :: l4 :: rest' =>
                let rr1 := getu4 l1 l2 l3 l4
                if a = 92 ∧ u = 117 ∧ rr < 0xDC00 ∧ 0xDC00 ≤ rr1 ∧ rr1 < 0xE000 then
                  utf8.EncodeRune ((rr - 0xD800) * 1024 + (rr1 - 0xDC00) + 0x10000) ++
                    unquoteLoop fuel rest'
                else utf8.EncodeRune utf8.RuneError ++ unquoteLoop fuel rest
              | _ => utf8.EncodeRune utf8.RuneError ++ unquoteLoop fuel rest
            else utf8.EncodeRune rr ++ unquoteLoop fuel rest
          | _ => []
        else unescape e :: unquoteLoop fuel rest
    else if c < 0x80 then c :: unquoteLoop fuel rest
    else
      let (rr, size) := utf8.DecodeRune (c :: rest)
      utf8.EncodeRune rr ++ unquoteLoop fuel (rest.drop (size - 1))

/-- The function `unquoteBytes` on the raw contents of a string literal. -/
def unquote (raw : Bytes) : Bytes := unquoteLoop raw.length raw

/-- The loop of `foldName`: ASCII letters in upper case, and the two runes outside ASCII whose
case orbit contains an ASCII letter (U+017F, U+212A) as that letter. Other bytes are kept,
which separates them from every ASCII name as the library's folding does. The first `skip`
bytes are passed over. -/
def foldNameFrom : Nat → Bytes → Bytes
  | _, [] => []
  | skip + 1, _ :: rest => foldNameFrom skip rest
  | 0, c :: rest =>
    if 97 ≤ c ∧ c ≤ 122 then (c - 32) :: foldNameFrom 0 rest
    else if c = 0xC5 ∧ rest.take 1 = [0xBF] then 83 :: foldNameFrom 1 rest
    else if c = 0xE2 ∧ rest.take 2 = [0x84, 0xAA] then 75 :: foldNameFrom 2 rest
    else c :: foldNameFrom 0 rest

/-- The function `foldName`. -/
def foldName (s : Bytes) : Bytes := foldNameFrom 0 s

/-- The fields of `NextPage`. -/
inductive Field where
  | limit | offset | filterBy | filter | time
deriving DecidableEq, Repr

/-- The field a JSON object key selects: the one whose JSON name equals the key,
or failing that equals it under case folding. -/
def fieldByName (key : Bytes) : Option Field :=
  let k := foldName key
  if k = str "LIMIT" then some .limit
  else if k = str "OFFSET" then some .offset
  else if k = str "FILTER_BY" then some .filterBy
  else if k = str "FILTER" then some .filter
  else if k = str "TIME" then some .time
  else none

/-- The description of a JSON value in an `UnmarshalTypeError`. -/
def Value.kind : Value → Bytes
  | .null => str "null"
  | .bool _ => str "bool"
  | .number _ => str "number"
  | .string _ => str "string"
  | .array _ => str "array"
  | .object _ => str "object"

/-- The raw text of a scalar value as handed to `UnmarshalJSON`; of an array or object only
the opening bracket, the one byte `Time.UnmarshalJSON` looks at. -/
def Value.raw : Value → Bytes
  | .null => str "null"
  | .bool true => str "true"
  | .bool false => str "false"
  | .number lit => lit
  | .string raw => 34 :: (raw ++ [34])
  | .array _ => [91]
  | .object _ => [123]

/-- The message of an `UnmarshalTypeError` for a field of `NextPage`. -/
def fieldTypeError (value : Bytes) (field typ : String) : Error :=
  .text (str "json: cannot unmarshal " ++ value ++ str " into Go struct field NextPage." ++
    str field ++ str " of type " ++ str typ)

/-- Storing a JSON value into an `int` field: `null` leaves it, a number must be an integer
literal in range, everything else is a type error (which does not stop the decoding). -/
def storeInt (field : String) (val : Value) (cur : Int) : Int × Option Error :=
  match val with
  | .null => (cur, none)
  | .number lit =>
    match strconv.ParseInt lit with
    | some n => (n, none)
    | none => (cur, some (fieldTypeError (str "number " ++ lit) field "int"))
  | v => (cur, some (fieldTypeError v.kind field "int"))

/-- Storing a JSON value into a `string` field. -/
def storeString (field : String) (val : Value) (cur : Bytes) : Bytes × Option Error :=
  match val with
  | .null => (cur, none)
  | .string raw => (unquote raw, none)
  | v => (cur, some (fieldTypeError v.kind field "string"))

/-- The first error saved during decoding is the one kept. -/
def saveError (saved new : Option Error) : Option Error :=
  match saved with
  | some e => some e
  | none => new

/-- The decoding of the members of an object into a `NextPage`, in order: unknown keys are
skipped, a later duplicate overrides an earlier one, type errors are saved, and an error of
`Time.UnmarshalJSON` ends the decoding. -/
def decodeMembers : List (Bytes × Value) → handlers.NextPage → Option Error →
    Except Error (handlers.NextPage × Option Error)
  | [], np, saved => .ok (np, saved)
  | (key, val) :: ms, np, saved =>
    match fieldByName (unquote key) with
    | none => decodeMembers ms np saved
    | some .limit =>
      let (n, e) := storeInt "limit" val np.Limit
      decodeMembers ms { np with Limit := n } (saveError saved e)
    | some .offset =>
      let (n, e) := storeInt "offset" val np.Offset
      decodeMembers ms { np with Offset := n } (saveError saved e)
    | some .filterBy =>
      let (x, e) := storeString "filter_by" val np.FilterBy
      decodeMembers ms { np with FilterBy := x } (saveError saved e)
    | some .filter =>
      let (x, e) := storeString "filter" val np.Filter
      decodeMembers ms { np with Filter := x } (saveError saved e)
    | some .time =>
      match time.UnmarshalJSON val.raw np.Time with
      | .error err => .error err
      | .ok t => decodeMembers ms { np with Time := t } saved

/-- The function `json.Unmarshal(data, v)` for `v` a `*NextPage` holding `v`; `typeName` is the
name of the struct type with its package. The text must be valid JSON; `null` leaves the struct
as it is, an object is decoded member by member, and any other value is a type error. -/
def Unmarshal (typeName : Bytes) (data : Bytes) (v : handlers.NextPage) :
    Except Error handlers.NextPage :=
  match parse data with
  | .error err => .error err
  | .ok .null => .ok v
  | .ok (.object members) =>
    match decodeMembers members v none with
    | .error err => .error err
    | .ok (np, none) => .ok np
    | .ok (_, some err) => .error err
  | .ok val =>
    .error (.text (str "json: cannot unmarshal " ++ val.kind ++ str " into Go value of type " ++
      typeName))

end json

/-- The Go standard library as the codec of package `pkg` uses it. -/
def stdlib (pkg : String) : Codec :=
  { DecodeString := base64.DecodeString
    Unmarshal := json.Unmarshal (str (pkg ++ ".NextPage"))
    Marshal := json.Marshal
    EncodeToString := base64.EncodeToString }

/-! ## Listing requests

The listing handlers read four query parameters (HTTP) or four request fields (gRPC).
The service behind a handler is a set of state-passing functions, so that a handler that
returns the state it was given has not called the service. -/

/-- The query parameters of an HTTP listing request, as `r.URL.Query().Get` returns them
(an absent parameter is the empty string). -/
structure HTTPRequest where
  next_page : Bytes
  filter : Bytes
  filterBy : Bytes
  pagination : Bytes
deriving DecidableEq, Repr

/-- The message `pb.ListUsersRequest`, as its getters return it. -/
structure ListUsersRequest where
  NextPage : Bytes
  Filter : Bytes
  FilterBy : Bytes
  Pagination : Int
deriving DecidableEq, Repr

/-- The pagination closure of the HTTP decoders (`nextPage`, `NextPageFromHTTP`). -/
def paginationHTTP (r : HTTPRequest) : PaginationFn Unit := fun s =>
  if r.pagination ≠ [] then
    match strconv.ParseInt r.pagination with
    | none => (.error (.text (str "malformed pagination")), s)
    | some p => (.ok p, s)
  else (.ok (-1), s)

/-- The pagination closure of the gRPC decoders (`nextPage`, `NextPageFromPB`). -/
def paginationPB (r : ListUsersRequest) : PaginationFn Unit := fun s => (.ok r.Pagination, s)

/-- The gRPC status codes the handlers use. -/
inductive codes.Code where
  | InvalidArgument | Internal | AlreadyExists | NotFound
deriving DecidableEq, Repr

/-- A gRPC error made by `status.Error(code, msg)`. -/
structure Status where
  code : codes.Code
  message : Bytes
deriving DecidableEq, Repr

namespace service

/-- The function `service.ToError` (and `api.ToError`): the first typed service error
in the chain of an error, as `errors.As` finds it. -/
def ToError : Error → Option (Int × Bytes)
  | .coded code msg => some (code, msg)
  | .wrap _ err => ToError err
  | .text _ => none

end service

/-- The interface `handlers.UsersService`, as far as listing goes. -/
structure UsersService (σ U : Type) where
  ListUsers : Int → Int → Option service.Filter → σ → Except Error (List U) × σ

/-- The interface `api.UsersAPI`, as far as listing goes; the map `filterParams` is given
by its entries `filter` and `filterBy`. -/
structure UsersAPI (σ U : Type) where
  ListUsers : Int → Int → Bytes → Bytes → σ → Except Error (List U) × σ
  CountUsers : Bytes → Bytes → σ → Except Error Int × σ

namespace handlers.http

/-- The struct `listUsers`. -/
structure listUsers (U : Type) where
  Users : List U
  Limit : Int
  Offset : Int
  Filter : Option service.Filter
  NextPage : Bytes
deriving DecidableEq

/-- The zero value `&listUsers{}`. -/
def listUsers.new (U : Type) : listUsers U :=
  { Users := [], Limit := 0, Offset := 0, Filter := none, NextPage := [] }

/-- A `response`: the struct `Error` or the listing. -/
inductive response (U : Type) where
  | Error (Status Code : Int) (Message : Bytes)
  | listUsers (lu : listUsers U)
deriving DecidableEq

/-- The function `nextPage`. -/
def nextPage (c : Codec) (now : Time) (r : HTTPRequest) :
    Except Error handlers.NextPage × Unit :=
  handlers.LoadNextPage c now r.next_page r.filter r.filterBy (paginationHTTP r) ()

/-- The method `listUsers.decode`. -/
def listUsers.decode {U : Type} (lu : listUsers U) (np : handlers.NextPage) :
    Except Error (listUsers U) :=
  if np.FilterBy ≠ [] then
    match service.NewFilter np.FilterBy np.Filter with
    | .error err => .error err
    | .ok filter => .ok { lu with Filter := some filter, Limit := np.Limit, Offset := np.Offset }
  else .ok { lu with Limit := np.Limit, Offset := np.Offset }

/-- The method `listUsers.Decode`. -/
def listUsers.Decode {U : Type} (c : Codec) (now : Time) (lu : listUsers U) (r : HTTPRequest) :
    Except Error (listUsers U) :=
  match (nextPage c now r).1 with
  | .error err => .error (.text (str "could not load nextPage: " ++ err.Error))
  | .ok np => lu.decode np

/-- The map `apiErrorCodeStatus`. -/
def apiErrorCodeStatus (code : Int) : Option Int :=
  if code = 101 then some 400
  else if code = 100 then some 500
  else if code = 300 then some 409
  else if code = 200 then some 404
  else if code = 102 then some 409
  else if code = 103 then some 400
  else none

/-- The variable `ErrInternal`. -/
def ErrInternal {U : Type} : response U := .Error 500 100 (str "internal handlers error")

/-- The function `errResponse`; no error of the service or of the decoders is an `*Error`
of this package, so `ToError` finds none. -/
def errResponse {U : Type} (status code : Int) (err : Error) : response U :=
  .Error status code err.Error

/-- The function `errRequest`. -/
def errRequest {U : Type} (err : Error) : response U := errResponse 400 101 err

/-- The function `errRequestf` with a format `pfx%w`. -/
def errRequestf {U : Type} (pfx : Bytes) (err : Error) : response U :=
  errResponse 400 101 (.wrap pfx err)

/-- The function `errApi` with a format `pfx%w`. -/
def errApi {U : Type} (_pfx : Bytes) (err : Error) : response U :=
  match service.ToError err with
  | some (code, msg) =>
    match apiErrorCodeStatus code with
    | some status => errResponse status code (.coded code msg)
    | none => ErrInternal
  | none => ErrInternal

/-- The method `handler.listUsers`. -/
def handler.listUsers {σ U : Type} (c : Codec) (now : Time) (api : UsersService σ U)
    (r : HTTPRequest) (s : σ) : response U × σ :=
  match (listUsers.new U).Decode c now r with
  | .error err => (errRequest err, s)
  | .ok lu =>
    match api.ListUsers lu.Limit lu.Offset lu.Filter s with
    | (.error err, s) => (errApi (str "could not list users: ") err, s)
    | (.ok users, s) =>
      let lu := { lu with Users := users }
      if users.length = 0 then (.listUsers lu, s)
      else
        match handlers.GenerateNextPage c now lu.Limit lu.Offset users.length lu.Filter with
        | .error err => (errRequestf (str "could not marshal next page structure: ") err, s)
        | .ok np => (.listUsers { lu with NextPage := np }, s)

end handlers.http

namespace handlers.grpc

/-- The struct `listUsers`. -/
structure listUsers where
  NextPage : Bytes
  Limit : Int
  Offset : Int
  Filter : Option service.Filter
deriving DecidableEq

/-- The zero value `&listUsers{}`. -/
def listUsers.new : listUsers := { NextPage := [], Limit := 0, Offset := 0, Filter := none }

/-- The message `pb.ListUsersResponse`, whose `next_page` is optional. -/
structure ListUsersResponse (U : Type) where
  Users : List U
  NextPage : Option Bytes
deriving DecidableEq

/-- The function `nextPage`. -/
def nextPage (c : Codec) (now : Time) (r : ListUsersRequest) :
    Except Error handlers.NextPage × Unit :=
  handlers.LoadNextPage c now r.NextPage r.Filter r.FilterBy (paginationPB r) ()

/-- The method `listUsers.decode`. -/
def listUsers.decode (lu : listUsers) (np : handlers.NextPage) : Except Error listUsers :=
  if np.FilterBy ≠ [] then
    match service.NewFilter np.FilterBy np.Filter with
    | .error err => .error err
    | .ok filter => .ok { lu with Filter := some filter, Limit := np.Limit, Offset := np.Offset }
  else .ok { lu with Limit := np.Limit, Offset := np.Offset }

/-- The method `listUsers.Decode`. -/
def listUsers.Decode (c : Codec) (now : Time) (lu : listUsers) (r : ListUsersRequest) :
    Except Error listUsers :=
  match (nextPage c now r).1 with
  | .error err => .error err
  | .ok np => lu.decode np

/-- The map `apiErrorCodeStatus`. -/
def apiErrorCodeStatus (code : Int) : Option codes.Code :=
  if code = 101 then some .InvalidArgument
  else if code = 100 then some .Internal
  else if code = 300 then some .AlreadyExists
  else if code = 200 then some .NotFound
  else if code = 102 then some .AlreadyExists
  else if code = 103 then some .InvalidArgument
  else none

/-- The variable `ErrInternal`. -/
def ErrInternal : Status := { code := .Internal, message := str "internal handlers error" }

/-- The function `errRequest`. -/
def errRequest (err : Error) : Status := { code := .InvalidArgument, message := err.Error }

/-- The function `errRequestf` with a format `pfx%w`. -/
def errRequestf (pfx : Bytes) (err : Error) : Status :=
  { code := .InvalidArgument, message := (Error.wrap pfx err).Error }

/-- The function `errApif` with a format `pfx%w`. -/
def errApif (pfx : Bytes) (err : Error) : Status :=
  match service.ToError err with
  | some (code, _) =>
    match apiErrorCodeStatus code with
    | some gc => { code := gc, message := (Error.wrap pfx err).Error }
    | none => ErrInternal
  | none => ErrInternal

/-- The method `UserManagerServer.ListUsers`. -/
def UserManagerServer.ListUsers {σ U : Type} (c : Codec) (now : Time) (api : UsersService σ U)
    (r : ListUsersRequest) (s : σ) : Except Status (ListUsersResponse U) × σ :=
  match listUsers.new.Decode c now r with
  | .error err => (.error (errRequest err), s)
  | .ok lu =>
    match api.ListUsers lu.Limit lu.Offset lu.Filter s with
    | (.error err, s) => (.error (errApif (str "could not list users: ") err), s)
    | (.ok users, s) =>
      let resp : ListUsersResponse U := { Users := users, NextPage := none }
      if resp.Users.length = 0 then (.ok resp, s)
      else
        match handlers.GenerateNextPage c now lu.Limit lu.Offset users.length lu.Filter with
        | .error err =>
          (.error (errRequestf (str "could not marshal next page structure: ") err), s)
        | .ok np => (.ok { resp with NextPage := some np }, s)

end handlers.grpc

namespace common

/-- The struct `common.ListUsers`. -/
structure ListUsers (U : Type) where
  Users : List U
  NextPage : Bytes
  Limit : Int
  Offset : Int
  FilterBy : Bytes
  Filter : Bytes
deriving DecidableEq

/-- The zero value `&common.ListUsers{}`. -/
def ListUsers.new (U : Type) : ListUsers U :=
  { Users := [], NextPage := [], Limit := 0, Offset := 0, FilterBy := [], Filter := [] }

/-- The function `NextPageFromHTTP`. -/
def NextPageFromHTTP (c : Codec) (now : Time) (r : HTTPRequest) :
    Except Error handlers.NextPage × Unit :=
  loadNextPage c now r.next_page r.filter r.filterBy (paginationHTTP r) ()

/-- The function `NextPageFromPB`. -/
def NextPageFromPB (c : Codec) (now : Time) (r : ListUsersRequest) :
    Except Error handlers.NextPage × Unit :=
  loadNextPage c now r.NextPage r.Filter r.FilterBy (paginationPB r) ()

/-- The method `ListUsers.decode`; `AllowedFilters` is the package variable of that name,
given by its keys. -/
def ListUsers.decode {U : Type} (AllowedFilters : List Bytes) (lu : ListUsers U)
    (np : handlers.NextPage) : Except Error (ListUsers U) :=
  if np.FilterBy ≠ [] then
    if np.FilterBy ∉ AllowedFilters then
      .error (.text (str "filterBy parameter '" ++ np.FilterBy ++ str "' not supported"))
    else if np.Filter = [] then .error (.text (str "filter parameter should not been empty"))
    else
      .ok { lu with Filter := np.Filter, FilterBy := np.FilterBy, Limit := np.Limit,
                    Offset := np.Offset }
  else .ok { lu with Limit := np.Limit, Offset := np.Offset }

/-- The method `ListUsers.Decode`. -/
def ListUsers.Decode {U : Type} (c : Codec) (now : Time) (AllowedFilters : List Bytes)
    (lu : ListUsers U) (r : HTTPRequest) : Except Error (ListUsers U) :=
  match (NextPageFromHTTP c now r).1 with
  | .error err => .error (.text (str "could not load nextPage: " ++ err.Error))
  | .ok np => lu.decode AllowedFilters np

/-- The method `ListUsers.DecodePB`. -/
def ListUsers.DecodePB {U : Type} (c : Codec) (now : Time) (AllowedFilters : List Bytes)
    (lu : ListUsers U) (r : ListUsersRequest) : Except Error (ListUsers U) :=
  match (NextPageFromPB c now r).1 with
  | .error err => .error err
  | .ok np => lu.decode AllowedFilters np

end common

namespace servers.http

/-- A `common.Response`: the struct `Error` or the listing. -/
inductive Response (U : Type) where
  | Error (Status Code : Int) (Message : Bytes)
  | ListUsers (lu : common.ListUsers U)
deriving DecidableEq

/-- The map `apiErrorCodeStatus`. -/
def apiErrorCodeStatus (code : Int) : Option Int :=
  if code = 101 then some 400
  else if code = 100 then some 500
  else if code = 300 then some 409
  else if code = 200 then some 404
  else if code = 102 then some 409
  else none

/-- The variable `ErrInternal`. -/
def ErrInternal {U : Type} : Response U := .Error 500 100 (str "internal servers error")

/-- The function `errResponse`; no error of the service or of the decoders is an `*Error`
of this package, so `ToError` finds none. -/
def errResponse {U : Type} (status code : Int) (err : Error) : Response U :=
  .Error status code err.Error

/-- The function `errRequest`. -/
def errRequest {U : Type} (err : Error) : Response U := errResponse 400 101 err

/-- The function `errRequestf` with a format `pfx%w`. -/
def errRequestf {U : Type} (pfx : Bytes) (err : Error) : Response U :=
  errResponse 400 101 (.wrap pfx err)

/-- The function `errApi` with a format `pfx%w`. -/
def errApi {U : Type} (_pfx : Bytes) (err : Error) : Response U :=
  match service.ToError err with
  | some (code, msg) =>
    match apiErrorCodeStatus code with
    | some status => errResponse status code (.coded code msg)
    | none => ErrInternal
  | none => ErrInternal

/-- The method `handler.listUsers`. -/
def handler.listUsers {σ U : Type} (c : Codec) (now : Time) (AllowedFilters : List Bytes)
    (api : UsersAPI σ U) (r : HTTPRequest) (s : σ) : Response U × σ :=
  match (common.ListUsers.new U).Decode c now AllowedFilters r with
  | .error err => (errRequest err, s)
  | .ok lu =>
    match api.ListUsers lu.Limit lu.Offset lu.Filter lu.FilterBy s with
    | (.error err, s) => (errApi (str "could not list users: ") err, s)
    | (.ok users, s) =>
      let lu := { lu with Users := users }
      if users.length = 0 then (.ListUsers lu, s)
      else
        match api.CountUsers lu.Filter lu.FilterBy s with
        | (.error err, s) => (errApi (str "could not get users counted: ") err, s)
        | (.ok numUsers, s) =>
          match common.GenerateNextPage c now lu.Limit lu.Offset numUsers lu.Filter lu.FilterBy with
          | .error err => (errRequestf (str "could not marshal next page structure: ") err, s)
          | .ok np => (.ListUsers { lu with NextPage := np }, s)

end servers.http

namespace servers.grpc

/-- The message `pb.ListUsersResponse` of this tree, whose `next_page` is a plain string. -/
structure ListUsersResponse (U : Type) where
  Users : List U
  NextPage : Bytes
deriving DecidableEq

/-- The map `apiErrorCodeStatus`. -/
def apiErrorCodeStatus (code : Int) : Option codes.Code :=
  if code = 101 then some .InvalidArgument
  else if code = 100 then some .Internal
  else if code = 300 then some .AlreadyExists
  else if code = 200 then some .NotFound
  else if code = 102 then some .AlreadyExists
  else none

/-- The variable `ErrInternal`. -/
def ErrInternal : Status := { code := .Internal, message := str "internal servers error" }

/-- The function `errRequest`. -/
def errRequest (err : Error) : Status := { code := .InvalidArgument, message := err.Error }

/-- The function `errRequestf` with a format `pfx%w`. -/
def errRequestf (pfx : Bytes) (err : Error) : Status :=
  { code := .InvalidArgument, message := (Error.wrap pfx err).Error }

/-- The function `errApif` with a format `pfx%w`. -/
def errApif (pfx : Bytes) (err : Error) : Status :=
  match service.ToError err with
  | some (code, _) =>
    match apiErrorCodeStatus code with
    | some gc => { code := gc, message := (Error.wrap pfx err).Error }
    | none => ErrInternal
  | none => ErrInternal

/-- The method `UserManagerHandler.ListUsers`. -/
def UserManagerHandler.ListUsers {σ U : Type} (c : Codec) (now : Time)
    (AllowedFilters : List Bytes) (api : UsersAPI σ U) (r : ListUsersRequest) (s : σ) :
    Except Status (ListUsersResponse U) × σ :=
  match (common.ListUsers.new U).DecodePB c now AllowedFilters r with
  | .error err => (.error (errRequest err), s)
  | .ok lu =>
    match api.ListUsers lu.Limit lu.Offset lu.Filter lu.FilterBy s with
    | (.error err, s) => (.error (errApif (str "could not list users: ") err), s)
    | (.ok users, s) =>
      let resp : ListUsersResponse U := { Users := users, NextPage := [] }
      if resp.Users.length = 0 then (.ok resp, s)
      else
        match api.CountUsers lu.Filter lu.FilterBy s with
        | (.error err, s) => (.error (errApif (str "could not get users counted: ") err), s)
        | (.ok numUsers, s) =>
          match common.GenerateNextPage c now lu.Limit lu.Offset numUsers lu.Filter lu.FilterBy with
          | .error err =>
            (.error (errRequestf (str "could not marshal next page structure: ") err), s)
          | .ok np => (.ok { resp with NextPage := np }, s)

end servers.grpc

/-! ## Notions used in the proofs -/

/-- The digit value folded over a string of digits. -/
def strconv.digitsValue (ds : Bytes) (acc : Nat) : Nat :=
  ds.foldl (fun a c => a * 10 + (c - 48)) acc

/-- The bytes `0` to `9`. -/
def isDigit (c : Nat) : Prop := 48 ≤ c ∧ c ≤ 57

/-- What the writer and the two readers do with one piece of a string. -/
structure json.Chunk (chunk orig : Bytes) : Prop where
  scan : ∀ Y, json.scanString (chunk ++ Y) = chunk.foldr json.consRaw (json.scanString Y)
  unquote : ∀ fuel Y, json.unquoteLoop (fuel + 1) (chunk ++ Y) = orig ++ json.unquoteLoop fuel Y
  ne : chunk ≠ []
  bytes : ∀ x ∈ chunk, x < 256

/-- The three properties of a written string that the round trip needs. -/
structure json.Written (q s : Bytes) : Prop where
  scan : ∀ rest, json.scanString (q ++ 34 :: rest) = .ok (q, rest)
  unquote : ∀ fuel, q.length ≤ fuel → json.unquoteLoop fuel q = s
  bytes : ∀ x ∈ q, x < 256

/-- The `width` least significant decimal digits of `x`, most significant first. -/
def fixedDigits : Nat → Nat → Bytes
  | 0, _ => []
  | width + 1, x => fixedDigits width (x / 10) ++ [48 + x % 10]

/-- Bytes that stand for themselves inside a JSON string. -/
def json.isPlain (c : Nat) : Prop := 0x20 ≤ c ∧ c ≠ 34 ∧ c ≠ 92

instance (c : Nat) : Decidable (json.isPlain c) := by unfold json.isPlain; infer_instance

/-- The text of a page token as the parser walks through it: five members, the two integers
up to their commas, the three strings between their quotes. -/
def json.tokenText (lim off qFB qF fmt : Bytes) : Bytes :=
  123 :: 34 :: (str "limit" ++ 34 :: 58 :: (lim ++ 44 ::
    34 :: (str "offset" ++ 34 :: 58 :: (off ++ 44 ::
    34 :: (str "filter_by" ++ 34 :: 58 :: 34 :: (qFB ++ 34 :: 44 ::
    34 :: (str "filter" ++ 34 :: 58 :: 34 :: (qF ++ 34 :: 44 ::
    34 :: (str "time" ++ 34 :: 58 :: 34 :: (fmt ++ 34 :: [125]))))))))))

/-- The bytes of an RFC 3339 text. -/
def time.isTimeByte (c : Nat) : Prop :=
  isDigit c ∨ c = 45 ∨ c = 84 ∨ c = 58 ∨ c = 46 ∨ c = 90 ∨ c = 43

/-- The values a page token can be minted from and read back: 64-bit integers, filter strings
in valid UTF-8, and a well-formed time. -/
def handlers.NextPage.representable (v : handlers.NextPage) : Prop :=
  isInt64 v.Limit ∧ isInt64 v.Offset ∧ utf8.Valid v.FilterBy = true ∧
  utf8.Valid v.Filter = true ∧ v.Time.wellFormed

instance (v : handlers.NextPage) : Decidable v.representable := by
  unfold handlers.NextPage.representable; infer_instance

/-! ## Test data of the repository -/

/-- The constant `nextPageNoFilter` of `handlers/http/handler_test.go`. -/
def nextPageNoFilter : Bytes :=
  str "eyJsaW1pdCI6Miwib2Zmc2V0IjoyLCJmaWx0ZXJfYnkiOiIiLCJmaWx0ZXIiOiIiLCJ0aW1lIjoiMjAzNS0wNy0yMVQxODo1ODoyOS42ODc0MzUrMDI6MDAifQo="

/-- The JSON text inside `nextPageNoFilter`. -/
def nextPageNoFilterJSON : Bytes :=
  str "\x7b\"limit\":2,\"offset\":2,\"filter_by\":\"\",\"filter\":\"\",\"time\":\"2035-07-21T18:58:29.687435+02:00\"\x7d\n"

/-- The page token inside `nextPageNoFilter`. -/
def nextPageNoFilterValue : handlers.NextPage :=
  { Limit := 2, Offset := 2, FilterBy := [], Filter := [],
    Time := { year := 2035, month := 7, day := 21, hour := 18, minute := 58, second := 29,
              nsec := 687435000, zone := 120 } }

/-- A clock reading: 2024-08-07T11:30:29.290848+02:00, the minting time of the token the
listing test of `handlers/http/handler_test.go` expects. -/
def clock2024 : Time :=
  { year := 2024, month := 8, day := 7, hour := 11, minute := 30, second := 29,
    nsec := 290848000, zone := 120 }

/-- A pagination closure that fails. -/
def failingPagination : PaginationFn Unit :=
  fun s => (.error (.text (str "malformed pagination")), s)

/-- A token minted on 2020-01-01 for the filter `country = NL`: the base64 form of
`{"limit":2,"offset":2,"filter_by":"country","filter":"NL","time":"2020-01-01T00:00:00Z"}`. -/
def staleTokenWithFilter : Bytes :=
  str "eyJsaW1pdCI6Miwib2Zmc2V0IjoyLCJmaWx0ZXJfYnkiOiJjb3VudHJ5IiwiZmlsdGVyIjoiTkwiLCJ0aW1lIjoiMjAyMC0wMS0wMVQwMDowMDowMFoifQ=="

/-- The JSON text inside `staleTokenWithFilter`. -/
def staleTokenWithFilterJSON : Bytes :=
  str "\x7b\"limit\":2,\"offset\":2,\"filter_by\":\"country\",\"filter\":\"NL\",\"time\":\"2020-01-01T00:00:00Z\"\x7d"

/-- The page token inside `staleTokenWithFilter`. -/
def staleTokenWithFilterValue : handlers.NextPage :=
  { Limit := 2, Offset := 2, FilterBy := str "country", Filter := str "NL",
    Time := { year := 2020, month := 1, day := 1, hour := 0, minute := 0, second := 0,
              nsec := 0, zone := 0 } }

/-- A pagination closure for an absent `pagination` parameter. -/
def noPagination : PaginationFn Unit := paginationHTTP ⟨[], [], [], []⟩

/-- The guard of `GenerateNextPage`, in the arithmetic of Go's `int`. -/
def nextPageExists (limit offset numUsers : Int) : Prop :=
  (limit > 0 ∧ offset ≥ 0) ∧ sub64 numUsers (add64 offset limit) > 0

instance (limit offset numUsers : Int) : Decidable (nextPageExists limit offset numUsers) := by
  unfold nextPageExists; infer_instance

/-- The page token `handlers.GenerateNextPage` mints for a filter. -/
def handlers.mintedNextPage (now : Time) (limit : Int) (filter : Option service.Filter) :
    handlers.NextPage :=
  match filter with
  | some f =>
    if f.IsValid then
      { Limit := limit, Offset := limit, FilterBy := f.By, Filter := f.Query, Time := now }
    else { Limit := limit, Offset := limit, FilterBy := [], Filter := [], Time := now }
  | none => { Limit := limit, Offset := limit, FilterBy := [], Filter := [], Time := now }

/-- The token the listing test of the repository expects: limit 1 and the filter
`country = NL`, minted at 2024-08-07T11:30:29.290848+02:00. -/
def expectedNextPage : Bytes :=
  str "eyJsaW1pdCI6MSwib2Zmc2V0IjoxLCJmaWx0ZXJfYnkiOiJjb3VudHJ5IiwiZmlsdGVyIjoiTkwiLCJ0aW1lIjoiMjAyNC0wOC0wN1QxMTozMDoyOS4yOTA4NDgrMDI6MDAifQ=="

/-- The token minted at `clock2024` for limit 1 and the filter `country = <byte 0xFF>`. -/
def replacedFilterToken : Bytes :=
  str "eyJsaW1pdCI6MSwib2Zmc2V0IjoxLCJmaWx0ZXJfYnkiOiJjb3VudHJ5IiwiZmlsdGVyIjoiXHVmZmZkIiwidGltZSI6IjIwMjQtMDgtMDdUMTE6MzA6MjkuMjkwODQ4KzAyOjAwIn0="

/-- The JSON text inside `replacedFilterToken`. -/
def replacedFilterTokenJSON : Bytes :=
  str "\x7b\"limit\":1,\"offset\":1,\"filter_by\":\"country\",\"filter\":\"\\ufffd\",\"time\":\"2024-08-07T11:30:29.290848+02:00\"\x7d"

/-- The message of the decoders for a field that cannot be filtered on. -/
def notSupported (filterBy : Bytes) : Bytes :=
  str "filterBy parameter '" ++ filterBy ++ str "' not supported"

/-- A service that counts its calls in its state and finds no users. -/
def countingService : UsersService Nat Unit :=
  { ListUsers := fun _ _ _ n => (.ok [], n + 1) }

/-- An API that counts its calls in its state and finds no users. -/
def countingAPI : UsersAPI Nat Unit :=
  { ListUsers := fun _ _ _ _ n => (.ok [], n + 1)
    CountUsers := fun _ _ n => (.ok 0, n + 1) }

/-! ## Errors of the service -/

/-- The variable `service.ErrInternal`. -/
def service.ErrInternal : Error := .coded 100 (str "service internal error")

/-- The variable `service.ErrUserAlreadyExists`. -/
def service.ErrUserAlreadyExists : Error := .coded 300 (str "user already exists")

/-- The variable `service.ErrUserNotFound`. -/
def service.ErrUserNotFound : Error := .coded 200 (str "user not found")

/-- The variable `service.ErrDuplicateKeyError`. -/
def service.ErrDuplicateKeyError : Error := .coded 102 (str "duplicate key error")

/-- The variable `service.ErrEmptyUpdateRequest`. -/
def service.ErrEmptyUpdateRequest : Error := .coded 103 (str "empty request")

/-- A service whose listing fails with the given error, counting the call. -/
def failingService (err : Error) : UsersService Nat Unit :=
  { ListUsers := fun _ _ _ n => (.error err, n + 1) }

/-! ## Tokens of the scenarios -/

/-- The instant ten minutes before `clock2024`. -/
def tenMinutesEarlier : Time :=
  { year := 2024, month := 8, day := 7, hour := 11, minute := 20, second := 29,
    nsec := 290848000, zone := 120 }

/-- A token minted ten minutes before `clock2024` for the filter `nickname = x`: the base64 form
of `{"limit":2,"offset":2,"filter_by":"nickname","filter":"x","time":"2024-08-07T11:20:29.290848+02:00"}`. -/
def liveTokenNickname : Bytes :=
  str "eyJsaW1pdCI6Miwib2Zmc2V0IjoyLCJmaWx0ZXJfYnkiOiJuaWNrbmFtZSIsImZpbHRlciI6IngiLCJ0aW1lIjoiMjAyNC0wOC0wN1QxMToyMDoyOS4yOTA4NDgrMDI6MDAifQ=="

/-- The JSON text inside `liveTokenNickname`. -/
def liveTokenNicknameJSON : Bytes :=
  str "\x7b\"limit\":2,\"offset\":2,\"filter_by\":\"nickname\",\"filter\":\"x\",\"time\":\"2024-08-07T11:20:29.290848+02:00\"\x7d"

/-- The page token inside `liveTokenNickname`. -/
def liveTokenNicknameValue : handlers.NextPage :=
  { Limit := 2, Offset := 2, FilterBy := str "nickname", Filter := str "x",
    Time := tenMinutesEarlier }

/-- A token minted ten minutes before `clock2024` for the filter `country = NL`: the base64 form
of `{"limit":2,"offset":2,"filter_by":"country","filter":"NL","time":"2024-08-07T11:20:29.290848+02:00"}`. -/
def liveTokenCountry : Bytes :=
  str "eyJsaW1pdCI6Miwib2Zmc2V0IjoyLCJmaWx0ZXJfYnkiOiJjb3VudHJ5IiwiZmlsdGVyIjoiTkwiLCJ0aW1lIjoiMjAyNC0wOC0wN1QxMToyMDoyOS4yOTA4NDgrMDI6MDAifQ=="

/-- The JSON text inside `liveTokenCountry`. -/
def liveTokenCountryJSON : Bytes :=
  str "\x7b\"limit\":2,\"offset\":2,\"filter_by\":\"country\",\"filter\":\"NL\",\"time\":\"2024-08-07T11:20:29.290848+02:00\"\x7d"

/-- The page token inside `liveTokenCountry`. -/
def liveTokenCountryValue : handlers.NextPage :=
  { Limit := 2, Offset := 2, FilterBy := str "country", Filter := str "NL",
    Time := tenMinutesEarlier }

/-- A token dated ten minutes before `clock2024` that carries limit 0 and offset -5: the base64
form of `{"limit":0,"offset":-5,"filter_by":"","filter":"","time":"2024-08-07T11:20:29.290848+02:00"}`. -/
def liveTokenOutOfModel : Bytes :=
  str "eyJsaW1pdCI6MCwib2Zmc2V0IjotNSwiZmlsdGVyX2J5IjoiIiwiZmlsdGVyIjoiIiwidGltZSI6IjIwMjQtMDgtMDdUMTE6MjA6MjkuMjkwODQ4KzAyOjAwIn0="

/-- The JSON text inside `liveTokenOutOfModel`. -/
def liveTokenOutOfModelJSON : Bytes :=
  str "\x7b\"limit\":0,\"offset\":-5,\"filter_by\":\"\",\"filter\":\"\",\"time\":\"2024-08-07T11:20:29.290848+02:00\"\x7d"

/-- The page token inside `liveTokenOutOfModel`. -/
def liveTokenOutOfModelValue : handlers.NextPage :=
  { Limit := 0, Offset := -5, FilterBy := [], Filter := [], Time := tenMinutesEarlier }

/-! ## Strings after a round trip through JSON -/

/-- What a Go string is after `json.Marshal` and `json.Unmarshal`: well-formed UTF-8 encodings
are kept, every other byte becomes U+FFFD. `fuel` bounds the number of steps. -/
def json.coerceLoop : Nat → Bytes → Bytes
  | _, [] => []
  | 0, _ :: _ => []
  | fuel + 1, b :: rest =>
    if b < 0x80 then b :: json.coerceLoop fuel rest
    else
      let (c, size) := utf8.DecodeRune (b :: rest)
      if c = utf8.RuneError ∧ size = 1 then [0xEF, 0xBF, 0xBD] ++ json.coerceLoop fuel rest
      else (b :: rest).take size ++ json.coerceLoop fuel (rest.drop (size - 1))

/-- What a Go string is after `json.Marshal` and `json.Unmarshal`. -/
def json.coerce (s : Bytes) : Bytes := json.coerceLoop s.length s

/-- The token minted at `clock2024` for limit 1 without a filter: the base64 form of
`{"limit":1,"offset":1,"filter_by":"","filter":"","time":"2024-08-07T11:30:29.290848+02:00"}`. -/
def expectedNextPageNoFilter : Bytes :=
  str "eyJsaW1pdCI6MSwib2Zmc2V0IjoxLCJmaWx0ZXJfYnkiOiIiLCJmaWx0ZXIiOiIiLCJ0aW1lIjoiMjAyNC0wOC0wN1QxMTozMDoyOS4yOTA4NDgrMDI6MDAifQ=="

/-- The JSON text inside `expectedNextPage`. -/
def expectedNextPageJSON : Bytes :=
  str "\x7b\"limit\":1,\"offset\":1,\"filter_by\":\"country\",\"filter\":\"NL\",\"time\":\"2024-08-07T11:30:29.290848+02:00\"\x7d"

/-! ## The body of a listing response -/

/-- A JSON object text as the struct encoder of `encoding/json` writes it: the members, each a
key and the JSON text of its value, separated by commas. -/
def json.appendObject (members : List (Bytes × Bytes)) : Bytes :=
  123 :: (([44] : Bytes).intercalate (members.map fun m => json.appendString m.1 ++ 58 :: m.2)
    ++ [125])

/-- The members `json.Marshal` writes for a `listUsers` of the handlers tree: `users`, and
`next_page` unless it is empty (the tag `omitempty`); the fields tagged `-` are left out.
`users` is the JSON text of the slice of users. -/
def handlers.http.listUsers.jsonMembers {U : Type} (users : Bytes)
    (lu : handlers.http.listUsers U) : List (Bytes × Bytes) :=
  (str "users", users) ::
    (if lu.NextPage = [] then [] else [(str "next_page", json.appendString lu.NextPage)])

/-- The members `json.Marshal` writes for a `ListUsers` of the servers tree: `users`, and
`next_page` unless it is empty (the tag `omitempty`); the fields tagged `-` are left out.
`users` is the JSON text of the slice of users. -/
def common.ListUsers.jsonMembers {U : Type} (users : Bytes) (lu : common.ListUsers U) :
    List (Bytes × Bytes) :=
  (str "users", users) ::
    (if lu.NextPage = [] then [] else [(str "next_page", json.appendString lu.NextPage)])

/-- A service that finds one user, counting the call. -/
def oneUserService : UsersService Nat Unit :=
  { ListUsers := fun _ _ _ n => (.ok [()], n + 1) }

/-- An API that finds one user of a total of `total`, counting the calls. -/
def oneUserAPI (total : Int) : UsersAPI Nat Unit :=
  { ListUsers := fun _ _ _ _ n => (.ok [()], n + 1)
    CountUsers := fun _ _ n => (.ok total, n + 1) }

/-- The members `json.Marshal` writes for an `Error` of the HTTP handlers (the same struct in
both trees): `code` and `message`; the field `Status` is tagged `-`. -/
def httpErrorMembers (code : Int) (message : Bytes) : List (Bytes × Bytes) :=
  [(str "code", strconv.FormatInt code), (str "message", json.appendString message)]

/-- The method `WriteTo` of a response of the handlers tree, by the status and the body that
`responseObject` writes; `marshalUsers` is `json.Marshal` on the slice of users, taken to
succeed. -/
def handlers.http.response.WriteTo {U : Type} (marshalUsers : List U → Bytes) :
    handlers.http.response U → Int × Bytes
  | .Error Status Code Message =>
    if Status ≤ 0 then (500, json.appendObject (httpErrorMembers 100 Message))
    else (Status, json.appendObject (httpErrorMembers Code Message))
  | .listUsers lu => (200, json.appendObject (lu.jsonMembers (marshalUsers lu.Users)))

/-- The method `WriteTo` of a response of the servers tree, by the status and the body that
`RespondObject` writes; `marshalUsers` is `json.Marshal` on the slice of users, taken to
succeed. -/
def servers.http.Response.WriteTo {U : Type} (marshalUsers : List U → Bytes) :
    servers.http.Response U → Int × Bytes
  | .Error Status Code Message =>
    if Status ≤ 0 then (500, json.appendObject (httpErrorMembers 100 Message))
    else (Status, json.appendObject (httpErrorMembers Code Message))
  | .ListUsers lu => (200, json.appendObject (lu.jsonMembers (marshalUsers lu.Users)))

/-- The JSON text of a slice of users in the scenarios, whose users carry no data: an array
of as many empty objects. -/
def marshalUnits (users : List Unit) : Bytes :=
  91 :: (([44] : Bytes).intercalate (users.map fun _ => str "\x7b\x7d") ++ [93])

/-! ## Users

The second part of the development covers the users themselves: their validation, the
decoders of the requests that create and change them, the service between the handlers and
the repository, and the PostgreSQL repository. Library routines whose text is out of reach
(the Unicode tables above Latin-1, `net/mail`, `bcrypt`) are the fields of `Libraries`. -/

/-- Library routines the user code calls and whose results are taken as given:
membership of a rune above U+00FF in the tables `unicode.Letter` and `unicode.Digit`,
`strings.Map(unicode.ToLower, s)`, the error of `mail.ParseAddress` (`none` is `nil`), and
`bcrypt.GenerateFromPassword` with cost 8. -/
structure Libraries where
  Letter : Nat → Bool
  Digit : Nat → Bool
  MapToLower : Bytes → Bytes
  ParseAddress : Bytes → Option Error
  GenerateFromPassword : Bytes → Except Error Bytes

namespace unicode

/-- The function `unicode.IsLetter`: below U+0100 the table `properties` decides, above it
the range table `unicode.Letter`. -/
def IsLetter (lib : Libraries) (r : Nat) : Bool :=
  if r ≤ 0xFF then
    decide ((65 ≤ r ∧ r ≤ 90) ∨ (97 ≤ r ∧ r ≤ 122) ∨ r = 0xAA ∨ r = 0xB5 ∨ r = 0xBA ∨
      (0xC0 ≤ r ∧ r ≤ 0xD6) ∨ (0xD8 ≤ r ∧ r ≤ 0xF6) ∨ (0xF8 ≤ r ∧ r ≤ 0xFF))
  else lib.Letter r

/-- The function `unicode.IsDigit`. -/
def IsDigit (lib : Libraries) (r : Nat) : Bool :=
  if r ≤ 0xFF then decide (48 ≤ r ∧ r ≤ 57) else lib.Digit r

end unicode

namespace strings

/-- The function `strings.ContainsRune` for a set `s` of ASCII characters: a rune outside
ASCII, `utf8.RuneError` included, is not found in it. -/
def ContainsRune (s : Bytes) (r : Nat) : Bool := decide (r < 0x80) && s.contains r

/-- The function `strings.ToLower`: an ASCII string is mapped byte by byte, any other string
goes through `strings.Map`. -/
def ToLower (lib : Libraries) (s : Bytes) : Bytes :=
  if s.all (fun c => decide (c < 0x80)) then s.map (fun c => if 65 ≤ c ∧ c ≤ 90 then c + 32 else c)
  else lib.MapToLower s

end strings

/-- The expression `login[i]` for a Go `int` index: `none` is the run-time panic
`index out of range`. -/
def index (s : Bytes) (i : Int) : Option Nat :=
  if i < 0 then none else s[i.toNat]?

namespace service

/-- The struct `service.User`. -/
structure User where
  ID : Bytes
  FirstName : Bytes
  LastName : Bytes
  NickName : Bytes
  Password : Bytes
  Email : Bytes
  Country : Bytes
  CreatedAt : Time
  UpdatedAt : Time
deriving DecidableEq, Repr

/-- The zero value `service.User{}`. -/
def User.new : User :=
  { ID := [], FirstName := [], LastName := [], NickName := [], Password := [], Email := [],
    Country := [], CreatedAt := Time.zero, UpdatedAt := Time.zero }

/-- The constant `specialCharSet` of `validateNickname`. -/
def specialCharSet : Bytes := str "._-"

/-- The loop `for i, r := range login` of `validateNickname`: `i` is the index of the byte
at the head of the rest, `skip` the number of bytes of the current rune still to pass over. -/
def validateNickname.loop (lib : Libraries) (login : Bytes) (l : Int) :
    Bytes → Nat → Nat → Option Bool
  | [], _, _ => some true
  | _ :: rest, i, skip + 1 => validateNickname.loop lib login l rest (i + 1) skip
  | b :: rest, i, 0 =>
    let (r, size) := utf8.DecodeRune (b :: rest)
    if strings.ContainsRune specialCharSet r then
      if (i : Int) + 1 ≤ l - 1 then
        match index login ((i : Int) + 1) with
        | none => none
        | some next =>
          if strings.ContainsRune specialCharSet next then some false
          else validateNickname.loop lib login l rest (i + 1) (size - 1)
      else validateNickname.loop lib login l rest (i + 1) (size - 1)
    else if !unicode.IsLetter lib r && !unicode.IsDigit lib r then some false
    else validateNickname.loop lib login l rest (i + 1) (size - 1)

/-- The function `validateNickname`; `none` is a run-time panic on an index out of range. -/
def validateNickname (lib : Libraries) (login : Bytes) (minL maxL : Int) : Option Bool :=
  let l : Int := login.length
  if l < minL ∨ l > maxL then some false
  else
    match index login 0 with
    | none => none
    | some first =>
      let firstL := unicode.IsLetter lib first || unicode.IsDigit lib first
      match index login (l - 1) with
      | none => none
      | some last =>
        let lastL := unicode.IsLetter lib last || unicode.IsDigit lib last
        if !firstL || !lastL then some false
        else validateNickname.loop lib login l login 0 0

/-- The function `ValidateEmail`; `none` is `nil`. -/
def ValidateEmail (lib : Libraries) (email : Bytes) : Option Error :=
  if email = [] then some (.text (str "empty email"))
  else
    match lib.ParseAddress email with
    | some err => some (.wrap (str "email malformed '" ++ email ++ str "': ") err)
    | none => none

/-- The method `User.Validate`; `none` is `nil`. The call `validateNickname(u.NickName, 1, 32)`
is made for a non-empty nickname only and returns a value there, so a nickname is invalid
exactly when the call does not return `true`. -/
def User.Validate (lib : Libraries) (u : User) (passwordOkEmpty : Bool) : Option Error :=
  if u.FirstName = [] then some (.text (str "empty first name"))
  else if u.LastName = [] then some (.text (str "empty last name"))
  else if u.Country = [] then some (.text (str "empty country"))
  else if u.FirstName = [] then some (.text (str "empty first name"))
  else if u.Password = [] ∧ passwordOkEmpty = false then some (.text (str "empty password"))
  else if u.NickName ≠ [] ∧ validateNickname lib u.NickName 1 32 ≠ some true then
    some (.text (str "invalid nickname"))
  else ValidateEmail lib u.Email

end service

namespace models

/-- The function `validateNickname` of `storage/models`, whose text is that of the service. -/
def validateNickname (lib : Libraries) (login : Bytes) (minL maxL : Int) : Option Bool :=
  service.validateNickname lib login minL maxL

end models

/-! ## Errors below the service -/

/-- The error variables of the package `repository`; `errors.Is` finds them by identity. -/
inductive repository.Var where
  | NoUsersFoundError | DuplicateKeyError | GeneratePwdError
deriving DecidableEq, Repr

/-- Go `error` values as the repository and the service tell them apart: a variable of
`repository`, a `*pq.Error` or a `*pgconn.PgError` of a database driver with its SQLSTATE code
and message, any other error, and wrapping with `%w`. -/
inductive Failure where
  | var (v : repository.Var)
  | pq (Code Message : Bytes)
  | pgconn (Code Message : Bytes)
  | of (err : Error)
  | wrap (pfx : Bytes) (err : Failure)
deriving DecidableEq, Repr

/-- The text of a variable of `repository`. -/
def repository.Var.Error : repository.Var → Bytes
  | .NoUsersFoundError => str "no users found"
  | .DuplicateKeyError => str "duplicate key value violates unique constraint"
  | .GeneratePwdError => str "could not generate hashed user password"

/-- The `Error()` method; the drivers print `pq: message` and `SEVERITY: message (SQLSTATE code)`,
of which the message and the code are kept. -/
def Failure.Error : Failure → Bytes
  | .var v => v.Error
  | .pq _ Message => str "pq: " ++ Message
  | .pgconn Code Message => Message ++ str " (SQLSTATE " ++ Code ++ str ")"
  | .of err => err.Error
  | .wrap pfx err => pfx ++ err.Error

/-- The test `errors.Is(err, target)` for a variable of `repository`. -/
def Failure.Is : Failure → repository.Var → Bool
  | .var v, target => decide (v = target)
  | .wrap _ err, target => err.Is target
  | _, _ => false

/-- The test `errors.As(err, &pgErr)` for `pgErr *pq.Error`: the first `*pq.Error` in the chain. -/
def Failure.AsPq : Failure → Option (Bytes × Bytes)
  | .pq Code Message => some (Code, Message)
  | .wrap _ err => err.AsPq
  | _ => none

/-- The function `service.ToError` on these errors: the first `*service.Error` in the chain. -/
def Failure.ToError : Failure → Option (Int × Bytes)
  | .of err => service.ToError err
  | .wrap _ err => err.ToError
  | _ => none

/-! ## The service -/

namespace clients

/-- The variable `ChannelCreate`. -/
def ChannelCreate : Bytes := str "create"

/-- The variable `ChannelUpdate`. -/
def ChannelUpdate : Bytes := str "update"

/-- The variable `ChannelDelete`. -/
def ChannelDelete : Bytes := str "delete"

/-- The method `Notify` of the interface `ChannelNotificator`: channel, message, and the
state it may read or change; `none` is `nil`. -/
abbrev ChannelNotificator (σ : Type) := Bytes → Bytes → σ → Option Failure × σ

end clients

namespace service

/-- The interface `UserRepo` for single users. A method that receives a `*User` also returns
what the pointer holds after the call. -/
structure UserRepo (σ : Type) where
  GetUser : Bytes → σ → Except Failure User × σ
  CreateUser : User → σ → (Except Failure User × User) × σ
  UpdateUser : User → σ → (Option Failure × User) × σ
  DeleteUser : Bytes → σ → Option Failure × σ

/-- The method `Users.CreateUser`. -/
def Users.CreateUser {σ : Type} (repo : UserRepo σ) (notify : clients.ChannelNotificator σ)
    (inp : User) (s : σ) : Except Error User × σ :=
  match repo.CreateUser inp s with
  | ((.error err, _), s) =>
    if err.Is .DuplicateKeyError then (.error ErrUserAlreadyExists, s)
    else (.error ErrInternal, s)
  | ((.ok user, inp), s) =>
    let s := (notify clients.ChannelCreate
      (str "user with ID=" ++ user.ID ++ str " has been created") s).2
    (.ok { inp with ID := user.ID, CreatedAt := user.CreatedAt }, s)

/-- One of the five statements `if v := ...; v != "" && v != cur { cur = v; updated = true }`
of `Users.UpdateUser`: the new value of the field and of the flag `updated`. -/
def Users.UpdateUser.takeOver (v cur : Bytes) (updated : Bool) : Bytes × Bool :=
  if v ≠ [] ∧ v ≠ cur then (v, true) else (cur, updated)

/-- Lines 81 to 102 of `Users.UpdateUser`: the stored user after the five statements, and the
flag `updated`. The third statement reads `updatedUser.LastName` and writes the nickname. -/
def Users.UpdateUser.merge (updatedUser existedUser : User) : User × Bool :=
  let updated := false
  let fn := Users.UpdateUser.takeOver updatedUser.FirstName existedUser.FirstName updated
  let ln := Users.UpdateUser.takeOver updatedUser.LastName existedUser.LastName fn.2
  let nn := Users.UpdateUser.takeOver updatedUser.LastName existedUser.NickName ln.2
  let cntr := Users.UpdateUser.takeOver updatedUser.Country existedUser.Country nn.2
  let email := Users.UpdateUser.takeOver updatedUser.Email existedUser.Email cntr.2
  ({ existedUser with
      FirstName := fn.1, LastName := ln.1, NickName := nn.1, Country := cntr.1,
      Email := email.1 }, email.2)

/-- The method `Users.UpdateUser`; `none` is `nil`. -/
def Users.UpdateUser {σ : Type} (lib : Libraries) (repo : UserRepo σ)
    (notify : clients.ChannelNotificator σ) (updatedUser : User) (s : σ) : Option Failure × σ :=
  match repo.GetUser updatedUser.ID s with
  | (.error err, s) =>
    if err.Is .NoUsersFoundError then (some (.of ErrUserNotFound), s) else (some err, s)
  | (.ok existedUser, s) =>
    let (existedUser, updated) := Users.UpdateUser.merge updatedUser existedUser
    let hashed : Except Error (User × Bool) :=
      if updatedUser.Password ≠ [] then
        match lib.GenerateFromPassword updatedUser.Password with
        | .error err => .error err
        | .ok hashedPwd => .ok ({ existedUser with Password := hashedPwd }, true)
      else .ok (existedUser, updated)
    match hashed with
    | .error err =>
      (some (.wrap (str "could not generate new hashed password for user: ") (.of err)), s)
    | .ok (existedUser, updated) =>
      if updated = false then (some (.of ErrEmptyUpdateRequest), s)
      else
        match existedUser.Validate lib true with
        | some err => (some (.of (.text (str "updated user not valid: " ++ err.Error))), s)
        | none =>
          match repo.UpdateUser existedUser s with
          | ((some err, _), s) =>
            if err.Is .DuplicateKeyError then (some (.of ErrDuplicateKeyError), s)
            else (some err, s)
          | ((none, existedUser), s) =>
            let s := (notify clients.ChannelUpdate
              (str "user with ID=" ++ existedUser.ID ++ str " has been updated") s).2
            (none, s)

/-- The method `Users.DeleteUser`; `none` is `nil`. -/
def Users.DeleteUser {σ : Type} (repo : UserRepo σ) (notify : clients.ChannelNotificator σ)
    (id : Bytes) (s : σ) : Option Failure × σ :=
  match repo.DeleteUser id s with
  | (some err, s) =>
    if err.Is .NoUsersFoundError then (some (.of ErrUserNotFound), s) else (some err, s)
  | (none, s) =>
    let s := (notify clients.ChannelDelete
      (str "user with ID=" ++ id ++ str " has been deleted") s).2
    (none, s)

end service

/-! ## Requests that create and change users -/

namespace handlers.http

/-- The struct `User` of the HTTP handlers. -/
structure User where
  ID : Bytes
  FirstName : Bytes
  LastName : Bytes
  NickName : Bytes
  Password : Bytes
  Email : Bytes
  Country : Bytes
  CreatedAt : Time
  UpdatedAt : Time
deriving DecidableEq, Repr

/-- The method `CreateUser.Decode`. The outcome of `json.NewDecoder(r.Body).Decode(&u)` is the
input `body`: the error, or the `User` that was read. The result is the field `cu.User`. -/
def CreateUser.Decode (lib : Libraries) (body : Except Error User) : Except Error service.User :=
  match body with
  | .error err => .error (.wrap (str "malformed data: ") err)
  | .ok u =>
    let cu : service.User :=
      { service.User.new with
        FirstName := u.FirstName, LastName := u.LastName, NickName := u.NickName,
        Password := u.Password, Email := strings.ToLower lib u.Email, Country := u.Country }
    match cu.Validate lib false with
    | some err => .error (.wrap (str "invalid user: ") err)
    | none => .ok cu

/-- The method `handler.createUser`; `api` is the method `h.api.CreateUser`. The response is
an `*Error` (left) or the `*CreateUser` with the user the service returned (right). -/
def handler.createUser {σ : Type} (lib : Libraries)
    (api : service.User → σ → Except Error service.User × σ)
    (body : Except Error User) (s : σ) : (response Unit ⊕ service.User) × σ :=
  match CreateUser.Decode lib body with
  | .error err => (.inl (errRequest err), s)
  | .ok cu =>
    match api cu s with
    | (.error err, s) => (.inl (errApi (str "failed to perform user creation: ") err), s)
    | (.ok user, s) => (.inr user, s)

/-- The anonymous struct `tmp` of `updateUser.Decode`: a field is `none` when the body does
not set it. -/
structure updateUser.tmp where
  FirstName : Option Bytes
  LastName : Option Bytes
  Nickname : Option Bytes
  Password : Option Bytes
  Email : Option Bytes
  Country : Option Bytes
deriving DecidableEq, Repr

/-- The method `updateUser.Decode`. The outcome of `json.NewDecoder(r.Body).Decode(&tmp)` is
the input `body`, the URL parameter `uid` the input `uid`. -/
def updateUser.Decode (body : Except Error updateUser.tmp) (uid : Bytes) :
    Except Error service.User :=
  match body with
  | .error err => .error (.wrap (str "malformed update user data: ") err)
  | .ok tmp =>
    let uu := service.User.new
    let uu := match tmp.FirstName with | some v => { uu with FirstName := v } | none => uu
    let uu := match tmp.LastName with | some v => { uu with LastName := v } | none => uu
    let uu := match tmp.Nickname with | some v => { uu with NickName := v } | none => uu
    let uu := match tmp.Country with | some v => { uu with Country := v } | none => uu
    let uu := match tmp.Password with | some v => { uu with Password := v } | none => uu
    let uu := match tmp.Email with | some v => { uu with Email := v } | none => uu
    if uid = [] then .error (.text (str "user id is mandatory"))
    else .ok { uu with ID := uid }

end handlers.http

/-! ## The PostgreSQL repository -/

/-- An argument of a statement. -/
inductive sql.Arg where
  | text (s : Bytes)
  | time (t : Time)
deriving DecidableEq, Repr

/-- The connection `*sqlx.DB` with the transaction it begins, over the state of the database.
A statement answers with an error or with a `sql.Result`, given by what its `RowsAffected`
returns. -/
structure sqlx.DB (σ : Type) where
  ExecContext : Bytes → List sql.Arg → σ → Except Failure (Except Failure Int) × σ
  BeginTx : σ → Option Failure × σ
  TxExecContext : Bytes → List sql.Arg → σ → Except Failure (Except Failure Int) × σ
  Rollback : σ → σ
  Commit : σ → Option Failure × σ

namespace repository.pg

/-- The constant `errPgCheckViolation`. -/
def errPgCheckViolation : Bytes := str "23514"

/-- The constant `errPgNotNullViolation`. -/
def errPgNotNullViolation : Bytes := str "23502"

/-- The constant `errPgForeignKeyViolation`. -/
def errPgForeignKeyViolation : Bytes := str "23503"

/-- The constant `errPgUniqueKeyViolation`. -/
def errPgUniqueKeyViolation : Bytes := str "23505"

/-- The function `isPgViolation`; the variadic `filter` is `nil` when the list is empty. -/
def isPgViolation (err : Failure) (filter : List Bytes) : Bool :=
  match err.AsPq with
  | none => false
  | some (Code, _) =>
    let filter :=
      if filter = [] then
        [errPgCheckViolation, errPgNotNullViolation, errPgUniqueKeyViolation,
          errPgForeignKeyViolation]
      else filter
    filter.any (fun typ => decide (Code = typ))

/-- The statement of `Repo.CreateUser`. -/
def insertUser : Bytes :=
  str ("INSERT INTO users (id, first_name, last_name, nickname, password, email, country, " ++
    "created_at) \n\t\t\t\tVALUES ($1, $2, $3, $4, $5, $6, $7, $8)")

/-- The method `Repo.CreateUser`; `id` is what `uuid.New().String()` returns and `now` what
`time.Now()` returns. The second component is the user held by `newUser` after the call. -/
def Repo.CreateUser {σ : Type} (lib : Libraries) (conn : sqlx.DB σ) (id : Bytes) (now : Time)
    (newUser : service.User) (s : σ) : (Except Failure service.User × service.User) × σ :=
  let newUser := { newUser with ID := id }
  let newUser := { newUser with CreatedAt := now }
  match lib.GenerateFromPassword newUser.Password with
  | .error _ => ((.error (.var .GeneratePwdError), newUser), s)
  | .ok hashedPwd =>
    match conn.ExecContext insertUser
        [.text newUser.ID, .text newUser.FirstName, .text newUser.LastName,
          .text newUser.NickName, .text hashedPwd, .text newUser.Email, .text newUser.Country,
          .time newUser.CreatedAt] s with
    | (.error err, s) =>
      if isPgViolation err [errPgForeignKeyViolation] then
        ((.error (.var .DuplicateKeyError), newUser), s)
      else ((.error (.wrap (str "could not create new user: ") err), newUser), s)
    | (.ok _, s) => ((.ok newUser, newUser), s)

/-- The method `Repo.UpdateUser`; `now` is what `time.Now()` returns. -/
def Repo.UpdateUser {σ : Type} (conn : sqlx.DB σ) (now : Time) (user : service.User) (s : σ) :
    (Option Failure × service.User) × σ :=
  let query := str ("UPDATE users SET first_name=$1, last_name=$2, nickname=$3, email=$4, " ++
    "country=$5, updated_at=$6")
  let args : List sql.Arg :=
    [.text user.FirstName, .text user.LastName, .text user.NickName, .text user.Email,
      .text user.Country, .time now]
  let (query, args) :=
    if user.Password ≠ [] then (query ++ str "password=$7 WHERE id=$8", args ++ [.text user.Password])
    else (query ++ str "WHERE id=$7", args)
  let args := args ++ [.text user.ID]
  match conn.BeginTx s with
  | (some err, s) => ((some err, user), s)
  | (none, s) =>
    match conn.TxExecContext query args s with
    | (.error err, s) =>
      let s := conn.Rollback s
      if isPgViolation err [errPgForeignKeyViolation] then
        ((some (.var .DuplicateKeyError), user), s)
      else ((some (.wrap (str "could not update user: ") err), user), s)
    | (.ok result, s) =>
      match result with
      | .error err => ((some (.wrap (str "could not retrieve affected rows: ") err), user), s)
      | .ok affected =>
        if affected = 0 then ((some (.var .NoUsersFoundError), user), s)
        else
          match conn.Commit s with
          | (err, s) => ((err, user), s)

end repository.pg

/-! ## Doubles used where a scenario needs concrete collaborators -/

/-- A library in which every address parses and no rune above U+00FF is a letter or a digit;
it hashes a password by writing `$2a$08$` before it. -/
def plainLibraries : Libraries :=
  { Letter := fun _ => false
    Digit := fun _ => false
    MapToLower := fun s => s
    ParseAddress := fun _ => none
    GenerateFromPassword := fun pwd => .ok (str "$2a$08$" ++ pwd) }

/-- What a recording collaborator was asked to do. -/
inductive Event where
  | GetUser (id : Bytes)
  | CreateUser (user : service.User)
  | UpdateUser (user : service.User)
  | DeleteUser (id : Bytes)
  | Notify (channel msg : Bytes)
  | Exec (query : Bytes) (args : List sql.Arg)
deriving DecidableEq, Repr

/-- A repository that holds one user, accepts every change, gives a created user the
identifier `id`, and records its calls. -/
def recordingRepo (stored : service.User) (id : Bytes) : service.UserRepo (List Event) :=
  { GetUser := fun uid s => (.ok stored, s ++ [.GetUser uid])
    CreateUser := fun u s => ((.ok { service.User.new with ID := id }, u), s ++ [.CreateUser u])
    UpdateUser := fun u s => ((none, u), s ++ [.UpdateUser u])
    DeleteUser := fun uid s => (none, s ++ [.DeleteUser uid]) }

/-- A repository every method of which fails with `err`, and records its calls. -/
def failingRepo (err : Failure) : service.UserRepo (List Event) :=
  { GetUser := fun uid s => (.error err, s ++ [.GetUser uid])
    CreateUser := fun u s => ((.error err, u), s ++ [.CreateUser u])
    UpdateUser := fun u s => ((some err, u), s ++ [.UpdateUser u])
    DeleteUser := fun uid s => (some err, s ++ [.DeleteUser uid]) }

/-- A notifier that records its calls and returns `result`. -/
def recordingNotify (result : Option Failure) : clients.ChannelNotificator (List Event) :=
  fun channel msg s => (result, s ++ [.Notify channel msg])

/-- A database that rejects every statement with `err`, and records the statements. -/
def rejectingDB (err : Failure) : sqlx.DB (List Event) :=
  { ExecContext := fun query args s => (.error err, s ++ [.Exec query args])
    BeginTx := fun s => (none, s)
    TxExecContext := fun query args s => (.error err, s ++ [.Exec query args])
    Rollback := fun s => s
    Commit := fun s => (none, s) }

/-- The stored user of the repository's tests of `UpdateUser`. -/
def storedUser : service.User :=
  { service.User.new with
    ID := str "67cfa917-1cec-48ff-913c-243fe5749e92", FirstName := str "User",
    LastName := str "One", NickName := str "userOne11", Email := str "user_one@gmail.com",
    Country := str "NL" }

/-- The user of the request `CreateUser Ok` of the repository's tests. -/
def user5 : handlers.http.User :=
  { ID := [], FirstName := str "User5", LastName := str "Lastname5",
    NickName := str "user5_lastname", Password := str "qwerty123",
    Email := str "user5@gmail.com", Country := str "NL", CreatedAt := Time.zero,
    UpdatedAt := Time.zero }

/-- The user that `CreateUser.Decode` makes of `user5`. -/
def decodedUser5 : service.User :=
  { service.User.new with
    FirstName := str "User5", LastName := str "Lastname5", NickName := str "user5_lastname",
    Password := str "qwerty123", Email := str "user5@gmail.com", Country := str "NL" }

/-- The error PostgreSQL answers with when a unique constraint is violated, as the driver
`lib/pq` reports it. -/
def uniqueViolation : Failure :=
  .pq (str "23505") (str "duplicate key value violates unique constraint \"email_uq\"")

/-- The same error as the driver `pgx` reports it. -/
def uniqueViolationPgx : Failure :=
  .pgconn (str "23505") (str "duplicate key value violates unique constraint \"email_uq\"")

/-- The error PostgreSQL answers with when a foreign key is violated. -/
def foreignKeyViolation : Failure :=
  .pq (str "23503") (str "insert or update on table \"users\" violates foreign key constraint")

/-! ## The nickname rule in the words of its description -/

/-- A letter or a digit of ASCII. -/
def isAlnum (c : Nat) : Prop := (65 ≤ c ∧ c ≤ 90) ∨ (97 ≤ c ∧ c ≤ 122) ∨ (48 ≤ c ∧ c ≤ 57)

instance (c : Nat) : Decidable (isAlnum c) :=
  inferInstanceAs (Decidable ((65 ≤ c ∧ c ≤ 90) ∨ (97 ≤ c ∧ c ≤ 122) ∨ (48 ≤ c ∧ c ≤ 57)))

/-- One of the characters `.`, `_`, `-`. -/
def isSpecial (c : Nat) : Prop := c = 46 ∨ c = 95 ∨ c = 45

instance (c : Nat) : Decidable (isSpecial c) :=
  inferInstanceAs (Decidable (c = 46 ∨ c = 95 ∨ c = 45))

/-- The nickname rule as described: between 1 and 32 characters, the first and the last a
letter or a digit, every character a letter, a digit or special, no two special characters
adjacent. -/
def nicknameRule (s : Bytes) : Prop :=
  1 ≤ s.length ∧ s.length ≤ 32 ∧
  (∀ c ∈ s.head?, isAlnum c) ∧ (∀ c ∈ s.getLast?, isAlnum c) ∧
  (∀ c ∈ s, isAlnum c ∨ isSpecial c) ∧
  s.Chain' (fun a b => ¬ (isSpecial a ∧ isSpecial b))

instance (s : Bytes) : Decidable (nicknameRule s) :=
  inferInstanceAs (Decidable (1 ≤ s.length ∧ s.length ≤ 32 ∧
    (∀ c ∈ s.head?, isAlnum c) ∧ (∀ c ∈ s.getLast?, isAlnum c) ∧
    (∀ c ∈ s, isAlnum c ∨ isSpecial c) ∧
    s.Chain' (fun a b => ¬ (isSpecial a ∧ isSpecial b))))

/-! ## Tokens of the later scenarios -/

/-- A live token with limit and offset `9223372036854775807`, written by a client. -/
def liveTokenLargest : Bytes :=
  str ("eyJsaW1pdCI6OTIyMzM3MjAzNjg1NDc3NTgwNywib2Zmc2V0Ijo5MjIzMzcyMDM2ODU0Nzc1ODA3LCJmaWx0" ++
    "ZXJfYnkiOiIiLCJmaWx0ZXIiOiIiLCJ0aW1lIjoiMjAzNS0wNy0yMVQxODo1ODoyOSswMjowMCJ9")

/-- A token without a `time` field. -/
def tokenWithoutTime : Bytes := str "eyJsaW1pdCI6Miwib2Zmc2V0IjoyfQ=="

/-- The token whose text is the JSON literal `null`. -/
def nullToken : Bytes := str "bnVsbA=="

/-- A token whose time has a one-digit hour: the base64 form of
`{"limit":2,"offset":2,"filter_by":"","filter":"","time":"2035-07-21T8:58:29+02:00"}`. -/
def oneDigitHourToken : Bytes :=
  str ("eyJsaW1pdCI6Miwib2Zmc2V0IjoyLCJmaWx0ZXJfYnkiOiIiLCJmaWx0ZXIiOiIiLCJ0aW1lIjoiMjAzNS0w" ++
    "Ny0yMVQ4OjU4OjI5KzAyOjAwIn0=")

/-- A token whose time has a comma before the fraction and a zone of 24 hours: the base64
form of
`{"limit":2,"offset":2,"filter_by":"","filter":"","time":"2035-07-21T18:58:29,5+24:00"}`. -/
def commaFractionToken : Bytes :=
  str ("eyJsaW1pdCI6Miwib2Zmc2V0IjoyLCJmaWx0ZXJfYnkiOiIiLCJmaWx0ZXIiOiIiLCJ0aW1lIjoiMjAzNS0w" ++
    "Ny0yMVQxODo1ODoyOSw1KzI0OjAwIn0=")

/-- A token whose time has a blank where the `T` belongs: the base64 form of
`{"limit":2,"offset":2,"filter_by":"","filter":"","time":"2035-07-21 18:58:29Z"}`. -/
def blankInTimeToken : Bytes :=
  str ("eyJsaW1pdCI6Miwib2Zmc2V0IjoyLCJmaWx0ZXJfYnkiOiIiLCJmaWx0ZXIiOiIiLCJ0aW1lIjoiMjAzNS0w" ++
    "Ny0yMSAxODo1ODoyOVoifQ==")

/-- The token minted at `clock2024` for limit 1 with the field to filter on but no value:
the base64 form of
`{"limit":1,"offset":1,"filter_by":"country","filter":"","time":"2024-08-07T11:30:29.290848+02:00"}`. -/
def filterByOnlyToken : Bytes :=
  str ("eyJsaW1pdCI6MSwib2Zmc2V0IjoxLCJmaWx0ZXJfYnkiOiJjb3VudHJ5IiwiZmlsdGVyIjoiIiwidGltZSI6" ++
    "IjIwMjQtMDgtMDdUMTE6MzA6MjkuMjkwODQ4KzAyOjAwIn0=")

/-- The token minted at `clock2024` for limit 1 with a value to filter by but no field:
the base64 form of
`{"limit":1,"offset":1,"filter_by":"","filter":"NL","time":"2024-08-07T11:30:29.290848+02:00"}`. -/
def queryOnlyToken : Bytes :=
  str ("eyJsaW1pdCI6MSwib2Zmc2V0IjoxLCJmaWx0ZXJfYnkiOiIiLCJmaWx0ZXIiOiJOTCIsInRpbWUiOiIyMDI0" ++
    "LTA4LTA3VDExOjMwOjI5LjI5MDg0OCswMjowMCJ9")

/-- The token minted at `clock2024` for the limit `9223372036854775807`. -/
def mintedLargestToken : Bytes :=
  str ("eyJsaW1pdCI6OTIyMzM3MjAzNjg1NDc3NTgwNywib2Zmc2V0Ijo5MjIzMzcyMDM2ODU0Nzc1ODA3LCJmaWx0" ++
    "ZXJfYnkiOiIiLCJmaWx0ZXIiOiIiLCJ0aW1lIjoiMjAyNC0wOC0wN1QxMTozMDoyOS4yOTA4NDgrMDI6MDAifQ==")

/-! ## Liveness of a token -/

/-- Whole milliseconds stay under 1 800 000 exactly when the nanoseconds stay under 30 minutes. -/
theorem milliseconds_lt_iff (d : Int) :
    Milliseconds d < milliseconds30Minutes ↔ d < 1800000000000 := by
  unfold Milliseconds milliseconds30Minutes
  by_cases h : 0 ≤ d
  · rw [Int.tdiv_eq_ediv h (by decide)]
    omega
  · have h1 : (-d).tdiv 1000000 = (-d) / 1000000 := Int.tdiv_eq_ediv (by omega) (by decide)
    rw [Int.neg_tdiv] at h1
    omega

/-- The guard of `LoadNextPage` compares the exact age of the token with 30 minutes. -/
theorem tokenIsLive_iff (now : Time) (np : handlers.NextPage) :
    tokenIsLive now np = true ↔ now.unixNano - np.Time.unixNano < 1800000000000 := by
  unfold tokenIsLive Since Time.Sub maxDuration minDuration
  simp only [decide_eq_true_eq, milliseconds_lt_iff]
  split_ifs <;> omega

/-- Both trees decode a token with the same function. -/
theorem loadNextPage_eq {σ : Type} (c : Codec) (now : Time) (nPage filter filterBy : Bytes)
    (paginationFn : PaginationFn σ) (s : σ) :
    common.loadNextPage c now nPage filter filterBy paginationFn s =
      handlers.LoadNextPage c now nPage filter filterBy paginationFn s := rfl

/-- What `LoadNextPage` does with a token that decodes and parses. -/
theorem LoadNextPage_wellFormed {σ : Type} (c : Codec) (now : Time)
    (nPage sDec filter filterBy : Bytes) (np : handlers.NextPage)
    (paginationFn : PaginationFn σ) (s : σ) (hne : nPage ≠ [])
    (hdec : c.DecodeString nPage = .ok sDec) (hjson : c.Unmarshal sDec initialNextPage = .ok np) :
    handlers.LoadNextPage c now nPage filter filterBy paginationFn s =
      if tokenIsLive now np then (.ok np, s)
      else freshParameters np filter filterBy paginationFn s := by
  unfold initialNextPage at hjson
  simp only [handlers.LoadNextPage, hne, hdec, hjson, ne_eq, not_false_eq_true, if_true]

/-- What `LoadNextPage` does without a token. -/
theorem LoadNextPage_empty {σ : Type} (c : Codec) (now : Time) (filter filterBy : Bytes)
    (paginationFn : PaginationFn σ) (s : σ) :
    handlers.LoadNextPage c now [] filter filterBy paginationFn s =
      freshParameters initialNextPage filter filterBy paginationFn s := by
  simp [handlers.LoadNextPage, initialNextPage]

/-! ## Decoding a page token -/

/-- C1, live-token precedence: a token that decodes and parses and is less than 30 minutes old
is returned as it is, with the state of the pagination closure untouched, and the result is
the same for any other filter, filterBy and pagination closure (failing ones included). -/
theorem live_token_precedence {σ τ : Type} (c : Codec) (now : Time) (nPage sDec : Bytes)
    (np : handlers.NextPage) (hne : nPage ≠ [])
    (hdec : c.DecodeString nPage = .ok sDec) (hjson : c.Unmarshal sDec initialNextPage = .ok np)
    (hlive : now.unixNano - np.Time.unixNano < 1800000000000)
    (filter filterBy : Bytes) (paginationFn : PaginationFn σ) (s : σ)
    (filter' filterBy' : Bytes) (paginationFn' : PaginationFn τ) (s' : τ) :
    handlers.LoadNextPage c now nPage filter filterBy paginationFn s = (.ok np, s) ∧
    common.loadNextPage c now nPage filter filterBy paginationFn s = (.ok np, s) ∧
    (handlers.LoadNextPage c now nPage filter' filterBy' paginationFn' s').1 =
      (handlers.LoadNextPage c now nPage filter filterBy paginationFn s).1 := by
  have hl : tokenIsLive now np = true := (tokenIsLive_iff now np).2 hlive
  have h1 : ∀ {ρ : Type} (f fb : Bytes) (fn : PaginationFn ρ) (r : ρ),
      handlers.LoadNextPage c now nPage f fb fn r = (.ok np, r) := by
    intro ρ f fb fn r
    rw [LoadNextPage_wellFormed c now nPage sDec f fb np fn r hne hdec hjson, hl]
    rfl
  refine ⟨h1 _ _ _ _, ?_, ?_⟩
  · rw [loadNextPage_eq]; exact h1 _ _ _ _
  · rw [h1, h1]

/-- The token of the repository's test, read in 2024, wins over a conflicting filter and a
failing pagination closure. -/
theorem live_token_precedence_witness :
    handlers.LoadNextPage (stdlib "handlers") clock2024 nextPageNoFilter (str "NL") (str "country")
        failingPagination () = (.ok nextPageNoFilterValue, ()) ∧
    common.loadNextPage (stdlib "handlers") clock2024 nextPageNoFilter (str "NL") (str "country")
        failingPagination () = (.ok nextPageNoFilterValue, ()) ∧
    (handlers.LoadNextPage (stdlib "handlers") clock2024 nextPageNoFilter [] (str "FirstName")
        (paginationPB ⟨[], [], [], 7⟩) ()).1 =
      (handlers.LoadNextPage (stdlib "handlers") clock2024 nextPageNoFilter (str "NL")
        (str "country") failingPagination ()).1 :=
  live_token_precedence (stdlib "handlers") clock2024 nextPageNoFilter nextPageNoFilterJSON
    nextPageNoFilterValue (by decide) (by decide) (by decide) (by decide) _ _ _ _ _ _ _ _

/-- C2, evaluated on the code: a request with an expired token for `country = NL` and no filter
of its own is resolved to limit -1 and offset 0 but keeps the filter of the expired token,
whereas the same request without a token is resolved to no filter. -/
theorem stale_token_filter_is_kept :
    handlers.LoadNextPage (stdlib "handlers") clock2024 staleTokenWithFilter [] [] noPagination ()
      = (.ok { Limit := -1, Offset := 0, FilterBy := str "country", Filter := str "NL",
               Time := staleTokenWithFilterValue.Time }, ()) ∧
    handlers.LoadNextPage (stdlib "handlers") clock2024 [] [] [] noPagination ()
      = (.ok { Limit := -1, Offset := 0, FilterBy := [], Filter := [], Time := Time.zero }, ()) ∧
    common.loadNextPage (stdlib "common") clock2024 staleTokenWithFilter [] [] noPagination ()
      = (.ok { Limit := -1, Offset := 0, FilterBy := str "country", Filter := str "NL",
               Time := staleTokenWithFilterValue.Time }, ()) ∧
    common.loadNextPage (stdlib "common") clock2024 [] [] [] noPagination ()
      = (.ok { Limit := -1, Offset := 0, FilterBy := [], Filter := [], Time := Time.zero }, ()) := by
  decide

/-- C6, expiry boundary: for a token that decodes and parses, `LoadNextPage` returns the token
(the live branch) exactly when the age `now - time`, in nanoseconds, is under 30 minutes, and
takes the fresh-parameter path otherwise; the guard on truncated milliseconds decides the same
as the exact comparison. An age of 29 minutes or of 30 minutes less a nanosecond is live, an age
of 30 minutes or of 30 minutes and a millisecond is stale. -/
theorem expiry_boundary {σ : Type} (c : Codec) (now : Time) (nPage sDec : Bytes)
    (np : handlers.NextPage) (hne : nPage ≠ [])
    (hdec : c.DecodeString nPage = .ok sDec) (hjson : c.Unmarshal sDec initialNextPage = .ok np)
    (filter filterBy : Bytes) (paginationFn : PaginationFn σ) (s : σ) :
    (tokenIsLive now np = true ↔ now.unixNano - np.Time.unixNano < 30 * 60 * 1000000000) ∧
    (handlers.LoadNextPage c now nPage filter filterBy paginationFn s =
      if now.unixNano - np.Time.unixNano < 30 * 60 * 1000000000 then (.ok np, s)
      else freshParameters np filter filterBy paginationFn s) ∧
    (common.loadNextPage c now nPage filter filterBy paginationFn s =
      if now.unixNano - np.Time.unixNano < 30 * 60 * 1000000000 then (.ok np, s)
      else freshParameters np filter filterBy paginationFn s) ∧
    (now.unixNano - np.Time.unixNano = 29 * 60 * 1000000000 → tokenIsLive now np = true) ∧
    (now.unixNano - np.Time.unixNano = 30 * 60 * 1000000000 - 1 → tokenIsLive now np = true) ∧
    (now.unixNano - np.Time.unixNano = 30 * 60 * 1000000000 → tokenIsLive now np = false) ∧
    (now.unixNano - np.Time.unixNano = 30 * 60 * 1000000000 + 1000000 →
      tokenIsLive now np = false) := by
  have hiff := tokenIsLive_iff now np
  have hload : handlers.LoadNextPage c now nPage filter filterBy paginationFn s =
      if now.unixNano - np.Time.unixNano < 30 * 60 * 1000000000 then (.ok np, s)
      else freshParameters np filter filterBy paginationFn s := by
    rw [LoadNextPage_wellFormed c now nPage sDec filter filterBy np paginationFn s hne hdec hjson]
    by_cases hl : tokenIsLive now np = true
    · rw [if_pos hl, if_pos (by have := hiff.1 hl; omega)]
    · rw [if_neg hl, if_neg (fun h => hl (hiff.2 (by omega)))]
  refine ⟨by rw [hiff]; norm_num, hload, by rw [loadNextPage_eq]; exact hload, ?_, ?_, ?_, ?_⟩
  · intro h; exact hiff.2 (by omega)
  · intro h; exact hiff.2 (by omega)
  · intro h
    cases hv : tokenIsLive now np
    · rfl
    · have := hiff.1 hv; omega
  · intro h
    cases hv : tokenIsLive now np
    · rfl
    · have := hiff.1 hv; omega

/-- The token of 2020 is stale in 2024 and the request falls through to its own parameters,
here a failing pagination closure. -/
theorem expiry_boundary_witness :
    (tokenIsLive clock2024 staleTokenWithFilterValue = true ↔
      clock2024.unixNano - staleTokenWithFilterValue.Time.unixNano < 30 * 60 * 1000000000) ∧
    handlers.LoadNextPage (stdlib "handlers") clock2024 staleTokenWithFilter [] []
        failingPagination () = (.error (.text (str "malformed pagination")), ()) :=
  have h := expiry_boundary (stdlib "handlers") clock2024 staleTokenWithFilter
    staleTokenWithFilterJSON staleTokenWithFilterValue (by decide) (by decide) (by decide)
    [] [] failingPagination ()
  ⟨h.1, h.2.1.trans (by decide)⟩

/-- The fresh-parameter path with a pagination closure that succeeds and a one-sided filter. -/
theorem freshParameters_onesided {σ : Type} (np : handlers.NextPage) (filter filterBy : Bytes)
    (paginationFn : PaginationFn σ) (s s' : σ) (p : Int) (hp : paginationFn s = (.ok p, s'))
    (hone : (filter = [] ∧ filterBy ≠ []) ∨ (filter ≠ [] ∧ filterBy = [])) :
    freshParameters np filter filterBy paginationFn s =
      (.error (.text (str "parameters filter and filterBy should be used together")), s') := by
  simp only [freshParameters, hp, if_pos hone]

/-- The fresh-parameter path with a pagination closure that succeeds and a filter pair that is
complete or absent. -/
theorem freshParameters_paired {σ : Type} (np : handlers.NextPage) (filter filterBy : Bytes)
    (paginationFn : PaginationFn σ) (s s' : σ) (p : Int) (hp : paginationFn s = (.ok p, s'))
    (hpair : (filter = [] ∧ filterBy = []) ∨ (filter ≠ [] ∧ filterBy ≠ [])) :
    freshParameters np filter filterBy paginationFn s =
      (.ok { Limit := if p > 0 then p else -1, Offset := 0,
             FilterBy := if filterBy = [] then np.FilterBy else filterBy,
             Filter := if filter = [] then np.Filter else filter, Time := np.Time }, s') := by
  have hone : ¬((filter = [] ∧ filterBy ≠ []) ∨ (filter ≠ [] ∧ filterBy = [])) := by
    rcases hpair with ⟨h1, h2⟩ | ⟨h1, h2⟩ <;> simp [h1, h2]
  simp only [freshParameters, hp, if_neg hone]
  have hlim : (p > 0 ∧ p ≠ -1) ↔ p > 0 := by omega
  by_cases hp0 : p > 0
  · have hp1 : p ≠ -1 := by omega
    rcases hpair with ⟨h1, h2⟩ | ⟨h1, h2⟩ <;> simp [h1, h2, hp0, hp1]
  · rcases hpair with ⟨h1, h2⟩ | ⟨h1, h2⟩ <;> simp [h1, h2, hp0]

/-- C7, pairing invariant: when the fresh-parameter path is reached (no token, or a token that
decodes and parses and is 30 minutes old or more), the pagination closure succeeds, and exactly
one of filter and filterBy is non-empty, `LoadNextPage` returns no result and the error
"parameters filter and filterBy should be used together". -/
theorem pairing_invariant {σ : Type} (c : Codec) (now : Time) (nPage filter filterBy : Bytes)
    (paginationFn : PaginationFn σ) (s s' : σ) (p : Int)
    (hpath : nPage = [] ∨ ∃ sDec np, c.DecodeString nPage = .ok sDec ∧
      c.Unmarshal sDec initialNextPage = .ok np ∧
      30 * 60 * 1000000000 ≤ now.unixNano - np.Time.unixNano)
    (hp : paginationFn s = (.ok p, s'))
    (hone : (filter = [] ∧ filterBy ≠ []) ∨ (filter ≠ [] ∧ filterBy = [])) :
    handlers.LoadNextPage c now nPage filter filterBy paginationFn s =
      (.error (.text (str "parameters filter and filterBy should be used together")), s') ∧
    common.loadNextPage c now nPage filter filterBy paginationFn s =
      (.error (.text (str "parameters filter and filterBy should be used together")), s') := by
  have h : handlers.LoadNextPage c now nPage filter filterBy paginationFn s =
      (.error (.text (str "parameters filter and filterBy should be used together")), s') := by
    by_cases hne : nPage = []
    · subst hne
      rw [LoadNextPage_empty]
      exact freshParameters_onesided _ _ _ _ _ _ _ hp hone
    · rcases hpath with h0 | ⟨sDec, np, hdec, hjson, hold⟩
      · exact absurd h0 hne
      · rw [LoadNextPage_wellFormed c now nPage sDec filter filterBy np paginationFn s hne hdec
          hjson]
        have hl : ¬ tokenIsLive now np = true := fun hl => by
          have := (tokenIsLive_iff now np).1 hl; omega
        rw [if_neg hl]
        exact freshParameters_onesided _ _ _ _ _ _ _ hp hone
  exact ⟨h, by rw [loadNextPage_eq]; exact h⟩

/-- The scenario of the repository's test: `filterBy=FirstName` alone, no token, no pagination. -/
theorem pairing_invariant_witness :
    handlers.LoadNextPage (stdlib "handlers") clock2024 [] [] (str "FirstName") noPagination () =
      (.error (.text (str "parameters filter and filterBy should be used together")), ()) ∧
    common.loadNextPage (stdlib "handlers") clock2024 [] [] (str "FirstName") noPagination () =
      (.error (.text (str "parameters filter and filterBy should be used together")), ()) :=
  pairing_invariant (stdlib "handlers") clock2024 [] [] (str "FirstName") noPagination () ()
    (-1) (Or.inl rfl) (by decide) (by decide)

/-- C8, fresh-parameter resolution: without a token, with a pagination closure that returns `p`
and a filter pair that is complete or absent, `LoadNextPage` succeeds with offset 0, limit `p`
when `p > 0` and -1 otherwise, and the filter pair of the request. -/
theorem fresh_parameter_resolution {σ : Type} (c : Codec) (now : Time) (filter filterBy : Bytes)
    (paginationFn : PaginationFn σ) (s s' : σ) (p : Int)
    (hp : paginationFn s = (.ok p, s'))
    (hpair : (filter = [] ∧ filterBy = []) ∨ (filter ≠ [] ∧ filterBy ≠ [])) :
    handlers.LoadNextPage c now [] filter filterBy paginationFn s =
      (.ok { Limit := if p > 0 then p else -1, Offset := 0, FilterBy := filterBy,
             Filter := filter, Time := Time.zero }, s') ∧
    common.loadNextPage c now [] filter filterBy paginationFn s =
      (.ok { Limit := if p > 0 then p else -1, Offset := 0, FilterBy := filterBy,
             Filter := filter, Time := Time.zero }, s') := by
  have h : handlers.LoadNextPage c now [] filter filterBy paginationFn s =
      (.ok { Limit := if p > 0 then p else -1, Offset := 0, FilterBy := filterBy,
             Filter := filter, Time := Time.zero }, s') := by
    rw [LoadNextPage_empty, freshParameters_paired _ _ _ _ _ _ _ hp hpair]
    rcases hpair with ⟨h1, h2⟩ | ⟨h1, h2⟩ <;> simp [h1, h2, initialNextPage]
  exact ⟨h, by rw [loadNextPage_eq]; exact h⟩

/-- The scenario of the specification: `filter=NL`, `filterBy=country`, `pagination=1`. -/
theorem fresh_parameter_resolution_witness :
    handlers.LoadNextPage (stdlib "handlers") clock2024 [] (str "NL") (str "country")
        (paginationHTTP ⟨[], str "NL", str "country", str "1"⟩) () =
      (.ok { Limit := 1, Offset := 0, FilterBy := str "country", Filter := str "NL",
             Time := Time.zero }, ()) ∧
    common.loadNextPage (stdlib "handlers") clock2024 [] (str "NL") (str "country")
        (paginationHTTP ⟨[], str "NL", str "country", str "1"⟩) () =
      (.ok { Limit := 1, Offset := 0, FilterBy := str "country", Filter := str "NL",
             Time := Time.zero }, ()) :=
  fresh_parameter_resolution (stdlib "handlers") clock2024 (str "NL") (str "country")
    (paginationHTTP ⟨[], str "NL", str "country", str "1"⟩) () () 1 (by decide) (by decide)

/-- C10, undecodable token: a non-empty token that `StdEncoding.DecodeString` rejects makes
`LoadNextPage` return no result and the decoder's error behind the words
"could not decode next_page argument: ", so that the message begins with
"could not decode next_page argument"; the pagination closure is not called (its state is
returned as it was), whatever the filter, filterBy and closure are. -/
theorem undecodable_token {σ : Type} (pkg : String) (now : Time) (nPage : Bytes) (e : Error)
    (hne : nPage ≠ []) (hbad : base64.DecodeString nPage = .error e)
    (filter filterBy : Bytes) (paginationFn : PaginationFn σ) (s : σ) :
    handlers.LoadNextPage (stdlib pkg) now nPage filter filterBy paginationFn s =
      (.error (.wrap (str "could not decode next_page argument: ") e), s) ∧
    common.loadNextPage (stdlib pkg) now nPage filter filterBy paginationFn s =
      (.error (.wrap (str "could not decode next_page argument: ") e), s) ∧
    str "could not decode next_page argument" <+:
      (Error.wrap (str "could not decode next_page argument: ") e).Error := by
  have h : handlers.LoadNextPage (stdlib pkg) now nPage filter filterBy paginationFn s =
      (.error (.wrap (str "could not decode next_page argument: ") e), s) := by
    simp only [handlers.LoadNextPage, stdlib, hne, hbad, ne_eq, not_false_eq_true, if_true]
  refine ⟨h, by rw [loadNextPage_eq]; exact h, ?_⟩
  exact ⟨str ": " ++ e.Error, by simp [Error.Error, str]⟩

/-- The scenario of the repository's test: the token `@`, with the message the test expects. -/
theorem undecodable_token_witness :
    handlers.LoadNextPage (stdlib "handlers") clock2024 (str "@") (str "NL") (str "country")
        failingPagination () =
      (.error (.wrap (str "could not decode next_page argument: ")
        (.text (str "illegal base64 data at input byte 0"))), ()) ∧
    common.loadNextPage (stdlib "handlers") clock2024 (str "@") (str "NL") (str "country")
        failingPagination () =
      (.error (.wrap (str "could not decode next_page argument: ")
        (.text (str "illegal base64 data at input byte 0"))), ()) ∧
    str "could not decode next_page argument" <+:
      (Error.wrap (str "could not decode next_page argument: ")
        (.text (str "illegal base64 data at input byte 0"))).Error :=
  undecodable_token "handlers" clock2024 (str "@") _ (by decide) (by decide) _ _ _ _

/-! ## base64: decoding what was encoded -/

/-- Every 6-bit value is read back from its character. -/
theorem base64.decodeMap_encodeStd (n : Nat) (h : n < 64) :
    base64.decodeMap (base64.encodeStd n) = some n := by
  unfold base64.decodeMap base64.encodeStd
  split_ifs <;> first | omega | (congr 1; omega)

/-- The decoding loop reads an encoded text back, whatever was decoded before. -/
theorem base64.decode_EncodeToString (bs : Bytes) (hb : ∀ b ∈ bs, b < 256) :
    ∀ (si : Nat) (out : Bytes),
      base64.decode (base64.EncodeToString bs) si [] out = .ok (out ++ bs) := by
  induction bs using base64.EncodeToString.induct with
  | case1 => intro si out; simp [base64.EncodeToString, base64.decode]
  | case2 a =>
    intro si out
    have ha : a < 256 := hb a (by simp)
    simp only [base64.EncodeToString, base64.decode,
      base64.decodeMap_encodeStd (a / 4) (by omega),
      base64.decodeMap_encodeStd (a % 4 * 16) (by omega)]
    simp [base64.decodeMap, base64.padChar, base64.skipNewlines]
    omega
  | case3 a b =>
    intro si out
    have ha : a < 256 := hb a (by simp)
    have hb' : b < 256 := hb b (by simp)
    simp only [base64.EncodeToString, base64.decode,
      base64.decodeMap_encodeStd (a / 4) (by omega),
      base64.decodeMap_encodeStd (a % 4 * 16 + b / 16) (by omega),
      base64.decodeMap_encodeStd (b % 16 * 4) (by omega)]
    simp [base64.decodeMap, base64.padChar, base64.skipNewlines]
    omega
  | case4 a b c rest ih =>
    intro si out
    have ha : a < 256 := hb a (by simp)
    have hb' : b < 256 := hb b (by simp)
    have hc : c < 256 := hb c (by simp)
    simp only [base64.EncodeToString, base64.decode,
      base64.decodeMap_encodeStd (a / 4) (by omega),
      base64.decodeMap_encodeStd (a % 4 * 16 + b / 16) (by omega),
      base64.decodeMap_encodeStd (b % 16 * 4 + c / 64) (by omega),
      base64.decodeMap_encodeStd (c % 64) (by omega), List.nil_append, List.cons_append]
    rw [ih (fun x hx => hb x (by simp [hx]))]
    have e1 : a / 4 * 4 + (a % 4 * 16 + b / 16) / 16 = a := by omega
    have e2 : (a % 4 * 16 + b / 16) % 16 * 16 + (b % 16 * 4 + c / 64) / 4 = b := by omega
    have e3 : (b % 16 * 4 + c / 64) % 4 * 64 + c % 64 = c := by omega
    simp [e1, e2, e3]

/-- The method `DecodeString` undoes `EncodeToString`. -/
theorem base64.DecodeString_EncodeToString (bs : Bytes) (hb : ∀ b ∈ bs, b < 256) :
    base64.DecodeString (base64.EncodeToString bs) = .ok bs := by
  unfold base64.DecodeString
  rw [base64.decode_EncodeToString bs hb]
  rfl

/-- The encoding of a non-empty text is not empty. -/
theorem base64.EncodeToString_ne_nil (bs : Bytes) (h : bs ≠ []) :
    base64.EncodeToString bs ≠ [] := by
  match bs, h with
  | [_], _ => simp [base64.EncodeToString]
  | [_, _], _ => simp [base64.EncodeToString]
  | _ :: _ :: _ :: _, _ => simp [base64.EncodeToString]

/-! ## base64: what is rejected -/

/-- One step of the decoding loop. -/
theorem base64.decode_cons (c : Nat) (cs : Bytes) (si : Nat) (dbuf : List Nat) (out : Bytes) :
    base64.decode (c :: cs) si dbuf out =
      match base64.decodeMap c with
      | some v =>
        match dbuf with
        | [x, y, z] =>
          base64.decode cs (si + 1) [] (out ++ [x * 4 + y / 16, y % 16 * 16 + z / 4, z % 4 * 64 + v])
        | _ => base64.decode cs (si + 1) (dbuf ++ [v]) out
      | none =>
        if c = 10 ∨ c = 13 then base64.decode cs (si + 1) dbuf out
        else if c ≠ base64.padChar then .error si
        else
          match dbuf with
          | [x, y] =>
            match base64.skipNewlines cs (si + 1) with
            | ([], si) => .error si
            | (d :: rest, si) =>
              if d ≠ base64.padChar then .error (si - 1)
              else
                match base64.skipNewlines rest (si + 1) with
                | ([], _) => .ok (out ++ [x * 4 + y / 16])
                | (_ :: _, si) => .error si
          | [x, y, z] =>
            match base64.skipNewlines cs (si + 1) with
            | ([], _) => .ok (out ++ [x * 4 + y / 16, y % 16 * 16 + z / 4])
            | (_ :: _, si) => .error si
          | _ => .error si := by
  rfl

/-- Skipping line breaks keeps every byte outside the alphabet. -/
theorem base64.skipNewlines_foreign (c : Nat) (hc : c ≠ 10 ∧ c ≠ 13) :
    ∀ (s : Bytes) (si : Nat), c ∈ s → c ∈ (base64.skipNewlines s si).1 := by
  intro s
  induction s with
  | nil => intro si h; exact absurd h (List.not_mem_nil _)
  | cons d ds ih =>
    intro si h
    unfold base64.skipNewlines
    split_ifs with hd
    · rcases List.mem_cons.1 h with rfl | h
      · omega
      · exact ih _ h
    · exact h

/-- The decoding loop rejects every input with a byte that is neither in the alphabet, nor a
line break, nor the padding character. -/
theorem base64.decode_foreign (c : Nat) (hmap : base64.decodeMap c = none)
    (hc : c ≠ 10 ∧ c ≠ 13) (hpad : c ≠ base64.padChar) :
    ∀ (s : Bytes) (si : Nat) (dbuf : List Nat) (out : Bytes), c ∈ s →
      ∃ off, base64.decode s si dbuf out = .error off := by
  intro s
  induction s with
  | nil => intro si dbuf out h; exact absurd h (List.not_mem_nil _)
  | cons d ds ih =>
    intro si dbuf out h
    have hds : d ≠ c → c ∈ ds := fun hne =>
      (List.mem_cons.1 h).resolve_left (fun e => hne e.symm)
    rw [base64.decode_cons]
    cases hd : base64.decodeMap d with
    | some v =>
      have hne : d ≠ c := fun e => by rw [e, hmap] at hd; cases hd
      simp only
      split
      · exact ih _ _ _ (hds hne)
      · exact ih _ _ _ (hds hne)
    | none =>
      simp only
      split_ifs with hnl hp
      · exact ih _ _ _ (hds (by omega))
      · exact ⟨_, rfl⟩
      · have hd61 : d = base64.padChar := not_not.1 hp
        have hin : c ∈ ds := hds (fun e => hpad (e ▸ hd61))
        split
        · have h1 := base64.skipNewlines_foreign c hc ds (si + 1) hin
          split
          · next heq => rw [heq] at h1; exact absurd h1 (List.not_mem_nil _)
          · next d2 rest si2 heq =>
            rw [heq] at h1
            split_ifs with hd2
            · exact ⟨_, rfl⟩
            · have hd2p : d2 = base64.padChar := not_not.1 hd2
              have hin2 : c ∈ rest :=
                (List.mem_cons.1 h1).resolve_left (fun e => hpad (e ▸ hd2p))
              have h2 := base64.skipNewlines_foreign c hc rest (si2 + 1) hin2
              split
              · next heq2 => rw [heq2] at h2; exact absurd h2 (List.not_mem_nil _)
              · exact ⟨_, rfl⟩
        · have h1 := base64.skipNewlines_foreign c hc ds (si + 1) hin
          split
          · next heq => rw [heq] at h1; exact absurd h1 (List.not_mem_nil _)
          · exact ⟨_, rfl⟩
        · exact ⟨_, rfl⟩

/-- A token with a byte outside the alphabet, other than a line break or the padding
character, is rejected by `DecodeString`. -/
theorem base64.DecodeString_foreign (s : Bytes) (c : Nat) (hin : c ∈ s)
    (hmap : base64.decodeMap c = none) (hc : c ≠ 10 ∧ c ≠ 13) (hpad : c ≠ base64.padChar) :
    ∃ off, base64.DecodeString s = .error (base64.CorruptInputError off) := by
  obtain ⟨off, h⟩ := base64.decode_foreign c hmap hc hpad s 0 [] [] hin
  exact ⟨off, by unfold base64.DecodeString; rw [h]⟩

/-! ## strconv: reading what was written -/

theorem strconv.parseDigits_eq (ds : Bytes) (h : ∀ c ∈ ds, isDigit c) (acc : Nat) :
    strconv.parseDigits ds acc = some (strconv.digitsValue ds acc) := by
  induction ds generalizing acc with
  | nil => rfl
  | cons c cs ih =>
    have hc : isDigit c := h c (by simp)
    unfold isDigit at hc
    simp only [strconv.parseDigits, hc, and_self, if_true]
    rw [ih (fun x hx => h x (by simp [hx]))]
    rfl

theorem strconv.digits_spec (fuel : Nat) : ∀ (n : Nat) (acc : Bytes), n < fuel →
    ∃ ds : Bytes, strconv.digits fuel n acc = ds ++ acc ∧ ds ≠ [] ∧ (∀ c ∈ ds, isDigit c) ∧
      (∀ a, strconv.digitsValue ds a = a * 10 ^ ds.length + n) ∧
      (0 < n → ds.head? ≠ some 48) ∧ (n = 0 → ds = [48]) := by
  induction fuel with
  | zero => intro n acc h; omega
  | succ f ih =>
    intro n acc h
    by_cases hn : n < 10
    · refine ⟨[48 + n], by simp [strconv.digits, hn], by simp, ?_, ?_, ?_, ?_⟩
      · intro c hc; simp at hc; subst hc; unfold isDigit; omega
      · intro a; simp [strconv.digitsValue]
      · intro h0; simp; omega
      · intro h0; simp [h0]
    · obtain ⟨ds, hds, hne, hdig, hval, hhead, _⟩ := ih (n / 10) ((48 + n % 10) :: acc) (by omega)
      refine ⟨ds ++ [48 + n % 10], by simp [strconv.digits, hn, hds], by simp, ?_, ?_, ?_, ?_⟩
      · intro c hc
        rcases List.mem_append.1 hc with h1 | h1
        · exact hdig c h1
        · simp at h1; subst h1; unfold isDigit; omega
      · intro a
        simp only [strconv.digitsValue, List.foldl_append, List.foldl_cons, List.foldl_nil,
          List.length_append, List.length_singleton]
        have := hval a
        simp only [strconv.digitsValue] at this
        rw [this]
        have h2 : 48 + n % 10 - 48 = n % 10 := by omega
        rw [h2, pow_succ]
        have := Nat.div_add_mod n 10
        nlinarith
      · intro _
        have := hhead (by omega)
        cases ds with
        | nil => exact absurd rfl hne
        | cons d ds' => simpa using this
      · intro h0; omega

theorem strconv.formatNat_spec (n : Nat) :
    (∀ c ∈ strconv.formatNat n, isDigit c) ∧ strconv.formatNat n ≠ [] ∧
    strconv.parseDigits (strconv.formatNat n) 0 = some n ∧
    (0 < n → (strconv.formatNat n).head? ≠ some 48) ∧ (n = 0 → strconv.formatNat n = [48]) := by
  obtain ⟨ds, hds, hne, hdig, hval, hhead, hz⟩ := strconv.digits_spec (n + 1) n [] (by omega)
  simp only [List.append_nil] at hds
  unfold strconv.formatNat
  rw [hds]
  refine ⟨hdig, hne, ?_, hhead, hz⟩
  rw [strconv.parseDigits_eq ds hdig, hval]
  simp

theorem strconv.ParseInt_FormatInt (i : Int) (h : isInt64 i) :
    strconv.ParseInt (strconv.FormatInt i) = some i := by
  obtain ⟨hdig, hne, hparse, _, _⟩ := strconv.formatNat_spec i.natAbs
  unfold isInt64 at h
  unfold strconv.FormatInt
  by_cases hi : i < 0
  · rw [if_pos hi]
    have : -((i.natAbs : Nat) : Int) = i := by omega
    simp [strconv.ParseInt, hne, hparse, this, h]
    rw [abs_of_neg hi]
    omega
  · rw [if_neg hi]
    cases hf : strconv.formatNat i.natAbs with
    | nil => exact absurd hf hne
    | cons d ds =>
      have hd : isDigit d := hdig d (by simp [hf])
      unfold isDigit at hd
      rw [hf] at hparse
      have : ((i.natAbs : Nat) : Int) = i := by omega
      unfold strconv.ParseInt
      split
      · rename_i heq
        split at heq
        · rename_i h1; simp at h1; omega
        · rename_i h1; simp at h1; omega
        · simp only [Prod.mk.injEq] at heq
          obtain ⟨h1, h2⟩ := heq
          subst h1 h2
          simp [hparse, this, h]
          omega

/-! ## UTF-8 -/

/-- A well-formed encoding of two to four bytes is recognised from its own bytes alone,
and writing the decoded rune gives these bytes back. -/
theorem utf8.DecodeRune_multi (b : Nat) (rest : Bytes) (c size : Nat)
    (h : utf8.DecodeRune (b :: rest) = (c, size)) (hb : 0x80 ≤ b) (hs : size ≠ 1) :
    ∃ pre tail, rest = pre ++ tail ∧ pre.length + 1 = size ∧
      (∀ x ∈ pre, 0x80 ≤ x ∧ x ≤ 0xBF) ∧ b < 0xF5 ∧ utf8.EncodeRune c = b :: pre ∧
      (∀ tail', utf8.DecodeRune (b :: (pre ++ tail')) = (c, size)) := by
  unfold utf8.DecodeRune at h
  have hb0 : ¬ b < 0x80 := by omega
  simp only [hb0, if_false] at h
  by_cases h1 : b < 0xC2
  · simp [h1] at h; omega
  simp only [h1, if_false] at h
  by_cases h2 : b < 0xE0
  · simp only [h2, if_true] at h
    rcases rest with _ | ⟨b1, r⟩
    · simp at h; omega
    · simp only at h
      split_ifs at h with h3
      · simp at h; omega
      · simp only [Prod.mk.injEq] at h
        obtain ⟨hc, hsz⟩ := h
        refine ⟨[b1], r, rfl, by simp [← hsz], ?_, by omega, ?_, ?_⟩
        · intro x hx; simp at hx; subst hx; omega
        · subst hc
          unfold utf8.EncodeRune
          have e1 : ¬ (b % 32 * 64 + b1 % 64 ≤ 0x7F) := by omega
          have e2 : b % 32 * 64 + b1 % 64 ≤ 0x7FF := by omega
          simp only [e1, e2, if_false, if_true]
          congr 1
          · omega
          · congr 1; omega
        · intro tail'
          simp only [utf8.DecodeRune, hb0, h1, h2, h3, if_false, if_true, List.cons_append,
            List.nil_append]
          rw [hc, hsz]
  simp only [h2, if_false] at h
  by_cases h4 : b < 0xF0
  · simp only [h4, if_true] at h
    rcases rest with _ | ⟨b1, _ | ⟨b2, r⟩⟩
    · simp at h; omega
    · simp at h; omega
    · simp only at h
      split_ifs at h with h5 h6 h7 h8 h9 h10 h11 <;>
        first
        | (simp at h; omega)
        | (simp only [Prod.mk.injEq] at h
           obtain ⟨hc, hsz⟩ := h
           refine ⟨[b1, b2], r, rfl, by simp [← hsz], ?_, by omega, ?_, ?_⟩
           · intro x hx; simp at hx; rcases hx with hx | hx <;> subst hx <;> omega
           · subst hc
             unfold utf8.EncodeRune
             have e1 : ¬ (b % 16 * 4096 + b1 % 64 * 64 + b2 % 64 ≤ 0x7F) := by omega
             have e2 : ¬ (b % 16 * 4096 + b1 % 64 * 64 + b2 % 64 ≤ 0x7FF) := by omega
             have e3 : ¬ (b % 16 * 4096 + b1 % 64 * 64 + b2 % 64 > 0x10FFFF ∨
                 (0xD800 ≤ b % 16 * 4096 + b1 % 64 * 64 + b2 % 64 ∧
                  b % 16 * 4096 + b1 % 64 * 64 + b2 % 64 ≤ 0xDFFF)) := by omega
             have e4 : b % 16 * 4096 + b1 % 64 * 64 + b2 % 64 ≤ 0xFFFF := by omega
             simp only [e1, e2, e3, e4, if_false, if_true]
             congr 1
             · omega
             · congr 1
               · omega
               · congr 1; omega
           · intro tail'
             simp only [utf8.DecodeRune, hb0, h1, h2, h4, if_false, if_true, List.cons_append,
               List.nil_append]
             simp_all
             split_ifs <;> first | rfl | omega)
  simp only [h4, if_false] at h
  by_cases h12 : b < 0xF5
  · simp only [h12, if_true] at h
    rcases rest with _ | ⟨b1, _ | ⟨b2, _ | ⟨b3, r⟩⟩⟩
    · simp at h; omega
    · simp at h; omega
    · simp at h; omega
    · simp only at h
      split_ifs at h <;>
        first
        | (simp at h; omega)
        | (simp only [Prod.mk.injEq] at h
           obtain ⟨hc, hsz⟩ := h
           refine ⟨[b1, b2, b3], r, rfl, by simp [← hsz], ?_, by omega, ?_, ?_⟩
           · intro x hx; simp at hx; rcases hx with hx | hx | hx <;> subst hx <;> omega
           · subst hc
             unfold utf8.EncodeRune
             have e1 : ¬ (b % 8 * 262144 + b1 % 64 * 4096 + b2 % 64 * 64 + b3 % 64 ≤ 0x7F) := by
               omega
             have e2 : ¬ (b % 8 * 262144 + b1 % 64 * 4096 + b2 % 64 * 64 + b3 % 64 ≤ 0x7FF) := by
               omega
             have e3 : ¬ (b % 8 * 262144 + b1 % 64 * 4096 + b2 % 64 * 64 + b3 % 64 > 0x10FFFF ∨
                 (0xD800 ≤ b % 8 * 262144 + b1 % 64 * 4096 + b2 % 64 * 64 + b3 % 64 ∧
                  b % 8 * 262144 + b1 % 64 * 4096 + b2 % 64 * 64 + b3 % 64 ≤ 0xDFFF)) := by omega
             have e4 : ¬ (b % 8 * 262144 + b1 % 64 * 4096 + b2 % 64 * 64 + b3 % 64 ≤ 0xFFFF) := by
               omega
             simp only [e1, e2, e3, e4, if_false]
             congr 1
             · omega
             · congr 1
               · omega
               · congr 1
                 · omega
                 · congr 1; omega
           · intro tail'
             simp only [utf8.DecodeRune, hb0, h1, h2, h4, h12, if_false, if_true,
               List.cons_append, List.nil_append]
             simp_all
             split_ifs <;> first | rfl | omega)
  · simp [h12] at h; omega

/-! ## JSON strings: reading what was written -/

theorem json.scanString_plain (c : Nat) (Y : Bytes) (h1 : c ≠ 34) (h2 : c ≠ 92) (h3 : 0x20 ≤ c) :
    json.scanString (c :: Y) = json.consRaw c (json.scanString Y) := by
  have h4 : ¬ c < 0x20 := by omega
  simp only [json.scanString, json.scanStringFrom, h1, h2, h4, if_false]

theorem json.scanString_esc (e : Nat) (Y : Bytes)
    (h : e = 98 ∨ e = 102 ∨ e = 110 ∨ e = 114 ∨ e = 116 ∨ e = 92 ∨ e = 47 ∨ e = 34) :
    json.scanString (92 :: e :: Y) = json.consRaw 92 (json.consRaw e (json.scanString Y)) := by
  simp only [json.scanString, json.scanStringFrom, h, if_true]
  simp

theorem json.scanString_u (h1 h2 h3 h4 : Nat) (Y : Bytes)
    (h : json.isHex h1 = true ∧ json.isHex h2 = true ∧ json.isHex h3 = true ∧
      json.isHex h4 = true) :
    json.scanString (92 :: 117 :: h1 :: h2 :: h3 :: h4 :: Y) =
      json.consRaw 92 (json.consRaw 117 (json.consRaw h1 (json.consRaw h2 (json.consRaw h3
        (json.consRaw h4 (json.scanString Y)))))) := by
  simp [json.scanString, json.scanStringFrom, h]

theorem json.isHex_hex (n : Nat) (h : n < 16) : json.isHex (json.hex n) = true := by
  unfold json.isHex json.hex
  split_ifs <;> simp <;> omega

theorem json.hexVal_hex (n : Nat) (h : n < 16) : json.hexVal (json.hex n) = n := by
  unfold json.hexVal json.hex
  split_ifs <;> omega

theorem json.unquoteLoop_plain (fuel c : Nat) (Y : Bytes) (h1 : c ≠ 92) (h2 : c < 0x80) :
    json.unquoteLoop (fuel + 1) (c :: Y) = c :: json.unquoteLoop fuel Y := by
  simp only [json.unquoteLoop, h1, h2, if_false, if_true]

theorem json.unquoteLoop_esc (fuel e : Nat) (Y : Bytes) (h : e ≠ 117) :
    json.unquoteLoop (fuel + 1) (92 :: e :: Y) = json.unescape e :: json.unquoteLoop fuel Y := by
  simp only [json.unquoteLoop, h, if_false, if_true]

theorem json.unquoteLoop_u (fuel h1 h2 h3 h4 : Nat) (Y : Bytes)
    (h : ¬ (0xD800 ≤ json.getu4 h1 h2 h3 h4 ∧ json.getu4 h1 h2 h3 h4 < 0xE000)) :
    json.unquoteLoop (fuel + 1) (92 :: 117 :: h1 :: h2 :: h3 :: h4 :: Y) =
      utf8.EncodeRune (json.getu4 h1 h2 h3 h4) ++ json.unquoteLoop fuel Y := by
  simp only [json.unquoteLoop, h, if_false, if_true]

theorem json.unquoteLoop_rune (fuel b : Nat) (Y : Bytes) (h : 0x80 ≤ b) :
    json.unquoteLoop (fuel + 1) (b :: Y) =
      utf8.EncodeRune (utf8.DecodeRune (b :: Y)).1 ++
        json.unquoteLoop fuel (Y.drop ((utf8.DecodeRune (b :: Y)).2 - 1)) := by
  have h1 : b ≠ 92 := by omega
  have h2 : ¬ b < 0x80 := by omega
  simp only [json.unquoteLoop, h1, h2, if_false]

theorem json.foldr_consRaw (chunk q rest : Bytes) :
    chunk.foldr json.consRaw (.ok (q, rest)) = .ok (chunk ++ q, rest) := by
  induction chunk with
  | nil => rfl
  | cons c cs ih => simp only [List.foldr_cons, ih, json.consRaw, List.cons_append]

theorem json.Written.nil : json.Written [] [] where
  scan := by intro rest; simp [json.scanString, json.scanStringFrom]
  unquote := by intro fuel _; cases fuel <;> rfl
  bytes := by simp

theorem json.Written.cons {chunk orig q s : Bytes} (hc : json.Chunk chunk orig)
    (hq : json.Written q s) : json.Written (chunk ++ q) (orig ++ s) where
  scan := by
    intro rest
    rw [List.append_assoc, hc.scan, hq.scan, json.foldr_consRaw]
  unquote := by
    intro fuel hlen
    have hpos : 0 < chunk.length := List.length_pos.2 hc.ne
    rw [List.length_append] at hlen
    obtain ⟨f, rfl⟩ : ∃ f, fuel = f + 1 := ⟨fuel - 1, by omega⟩
    rw [hc.unquote, hq.unquote f (by omega)]
  bytes := by
    intro x hx
    rcases List.mem_append.1 hx with h | h
    · exact hc.bytes x h
    · exact hq.bytes x h

theorem json.Chunk.plain (b : Nat) (h1 : b < 0x80) (h2 : json.htmlSafeSet b = true) :
    json.Chunk [b] [b] := by
  simp only [json.htmlSafeSet, decide_eq_true_eq] at h2
  exact {
    scan := fun Y => json.scanString_plain b Y (by omega) (by omega) (by omega)
    unquote := fun fuel Y => json.unquoteLoop_plain fuel b Y (by omega) h1
    ne := by simp
    bytes := by intro x hx; simp at hx; omega }

theorem json.Chunk.escape (b : Nat) (h1 : b < 0x80) (h2 : json.htmlSafeSet b = false) :
    json.Chunk (json.escapeByte b) [b] := by
  simp only [json.htmlSafeSet, decide_eq_false_iff_not] at h2
  unfold json.escapeByte
  by_cases c1 : b = 92 ∨ b = 34
  · rw [if_pos c1]
    exact {
      scan := fun Y => by
        rw [List.cons_append, List.cons_append, List.nil_append, json.scanString_esc b Y (by omega)]
        rfl
      unquote := fun fuel Y => by
        rw [List.cons_append, List.cons_append, List.nil_append,
          json.unquoteLoop_esc fuel b Y (by omega)]
        have : json.unescape b = b := by unfold json.unescape; split_ifs <;> omega
        rw [this]; rfl
      ne := by simp
      bytes := by intro x hx; simp at hx; omega }
  rw [if_neg c1]
  have special : ∀ (e v : Nat), (e = 98 ∨ e = 102 ∨ e = 110 ∨ e = 114 ∨ e = 116) →
      json.unescape e = v → json.Chunk [92, e] [v] := by
    intro e v he hv
    exact {
      scan := fun Y => by
        rw [List.cons_append, List.cons_append, List.nil_append, json.scanString_esc e Y (by omega)]
        rfl
      unquote := fun fuel Y => by
        rw [List.cons_append, List.cons_append, List.nil_append,
          json.unquoteLoop_esc fuel e Y (by omega), hv]
        rfl
      ne := by simp
      bytes := by intro x hx; simp at hx; omega }
  split_ifs with c2 c3 c4 c5 c6
  · subst c2; exact special 98 8 (by omega) (by decide)
  · subst c3; exact special 102 12 (by omega) (by decide)
  · subst c4; exact special 110 10 (by omega) (by decide)
  · subst c5; exact special 114 13 (by omega) (by decide)
  · subst c6; exact special 116 9 (by omega) (by decide)
  · have hx1 : json.isHex (json.hex (b / 16)) = true := json.isHex_hex _ (by omega)
    have hx2 : json.isHex (json.hex (b % 16)) = true := json.isHex_hex _ (by omega)
    have hv : json.getu4 48 48 (json.hex (b / 16)) (json.hex (b % 16)) = b := by
      unfold json.getu4
      rw [json.hexVal_hex _ (by omega), json.hexVal_hex _ (by omega)]
      have : json.hexVal 48 = 0 := by decide
      rw [this]; omega
    exact {
      scan := fun Y => by
        have := json.scanString_u 48 48 (json.hex (b / 16)) (json.hex (b % 16)) Y
          ⟨by decide, by decide, hx1, hx2⟩
        simpa using this
      unquote := fun fuel Y => by
        have := json.unquoteLoop_u fuel 48 48 (json.hex (b / 16)) (json.hex (b % 16)) Y
          (by rw [hv]; omega)
        rw [hv] at this
        have he : utf8.EncodeRune b = [b] := by
          unfold utf8.EncodeRune; rw [if_pos (by omega)]
        rw [he] at this
        simpa using this
      ne := by simp
      bytes := by
        intro x hx
        simp at hx
        have a1 : json.hex (b / 16) < 256 := by unfold json.hex; split_ifs <;> omega
        have a2 : json.hex (b % 16) < 256 := by unfold json.hex; split_ifs <;> omega
        omega }

theorem json.scanString_high (pre Y : Bytes) (h : ∀ x ∈ pre, 0x80 ≤ x) :
    json.scanString (pre ++ Y) = pre.foldr json.consRaw (json.scanString Y) := by
  induction pre with
  | nil => rfl
  | cons c cs ih =>
    have hc : 0x80 ≤ c := h c (by simp)
    rw [List.cons_append, json.scanString_plain c _ (by omega) (by omega) (by omega),
      ih (fun x hx => h x (by simp [hx]))]
    rfl

theorem json.Chunk.rune (b c size : Nat) (pre : Bytes) (hb : 0x80 ≤ b) (hb' : b < 0xF5)
    (hpre : ∀ x ∈ pre, 0x80 ≤ x ∧ x ≤ 0xBF) (hsize : pre.length + 1 = size)
    (henc : utf8.EncodeRune c = b :: pre)
    (hdec : ∀ tail', utf8.DecodeRune (b :: (pre ++ tail')) = (c, size)) :
    json.Chunk (b :: pre) (b :: pre) where
  scan := fun Y => by
    have := json.scanString_high (b :: pre) Y (by
      intro x hx
      rcases List.mem_cons.1 hx with h | h
      · omega
      · exact (hpre x h).1)
    simpa using this
  unquote := fun fuel Y => by
    rw [List.cons_append, json.unquoteLoop_rune fuel b _ hb, hdec Y, henc]
    have : (pre ++ Y).drop (size - 1) = Y := by
      rw [← hsize]; simp
    simp only [this]
  ne := by simp
  bytes := by
    intro x hx
    rcases List.mem_cons.1 hx with h | h
    · omega
    · have := (hpre x h).2; omega

theorem json.Chunk.separator (c : Nat) (orig : Bytes) (hc : c = 0x2028 ∨ c = 0x2029)
    (henc : utf8.EncodeRune c = orig) :
    json.Chunk [92, 117, 50, 48, 50, json.hex (c % 16)] orig := by
  have hx : json.isHex (json.hex (c % 16)) = true := json.isHex_hex _ (by omega)
  have hv : json.getu4 50 48 50 (json.hex (c % 16)) = c := by
    unfold json.getu4
    rw [json.hexVal_hex _ (by omega)]
    have h1 : json.hexVal 48 = 0 := by decide
    have h2 : json.hexVal 50 = 2 := by decide
    rw [h1, h2]; omega
  exact {
    scan := fun Y => by
      have := json.scanString_u 50 48 50 (json.hex (c % 16)) Y ⟨by decide, by decide, by decide, hx⟩
      simpa using this
    unquote := fun fuel Y => by
      have := json.unquoteLoop_u fuel 50 48 50 (json.hex (c % 16)) Y (by rw [hv]; omega)
      rw [hv, henc] at this
      simpa using this
    ne := by simp
    bytes := by
      intro x hx
      simp at hx
      have a2 : json.hex (c % 16) < 256 := by unfold json.hex; split_ifs <;> omega
      omega }

/-- The string writer on valid UTF-8: its output is scanned up to the closing quote, unquotes
to the string written, and consists of bytes. -/
theorem json.appendStringLoop_written (fuel : Nat) : ∀ s : Bytes, s.length ≤ fuel →
    utf8.validFuel fuel s = true → json.Written (json.appendStringLoop fuel s) s := by
  induction fuel with
  | zero =>
    intro s hlen _
    have : s = [] := List.length_eq_zero.1 (by omega)
    subst this
    exact json.Written.nil
  | succ f ih =>
    intro s hlen hvalid
    cases s with
    | nil => exact json.Written.nil
    | cons b rest =>
      simp only [List.length_cons] at hlen
      by_cases hb : b < 0x80
      · have hd : utf8.DecodeRune (b :: rest) = (b, 1) := by simp [utf8.DecodeRune, hb]
        have hv : utf8.validFuel f rest = true := by
          simp only [utf8.validFuel, hd] at hvalid
          simp at hvalid
          exact hvalid.2
        have hq := ih rest (by omega) hv
        cases hs : json.htmlSafeSet b with
        | true =>
          have := json.Written.cons (json.Chunk.plain b hb hs) hq
          simpa [json.appendStringLoop, hb, hs] using this
        | false =>
          have := json.Written.cons (json.Chunk.escape b hb hs) hq
          simpa [json.appendStringLoop, hb, hs] using this
      · cases hd : utf8.DecodeRune (b :: rest) with
        | mk c size =>
          have hs1 : size ≠ 1 := by
            intro h1
            simp only [utf8.validFuel, hd] at hvalid
            have : (size = 1 ∧ 0x80 ≤ b) := ⟨h1, by omega⟩
            simp [this] at hvalid
          have hv : utf8.validFuel f (rest.drop (size - 1)) = true := by
            simp only [utf8.validFuel, hd] at hvalid
            have : ¬ (size = 1 ∧ 0x80 ≤ b) := fun h => hs1 h.1
            simpa [this] using hvalid
          obtain ⟨pre, tail, hrest, hsize, hpre, hb', henc, hdec⟩ :=
            utf8.DecodeRune_multi b rest c size hd (by omega) hs1
          subst hrest
          have hdrop : (pre ++ tail).drop (size - 1) = tail := by
            rw [← hsize]; simp
          have htake : (b :: (pre ++ tail)).take size = b :: pre := by
            rw [← hsize]; simp
          rw [hdrop] at hv
          have hq := ih tail (by rw [List.length_append] at hlen; omega) hv
          have hne : ¬ (c = utf8.RuneError ∧ size = 1) := fun h => hs1 h.2
          by_cases hsep : c = 0x2028 ∨ c = 0x2029
          · have := json.Written.cons (json.Chunk.separator c (b :: pre) hsep henc) hq
            simpa [json.appendStringLoop, hb, hd, hne, hsep, hdrop] using this
          · have := json.Written.cons
              (json.Chunk.rune b c size pre (by omega) hb' hpre hsize henc hdec) hq
            simpa [json.appendStringLoop, hb, hd, hne, hsep, hdrop, htake] using this

/-- A valid UTF-8 string is read back from its JSON form. -/
theorem json.appendString_spec (s : Bytes) (h : utf8.Valid s = true) :
    (∀ rest, json.scanString (json.appendStringLoop s.length s ++ 34 :: rest) =
      .ok (json.appendStringLoop s.length s, rest)) ∧
    json.unquote (json.appendStringLoop s.length s) = s ∧
    (∀ x ∈ json.appendString s, x < 256) := by
  have hw := json.appendStringLoop_written s.length s (le_refl _) h
  refine ⟨hw.scan, hw.unquote _ (le_refl _), ?_⟩
  intro x hx
  simp only [json.appendString, List.mem_cons, List.mem_append, List.mem_singleton,
    List.not_mem_nil, or_false] at hx
  rcases hx with h1 | h1 | h1
  · omega
  · exact hw.bytes x h1
  · omega

/-! ## time: reading what was written -/

theorem strconv.digits_append (fuel : Nat) : ∀ (n : Nat) (acc : Bytes),
    strconv.digits fuel n acc = strconv.digits fuel n [] ++ acc := by
  induction fuel with
  | zero => intro n acc; rfl
  | succ f ih =>
    intro n acc
    by_cases hn : n < 10
    · simp [strconv.digits, hn]
    · simp only [strconv.digits, hn, if_false]
      rw [ih (n / 10) ((48 + n % 10) :: acc), ih (n / 10) [48 + n % 10]]
      simp

theorem strconv.digits_fuel (f1 : Nat) : ∀ (f2 n : Nat) (acc : Bytes), n < f1 → n < f2 →
    strconv.digits f1 n acc = strconv.digits f2 n acc := by
  induction f1 with
  | zero => intro f2 n acc h; omega
  | succ f ih =>
    intro f2 n acc h1 h2
    obtain ⟨g, rfl⟩ : ∃ g, f2 = g + 1 := ⟨f2 - 1, by omega⟩
    by_cases hn : n < 10
    · simp [strconv.digits, hn]
    · simp only [strconv.digits, hn, if_false]
      exact ih g (n / 10) _ (by omega) (by omega)

theorem strconv.formatNat_small (n : Nat) (h : n < 10) : strconv.formatNat n = [48 + n] := by
  simp [strconv.formatNat, strconv.digits, h]

theorem strconv.digits_succ (fuel n : Nat) (acc : Bytes) :
    strconv.digits (fuel + 1) n acc =
      if n < 10 then (48 + n) :: acc else strconv.digits fuel (n / 10) ((48 + n % 10) :: acc) :=
  rfl

theorem strconv.formatNat_step (n : Nat) (h : ¬ n < 10) :
    strconv.formatNat n = strconv.formatNat (n / 10) ++ [48 + n % 10] := by
  unfold strconv.formatNat
  rw [strconv.digits_succ n n [], if_neg h, strconv.digits_append,
    strconv.digits_fuel n (n / 10 + 1) (n / 10) [] (by omega) (by omega)]

theorem fixedDigits_zero (width : Nat) : fixedDigits width 0 = List.replicate width 48 := by
  induction width with
  | zero => rfl
  | succ w ih =>
    simp only [fixedDigits, Nat.zero_div, ih, Nat.zero_mod, Nat.add_zero]
    exact (List.replicate_succ' w 48).symm

theorem fixedDigits_length (width : Nat) : ∀ x, (fixedDigits width x).length = width := by
  induction width with
  | zero => intro x; rfl
  | succ w ih => intro x; simp [fixedDigits, ih]

theorem strconv.formatNat_length_le (width : Nat) : ∀ x, x < 10 ^ width → 0 < width →
    (strconv.formatNat x).length ≤ width := by
  induction width with
  | zero => intro x _ h; omega
  | succ w ih =>
    intro x hx _
    by_cases hn : x < 10
    · rw [strconv.formatNat_small x hn]; simp
    · rw [strconv.formatNat_step x hn]
      have hw : 0 < w := by
        rcases Nat.eq_zero_or_pos w with h0 | h0
        · subst h0; simp at hx; omega
        · exact h0
      have := ih (x / 10) (Nat.div_lt_of_lt_mul (by rw [pow_succ] at hx; omega)) hw
      simp; omega

theorem time.appendInt_eq (width : Nat) : ∀ x, x < 10 ^ width → 0 < width →
    time.appendInt x width = fixedDigits width x := by
  induction width with
  | zero => intro x _ h; omega
  | succ w ih =>
    intro x hx _
    by_cases hn : x < 10
    · unfold time.appendInt
      rw [strconv.formatNat_small x hn]
      simp only [fixedDigits, List.length_singleton, Nat.add_sub_cancel]
      have h0 : x / 10 = 0 := by omega
      have h1 : x % 10 = x := by omega
      rw [h0, h1, fixedDigits_zero]
    · have hw : 0 < w := by
        rcases Nat.eq_zero_or_pos w with h0 | h0
        · subst h0; simp at hx; omega
        · exact h0
      have hx' : x / 10 < 10 ^ w := Nat.div_lt_of_lt_mul (by rw [pow_succ] at hx; omega)
      have hih := ih (x / 10) hx' hw
      unfold time.appendInt at hih ⊢
      rw [strconv.formatNat_step x hn]
      simp only [fixedDigits, List.length_append, List.length_singleton]
      rw [← hih, ← List.append_assoc]
      have e : w + 1 - ((strconv.formatNat (x / 10)).length + 1) =
          w - (strconv.formatNat (x / 10)).length := by omega
      simp only [e]

theorem time.appendInt_two (x : Nat) (h : x < 100) :
    time.appendInt x 2 = [48 + x / 10, 48 + x % 10] := by
  rw [time.appendInt_eq 2 x (by norm_num; omega) (by omega)]
  simp only [fixedDigits, List.nil_append, List.cons_append]
  have : x / 10 % 10 = x / 10 := by omega
  rw [this]

theorem time.appendInt_four (x : Nat) (h : x < 10000) :
    time.appendInt x 4 = [48 + x / 1000, 48 + x / 100 % 10, 48 + x / 10 % 10, 48 + x % 10] := by
  rw [time.appendInt_eq 4 x (by norm_num; omega) (by omega)]
  simp only [fixedDigits, List.nil_append, List.cons_append]
  have e1 : x / 10 / 10 / 10 % 10 = x / 1000 := by omega
  have e2 : x / 10 / 10 % 10 = x / 100 % 10 := by omega
  rw [e1, e2]

theorem time.parseUint_two (a b min max : Nat) (ha : a ≤ 9) (hb : b ≤ 9)
    (h1 : min ≤ a * 10 + b) (h2 : a * 10 + b ≤ max) :
    time.parseUint [48 + a, 48 + b] min max = some (a * 10 + b) := by
  have e1 : 48 ≤ 48 + a ∧ 48 + a ≤ 57 := by omega
  have e2 : 48 ≤ 48 + b ∧ 48 + b ≤ 57 := by omega
  have e3 : ¬ (a * 10 + b < min ∨ max < a * 10 + b) := by omega
  simp [time.parseUint, strconv.parseDigits, e1, e2, e3]

theorem time.parseUint_four (a b c d max : Nat) (ha : a ≤ 9) (hb : b ≤ 9) (hc : c ≤ 9)
    (hd : d ≤ 9) (h2 : ((a * 10 + b) * 10 + c) * 10 + d ≤ max) :
    time.parseUint [48 + a, 48 + b, 48 + c, 48 + d] 0 max =
      some (((a * 10 + b) * 10 + c) * 10 + d) := by
  have e1 : 48 ≤ 48 + a ∧ 48 + a ≤ 57 := by omega
  have e2 : 48 ≤ 48 + b ∧ 48 + b ≤ 57 := by omega
  have e3 : 48 ≤ 48 + c ∧ 48 + c ≤ 57 := by omega
  have e4 : 48 ≤ 48 + d ∧ 48 + d ≤ 57 := by omega
  have e5 : ¬ (max < ((a * 10 + b) * 10 + c) * 10 + d) := by omega
  simp [time.parseUint, strconv.parseDigits, e1, e2, e3, e4, e5]

theorem time.parseZone_appendZone (zone : Int) (h : zone.natAbs < 1440) :
    time.parseZone (time.appendZone zone) = some zone := by
  unfold time.appendZone
  by_cases hz : zone = 0
  · subst hz; rfl
  · rw [if_neg hz, time.appendInt_two _ (by omega), time.appendInt_two _ (by omega)]
    simp only [List.cons_append, List.nil_append]
    unfold time.parseZone
    have p1 := time.parseUint_two (zone.natAbs / 60 / 10) (zone.natAbs / 60 % 10) 0 23
      (by omega) (by omega) (by omega) (by omega)
    have p2 := time.parseUint_two (zone.natAbs % 60 / 10) (zone.natAbs % 60 % 10) 0 59
      (by omega) (by omega) (by omega) (by omega)
    by_cases hneg : zone < 0
    · simp only [hneg, if_true, p1, p2, true_or, and_self]
      congr 1
      omega
    · simp only [hneg, if_false, p1, p2, or_true, and_self, if_true]
      rw [if_neg (by decide)]
      congr 1
      omega

theorem fixedDigits_digits (width : Nat) : ∀ x, ∀ c ∈ fixedDigits width x, isDigit c := by
  induction width with
  | zero => intro x c hc; simp [fixedDigits] at hc
  | succ w ih =>
    intro x c hc
    simp only [fixedDigits, List.mem_append, List.mem_singleton] at hc
    rcases hc with h | h
    · exact ih _ c h
    · subst h; unfold isDigit; omega

theorem strconv.digitsValue_append (xs ys : Bytes) (a : Nat) :
    strconv.digitsValue (xs ++ ys) a = strconv.digitsValue ys (strconv.digitsValue xs a) := by
  simp [strconv.digitsValue, List.foldl_append]

theorem fixedDigits_value (width : Nat) : ∀ x a, x < 10 ^ width →
    strconv.digitsValue (fixedDigits width x) a = a * 10 ^ width + x := by
  induction width with
  | zero => intro x a hx; simp at hx; subst hx; simp [fixedDigits, strconv.digitsValue]
  | succ w ih =>
    intro x a hx
    have hx' : x / 10 < 10 ^ w := Nat.div_lt_of_lt_mul (by rw [pow_succ] at hx; omega)
    simp only [fixedDigits, strconv.digitsValue_append, ih (x / 10) a hx']
    simp only [strconv.digitsValue, List.foldl_cons, List.foldl_nil, pow_succ]
    have h2 : 48 + x % 10 - 48 = x % 10 := by omega
    rw [h2]
    have := Nat.div_add_mod x 10
    nlinarith

theorem strconv.digitsValue_zeros (k : Nat) : ∀ a,
    strconv.digitsValue (List.replicate k 48) a = a * 10 ^ k := by
  induction k with
  | zero => intro a; simp [strconv.digitsValue]
  | succ k ih =>
    intro a
    rw [List.replicate_succ]
    have : strconv.digitsValue (48 :: List.replicate k 48) a =
        strconv.digitsValue (List.replicate k 48) (a * 10) := by
      simp [strconv.digitsValue]
    rw [this, ih, pow_succ]
    ring

theorem time.trimZeros_append (ds : Bytes) :
    ∃ k, ds = time.trimZeros ds ++ List.replicate k 48 ∧
      (time.trimZeros ds).getLast? ≠ some 48 := by
  unfold time.trimZeros
  refine ⟨(ds.reverse.takeWhile (fun c => decide (c = 48))).length, ?_, ?_⟩
  · have h := List.takeWhile_append_dropWhile (fun c => decide (c = 48)) ds.reverse
    have h2 : ds = (ds.reverse.dropWhile (fun c => decide (c = 48))).reverse ++
        (ds.reverse.takeWhile (fun c => decide (c = 48))).reverse := by
      rw [← List.reverse_append, h, List.reverse_reverse]
    have h3 : ds.reverse.takeWhile (fun c => decide (c = 48)) =
        List.replicate (ds.reverse.takeWhile (fun c => decide (c = 48))).length 48 := by
      apply List.eq_replicate_of_mem
      intro b hb
      have := List.mem_takeWhile_imp hb
      simpa using this
    conv_lhs => rw [h2]
    congr 1
    rw [h3, List.reverse_replicate, List.length_replicate]
  · rw [List.getLast?_reverse]
    intro h
    cases hd : ds.reverse.dropWhile (fun c => decide (c = 48)) with
    | nil => rw [hd] at h; simp at h
    | cons x xs =>
      rw [hd] at h
      simp only [List.head?_cons, Option.some.injEq] at h
      have := List.head_dropWhile_not (fun c => decide (c = 48)) ds.reverse (by rw [hd]; simp)
      simp only [hd, List.head_cons] at this
      simp [h] at this

theorem time.spanDigits_append (ds : Bytes) (c : Nat) (rest : Bytes)
    (hds : ∀ x ∈ ds, isDigit x) (hc : ¬ isDigit c) :
    time.spanDigits (ds ++ c :: rest) = (ds, c :: rest) := by
  induction ds with
  | nil =>
    unfold isDigit at hc
    simp [time.spanDigits, hc]
  | cons d ds ih =>
    have hd : isDigit d := hds d (by simp)
    unfold isDigit at hd
    have ih' := ih (fun x hx => hds x (by simp [hx]))
    simp only [List.cons_append, time.spanDigits, hd, and_self, if_true]
    rw [show ds.append (c :: rest) = ds ++ c :: rest from rfl, ih']

theorem time.parseNanoseconds_trim (nsec : Nat) (h0 : nsec ≠ 0) (h : nsec < 10 ^ 9) :
    time.trimZeros (fixedDigits 9 nsec) ≠ [] ∧
    (∀ x ∈ time.trimZeros (fixedDigits 9 nsec), isDigit x) ∧
    time.parseNanoseconds (time.trimZeros (fixedDigits 9 nsec)) = nsec := by
  obtain ⟨k, hk, _⟩ := time.trimZeros_append (fixedDigits 9 nsec)
  have hlen : (time.trimZeros (fixedDigits 9 nsec)).length + k = 9 := by
    have := congrArg List.length hk
    rw [fixedDigits_length, List.length_append, List.length_replicate] at this
    omega
  have hdig : ∀ x ∈ time.trimZeros (fixedDigits 9 nsec), isDigit x := by
    intro x hx
    apply fixedDigits_digits 9 nsec
    rw [hk]
    exact List.mem_append_left _ hx
  have hval : strconv.digitsValue (time.trimZeros (fixedDigits 9 nsec)) 0 * 10 ^ k = nsec := by
    have := fixedDigits_value 9 nsec 0 h
    rw [hk, strconv.digitsValue_append, strconv.digitsValue_zeros] at this
    simpa using this
  refine ⟨?_, hdig, ?_⟩
  · intro hnil
    rw [hnil] at hval
    simp [strconv.digitsValue] at hval
    omega
  · unfold time.parseNanoseconds
    have htake : (time.trimZeros (fixedDigits 9 nsec)).take 9 =
        time.trimZeros (fixedDigits 9 nsec) := List.take_of_length_le (by omega)
    have : 9 - (time.trimZeros (fixedDigits 9 nsec)).length = k := by omega
    simp only [htake, strconv.parseDigits_eq _ hdig, Option.getD_some, this, hval]

theorem time.parseUint_two' (x min max : Nat) (hx : x < 100) (h1 : min ≤ x) (h2 : x ≤ max) :
    time.parseUint [48 + x / 10, 48 + x % 10] min max = some x := by
  have := time.parseUint_two (x / 10) (x % 10) min max (by omega) (by omega) (by omega) (by omega)
  rw [this]; congr 1; omega

theorem time.parseUint_four' (x max : Nat) (hx : x < 10000) (h2 : x ≤ max) :
    time.parseUint [48 + x / 1000, 48 + x / 100 % 10, 48 + x / 10 % 10, 48 + x % 10] 0 max =
      some x := by
  have := time.parseUint_four (x / 1000) (x / 100 % 10) (x / 10 % 10) (x % 10) max (by omega)
    (by omega) (by omega) (by omega) (by omega)
  rw [this]; congr 1; omega

theorem time.appendZone_head (zone : Int) :
    ∃ c rest, time.appendZone zone = c :: rest ∧ ¬ isDigit c ∧ c ≠ 46 := by
  unfold time.appendZone isDigit
  by_cases hz : zone = 0
  · exact ⟨90, [], by simp [hz], by omega, by omega⟩
  · by_cases hn : zone < 0
    · exact ⟨45, _, by rw [if_neg hz, if_pos hn], by omega, by omega⟩
    · exact ⟨43, _, by rw [if_neg hz, if_neg hn], by omega, by omega⟩

theorem daysIn_le (month : Nat) (year : Int) : daysIn month year ≤ 31 := by
  unfold daysIn; split_ifs <;> omega

/-- The fraction written after the seconds is read back, up to the zone. -/
theorem time.parseFraction_appendNano (nsec : Nat) (zone : Int) (hn : nsec ≤ 999999999) :
    time.parseFraction (time.appendNano nsec ++ time.appendZone zone) =
      (nsec, time.appendZone zone) := by
  obtain ⟨c, zrest, hzone, hc, hc46⟩ := time.appendZone_head zone
  unfold time.appendNano
  by_cases h0 : nsec = 0
  · subst h0
    simp only [if_true, List.nil_append]
    rw [hzone]
    unfold time.parseFraction
    split
    · rename_i heq; simp at heq; omega
    · rfl
  · rw [if_neg h0, time.appendInt_eq 9 nsec (by norm_num; omega) (by omega)]
    obtain ⟨hne, hdig, hval⟩ := time.parseNanoseconds_trim nsec h0 (by norm_num; omega)
    simp only [List.cons_append, time.parseFraction]
    rw [hzone, time.spanDigits_append _ c zrest hdig hc]
    cases ht : time.trimZeros (fixedDigits 9 nsec) with
    | nil => exact absurd ht hne
    | cons d ds =>
      rw [ht] at hval
      simp only [hval]

/-- A well-formed time is read back from its RFC 3339 form. -/
theorem time.parseRFC3339_appendFormatRFC3339 (t : Time) (h : t.wellFormed) :
    time.parseRFC3339 (time.appendFormatRFC3339 t) = some t := by
  obtain ⟨hy0, hy1, hm0, hm1, hd0, hd1, hh, hmi, hs, hn, hz⟩ := h
  have hdl := daysIn_le t.month t.year
  have hyear : ((t.year.toNat : Nat) : Int) = t.year := Int.toNat_of_nonneg hy0
  unfold time.appendFormatRFC3339
  rw [time.appendInt_four t.year.toNat (by omega), time.appendInt_two t.month (by omega),
    time.appendInt_two t.day (by omega), time.appendInt_two t.hour (by omega),
    time.appendInt_two t.minute (by omega), time.appendInt_two t.second (by omega)]
  simp only [List.cons_append, List.nil_append]
  unfold time.parseRFC3339
  simp only [time.parseUint_four' t.year.toNat 9999 (by omega) (by omega),
    time.parseUint_two' t.month 1 12 (by omega) hm0 hm1,
    time.parseUint_two' t.hour 0 23 (by omega) (by omega) hh,
    time.parseUint_two' t.minute 0 59 (by omega) (by omega) hmi,
    time.parseUint_two' t.second 0 59 (by omega) (by omega) hs, hyear,
    time.parseUint_two' t.day 1 (daysIn t.month t.year) (by omega) hd0 hd1,
    and_self, if_true, time.parseFraction_appendNano t.nsec t.zone hn,
    time.parseZone_appendZone t.zone hz]

/-! ## JSON: reading a written page token -/

theorem json.scanString_plainList (xs rest : Bytes) (h : ∀ x ∈ xs, json.isPlain x) :
    json.scanString (xs ++ 34 :: rest) = .ok (xs, rest) := by
  induction xs with
  | nil => simp [json.scanString, json.scanStringFrom]
  | cons c cs ih =>
    have hc : json.isPlain c := h c (by simp)
    unfold json.isPlain at hc
    rw [List.cons_append, json.scanString_plain c _ hc.2.1 hc.2.2 hc.1,
      ih (fun x hx => h x (by simp [hx]))]
    rfl

theorem json.skipSpace_cons (c : Nat) (rest : Bytes) (h : json.isSpace c = false) :
    json.skipSpace (c :: rest) = c :: rest := by
  simp [json.skipSpace, h]

theorem json.isSpace_digit (c : Nat) (h : isDigit c) : json.isSpace c = false := by
  unfold isDigit at h
  simp [json.isSpace]; omega

/-- The scanner reads a written integer up to the comma or brace after it. -/
theorem json.scanNumber_FormatInt (i : Int) (c : Nat) (rest : Bytes) (hc : c = 44 ∨ c = 125) :
    json.scanNumber (strconv.FormatInt i ++ c :: rest) = .ok (strconv.FormatInt i, c :: rest) := by
  obtain ⟨hdig, hne, _, hhead, hzero⟩ := strconv.formatNat_spec i.natAbs
  have hcd : ¬ isDigit c := by unfold isDigit; omega
  have key : ∀ sign : Bytes, json.scanDigits sign (strconv.formatNat i.natAbs ++ c :: rest) =
      .ok (sign ++ strconv.formatNat i.natAbs, c :: rest) := by
    intro sign
    cases hf : strconv.formatNat i.natAbs with
    | nil => exact absurd hf hne
    | cons d ds =>
      have hd : isDigit d := hdig d (by simp [hf])
      have hds : ∀ x ∈ ds, isDigit x := fun x hx => hdig x (by simp [hf, hx])
      unfold isDigit at hd
      have hd' : ¬ (d < 48 ∨ 57 < d) := by omega
      simp only [json.scanDigits, List.cons_append, hd', if_false]
      by_cases h48 : d = 48
      · have hi0 : i.natAbs = 0 := by
          by_contra hpos
          have := hhead (by omega)
          rw [hf] at this
          simp [h48] at this
        have := hzero hi0
        rw [hf] at this
        simp only [List.cons.injEq] at this
        obtain ⟨_, hds0⟩ := this
        subst hds0
        simp only [h48, if_true, List.nil_append]
        rcases hc with hc | hc <;> subst hc <;> simp
      · simp only [h48, if_false, time.spanDigits_append ds c rest hds hcd]
        rcases hc with hc | hc <;> subst hc <;> simp
  unfold strconv.FormatInt
  by_cases hi : i < 0
  · rw [if_pos hi]
    have := key [45]
    simpa [json.scanNumber] using this
  · rw [if_neg hi]
    have := key []
    simp only [List.nil_append] at this
    cases hf : strconv.formatNat i.natAbs with
    | nil => exact absurd hf hne
    | cons d ds =>
      have hd : isDigit d := hdig d (by simp [hf])
      unfold isDigit at hd
      rw [hf] at this
      unfold json.scanNumber
      split
      · rename_i heq; simp at heq; omega
      · exact this

theorem strconv.FormatInt_head (i : Int) :
    ∃ c0 tl, strconv.FormatInt i = c0 :: tl ∧ (c0 = 45 ∨ isDigit c0) ∧
      ∀ x ∈ strconv.FormatInt i, x < 256 := by
  obtain ⟨hdig, hne, _, _, _⟩ := strconv.formatNat_spec i.natAbs
  have hb : ∀ x ∈ strconv.formatNat i.natAbs, x < 256 := by
    intro x hx; have := hdig x hx; unfold isDigit at this; omega
  unfold strconv.FormatInt
  by_cases hi : i < 0
  · rw [if_pos hi]
    refine ⟨45, _, rfl, Or.inl rfl, ?_⟩
    intro x hx
    rcases List.mem_cons.1 hx with h | h
    · omega
    · exact hb x h
  · rw [if_neg hi]
    cases hf : strconv.formatNat i.natAbs with
    | nil => exact absurd hf hne
    | cons d ds =>
      exact ⟨d, ds, rfl, Or.inr (hdig d (by simp [hf])), by rw [← hf]; exact hb⟩

/-- The parser reads a written integer up to the comma or brace after it. -/
theorem json.parseValue_number (fuel depth : Nat) (i : Int) (c : Nat) (rest : Bytes)
    (hc : c = 44 ∨ c = 125) :
    json.parseValue (fuel + 1) depth (strconv.FormatInt i ++ c :: rest) =
      .ok (.number (strconv.FormatInt i), c :: rest) := by
  have hscan := json.scanNumber_FormatInt i c rest hc
  obtain ⟨c0, tl, hf, hc0, _⟩ := strconv.FormatInt_head i
  rw [hf] at hscan ⊢
  rw [List.cons_append] at hscan ⊢
  have hsp : json.isSpace c0 = false := by
    unfold isDigit at hc0
    simp [json.isSpace]; omega
  unfold isDigit at hc0
  have h1 : c0 ≠ 123 := by omega
  have h2 : c0 ≠ 91 := by omega
  have h3 : c0 ≠ 34 := by omega
  have h4 : c0 = 45 ∨ (48 ≤ c0 ∧ c0 ≤ 57) := hc0
  rw [json.parseValue, json.skipSpace_cons c0 _ hsp]
  simp only [h1, h2, h3, h4, if_false, if_true, hscan]

/-- The parser reads a string literal whose contents the scanner accepts. -/
theorem json.parseValue_string (fuel depth : Nat) (q rest : Bytes)
    (h : json.scanString (q ++ 34 :: rest) = .ok (q, rest)) :
    json.parseValue (fuel + 1) depth (34 :: (q ++ 34 :: rest)) = .ok (.string q, rest) := by
  rw [json.parseValue, json.skipSpace_cons 34 _ (by decide)]
  simp only [h]
  simp

/-- One member of an object: a key of plain bytes, a colon, and a value that is read up to
the comma or closing brace after it. -/
theorem json.parseMembers_step (fuel depth : Nat) (key V : Bytes) (v : json.Value) (c : Nat)
    (rest : Bytes) (acc : List (Bytes × json.Value)) (hkey : ∀ x ∈ key, json.isPlain x)
    (hv : json.parseValue fuel depth V = .ok (v, c :: rest)) (hc : c = 44 ∨ c = 125) :
    json.parseMembers (fuel + 1) depth (34 :: (key ++ 34 :: 58 :: V)) acc =
      if c = 44 then json.parseMembers fuel depth rest (acc ++ [(key, v)])
      else .ok (.object (acc ++ [(key, v)]), rest) := by
  rw [json.parseMembers, json.skipSpace_cons 34 _ (by decide)]
  have hsc : json.isSpace c = false := by
    rcases hc with h | h <;> subst h <;> decide
  simp only [json.scanString_plainList key _ hkey, json.skipSpace_cons 58 _ (by decide), hv,
    json.skipSpace_cons c _ hsc]
  rcases hc with h | h <;> subst h <;> simp

/-- The parser reads the five members of a written page token. -/
theorem json.parseValue_tokenText (k : Nat) (L O : Int) (qFB qF fmt : Bytes)
    (hFB : ∀ rest, json.scanString (qFB ++ 34 :: rest) = .ok (qFB, rest))
    (hF : ∀ rest, json.scanString (qF ++ 34 :: rest) = .ok (qF, rest))
    (hfmt : ∀ x ∈ fmt, json.isPlain x) :
    json.parseValue (k + 7) 0
        (json.tokenText (strconv.FormatInt L) (strconv.FormatInt O) qFB qF fmt) =
      .ok (.object [(str "limit", .number (strconv.FormatInt L)),
        (str "offset", .number (strconv.FormatInt O)), (str "filter_by", .string qFB),
        (str "filter", .string qF), (str "time", .string fmt)], []) := by
  unfold json.tokenText
  rw [json.parseValue, json.skipSpace_cons 123 _ (by decide)]
  have hd : ¬ json.maxNestingDepth ≤ 0 := by decide
  simp only [hd, if_true, if_false, json.skipSpace_cons 34 _ (by decide)]
  have h125 : ¬ (34 = 125) := by decide
  simp only [h125, if_false]
  rw [json.parseMembers_step (k + 5) 1 (str "limit") _ _ 44 _ [] (by decide)
    (json.parseValue_number (k + 4) 1 L 44 _ (Or.inl rfl)) (Or.inl rfl), if_pos rfl]
  rw [json.parseMembers_step (k + 4) 1 (str "offset") _ _ 44 _ _ (by decide)
    (json.parseValue_number (k + 3) 1 O 44 _ (Or.inl rfl)) (Or.inl rfl), if_pos rfl]
  rw [json.parseMembers_step (k + 3) 1 (str "filter_by") _ _ 44 _ _ (by decide)
    (json.parseValue_string (k + 2) 1 qFB _ (hFB _)) (Or.inl rfl), if_pos rfl]
  rw [json.parseMembers_step (k + 2) 1 (str "filter") _ _ 44 _ _ (by decide)
    (json.parseValue_string (k + 1) 1 qF _ (hF _)) (Or.inl rfl), if_pos rfl]
  rw [json.parseMembers_step (k + 1) 1 (str "time") _ _ 125 _ _ (by decide)
    (json.parseValue_string k 1 fmt _ (json.scanString_plainList fmt _ hfmt)) (Or.inr rfl),
    if_neg (by decide)]
  rfl

theorem time.appendInt_digits (x width : Nat) : ∀ c ∈ time.appendInt x width, isDigit c := by
  intro c hc
  unfold time.appendInt at hc
  simp only [List.mem_append] at hc
  rcases hc with h | h
  · have := List.eq_of_mem_replicate h
    subst this; unfold isDigit; omega
  · exact (strconv.formatNat_spec x).1 c h

theorem time.trimZeros_subset (ds : Bytes) : ∀ c ∈ time.trimZeros ds, c ∈ ds := by
  intro c hc
  obtain ⟨k, hk, _⟩ := time.trimZeros_append ds
  rw [hk]
  exact List.mem_append_left _ hc

theorem time.appendFormatRFC3339_bytes (t : Time) :
    ∀ c ∈ time.appendFormatRFC3339 t, time.isTimeByte c := by
  have hA : ∀ x w, ∀ c ∈ time.appendInt x w, time.isTimeByte c :=
    fun x w c hc => Or.inl (time.appendInt_digits x w c hc)
  have hnano : ∀ c ∈ time.appendNano t.nsec, time.isTimeByte c := by
    intro c h
    unfold time.appendNano at h
    split_ifs at h
    · simp at h
    · rcases List.mem_cons.1 h with h1 | h1
      · unfold time.isTimeByte; omega
      · exact Or.inl (time.appendInt_digits _ _ c (time.trimZeros_subset _ c h1))
  have hzone : ∀ c ∈ time.appendZone t.zone, time.isTimeByte c := by
    intro c h
    unfold time.appendZone at h
    split_ifs at h
    · simp at h; unfold time.isTimeByte; omega
    · simp only [List.mem_cons, List.mem_append] at h
      rcases h with h1 | h1 | h1 | h1
      · unfold time.isTimeByte; omega
      · exact hA _ _ c h1
      · unfold time.isTimeByte; omega
      · exact hA _ _ c h1
    · simp only [List.mem_cons, List.mem_append] at h
      rcases h with h1 | h1 | h1 | h1
      · unfold time.isTimeByte; omega
      · exact hA _ _ c h1
      · unfold time.isTimeByte; omega
      · exact hA _ _ c h1
  unfold time.appendFormatRFC3339
  simp only [List.forall_mem_append, List.forall_mem_cons]
  refine ⟨⟨⟨⟨⟨⟨⟨hA _ _, ?_, hA _ _⟩, ?_, hA _ _⟩, ?_, hA _ _⟩, ?_, hA _ _⟩, ?_, hA _ _⟩, hnano⟩,
    hzone⟩ <;> (unfold time.isTimeByte; omega)

theorem time.isTimeByte_plain (c : Nat) (h : time.isTimeByte c) : json.isPlain c ∧ c < 256 := by
  unfold time.isTimeByte isDigit at h
  unfold json.isPlain
  omega

theorem time.MarshalJSON_wellFormed (t : Time) (h : t.wellFormed) :
    time.MarshalJSON t = .ok (34 :: (time.appendFormatRFC3339 t ++ [34])) := by
  obtain ⟨hy0, hy1, _, _, _, _, _, _, _, _, hz⟩ := h
  unfold time.MarshalJSON
  rw [if_neg (by omega), if_neg (by omega)]

theorem time.UnmarshalJSON_string (t t0 : Time) (h : t.wellFormed) :
    time.UnmarshalJSON (34 :: (time.appendFormatRFC3339 t ++ [34])) t0 = .ok t := by
  have h0 : str "null" = [110, 117, 108, 108] := by decide
  have h1 : ¬ (34 :: (time.appendFormatRFC3339 t ++ [34]) = str "null") := by
    rw [h0]; simp
  have h2 : (34 :: (time.appendFormatRFC3339 t ++ [34])).getLast? = some 34 := by
    rw [← List.cons_append, List.getLast?_concat]
  have h3 : (34 :: (time.appendFormatRFC3339 t ++ [34])).tail.dropLast =
      time.appendFormatRFC3339 t := by
    rw [List.tail_cons, List.dropLast_concat]
  have h4 : ¬ ((34 :: (time.appendFormatRFC3339 t ++ [34])).length < 2 ∨
      (34 :: (time.appendFormatRFC3339 t ++ [34])).head? ≠ some 34 ∨
      (34 :: (time.appendFormatRFC3339 t ++ [34])).getLast? ≠ some 34) := by
    rw [h2]; simp
  unfold time.UnmarshalJSON time.parseStrictRFC3339
  rw [if_neg h1, if_neg h4, h3, time.parseRFC3339_appendFormatRFC3339 t h]

theorem json.Marshal_eq (v : handlers.NextPage) (ht : v.Time.wellFormed) :
    json.Marshal v = .ok (json.tokenText (strconv.FormatInt v.Limit) (strconv.FormatInt v.Offset)
      (json.appendStringLoop v.FilterBy.length v.FilterBy)
      (json.appendStringLoop v.Filter.length v.Filter) (time.appendFormatRFC3339 v.Time)) := by
  have e1 : str "\x7b\"limit\":" = 123 :: 34 :: (str "limit" ++ [34, 58]) := by decide
  have e2 : str ",\"offset\":" = 44 :: 34 :: (str "offset" ++ [34, 58]) := by decide
  have e3 : str ",\"filter_by\":" = 44 :: 34 :: (str "filter_by" ++ [34, 58]) := by decide
  have e4 : str ",\"filter\":" = 44 :: 34 :: (str "filter" ++ [34, 58]) := by decide
  have e5 : str ",\"time\":" = 44 :: 34 :: (str "time" ++ [34, 58]) := by decide
  have e6 : str "\x7d" = [125] := by decide
  unfold json.Marshal
  rw [time.MarshalJSON_wellFormed v.Time ht]
  simp only [e1, e2, e3, e4, e5, e6, json.tokenText, json.appendString, List.append_assoc,
    List.cons_append, List.nil_append]

theorem json.decodeMembers_token (L O : Int) (FB F : Bytes) (t : Time) (v0 : handlers.NextPage)
    (hL : isInt64 L) (hO : isInt64 O) (hFB : utf8.Valid FB = true) (hF : utf8.Valid F = true)
    (ht : t.wellFormed) :
    json.decodeMembers [(str "limit", .number (strconv.FormatInt L)),
        (str "offset", .number (strconv.FormatInt O)),
        (str "filter_by", .string (json.appendStringLoop FB.length FB)),
        (str "filter", .string (json.appendStringLoop F.length F)),
        (str "time", .string (time.appendFormatRFC3339 t))] v0 none =
      .ok ({ Limit := L, Offset := O, FilterBy := FB, Filter := F, Time := t }, none) := by
  have k1 : json.fieldByName (json.unquote (str "limit")) = some .limit := by decide
  have k2 : json.fieldByName (json.unquote (str "offset")) = some .offset := by decide
  have k3 : json.fieldByName (json.unquote (str "filter_by")) = some .filterBy := by decide
  have k4 : json.fieldByName (json.unquote (str "filter")) = some .filter := by decide
  have k5 : json.fieldByName (json.unquote (str "time")) = some .time := by decide
  simp only [json.decodeMembers, k1, k2, k3, k4, k5, json.storeInt, json.storeString,
    strconv.ParseInt_FormatInt L hL, strconv.ParseInt_FormatInt O hO,
    (json.appendString_spec FB hFB).2.1, (json.appendString_spec F hF).2.1, json.Value.raw,
    time.UnmarshalJSON_string t _ ht, json.saveError]

/-- A representable page token is read back from its JSON form, whatever the struct held. -/
theorem json.Unmarshal_Marshal (typeName : Bytes) (v v0 : handlers.NextPage)
    (h : v.representable) :
    ∃ text, json.Marshal v = .ok text ∧ json.Unmarshal typeName text v0 = .ok v ∧
      (∀ x ∈ text, x < 256) ∧ text ≠ [] := by
  obtain ⟨hL, hO, hFB, hF, ht⟩ := h
  refine ⟨_, json.Marshal_eq v ht, ?_, ?_, by simp [json.tokenText]⟩
  · obtain ⟨sFB, _, _⟩ := json.appendString_spec v.FilterBy hFB
    obtain ⟨sF, _, _⟩ := json.appendString_spec v.Filter hF
    have hfmt : ∀ x ∈ time.appendFormatRFC3339 v.Time, json.isPlain x := fun x hx =>
      (time.isTimeByte_plain x (time.appendFormatRFC3339_bytes v.Time x hx)).1
    obtain ⟨k, hk⟩ : ∃ k, 2 * (json.tokenText (strconv.FormatInt v.Limit)
        (strconv.FormatInt v.Offset) (json.appendStringLoop v.FilterBy.length v.FilterBy)
        (json.appendStringLoop v.Filter.length v.Filter)
        (time.appendFormatRFC3339 v.Time)).length + 2 = k + 7 := by
      refine ⟨2 * (json.tokenText (strconv.FormatInt v.Limit)
        (strconv.FormatInt v.Offset) (json.appendStringLoop v.FilterBy.length v.FilterBy)
        (json.appendStringLoop v.Filter.length v.Filter)
        (time.appendFormatRFC3339 v.Time)).length + 2 - 7, ?_⟩
      simp only [json.tokenText, List.length_cons, List.length_append]
      omega
    unfold json.Unmarshal json.parse
    rw [hk, json.parseValue_tokenText k v.Limit v.Offset _ _ _ sFB sF hfmt]
    simp only [json.skipSpace, json.decodeMembers_token v.Limit v.Offset v.FilterBy v.Filter
      v.Time v0 hL hO hFB hF ht]
  · obtain ⟨_, _, _, _, bL⟩ := strconv.FormatInt_head v.Limit
    obtain ⟨_, _, _, _, bO⟩ := strconv.FormatInt_head v.Offset
    have bFB := (json.appendStringLoop_written _ v.FilterBy (le_refl _) hFB).bytes
    have bF := (json.appendStringLoop_written _ v.Filter (le_refl _) hF).bytes
    have bT : ∀ x ∈ time.appendFormatRFC3339 v.Time, x < 256 := fun x hx =>
      (time.isTimeByte_plain x (time.appendFormatRFC3339_bytes v.Time x hx)).2
    have l1 : ∀ y ∈ str "limit", y < 256 := by decide
    have l2 : ∀ y ∈ str "offset", y < 256 := by decide
    have l3 : ∀ y ∈ str "filter_by", y < 256 := by decide
    have l4 : ∀ y ∈ str "filter", y < 256 := by decide
    have l5 : ∀ y ∈ str "time", y < 256 := by decide
    simp only [json.tokenText, List.forall_mem_cons, List.forall_mem_append]
    constructorm* _ ∧ _
    all_goals first | omega | assumption | simp

/-! ## Minting a page token -/

theorem handlers.GenerateNextPage_guard (c : Codec) (now : Time) (limit offset numUsers : Int)
    (filter : Option service.Filter) :
    handlers.GenerateNextPage c now limit offset numUsers filter =
      if nextPageExists limit offset numUsers then
        match c.Marshal (handlers.mintedNextPage now limit filter) with
        | .error err => .error err
        | .ok np => .ok (c.EncodeToString np)
      else .ok [] := by
  unfold handlers.GenerateNextPage nextPageExists handlers.mintedNextPage
  split_ifs with h
  · cases filter with
    | none => rfl
    | some f => cases hv : f.IsValid <;> simp [hv]
  · rfl

theorem common.GenerateNextPage_marshal (c : Codec) (now : Time) (limit offset numUsers : Int)
    (filter filterBy : Bytes) :
    common.GenerateNextPage c now limit offset numUsers filter filterBy =
      if nextPageExists limit offset numUsers then
        match c.Marshal { Limit := limit, Offset := limit, FilterBy := filterBy,
                          Filter := filter, Time := now } with
        | .error err => .error err
        | .ok np => .ok (c.EncodeToString np)
      else .ok [] := by
  unfold common.GenerateNextPage nextPageExists
  rfl

/-- With the standard library and a well-formed clock, minting never fails, and the token is
the base64 form of the JSON text of the page token. -/
theorem stdlib_mint (pkg : String) (v : handlers.NextPage) (ht : v.Time.wellFormed) :
    ∃ text, (stdlib pkg).Marshal v = .ok text ∧ text ≠ [] ∧
      (stdlib pkg).EncodeToString text ≠ [] := by
  refine ⟨_, json.Marshal_eq v ht, by simp [json.tokenText], ?_⟩
  exact base64.EncodeToString_ne_nil _ (by simp [json.tokenText])

/-- C4 as amended, next-page existence: with a well-formed clock, `GenerateNextPage` never
returns an error; it returns a non-empty token exactly when `limit > 0`, `offset >= 0` and
`numUsers - (offset + limit) > 0` as Go evaluates it on `int`, with wrap-around, and the
empty string otherwise. This holds in both trees and for every filter. Where the sum and the
difference stay in the range of `int`, Go's value of `numUsers - (offset + limit)` is the
mathematical one, and the token is non-empty exactly when `limit > 0`, `offset >= 0` and
`numUsers - (offset + limit) > 0` in the integers. -/
theorem next_page_existence (pkg : String) (now : Time) (hnow : now.wellFormed)
    (limit offset numUsers : Int) (filter : Option service.Filter) (query fby : Bytes) :
    (∃ tok, handlers.GenerateNextPage (stdlib pkg) now limit offset numUsers filter = .ok tok ∧
      (tok ≠ [] ↔ (limit > 0 ∧ offset ≥ 0) ∧ sub64 numUsers (add64 offset limit) > 0)) ∧
    (∃ tok, common.GenerateNextPage (stdlib pkg) now limit offset numUsers query fby = .ok tok ∧
      (tok ≠ [] ↔ (limit > 0 ∧ offset ≥ 0) ∧ sub64 numUsers (add64 offset limit) > 0)) ∧
    (isInt64 (offset + limit) → isInt64 (numUsers - (offset + limit)) →
      sub64 numUsers (add64 offset limit) = numUsers - (offset + limit) ∧
      (∃ tok, handlers.GenerateNextPage (stdlib pkg) now limit offset numUsers filter =
          .ok tok ∧
        (tok ≠ [] ↔ limit > 0 ∧ offset ≥ 0 ∧ numUsers - (offset + limit) > 0)) ∧
      (∃ tok, common.GenerateNextPage (stdlib pkg) now limit offset numUsers query fby =
          .ok tok ∧
        (tok ≠ [] ↔ limit > 0 ∧ offset ≥ 0 ∧ numUsers - (offset + limit) > 0))) := by
  have key : ∀ v : handlers.NextPage, v.Time = now →
      ∃ tok, (if nextPageExists limit offset numUsers then
          match (stdlib pkg).Marshal v with
          | .error err => .error err
          | .ok np => .ok ((stdlib pkg).EncodeToString np)
        else (.ok [] : Except Error Bytes)) = .ok tok ∧
        (tok ≠ [] ↔ (limit > 0 ∧ offset ≥ 0) ∧ sub64 numUsers (add64 offset limit) > 0) := by
    intro v hv
    obtain ⟨text, hm, _, hne⟩ := stdlib_mint pkg v (by rw [hv]; exact hnow)
    by_cases h : nextPageExists limit offset numUsers
    · rw [if_pos h, hm]
      exact ⟨_, rfl, fun _ => h, fun _ => hne⟩
    · rw [if_neg h]
      exact ⟨[], rfl, fun hx => absurd rfl hx, fun hx => absurd hx h⟩
  have hH : ∃ tok, handlers.GenerateNextPage (stdlib pkg) now limit offset numUsers filter =
      .ok tok ∧
      (tok ≠ [] ↔ (limit > 0 ∧ offset ≥ 0) ∧ sub64 numUsers (add64 offset limit) > 0) := by
    rw [handlers.GenerateNextPage_guard]
    apply key
    unfold handlers.mintedNextPage
    cases filter with
    | none => rfl
    | some f => cases hv : f.IsValid <;> simp [hv]
  have hC : ∃ tok, common.GenerateNextPage (stdlib pkg) now limit offset numUsers query fby =
      .ok tok ∧
      (tok ≠ [] ↔ (limit > 0 ∧ offset ≥ 0) ∧ sub64 numUsers (add64 offset limit) > 0) := by
    rw [common.GenerateNextPage_marshal]
    exact key _ rfl
  refine ⟨hH, hC, ?_⟩
  intro h1 h2
  have hplain : sub64 numUsers (add64 offset limit) = numUsers - (offset + limit) := by
    unfold isInt64 at h1 h2
    unfold sub64 add64 wrap64
    omega
  refine ⟨hplain, ?_, ?_⟩
  · obtain ⟨tok, hg, hiff⟩ := hH
    refine ⟨tok, hg, ?_⟩
    rw [hiff, hplain, and_assoc]
  · obtain ⟨tok, hg, hiff⟩ := hC
    refine ⟨tok, hg, ?_⟩
    rw [hiff, hplain, and_assoc]

/-- The scenarios of the specification: limit 2, offset 0 of 5 rows gives a token,
limit 2, offset 2 of 3 rows gives none. -/
theorem next_page_existence_witness :
    (∃ tok, handlers.GenerateNextPage (stdlib "handlers") clock2024 2 0 5 none = .ok tok ∧
      tok ≠ []) ∧
    (∃ tok, common.GenerateNextPage (stdlib "handlers") clock2024 2 2 3 [] [] = .ok tok ∧
      ¬ tok ≠ []) ∧
    sub64 3 (add64 2 2) = 3 - (2 + 2) ∧
    isInt64 (0 + 2) ∧ isInt64 (5 - (0 + 2)) ∧
    (∃ tok, handlers.GenerateNextPage (stdlib "handlers") clock2024 2 0 5 none = .ok tok ∧
      (tok ≠ [] ↔ (2 : Int) > 0 ∧ (0 : Int) ≥ 0 ∧ (5 : Int) - (0 + 2) > 0)) :=
  have h1 := next_page_existence "handlers" clock2024 (by decide) 2 0 5 none [] []
  have h2 := next_page_existence "handlers" clock2024 (by decide) 2 2 3 none [] []
  ⟨h1.1.imp fun _ h => ⟨h.1, h.2.2 (by decide)⟩,
    h2.2.1.imp fun _ h => ⟨h.1, fun hne => absurd (h.2.1 hne) (by decide)⟩,
    (h2.2.2 (by decide) (by decide)).1, by decide, by decide,
    (h1.2.2 (by decide) (by decide)).2.1⟩

/-- C4 as stated fails where `offset + limit` leaves the range of `int`: for the limit
`9223372036854775807`, the offset 10 and a total of 5 the difference `5 - (10 + limit)` is
negative, yet Go's sum wraps around, its difference is `9223372036854775804`, and both trees
return a token that is not empty. -/
theorem next_page_existence_counterexample :
    isInt64 9223372036854775807 ∧ isInt64 10 ∧ isInt64 5 ∧
    ¬ ((9223372036854775807 : Int) > 0 ∧ (10 : Int) ≥ 0 ∧
      (5 : Int) - (10 + 9223372036854775807) > 0) ∧
    sub64 5 (add64 10 9223372036854775807) = 9223372036854775804 ∧
    (∃ tok, handlers.GenerateNextPage (stdlib "handlers") clock2024 9223372036854775807 10 5
      none = .ok tok ∧ tok ≠ []) ∧
    (∃ tok, common.GenerateNextPage (stdlib "common") clock2024 9223372036854775807 10 5
      [] [] = .ok tok ∧ tok ≠ []) := by
  have hex : nextPageExists 9223372036854775807 10 5 := by decide
  refine ⟨by decide, by decide, by decide, by decide, by decide, ?_, ?_⟩
  · obtain ⟨text, hm, _, hne⟩ := stdlib_mint "handlers"
      (handlers.mintedNextPage clock2024 9223372036854775807 none) (by decide)
    exact ⟨_, by rw [handlers.GenerateNextPage_guard, if_pos hex, hm], hne⟩
  · obtain ⟨text, hm, _, hne⟩ := stdlib_mint "common"
      ⟨9223372036854775807, 9223372036854775807, [], [], clock2024⟩ (by decide)
    exact ⟨_, by rw [common.GenerateNextPage_marshal, if_pos hex, hm], hne⟩

/-- A token minted by the standard library for a representable page token decodes and parses
back to it. -/
theorem stdlib_round_trip (pkg : String) (v v0 : handlers.NextPage) (h : v.representable) :
    ∃ text, (stdlib pkg).Marshal v = .ok text ∧ (stdlib pkg).EncodeToString text ≠ [] ∧
      (stdlib pkg).DecodeString ((stdlib pkg).EncodeToString text) = .ok text ∧
      (stdlib pkg).Unmarshal text v0 = .ok v := by
  obtain ⟨text, hm, hu, hb, hne⟩ := json.Unmarshal_Marshal (str (pkg ++ ".NextPage")) v v0 h
  exact ⟨text, hm, base64.EncodeToString_ne_nil text hne,
    base64.DecodeString_EncodeToString text hb, hu⟩

/-- In the range of `int`, with a positive limit and an offset that is not negative, rows
beyond the page make the guard of `GenerateNextPage` true. -/
theorem nextPageExists_of_more (limit offset numUsers : Int) (hl : isInt64 limit)
    (ho : isInt64 offset) (hn : isInt64 numUsers) (hlim : limit > 0) (hoff : offset ≥ 0)
    (hmore : numUsers - (offset + limit) > 0) : nextPageExists limit offset numUsers := by
  unfold isInt64 at hl ho hn
  unfold nextPageExists sub64 add64 wrap64
  refine ⟨⟨hlim, hoff⟩, ?_⟩
  omega

theorem utf8.Valid_nil : utf8.Valid [] = true := rfl

/-- C5 as amended, minted token content: a token returned by `GenerateNextPage`, when
base64-decoded and JSON-parsed, gives limit and offset both equal to the input limit, the time
of minting, and the filter pair given, provided that pair is valid UTF-8; in the handlers tree a
filter that is absent or has an empty part gives an empty pair. -/
theorem minted_token_content (pkg : String) (now : Time) (limit offset numUsers : Int)
    (filter : Option service.Filter) (query fby tok : Bytes) (v0 : handlers.NextPage)
    (hnow : now.wellFormed) (hl : isInt64 limit)
    (hf : ∀ f, filter = some f → utf8.Valid f.By = true ∧ utf8.Valid f.Query = true)
    (hq : utf8.Valid query = true) (hb : utf8.Valid fby = true) (hne : tok ≠ []) :
    (handlers.GenerateNextPage (stdlib pkg) now limit offset numUsers filter = .ok tok →
      ∃ sDec, base64.DecodeString tok = .ok sDec ∧
        json.Unmarshal (str (pkg ++ ".NextPage")) sDec v0 =
          .ok { Limit := limit, Offset := limit,
                FilterBy := match filter with
                  | some f => if f.By ≠ [] ∧ f.Query ≠ [] then f.By else []
                  | none => [],
                Filter := match filter with
                  | some f => if f.By ≠ [] ∧ f.Query ≠ [] then f.Query else []
                  | none => [],
                Time := now }) ∧
    (common.GenerateNextPage (stdlib pkg) now limit offset numUsers query fby = .ok tok →
      ∃ sDec, base64.DecodeString tok = .ok sDec ∧
        json.Unmarshal (str (pkg ++ ".NextPage")) sDec v0 =
          .ok { Limit := limit, Offset := limit, FilterBy := fby, Filter := query,
                Time := now }) := by
  have key : ∀ v : handlers.NextPage, v.representable →
      (if nextPageExists limit offset numUsers then
          match (stdlib pkg).Marshal v with
          | .error err => .error err
          | .ok np => .ok ((stdlib pkg).EncodeToString np)
        else (.ok [] : Except Error Bytes)) = .ok tok →
      ∃ sDec, base64.DecodeString tok = .ok sDec ∧
        json.Unmarshal (str (pkg ++ ".NextPage")) sDec v0 = .ok v := by
    intro v hv hgen
    obtain ⟨text, hm, _, hd, hu⟩ := stdlib_round_trip pkg v v0 hv
    by_cases h : nextPageExists limit offset numUsers
    · rw [if_pos h, hm] at hgen
      simp only [Except.ok.injEq] at hgen
      subst hgen
      exact ⟨text, hd, hu⟩
    · rw [if_neg h] at hgen
      simp only [Except.ok.injEq] at hgen
      exact absurd hgen.symm hne
  constructor
  · rw [handlers.GenerateNextPage_guard]
    intro hgen
    have hrep : (handlers.mintedNextPage now limit filter).representable := by
      unfold handlers.mintedNextPage handlers.NextPage.representable
      cases filter with
      | none => exact ⟨hl, hl, rfl, rfl, hnow⟩
      | some f =>
        obtain ⟨h1, h2⟩ := hf f rfl
        cases hv : f.IsValid <;> simp only [hv, if_true, Bool.false_eq_true, if_false]
        · exact ⟨hl, hl, rfl, rfl, hnow⟩
        · exact ⟨hl, hl, h1, h2, hnow⟩
    obtain ⟨sDec, hd, hu⟩ := key _ hrep hgen
    refine ⟨sDec, hd, ?_⟩
    rw [hu]
    unfold handlers.mintedNextPage
    cases filter with
    | none => rfl
    | some f =>
      by_cases hv : f.By ≠ [] ∧ f.Query ≠ []
      · simp [service.Filter.IsValid, hv]
      · simp [service.Filter.IsValid, hv]
  · rw [common.GenerateNextPage_marshal]
    intro hgen
    exact key _ ⟨hl, hl, hb, hq, hnow⟩ hgen

/-- The token of the repository's listing test is the one minted for limit 1 and the filter
`country = NL` at its clock reading, and reads back as limit 1, offset 1 and that filter. -/
theorem minted_token_content_witness :
    (∃ sDec, base64.DecodeString expectedNextPage = .ok sDec ∧
        json.Unmarshal (str ("handlers" ++ ".NextPage")) sDec initialNextPage =
          .ok { Limit := 1, Offset := 1, FilterBy := str "country", Filter := str "NL",
                Time := clock2024 }) ∧
    (∃ sDec, base64.DecodeString expectedNextPage = .ok sDec ∧
        json.Unmarshal (str ("handlers" ++ ".NextPage")) sDec initialNextPage =
          .ok { Limit := 1, Offset := 1, FilterBy := str "country", Filter := str "NL",
                Time := clock2024 }) :=
  have h := minted_token_content "handlers" clock2024 1 0 5 (some ⟨str "country", str "NL"⟩)
    (str "NL") (str "country") expectedNextPage initialNextPage (by decide) (by decide)
    (by intro f hf; cases hf; decide) (by decide) (by decide) (by decide)
  ⟨h.1 (by decide), h.2 (by decide)⟩

/-- C5, against the claim as stated: for the filter value of the single byte 0xFF (not valid
UTF-8) the minted token carries the escape of U+FFFD in its place, so that decoding and parsing
the token gives the three bytes of U+FFFD and not the filter value given. -/
theorem minted_token_content_counterexample :
    handlers.GenerateNextPage (stdlib "handlers") clock2024 1 0 5 (some ⟨str "country", [0xFF]⟩)
      = .ok replacedFilterToken ∧
    common.GenerateNextPage (stdlib "common") clock2024 1 0 5 [0xFF] (str "country")
      = .ok replacedFilterToken ∧
    base64.DecodeString replacedFilterToken = .ok replacedFilterTokenJSON ∧
    json.Unmarshal (str "handlers.NextPage") replacedFilterTokenJSON initialNextPage
      = .ok { Limit := 1, Offset := 1, FilterBy := str "country", Filter := [0xEF, 0xBF, 0xBD],
              Time := clock2024 } ∧
    ([0xEF, 0xBF, 0xBD] : Bytes) ≠ [0xFF] := by
  decide

/-- C3 as amended, round-trip freshness: for a limit above 0, an offset of at least 0, a total
with rows beyond the page, and a filter pair that is both empty or both non-empty and valid
UTF-8, the token `GenerateNextPage` returns at time `t` is not empty, is the same in both
trees, and `LoadNextPage` at any time `t'` less than 30 minutes after `t` returns, whatever its
other arguments, limit `limit`, offset `limit` and the filter pair, without calling the
pagination closure. -/
theorem round_trip_freshness {σ : Type} (pkg : String) (t t' : Time)
    (limit offset numUsers : Int) (filterBy filterValue : Bytes)
    (hl : isInt64 limit) (ho : isInt64 offset) (hn : isInt64 numUsers)
    (hlim : limit > 0) (hoff : offset ≥ 0) (hmore : numUsers - (offset + limit) > 0)
    (hpair : (filterBy = [] ∧ filterValue = []) ∨ (filterBy ≠ [] ∧ filterValue ≠ []))
    (hu1 : utf8.Valid filterBy = true) (hu2 : utf8.Valid filterValue = true)
    (ht : t.wellFormed) (hfresh : t'.unixNano - t.unixNano < 30 * 60 * 1000000000)
    (filter' filterBy' : Bytes) (paginationFn : PaginationFn σ) (s : σ) :
    ∃ tok, tok ≠ [] ∧
      handlers.GenerateNextPage (stdlib pkg) t limit offset numUsers
        (some ⟨filterBy, filterValue⟩) = .ok tok ∧
      common.GenerateNextPage (stdlib pkg) t limit offset numUsers filterValue filterBy =
        .ok tok ∧
      handlers.LoadNextPage (stdlib pkg) t' tok filter' filterBy' paginationFn s =
        (.ok { Limit := limit, Offset := limit, FilterBy := filterBy, Filter := filterValue,
               Time := t }, s) ∧
      common.loadNextPage (stdlib pkg) t' tok filter' filterBy' paginationFn s =
        (.ok { Limit := limit, Offset := limit, FilterBy := filterBy, Filter := filterValue,
               Time := t }, s) := by
  have hex := nextPageExists_of_more limit offset numUsers hl ho hn hlim hoff hmore
  have hrep : handlers.NextPage.representable ⟨limit, limit, filterBy, filterValue, t⟩ :=
    ⟨hl, hl, hu1, hu2, ht⟩
  obtain ⟨text, hm, hne, hd, hu⟩ := stdlib_round_trip pkg _ initialNextPage hrep
  have hmint : handlers.mintedNextPage t limit (some ⟨filterBy, filterValue⟩) =
      ⟨limit, limit, filterBy, filterValue, t⟩ := by
    unfold handlers.mintedNextPage
    rcases hpair with ⟨h1, h2⟩ | ⟨h1, h2⟩ <;> simp [service.Filter.IsValid, h1, h2]
  have hload : handlers.LoadNextPage (stdlib pkg) t' ((stdlib pkg).EncodeToString text) filter'
      filterBy' paginationFn s = (.ok ⟨limit, limit, filterBy, filterValue, t⟩, s) := by
    rw [LoadNextPage_wellFormed (stdlib pkg) t' _ text filter' filterBy' _ paginationFn s hne hd hu,
      if_pos ((tokenIsLive_iff t' _).2 (by simpa using hfresh))]
  refine ⟨(stdlib pkg).EncodeToString text, hne, ?_, ?_, hload, ?_⟩
  · rw [handlers.GenerateNextPage_guard, if_pos hex, hmint, hm]
  · rw [common.GenerateNextPage_marshal, if_pos hex, hm]
  · rw [loadNextPage_eq]; exact hload

/-- The scenario of the specification: limit 2, offset 0, 5 rows, no filter, read back at
once although the request names another filter and its pagination is malformed. -/
theorem round_trip_freshness_witness :
    ∃ tok, tok ≠ [] ∧
      handlers.GenerateNextPage (stdlib "handlers") clock2024 2 0 5 (some ⟨[], []⟩) = .ok tok ∧
      common.GenerateNextPage (stdlib "handlers") clock2024 2 0 5 [] [] = .ok tok ∧
      handlers.LoadNextPage (stdlib "handlers") clock2024 tok (str "NL") (str "country")
          failingPagination () =
        (.ok { Limit := 2, Offset := 2, FilterBy := [], Filter := [], Time := clock2024 }, ()) ∧
      common.loadNextPage (stdlib "handlers") clock2024 tok (str "NL") (str "country")
          failingPagination () =
        (.ok { Limit := 2, Offset := 2, FilterBy := [], Filter := [], Time := clock2024 }, ()) :=
  round_trip_freshness "handlers" clock2024 clock2024 2 0 5 [] [] (by decide) (by decide)
    (by decide) (by decide) (by decide) (by decide) (by decide) (by decide) (by decide)
    (by decide) (by decide) (str "NL") (str "country") failingPagination ()

/-- C3, against the claim as stated: the filter pair `country = <byte 0xFF>` is both
non-empty, yet the token minted for it, read back at the same instant, gives the three bytes
of U+FFFD as filter value. -/
theorem round_trip_freshness_counterexample :
    handlers.GenerateNextPage (stdlib "handlers") clock2024 1 0 5 (some ⟨str "country", [0xFF]⟩)
      = .ok replacedFilterToken ∧
    handlers.LoadNextPage (stdlib "handlers") clock2024 replacedFilterToken [] [] noPagination ()
      = (.ok { Limit := 1, Offset := 1, FilterBy := str "country",
               Filter := [0xEF, 0xBF, 0xBD], Time := clock2024 }, ()) ∧
    common.loadNextPage (stdlib "common") clock2024 replacedFilterToken [] [] noPagination ()
      = (.ok { Limit := 1, Offset := 1, FilterBy := str "country",
               Filter := [0xEF, 0xBF, 0xBD], Time := clock2024 }, ()) ∧
    ([0xEF, 0xBF, 0xBD] : Bytes) ≠ [0xFF] := by
  decide

/-! ## Decoding a listing request -/

/-- On the fresh-parameter path, with a pagination closure that succeeds, a complete filter
pair of the request is the filter pair of the result. -/
theorem LoadNextPage_requestFilter {σ : Type} (c : Codec) (now : Time)
    (nPage filter filterBy : Bytes) (paginationFn : PaginationFn σ) (s s' : σ) (p : Int)
    (hpath : nPage = [] ∨ ∃ sDec np, c.DecodeString nPage = .ok sDec ∧
      c.Unmarshal sDec initialNextPage = .ok np ∧
      30 * 60 * 1000000000 ≤ now.unixNano - np.Time.unixNano)
    (hp : paginationFn s = (.ok p, s')) (hf : filter ≠ []) (hfb : filterBy ≠ []) :
    ∃ np', handlers.LoadNextPage c now nPage filter filterBy paginationFn s = (.ok np', s') ∧
      np'.FilterBy = filterBy ∧ np'.Filter = filter := by
  by_cases hne : nPage = []
  · subst hne
    rw [LoadNextPage_empty, freshParameters_paired _ _ _ _ _ _ _ hp (Or.inr ⟨hf, hfb⟩)]
    exact ⟨_, rfl, by simp [hfb], by simp [hf]⟩
  · rcases hpath with h0 | ⟨sDec, np, hdec, hjson, hold⟩
    · exact absurd h0 hne
    · rw [LoadNextPage_wellFormed c now nPage sDec filter filterBy np paginationFn s hne hdec
        hjson]
      have hl : ¬ tokenIsLive now np = true := fun hl => by
        have := (tokenIsLive_iff now np).1 hl; omega
      rw [if_neg hl, freshParameters_paired _ _ _ _ _ _ _ hp (Or.inr ⟨hf, hfb⟩)]
      exact ⟨_, rfl, by simp [hfb], by simp [hf]⟩

/-- C9 as amended, unsupported filter: for a listing request whose token is absent or decodes,
parses and has expired, whose pagination is absent or a 64-bit integer, and whose filter and
filterBy are both non-empty, a filterBy that is not allowed (not `country` in the handlers tree,
not in `AllowedFilters` in the servers tree) makes the decoding of the request fail with
"filterBy parameter '<filterBy>' not supported", which contains the rejected value; the HTTP
handlers answer 400 with code 101 and the gRPC handlers InvalidArgument, and none of them calls
the service (the state of the service is returned as it was). -/
theorem unsupported_filter {σ U : Type} (c : Codec) (now : Time)
    (nPage filter filterBy pagination : Bytes) (p : Int) (AllowedFilters : List Bytes)
    (svc : UsersService σ U) (api : UsersAPI σ U) (s : σ)
    (hpath : nPage = [] ∨ ∃ sDec np, c.DecodeString nPage = .ok sDec ∧
      c.Unmarshal sDec initialNextPage = .ok np ∧
      30 * 60 * 1000000000 ≤ now.unixNano - np.Time.unixNano)
    (hpag : pagination = [] ∨ ∃ q, strconv.ParseInt pagination = some q)
    (hf : filter ≠ []) (hfb : filterBy ≠ []) :
    filterBy <:+: notSupported filterBy ∧
    (filterBy ≠ service.filterByCountry →
      (handlers.http.listUsers.new U).Decode c now ⟨nPage, filter, filterBy, pagination⟩ =
        .error (.text (notSupported filterBy)) ∧
      handlers.http.handler.listUsers c now svc ⟨nPage, filter, filterBy, pagination⟩ s =
        (.Error 400 101 (notSupported filterBy), s) ∧
      handlers.grpc.listUsers.new.Decode c now ⟨nPage, filter, filterBy, p⟩ =
        .error (.text (notSupported filterBy)) ∧
      handlers.grpc.UserManagerServer.ListUsers c now svc ⟨nPage, filter, filterBy, p⟩ s =
        (.error ⟨.InvalidArgument, notSupported filterBy⟩, s)) ∧
    (filterBy ∉ AllowedFilters →
      (common.ListUsers.new U).Decode c now AllowedFilters ⟨nPage, filter, filterBy, pagination⟩ =
        .error (.text (notSupported filterBy)) ∧
      servers.http.handler.listUsers c now AllowedFilters api
          ⟨nPage, filter, filterBy, pagination⟩ s =
        (.Error 400 101 (notSupported filterBy), s) ∧
      (common.ListUsers.new U).DecodePB c now AllowedFilters ⟨nPage, filter, filterBy, p⟩ =
        .error (.text (notSupported filterBy)) ∧
      servers.grpc.UserManagerHandler.ListUsers c now AllowedFilters api
          ⟨nPage, filter, filterBy, p⟩ s =
        (.error ⟨.InvalidArgument, notSupported filterBy⟩, s)) := by
  have hhttp : ∃ q, paginationHTTP ⟨nPage, filter, filterBy, pagination⟩ () = (.ok q, ()) := by
    unfold paginationHTTP
    rcases hpag with h | ⟨q, h⟩
    · exact ⟨-1, by simp [h]⟩
    · by_cases h0 : pagination = []
      · exact ⟨-1, by simp [h0]⟩
      · exact ⟨q, by simp [h0, h]⟩
  obtain ⟨q, hq⟩ := hhttp
  obtain ⟨np1, hl1, hfb1, hf1⟩ := LoadNextPage_requestFilter c now nPage filter filterBy
    (paginationHTTP ⟨nPage, filter, filterBy, pagination⟩) () () q hpath hq hf hfb
  obtain ⟨np2, hl2, hfb2, hf2⟩ := LoadNextPage_requestFilter c now nPage filter filterBy
    (paginationPB ⟨nPage, filter, filterBy, p⟩) () () p hpath rfl hf hfb
  refine ⟨⟨str "filterBy parameter '", str "' not supported", rfl⟩, ?_, ?_⟩
  · intro hbad
    have hnew : service.NewFilter filterBy filter = .error (.text (notSupported filterBy)) := by
      simp [service.NewFilter, hf, hbad, notSupported]
    have d1 : (handlers.http.listUsers.new U).Decode c now
        ⟨nPage, filter, filterBy, pagination⟩ = .error (.text (notSupported filterBy)) := by
      simp only [handlers.http.listUsers.Decode, handlers.http.nextPage, hl1,
        handlers.http.listUsers.decode, hfb1, hfb, ne_eq, not_false_eq_true, if_true,
        hf1, hnew]
    have d2 : handlers.grpc.listUsers.new.Decode c now ⟨nPage, filter, filterBy, p⟩ =
        .error (.text (notSupported filterBy)) := by
      simp only [handlers.grpc.listUsers.Decode, handlers.grpc.nextPage, hl2,
        handlers.grpc.listUsers.decode, hfb2, hfb, ne_eq, not_false_eq_true, if_true,
        hf2, hnew]
    refine ⟨d1, ?_, d2, ?_⟩
    · simp only [handlers.http.handler.listUsers, d1, handlers.http.errRequest,
        handlers.http.errResponse, Error.Error]
    · simp only [handlers.grpc.UserManagerServer.ListUsers, d2, handlers.grpc.errRequest,
        Error.Error]
  · intro hnot
    have d1 : (common.ListUsers.new U).Decode c now AllowedFilters
        ⟨nPage, filter, filterBy, pagination⟩ = .error (.text (notSupported filterBy)) := by
      simp only [common.ListUsers.Decode, common.NextPageFromHTTP, loadNextPage_eq, hl1,
        common.ListUsers.decode, hfb1, hfb, hnot, ne_eq, not_false_eq_true, if_true,
        notSupported]
    have d2 : (common.ListUsers.new U).DecodePB c now AllowedFilters
        ⟨nPage, filter, filterBy, p⟩ = .error (.text (notSupported filterBy)) := by
      simp only [common.ListUsers.DecodePB, common.NextPageFromPB, loadNextPage_eq, hl2,
        common.ListUsers.decode, hfb2, hfb, hnot, ne_eq, not_false_eq_true, if_true,
        notSupported]
    refine ⟨d1, ?_, d2, ?_⟩
    · simp only [servers.http.handler.listUsers, d1, servers.http.errRequest,
        servers.http.errResponse, Error.Error]
    · simp only [servers.grpc.UserManagerHandler.ListUsers, d2, servers.grpc.errRequest,
        Error.Error]

/-- The scenario of the repository's test: `filter=ololo`, `filterBy=FirstName`, with
`country` the one allowed filter; no call of the service is counted. -/
theorem unsupported_filter_witness :
    str "FirstName" <:+: notSupported (str "FirstName") ∧
    ((handlers.http.listUsers.new Unit).Decode (stdlib "handlers") clock2024
        ⟨[], str "ololo", str "FirstName", []⟩ = .error (.text (notSupported (str "FirstName"))) ∧
      handlers.http.handler.listUsers (stdlib "handlers") clock2024 countingService
        ⟨[], str "ololo", str "FirstName", []⟩ 0 =
        (.Error 400 101 (notSupported (str "FirstName")), 0) ∧
      handlers.grpc.listUsers.new.Decode (stdlib "handlers") clock2024
        ⟨[], str "ololo", str "FirstName", 0⟩ = .error (.text (notSupported (str "FirstName"))) ∧
      handlers.grpc.UserManagerServer.ListUsers (stdlib "handlers") clock2024 countingService
        ⟨[], str "ololo", str "FirstName", 0⟩ 0 =
        (.error ⟨.InvalidArgument, notSupported (str "FirstName")⟩, 0)) ∧
    ((common.ListUsers.new Unit).Decode (stdlib "handlers") clock2024 [str "country"]
        ⟨[], str "ololo", str "FirstName", []⟩ = .error (.text (notSupported (str "FirstName"))) ∧
      servers.http.handler.listUsers (stdlib "handlers") clock2024 [str "country"] countingAPI
        ⟨[], str "ololo", str "FirstName", []⟩ 0 =
        (.Error 400 101 (notSupported (str "FirstName")), 0) ∧
      (common.ListUsers.new Unit).DecodePB (stdlib "handlers") clock2024 [str "country"]
        ⟨[], str "ololo", str "FirstName", 0⟩ = .error (.text (notSupported (str "FirstName"))) ∧
      servers.grpc.UserManagerHandler.ListUsers (stdlib "handlers") clock2024 [str "country"]
        countingAPI ⟨[], str "ololo", str "FirstName", 0⟩ 0 =
        (.error ⟨.InvalidArgument, notSupported (str "FirstName")⟩, 0)) :=
  have h := unsupported_filter (stdlib "handlers") clock2024 [] (str "ololo") (str "FirstName")
    [] 0 [str "country"] countingService countingAPI 0 (Or.inl rfl) (Or.inl rfl) (by decide)
    (by decide)
  ⟨h.1, h.2.1 (by decide), h.2.2 (by decide)⟩

/-- C9, against the claim as stated: a request without a token, with the filter pair
`ololo`/`FirstName` (not an allowed field) and the malformed pagination `abc`, fails in both
HTTP decoders with "could not load nextPage: malformed pagination", a message that does not
contain the rejected field; and a request with the undecodable token `@` fails in the gRPC
decoders with the decode error. No call of the service is counted. -/
theorem unsupported_filter_counterexample :
    (handlers.http.listUsers.new Unit).Decode (stdlib "handlers") clock2024
        ⟨[], str "ololo", str "FirstName", str "abc"⟩ =
      .error (.text (str "could not load nextPage: malformed pagination")) ∧
    (common.ListUsers.new Unit).Decode (stdlib "common") clock2024 [str "country"]
        ⟨[], str "ololo", str "FirstName", str "abc"⟩ =
      .error (.text (str "could not load nextPage: malformed pagination")) ∧
    handlers.http.handler.listUsers (stdlib "handlers") clock2024 countingService
        ⟨[], str "ololo", str "FirstName", str "abc"⟩ 0 =
      (.Error 400 101 (str "could not load nextPage: malformed pagination"), 0) ∧
    ¬ (str "FirstName" <:+: str "could not load nextPage: malformed pagination") ∧
    handlers.grpc.listUsers.new.Decode (stdlib "handlers") clock2024
        ⟨str "@", str "ololo", str "FirstName", 0⟩ =
      .error (.wrap (str "could not decode next_page argument: ")
        (.text (str "illegal base64 data at input byte 0"))) ∧
    (common.ListUsers.new Unit).DecodePB (stdlib "common") clock2024 [str "country"]
        ⟨str "@", str "ololo", str "FirstName", 0⟩ =
      .error (.wrap (str "could not decode next_page argument: ")
        (.text (str "illegal base64 data at input byte 0"))) := by
  decide

/-! ## JSON: the parser does not run out of steps -/

/-- No error of the scanner is the error of running out of steps. -/
theorem json.syntaxError_ne_outOfFuel (c : Nat) (context : String) :
    json.syntaxError c context ≠ json.outOfFuel := by
  have h1 : str "invalid character " = 105 :: str "nvalid character " := by decide
  have h2 : str "json: out of steps" = 106 :: str "son: out of steps" := by decide
  unfold json.syntaxError json.outOfFuel
  rw [h1, h2]
  simp

/-- The error at the end of the input is not the error of running out of steps. -/
theorem json.unexpectedEnd_ne_outOfFuel : json.unexpectedEnd ≠ json.outOfFuel := by decide

/-- Skipping white space does not lengthen the input. -/
theorem json.skipSpace_length (s : Bytes) : (json.skipSpace s).length ≤ s.length := by
  induction s with
  | nil => simp [json.skipSpace]
  | cons c cs ih =>
    unfold json.skipSpace
    split_ifs
    · simp only [List.length_cons]; omega
    · exact le_refl _

/-- The leading digits and the rest make up the input. -/
theorem time.spanDigits_length (s : Bytes) :
    (time.spanDigits s).2.length ≤ s.length := by
  induction s with
  | nil => simp [time.spanDigits]
  | cons c cs ih =>
    unfold time.spanDigits
    split_ifs
    · simp only [List.length_cons]; omega
    · exact le_refl _

/-- What `consRaw` keeps of a result of the string scanner. -/
theorem json.consRaw_spec (c : Nat) (r : Except Error (Bytes × Bytes)) (n : Nat)
    (h : r ≠ .error json.outOfFuel ∧ ∀ raw rest, r = .ok (raw, rest) → rest.length < n) :
    json.consRaw c r ≠ .error json.outOfFuel ∧
      ∀ raw rest, json.consRaw c r = .ok (raw, rest) → rest.length < n + 1 := by
  cases r with
  | error e =>
    refine ⟨?_, ?_⟩
    · simp only [json.consRaw]; exact h.1
    · intro raw rest hx; simp [json.consRaw] at hx
  | ok p =>
    obtain ⟨raw0, rest0⟩ := p
    refine ⟨by simp [json.consRaw], ?_⟩
    intro raw rest hx
    simp only [json.consRaw, Except.ok.injEq, Prod.mk.injEq] at hx
    have := h.2 raw0 rest0 rfl
    rw [← hx.2]; omega

/-- The string scanner does not run out of steps, and what it leaves is shorter than its
input. -/
theorem json.scanStringFrom_spec (s : Bytes) : ∀ st : json.StringState,
    json.scanStringFrom st s ≠ .error json.outOfFuel ∧
      ∀ raw rest, json.scanStringFrom st s = .ok (raw, rest) → rest.length < s.length := by
  induction s with
  | nil =>
    intro st
    cases st <;>
      exact ⟨by
        simp only [json.scanStringFrom, ne_eq, Except.error.injEq, json.hexError]
        first
          | exact json.unexpectedEnd_ne_outOfFuel
          | exact json.syntaxError_ne_outOfFuel _ _,
        by intro raw rest hx; simp [json.scanStringFrom] at hx⟩
  | cons c cs ih =>
    intro st
    have step : ∀ st', json.consRaw c (json.scanStringFrom st' cs) ≠ .error json.outOfFuel ∧
        ∀ raw rest, json.consRaw c (json.scanStringFrom st' cs) = .ok (raw, rest) →
          rest.length < (c :: cs).length := fun st' =>
      json.consRaw_spec c _ cs.length (ih st')
    have bad : ∀ (ctx : String), (Except.error (json.syntaxError c ctx) :
        Except Error (Bytes × Bytes)) ≠ .error json.outOfFuel ∧
        ∀ raw rest, (Except.error (json.syntaxError c ctx) : Except Error (Bytes × Bytes)) =
          .ok (raw, rest) → rest.length < (c :: cs).length := fun ctx =>
      ⟨by simp only [ne_eq, Except.error.injEq]; exact json.syntaxError_ne_outOfFuel _ _,
        by intro raw rest hx; cases hx⟩
    cases st
    · simp only [json.scanStringFrom]
      split_ifs
      · refine ⟨by simp, ?_⟩
        intro raw rest hx
        simp only [Except.ok.injEq, Prod.mk.injEq] at hx
        rw [← hx.2]; simp
      · exact step _
      · exact ⟨(bad _).1, fun _ _ hx => hx.elim⟩
      · exact step _
    · simp only [json.scanStringFrom]
      split_ifs
      · exact step _
      · exact step _
      · exact ⟨(bad _).1, fun _ _ hx => hx.elim⟩
    all_goals
      simp only [json.scanStringFrom, json.hexError]
      split_ifs
      · exact step _
      · exact ⟨(bad _).1, fun _ _ hx => hx.elim⟩

/-- What follows the leading digits is not longer than the input. -/
theorem time.spanDigits_rest (s ds rest : Bytes) (h : time.spanDigits s = (ds, rest)) :
    rest.length ≤ s.length := by
  have := time.spanDigits_length s
  rw [h] at this
  exact this

/-- The scanner of literals does not run out of steps and does not lengthen the input. -/
theorem json.scanLiteral_spec (name : String) (es : Bytes) : ∀ s : Bytes,
    json.scanLiteral name es s ≠ .error json.outOfFuel ∧
      ∀ rest, json.scanLiteral name es s = .ok rest → rest.length ≤ s.length := by
  induction es with
  | nil =>
    intro s
    refine ⟨by simp [json.scanLiteral], ?_⟩
    intro rest hx
    simp only [json.scanLiteral, Except.ok.injEq] at hx
    rw [hx]
  | cons e es ih =>
    intro s
    cases s with
    | nil =>
      refine ⟨?_, by intro rest hx; simp [json.scanLiteral] at hx⟩
      simp only [json.scanLiteral, ne_eq, Except.error.injEq]
      exact json.syntaxError_ne_outOfFuel _ _
    | cons c cs =>
      simp only [json.scanLiteral]
      split_ifs
      · refine ⟨(ih cs).1, ?_⟩
        intro rest hx
        have := (ih cs).2 rest hx
        simp only [List.length_cons]; omega
      · refine ⟨?_, by intro rest hx; cases hx⟩
        simp only [ne_eq, Except.error.injEq]
        exact json.syntaxError_ne_outOfFuel _ _

/-- The exponent of a number: the scanner does not run out of steps and does not lengthen
the input. -/
theorem json.scanExponent_spec (pre s : Bytes) :
    (match s with
      | e :: r =>
        if e = 101 ∨ e = 69 then
          let (sg, r) : Bytes × Bytes := match r with
            | x :: r' => if x = 43 ∨ x = 45 then ([x], r') else ([], r)
            | [] => ([], [])
          match time.spanDigits r with
          | ([], r) => .error (json.syntaxError (r.headD 32) "in exponent of numeric literal")
          | (es, r) => .ok (pre ++ e :: sg ++ es, r)
        else .ok (pre, s)
      | [] => .ok (pre, []) : Except Error (Bytes × Bytes)) ≠ .error json.outOfFuel ∧
    ∀ lit rest, (match s with
      | e :: r =>
        if e = 101 ∨ e = 69 then
          let (sg, r) : Bytes × Bytes := match r with
            | x :: r' => if x = 43 ∨ x = 45 then ([x], r') else ([], r)
            | [] => ([], [])
          match time.spanDigits r with
          | ([], r) => .error (json.syntaxError (r.headD 32) "in exponent of numeric literal")
          | (es, r) => .ok (pre ++ e :: sg ++ es, r)
        else .ok (pre, s)
      | [] => .ok (pre, []) : Except Error (Bytes × Bytes)) = .ok (lit, rest) →
      rest.length ≤ s.length := by
  have hs := json.syntaxError_ne_outOfFuel
  rcases s with _ | ⟨e, r⟩
  · refine ⟨by simp, ?_⟩
    intro lit rest hx
    simp only [Except.ok.injEq, Prod.mk.injEq] at hx
    rw [← hx.2]
  · by_cases he : e = 101 ∨ e = 69
    · simp only [he, if_true]
      have key : ∀ (sg r1 : Bytes), r1.length ≤ r.length →
          (match time.spanDigits r1 with
            | ([], r) => .error (json.syntaxError (r.headD 32) "in exponent of numeric literal")
            | (es, r) => .ok (pre ++ e :: sg ++ es, r) : Except Error (Bytes × Bytes)) ≠
              .error json.outOfFuel ∧
          ∀ lit rest, (match time.spanDigits r1 with
            | ([], r) => .error (json.syntaxError (r.headD 32) "in exponent of numeric literal")
            | (es, r) => .ok (pre ++ e :: sg ++ es, r) : Except Error (Bytes × Bytes)) =
              .ok (lit, rest) → rest.length ≤ (e :: r).length := by
        intro sg r1 hr1
        cases hsp : time.spanDigits r1 with
        | mk es r2 =>
          have hlen := time.spanDigits_rest r1 es r2 hsp
          rcases es with _ | ⟨d, es⟩
          · refine ⟨?_, by intro lit rest hx; cases hx⟩
            simp only [ne_eq, Except.error.injEq]
            exact hs _ _
          · refine ⟨by simp, ?_⟩
            intro lit rest hx
            simp only [Except.ok.injEq, Prod.mk.injEq] at hx
            rw [← hx.2]
            simp only [List.length_cons]
            omega
      rcases r with _ | ⟨x, r'⟩
      · exact key [] [] (le_refl _)
      · by_cases hx : x = 43 ∨ x = 45
        · simp only [hx, if_true]
          exact key [x] r' (by simp)
        · simp only [hx, if_false]
          exact key [] (x :: r') (le_refl _)
    · simp only [he, if_false]
      refine ⟨by simp, ?_⟩
      intro lit rest hx
      simp only [Except.ok.injEq, Prod.mk.injEq] at hx
      rw [← hx.2]

/-- The scanner of numbers does not run out of steps, and what it leaves is shorter than its
input. -/
theorem json.scanDigits_spec (sign s : Bytes) :
    json.scanDigits sign s ≠ .error json.outOfFuel ∧
      ∀ lit rest, json.scanDigits sign s = .ok (lit, rest) → rest.length < s.length := by
  have hs := json.syntaxError_ne_outOfFuel
  rcases s with _ | ⟨c, r⟩
  · refine ⟨?_, by intro lit rest hx; simp [json.scanDigits] at hx⟩
    simp only [json.scanDigits, ne_eq, Except.error.injEq]
    exact hs _ _
  · by_cases hc : c < 48 ∨ 57 < c
    · refine ⟨?_, by intro lit rest hx; simp [json.scanDigits, hc] at hx⟩
      simp only [json.scanDigits, hc, if_true, ne_eq, Except.error.injEq]
      exact hs _ _
    · have keyC : ∀ (pre s2 : Bytes), s2.length ≤ r.length →
          (match s2 with
            | e :: r =>
              if e = 101 ∨ e = 69 then
                let (sg, r) : Bytes × Bytes := match r with
                  | x :: r' => if x = 43 ∨ x = 45 then ([x], r') else ([], r)
                  | [] => ([], [])
                match time.spanDigits r with
                | ([], r) =>
                  .error (json.syntaxError (r.headD 32) "in exponent of numeric literal")
                | (es, r) => .ok (pre ++ e :: sg ++ es, r)
              else .ok (pre, s2)
            | [] => .ok (pre, []) : Except Error (Bytes × Bytes)) ≠ .error json.outOfFuel ∧
          ∀ lit rest, (match s2 with
            | e :: r =>
              if e = 101 ∨ e = 69 then
                let (sg, r) : Bytes × Bytes := match r with
                  | x :: r' => if x = 43 ∨ x = 45 then ([x], r') else ([], r)
                  | [] => ([], [])
                match time.spanDigits r with
                | ([], r) =>
                  .error (json.syntaxError (r.headD 32) "in exponent of numeric literal")
                | (es, r) => .ok (pre ++ e :: sg ++ es, r)
              else .ok (pre, s2)
            | [] => .ok (pre, []) : Except Error (Bytes × Bytes)) = .ok (lit, rest) →
            rest.length < (c :: r).length := by
        intro pre s2 h2
        obtain ⟨k1, k2⟩ := json.scanExponent_spec pre s2
        refine ⟨k1, ?_⟩
        intro lit rest hx
        have := k2 lit rest hx
        simp only [List.length_cons]
        omega
      have keyB : ∀ (ds s1 : Bytes), s1.length ≤ r.length →
          json.scanDigits sign (c :: r) =
            (match (match s1 with
                | 46 :: r =>
                  match time.spanDigits r with
                  | ([], r) => .error (json.syntaxError (r.headD 32)
                      "after decimal point in numeric literal")
                  | (fs, r) => .ok (46 :: fs, r)
                | s => .ok ([], s) : Except Error (Bytes × Bytes)) with
              | .error err => .error err
              | .ok (frac, s) =>
                match s with
                | e :: r =>
                  if e = 101 ∨ e = 69 then
                    let (sg, r) : Bytes × Bytes := match r with
                      | x :: r' => if x = 43 ∨ x = 45 then ([x], r') else ([], r)
                      | [] => ([], [])
                    match time.spanDigits r with
                    | ([], r) =>
                      .error (json.syntaxError (r.headD 32) "in exponent of numeric literal")
                    | (es, r) => .ok ((sign ++ c :: ds) ++ frac ++ e :: sg ++ es, r)
                  else .ok ((sign ++ c :: ds) ++ frac, s)
                | [] => .ok ((sign ++ c :: ds) ++ frac, [])) →
          json.scanDigits sign (c :: r) ≠ .error json.outOfFuel ∧
            ∀ lit rest, json.scanDigits sign (c :: r) = .ok (lit, rest) →
              rest.length < (c :: r).length := by
        intro ds s1 h1 heq
        rw [heq]
        rcases s1 with _ | ⟨d, r2⟩
        · exact keyC _ [] (by simp)
        · by_cases hd : d = 46
          · subst hd
            cases hsp : time.spanDigits r2 with
            | mk fs r3 =>
              have hlen := time.spanDigits_rest r2 fs r3 hsp
              simp only [List.length_cons] at h1
              rcases fs with _ | ⟨f, fs⟩
              · refine ⟨?_, by intro lit rest hx; simp [hsp] at hx⟩
                simp only [hsp, ne_eq, Except.error.injEq]
                exact hs _ _
              · simp only [hsp]
                exact keyC _ r3 (by omega)
          · split
            · rename_i heq1
              split at heq1
              · rename_i heq2
                simp only [List.cons.injEq] at heq2
                exact absurd heq2.1 hd
              · cases heq1
            · rename_i heq1
              split at heq1
              · rename_i heq2
                simp only [List.cons.injEq] at heq2
                exact absurd heq2.1 hd
              · simp only [Except.ok.injEq, Prod.mk.injEq] at heq1
                obtain ⟨hf, hr⟩ := heq1
                subst hf
                subst hr
                exact keyC _ (d :: r2) h1
      by_cases h48 : c = 48
      · apply keyB [] r (le_refl _)
        simp only [json.scanDigits, hc, if_false]
        rw [if_pos h48]
      · cases hsp : time.spanDigits r with
        | mk ds s1 =>
          apply keyB ds s1 (time.spanDigits_rest r ds s1 hsp)
          simp only [json.scanDigits, hc, h48, hsp, if_false]

/-- The scanner of numbers, from the sign on: it does not run out of steps, and what it leaves
is shorter than its input. -/
theorem json.scanNumber_spec (s : Bytes) :
    json.scanNumber s ≠ .error json.outOfFuel ∧
      ∀ lit rest, json.scanNumber s = .ok (lit, rest) → rest.length < s.length := by
  unfold json.scanNumber
  split
  · rename_i r
    refine ⟨(json.scanDigits_spec [45] r).1, ?_⟩
    intro lit rest hx
    have := (json.scanDigits_spec [45] r).2 lit rest hx
    simp only [List.length_cons]
    omega
  · exact json.scanDigits_spec [] s

/-- A result that is an error other than running out of steps. -/
theorem json.error_spec {α : Type} (e : Error) (n : Nat) (h : e ≠ json.outOfFuel) :
    (Except.error e : Except Error (α × Bytes)) ≠ .error json.outOfFuel ∧
      ∀ v rest, (Except.error e : Except Error (α × Bytes)) = .ok (v, rest) →
        rest.length < n :=
  ⟨by simp only [ne_eq, Except.error.injEq]; exact h, by intro v rest hx; cases hx⟩

/-- A result that is a value and a rest of the input. -/
theorem json.ok_spec {α : Type} (v0 : α) (rest0 : Bytes) (n : Nat) (h : rest0.length < n) :
    (Except.ok (v0, rest0) : Except Error (α × Bytes)) ≠ .error json.outOfFuel ∧
      ∀ v rest, (Except.ok (v0, rest0) : Except Error (α × Bytes)) = .ok (v, rest) →
        rest.length < n := by
  refine ⟨by simp, ?_⟩
  intro v rest hx
  simp only [Except.ok.injEq, Prod.mk.injEq] at hx
  rw [← hx.2]
  exact h

/-- With fuel for twice the length of the input, the parser does not run out of steps, and
what it leaves after a value is shorter than its input. -/
theorem json.parse_steps (fuel : Nat) :
    (∀ depth s, 2 * s.length + 1 ≤ fuel →
      json.parseValue fuel depth s ≠ .error json.outOfFuel ∧
        ∀ v rest, json.parseValue fuel depth s = .ok (v, rest) → rest.length < s.length) ∧
    (∀ depth s acc, 2 * s.length + 1 ≤ fuel →
      json.parseMembers fuel depth s acc ≠ .error json.outOfFuel ∧
        ∀ v rest, json.parseMembers fuel depth s acc = .ok (v, rest) →
          rest.length < s.length) ∧
    (∀ depth s acc, 2 * s.length + 2 ≤ fuel →
      json.parseElements fuel depth s acc ≠ .error json.outOfFuel ∧
        ∀ v rest, json.parseElements fuel depth s acc = .ok (v, rest) →
          rest.length < s.length) := by
  have hs := json.syntaxError_ne_outOfFuel
  have hu := json.unexpectedEnd_ne_outOfFuel
  induction fuel with
  | zero =>
    refine ⟨?_, ?_, ?_⟩
    · intro depth s h; omega
    · intro depth s acc h; omega
    · intro depth s acc h; omega
  | succ f ih =>
    obtain ⟨ihV, ihM, ihE⟩ := ih
    refine ⟨?_, ?_, ?_⟩
    · intro depth s hlen
      rw [json.parseValue]
      cases hsk : json.skipSpace s with
      | nil => exact json.error_spec _ _ hu
      | cons c rest =>
        have hl := json.skipSpace_length s
        rw [hsk] at hl
        simp only [List.length_cons] at hl
        simp only
        split_ifs with h1 h2 h3 h4 h5 h6 h7 h8 h9
        · exact ⟨by simp only [ne_eq, Except.error.injEq]; exact hs _ _, fun _ _ hx => hx.elim⟩
        · cases hsk2 : json.skipSpace rest with
          | nil => exact json.error_spec _ _ hu
          | cons d rest' =>
            have hl2 := json.skipSpace_length rest
            rw [hsk2] at hl2
            simp only [List.length_cons] at hl2
            simp only
            split_ifs with h10
            · exact json.ok_spec _ _ _ (by omega)
            · obtain ⟨k1, k2⟩ := ihM (depth + 1) (d :: rest') []
                (by simp only [List.length_cons]; omega)
              refine ⟨k1, ?_⟩
              intro v r hx
              have := k2 v r hx
              simp only [List.length_cons] at this
              omega
        · exact ⟨by simp only [ne_eq, Except.error.injEq]; exact hs _ _, fun _ _ hx => hx.elim⟩
        · cases hsk2 : json.skipSpace rest with
          | nil => exact json.error_spec _ _ hu
          | cons d rest' =>
            have hl2 := json.skipSpace_length rest
            rw [hsk2] at hl2
            simp only [List.length_cons] at hl2
            simp only
            split_ifs with h10
            · exact json.ok_spec _ _ _ (by omega)
            · obtain ⟨k1, k2⟩ := ihE (depth + 1) (d :: rest') []
                (by simp only [List.length_cons]; omega)
              refine ⟨k1, ?_⟩
              intro v r hx
              have := k2 v r hx
              simp only [List.length_cons] at this
              omega
        · obtain ⟨k1, k2⟩ := json.scanStringFrom_spec rest .inString
          unfold json.scanString
          cases hsc : json.scanStringFrom .inString rest with
          | error e => exact json.error_spec _ _ (fun h => k1 (by rw [hsc, h]))
          | ok p =>
            obtain ⟨raw, r1⟩ := p
            have := k2 raw r1 hsc
            exact json.ok_spec _ _ _ (by omega)
        · obtain ⟨k1, k2⟩ := json.scanNumber_spec (c :: rest)
          cases hsc : json.scanNumber (c :: rest) with
          | error e => exact json.error_spec _ _ (fun h => k1 (by rw [hsc, h]))
          | ok p =>
            obtain ⟨lit, r1⟩ := p
            have := k2 lit r1 hsc
            simp only [List.length_cons] at this
            exact json.ok_spec _ _ _ (by omega)
        · obtain ⟨k1, k2⟩ := json.scanLiteral_spec "true" [114, 117, 101] rest
          cases hsc : json.scanLiteral "true" [114, 117, 101] rest with
          | error e => exact json.error_spec _ _ (fun h => k1 (by rw [hsc, h]))
          | ok r1 =>
            have := k2 r1 hsc
            exact json.ok_spec _ _ _ (by omega)
        · obtain ⟨k1, k2⟩ := json.scanLiteral_spec "false" [97, 108, 115, 101] rest
          cases hsc : json.scanLiteral "false" [97, 108, 115, 101] rest with
          | error e => exact json.error_spec _ _ (fun h => k1 (by rw [hsc, h]))
          | ok r1 =>
            have := k2 r1 hsc
            exact json.ok_spec _ _ _ (by omega)
        · obtain ⟨k1, k2⟩ := json.scanLiteral_spec "null" [117, 108, 108] rest
          cases hsc : json.scanLiteral "null" [117, 108, 108] rest with
          | error e => exact json.error_spec _ _ (fun h => k1 (by rw [hsc, h]))
          | ok r1 =>
            have := k2 r1 hsc
            exact json.ok_spec _ _ _ (by omega)
        · exact ⟨by simp only [ne_eq, Except.error.injEq]; exact hs _ _, fun _ _ hx => hx.elim⟩
    · intro depth s acc hlen
      rw [json.parseMembers]
      cases hsk : json.skipSpace s with
      | nil => exact json.error_spec _ _ hu
      | cons c rest =>
        have hl := json.skipSpace_length s
        rw [hsk] at hl
        simp only [List.length_cons] at hl
        simp only
        split_ifs with h1
        · exact ⟨by simp only [ne_eq, Except.error.injEq]; exact hs _ _, fun _ _ hx => hx.elim⟩
        · obtain ⟨k1, k2⟩ := json.scanStringFrom_spec rest .inString
          unfold json.scanString
          cases hsc : json.scanStringFrom .inString rest with
          | error e => exact json.error_spec _ _ (fun h => k1 (by rw [hsc, h]))
          | ok p =>
            obtain ⟨key, r1⟩ := p
            have hr1 := k2 key r1 hsc
            simp only
            cases hsk2 : json.skipSpace r1 with
            | nil => exact json.error_spec _ _ hu
            | cons c2 r2 =>
              have hl2 := json.skipSpace_length r1
              rw [hsk2] at hl2
              simp only [List.length_cons] at hl2
              simp only
              split_ifs with h2
              · exact ⟨by simp only [ne_eq, Except.error.injEq]; exact hs _ _, fun _ _ hx => hx.elim⟩
              · obtain ⟨v1, v2⟩ := ihV depth r2 (by omega)
                cases hpv : json.parseValue f depth r2 with
                | error e => exact json.error_spec _ _ (fun h => v1 (by rw [hpv, h]))
                | ok p =>
                  obtain ⟨v, r3⟩ := p
                  have hr3 := v2 v r3 hpv
                  simp only
                  cases hsk3 : json.skipSpace r3 with
                  | nil => exact json.error_spec _ _ hu
                  | cons c3 r4 =>
                    have hl3 := json.skipSpace_length r3
                    rw [hsk3] at hl3
                    simp only [List.length_cons] at hl3
                    simp only
                    split_ifs with h3 h4
                    · obtain ⟨m1, m2⟩ := ihM depth r4 (acc ++ [(key, v)]) (by omega)
                      refine ⟨m1, ?_⟩
                      intro v' r hx
                      have := m2 v' r hx
                      omega
                    · exact json.ok_spec _ _ _ (by omega)
                    · exact ⟨by simp only [ne_eq, Except.error.injEq]; exact hs _ _, fun _ _ hx => hx.elim⟩
    · intro depth s acc hlen
      rw [json.parseElements]
      obtain ⟨v1, v2⟩ := ihV depth s (by omega)
      cases hpv : json.parseValue f depth s with
      | error e => exact json.error_spec _ _ (fun h => v1 (by rw [hpv, h]))
      | ok p =>
        obtain ⟨v, r1⟩ := p
        have hr1 := v2 v r1 hpv
        simp only
        cases hsk : json.skipSpace r1 with
        | nil => exact json.error_spec _ _ hu
        | cons c r2 =>
          have hl := json.skipSpace_length r1
          rw [hsk] at hl
          simp only [List.length_cons] at hl
          simp only
          split_ifs with h3 h4
          · obtain ⟨m1, m2⟩ := ihE depth r2 (acc ++ [v]) (by omega)
            refine ⟨m1, ?_⟩
            intro v' r hx
            have := m2 v' r hx
            omega
          · exact json.ok_spec _ _ _ (by omega)
          · exact ⟨by simp only [ne_eq, Except.error.injEq]; exact hs _ _, fun _ _ hx => hx.elim⟩

/-- The parser of `json.Unmarshal` never runs out of steps: every text is either parsed or
refused by the syntax check. -/
theorem json.parse_ne_outOfFuel (data : Bytes) : json.parse data ≠ .error json.outOfFuel := by
  unfold json.parse
  obtain ⟨k1, _⟩ := (json.parse_steps (2 * data.length + 2)).1 0 data (by omega)
  cases hp : json.parseValue (2 * data.length + 2) 0 data with
  | error e =>
    simp only [ne_eq, Except.error.injEq]
    intro h
    exact k1 (by rw [hp, h])
  | ok p =>
    obtain ⟨v, rest⟩ := p
    simp only
    cases hsk : json.skipSpace rest with
    | nil => simp
    | cons c r =>
      simp only [ne_eq, Except.error.injEq]
      exact json.syntaxError_ne_outOfFuel _ _

/-- A type error is not the error of running out of steps. -/
theorem json.typeError_ne_outOfFuel (rest : Bytes) :
    Error.text (str "json: cannot unmarshal " ++ rest) ≠ json.outOfFuel := by
  have h1 : str "json: cannot unmarshal " =
      106 :: 115 :: 111 :: 110 :: 58 :: 32 :: 99 :: str "annot unmarshal " := by decide
  have h2 : str "json: out of steps" =
      106 :: 115 :: 111 :: 110 :: 58 :: 32 :: 111 :: str "ut of steps" := by decide
  unfold json.outOfFuel
  rw [h1, h2]
  simp

/-- No error of `Time.UnmarshalJSON` is the error of running out of steps. -/
theorem time.UnmarshalJSON_ne_outOfFuel (data : Bytes) (t : Time) :
    time.UnmarshalJSON data t ≠ .error json.outOfFuel := by
  have h1 : str "Time.UnmarshalJSON: input is not a JSON string" =
      84 :: str "ime.UnmarshalJSON: input is not a JSON string" := by decide
  have h2 : str "parsing time " = 112 :: str "arsing time " := by decide
  have h3 : str "json: out of steps" = 106 :: str "son: out of steps" := by decide
  unfold time.UnmarshalJSON json.outOfFuel
  split_ifs
  · simp
  · rw [h1, h3]; simp
  · unfold time.parseStrictRFC3339
    split
    · simp
    · unfold time.Parse
      split
      · unfold time.ParseError.Error
        split_ifs <;> (rw [h2, h3]; simp)
      · simp

/-- The decoding of the members of an object does not report running out of steps. -/
theorem json.decodeMembers_ne_outOfFuel (ms : List (Bytes × json.Value)) :
    ∀ (np : handlers.NextPage) (saved : Option Error), saved ≠ some json.outOfFuel →
      json.decodeMembers ms np saved ≠ .error json.outOfFuel ∧
      ∀ np', json.decodeMembers ms np saved ≠ .ok (np', some json.outOfFuel) := by
  have hsave : ∀ (saved e : Option Error), saved ≠ some json.outOfFuel →
      e ≠ some json.outOfFuel → json.saveError saved e ≠ some json.outOfFuel := by
    intro saved e h1 h2
    cases saved with
    | none => exact h2
    | some x => exact h1
  have hint : ∀ (field : String) (val : json.Value) (cur : Int),
      (json.storeInt field val cur).2 ≠ some json.outOfFuel := by
    intro field val cur
    unfold json.storeInt json.fieldTypeError
    cases val with
    | number lit =>
      simp only
      cases strconv.ParseInt lit with
      | none =>
        simp only [ne_eq, Option.some.injEq, List.append_assoc]
        exact json.typeError_ne_outOfFuel _
      | some n => simp
    | null => simp
    | bool b =>
      simp only [ne_eq, Option.some.injEq, List.append_assoc]
      exact json.typeError_ne_outOfFuel _
    | string raw =>
      simp only [ne_eq, Option.some.injEq, List.append_assoc]
      exact json.typeError_ne_outOfFuel _
    | array items =>
      simp only [ne_eq, Option.some.injEq, List.append_assoc]
      exact json.typeError_ne_outOfFuel _
    | object members =>
      simp only [ne_eq, Option.some.injEq, List.append_assoc]
      exact json.typeError_ne_outOfFuel _
  have hstr : ∀ (field : String) (val : json.Value) (cur : Bytes),
      (json.storeString field val cur).2 ≠ some json.outOfFuel := by
    intro field val cur
    unfold json.storeString json.fieldTypeError
    cases val with
    | string raw => simp
    | null => simp
    | bool b =>
      simp only [ne_eq, Option.some.injEq, List.append_assoc]
      exact json.typeError_ne_outOfFuel _
    | number lit =>
      simp only [ne_eq, Option.some.injEq, List.append_assoc]
      exact json.typeError_ne_outOfFuel _
    | array items =>
      simp only [ne_eq, Option.some.injEq, List.append_assoc]
      exact json.typeError_ne_outOfFuel _
    | object members =>
      simp only [ne_eq, Option.some.injEq, List.append_assoc]
      exact json.typeError_ne_outOfFuel _
  induction ms with
  | nil =>
    intro np saved hsv
    refine ⟨by simp [json.decodeMembers], ?_⟩
    intro np' hx
    simp only [json.decodeMembers, Except.ok.injEq, Prod.mk.injEq] at hx
    exact hsv hx.2
  | cons m ms ih =>
    intro np saved hsv
    obtain ⟨key, val⟩ := m
    unfold json.decodeMembers
    cases json.fieldByName (json.unquote key) with
    | none => exact ih np saved hsv
    | some fld =>
      cases fld with
      | limit => exact ih _ _ (hsave _ _ hsv (hint _ _ _))
      | offset => exact ih _ _ (hsave _ _ hsv (hint _ _ _))
      | filterBy => exact ih _ _ (hsave _ _ hsv (hstr _ _ _))
      | filter => exact ih _ _ (hsave _ _ hsv (hstr _ _ _))
      | time =>
        simp only
        cases ht : time.UnmarshalJSON val.raw np.Time with
        | error e =>
          refine ⟨?_, by intro np' hx; cases hx⟩
          simp only [ne_eq, Except.error.injEq]
          intro h
          exact time.UnmarshalJSON_ne_outOfFuel val.raw np.Time (by rw [ht, h])
        | ok t => exact ih _ _ hsv

/-- The model of `json.Unmarshal` never reports running out of steps: its errors are errors of
the library. -/
theorem json.Unmarshal_ne_outOfFuel (typeName data : Bytes) (v : handlers.NextPage) :
    json.Unmarshal typeName data v ≠ .error json.outOfFuel := by
  unfold json.Unmarshal
  cases hp : json.parse data with
  | error e =>
    simp only [ne_eq, Except.error.injEq]
    intro h
    exact json.parse_ne_outOfFuel data (by rw [hp, h])
  | ok val =>
    cases val with
    | null => simp
    | object ms =>
      simp only
      obtain ⟨k1, k2⟩ := json.decodeMembers_ne_outOfFuel ms v none (by simp)
      cases hd : json.decodeMembers ms v none with
      | error e =>
        simp only [ne_eq, Except.error.injEq]
        intro h
        exact k1 (by rw [hd, h])
      | ok p =>
        obtain ⟨np, saved⟩ := p
        cases saved with
        | none => simp
        | some e =>
          simp only [ne_eq, Except.error.injEq]
          intro h
          exact k2 np (by rw [hd, h])
    | bool b =>
      simp only [ne_eq, Except.error.injEq, List.append_assoc]
      exact json.typeError_ne_outOfFuel _
    | number lit =>
      simp only [ne_eq, Except.error.injEq, List.append_assoc]
      exact json.typeError_ne_outOfFuel _
    | string raw =>
      simp only [ne_eq, Except.error.injEq, List.append_assoc]
      exact json.typeError_ne_outOfFuel _
    | array items =>
      simp only [ne_eq, Except.error.injEq, List.append_assoc]
      exact json.typeError_ne_outOfFuel _

/-! ## Tokens that do not parse, suppliers that fail -/

/-- What `json.Unmarshal` into a `*NextPage` rejects: a text that is not valid JSON, with the
error of the syntax check, and a JSON value that is neither an object nor `null`, with a
type error. The literal `null` is accepted and leaves the struct as it is. -/
theorem json.Unmarshal_rejects (typeName data : Bytes) (v : handlers.NextPage) :
    (∀ e, json.parse data = .error e → json.Unmarshal typeName data v = .error e) ∧
    (∀ val, json.parse data = .ok val → (∀ ms, val ≠ .object ms) → val ≠ .null →
      json.Unmarshal typeName data v = .error (.text (str "json: cannot unmarshal " ++
        val.kind ++ str " into Go value of type " ++ typeName))) ∧
    (json.parse data = .ok .null → json.Unmarshal typeName data v = .ok v) := by
  refine ⟨?_, ?_, ?_⟩
  · intro e h
    simp only [json.Unmarshal, h]
  · intro val h hobj hnull
    unfold json.Unmarshal
    rw [h]
    cases val with
    | null => exact absurd rfl hnull
    | object ms => exact absurd rfl (hobj ms)
    | bool b => rfl
    | number lit => rfl
    | string raw => rfl
    | array items => rfl
  · intro h
    simp only [json.Unmarshal, h]

/-- Times in the spellings that only the layout-driven reader admits are read: a one-digit
hour, a comma before the fraction, a zone of 24 hours. A blank in place of the `T` is
refused with the words of `ParseError.Error`. -/
theorem time.UnmarshalJSON_layout :
    time.UnmarshalJSON (str "\"2035-07-21T8:58:29+02:00\"") Time.zero =
      .ok { year := 2035, month := 7, day := 21, hour := 8, minute := 58, second := 29,
            nsec := 0, zone := 120 } ∧
    time.UnmarshalJSON (str "\"2035-07-21T18:58:29,5+24:00\"") Time.zero =
      .ok { year := 2035, month := 7, day := 21, hour := 18, minute := 58, second := 29,
            nsec := 500000000, zone := 1440 } ∧
    time.UnmarshalJSON (str "\"2035-07-21 18:58:29Z\"") Time.zero =
      .error (.text (str ("parsing time \"2035-07-21 18:58:29Z\" as " ++
        "\"2006-01-02T15:04:05Z07:00\": cannot parse \" 18:58:29Z\" as \"T\""))) ∧
    time.UnmarshalJSON (str "\"2035-13-21T18:58:29Z\"") Time.zero =
      .error (.text (str "parsing time \"2035-13-21T18:58:29Z\": month out of range")) := by
  decide

/-- Tokens with a time in a spelling that only the layout-driven reader admits are live
tokens: their page is returned and the pagination closure, which would fail, is not called. -/
theorem layout_time_tokens_load :
    handlers.LoadNextPage (stdlib "handlers") clock2024 oneDigitHourToken [] []
        failingPagination () =
      (.ok { Limit := 2, Offset := 2, FilterBy := [], Filter := [],
             Time := { year := 2035, month := 7, day := 21, hour := 8, minute := 58,
                       second := 29, nsec := 0, zone := 120 } }, ()) ∧
    handlers.LoadNextPage (stdlib "handlers") clock2024 commaFractionToken [] []
        failingPagination () =
      (.ok { Limit := 2, Offset := 2, FilterBy := [], Filter := [],
             Time := { year := 2035, month := 7, day := 21, hour := 18, minute := 58,
                       second := 29, nsec := 500000000, zone := 1440 } }, ()) := by
  decide

/-- C11 as amended, unparsable token: a non-empty token that base64-decodes to bytes which
are not the JSON literal `null` and which do not parse as a page-token object (they are not
valid JSON, or are a JSON value that is no object, or are an object that `json.Unmarshal`
rejects) makes `LoadNextPage` return no result and the error of `json.Unmarshal` behind the
words "could not unmarshal limit offset: ", so that the message begins with
"could not unmarshal limit offset"; the fresh-parameter path is not entered: the pagination
closure is not called, whatever the filter, filterBy and closure are. The same holds in the
servers tree. The error is one of the library, not the model's error of running out of
steps. For the literal `null`, which `json.Unmarshal` accepts without effect, `LoadNextPage`
goes on to the fresh-parameter path (for every clock reading of 1970 or later). -/
theorem unparsable_token {σ : Type} (pkg : String) (now : Time) (nPage sDec : Bytes)
    (hne : nPage ≠ []) (hdec : base64.DecodeString nPage = .ok sDec)
    (filter filterBy : Bytes) (paginationFn : PaginationFn σ) (s : σ) :
    (json.parse sDec ≠ .ok .null →
      (¬ ∃ ms np, json.parse sDec = .ok (.object ms) ∧
        json.Unmarshal (str (pkg ++ ".NextPage")) sDec initialNextPage = .ok np) →
      ∃ e, json.Unmarshal (str (pkg ++ ".NextPage")) sDec initialNextPage = .error e ∧
        handlers.LoadNextPage (stdlib pkg) now nPage filter filterBy paginationFn s =
          (.error (.wrap (str "could not unmarshal limit offset: ") e), s) ∧
        common.loadNextPage (stdlib pkg) now nPage filter filterBy paginationFn s =
          (.error (.wrap (str "could not unmarshal limit offset: ") e), s) ∧
        str "could not unmarshal limit offset" <+:
          (Error.wrap (str "could not unmarshal limit offset: ") e).Error ∧
        e ≠ json.outOfFuel) ∧
    (∀ e, json.Unmarshal (str (pkg ++ ".NextPage")) sDec initialNextPage = .error e →
      handlers.LoadNextPage (stdlib pkg) now nPage filter filterBy paginationFn s =
        (.error (.wrap (str "could not unmarshal limit offset: ") e), s) ∧
      common.loadNextPage (stdlib pkg) now nPage filter filterBy paginationFn s =
        (.error (.wrap (str "could not unmarshal limit offset: ") e), s) ∧
      str "could not unmarshal limit offset" <+:
        (Error.wrap (str "could not unmarshal limit offset: ") e).Error ∧
      e ≠ json.outOfFuel) ∧
    (json.parse sDec = .ok .null → 0 ≤ now.unixNano →
      handlers.LoadNextPage (stdlib pkg) now nPage filter filterBy paginationFn s =
        freshParameters initialNextPage filter filterBy paginationFn s ∧
      common.loadNextPage (stdlib pkg) now nPage filter filterBy paginationFn s =
        freshParameters initialNextPage filter filterBy paginationFn s) := by
  have main : ∀ e, json.Unmarshal (str (pkg ++ ".NextPage")) sDec initialNextPage = .error e →
      handlers.LoadNextPage (stdlib pkg) now nPage filter filterBy paginationFn s =
        (.error (.wrap (str "could not unmarshal limit offset: ") e), s) ∧
      common.loadNextPage (stdlib pkg) now nPage filter filterBy paginationFn s =
        (.error (.wrap (str "could not unmarshal limit offset: ") e), s) ∧
      str "could not unmarshal limit offset" <+:
        (Error.wrap (str "could not unmarshal limit offset: ") e).Error ∧
      e ≠ json.outOfFuel := by
    intro e hbad
    have h : handlers.LoadNextPage (stdlib pkg) now nPage filter filterBy paginationFn s =
        (.error (.wrap (str "could not unmarshal limit offset: ") e), s) := by
      have hbad' : json.Unmarshal (str (pkg ++ ".NextPage")) sDec
          { Limit := -1, Offset := 0, FilterBy := [], Filter := [], Time := Time.zero } =
          .error e := hbad
      simp only [handlers.LoadNextPage, stdlib, hne, hdec, hbad', ne_eq, not_false_eq_true,
        if_true]
    refine ⟨h, by rw [loadNextPage_eq]; exact h, ?_, ?_⟩
    · exact ⟨str ": " ++ e.Error, by simp [Error.Error, str]⟩
    · intro he
      exact json.Unmarshal_ne_outOfFuel _ sDec initialNextPage (by rw [hbad, he])
  refine ⟨?_, main, ?_⟩
  · intro hnull hobj
    have hrej := json.Unmarshal_rejects (str (pkg ++ ".NextPage")) sDec initialNextPage
    have hex : ∃ e, json.Unmarshal (str (pkg ++ ".NextPage")) sDec initialNextPage =
        .error e := by
      cases hp : json.parse sDec with
      | error e => exact ⟨e, hrej.1 e hp⟩
      | ok val =>
        by_cases hv : ∃ ms, val = .object ms
        · obtain ⟨ms, hms⟩ := hv
          cases hu : json.Unmarshal (str (pkg ++ ".NextPage")) sDec initialNextPage with
          | error e => exact ⟨e, rfl⟩
          | ok np => exact absurd ⟨ms, np, by rw [hp, hms], hu⟩ hobj
        · exact ⟨_, hrej.2.1 val hp (fun ms hms => hv ⟨ms, hms⟩)
            (fun hn => hnull (by rw [hp, hn]))⟩
    obtain ⟨e, he⟩ := hex
    exact ⟨e, he, main e he⟩
  · intro hnull hclock
    have hu : (stdlib pkg).Unmarshal sDec initialNextPage = .ok initialNextPage :=
      (json.Unmarshal_rejects (str (pkg ++ ".NextPage")) sDec initialNextPage).2.2 hnull
    have hload := LoadNextPage_wellFormed (stdlib pkg) now nPage sDec filter filterBy
      initialNextPage paginationFn s hne hdec hu
    have hstale : tokenIsLive now initialNextPage = false := by
      rw [← Bool.not_eq_true, tokenIsLive_iff]
      have hz : initialNextPage.Time.unixNano = -62135596800000000000 := by decide
      rw [hz]
      omega
    rw [loadNextPage_eq, hload, hstale]
    exact ⟨rfl, rfl⟩

/-- The scenario of the repository's test: the token `QAo=`, the bytes `@` and line feed,
with the message the test expects; the closure, which would fail, is not called. A token
whose text is an object with a time that cannot be read is refused in the same way. -/
theorem unparsable_token_witness :
    json.parse [64, 10] ≠ .ok .null ∧
    (¬ ∃ ms np, json.parse [64, 10] = .ok (.object ms) ∧
      json.Unmarshal (str ("handlers" ++ ".NextPage")) [64, 10] initialNextPage = .ok np) ∧
    (∃ e, json.Unmarshal (str ("handlers" ++ ".NextPage")) [64, 10] initialNextPage =
        .error e ∧
      handlers.LoadNextPage (stdlib "handlers") clock2024 (str "QAo=") (str "NL")
          (str "country") failingPagination () =
        (.error (.wrap (str "could not unmarshal limit offset: ") e), ()) ∧
      common.loadNextPage (stdlib "handlers") clock2024 (str "QAo=") (str "NL")
          (str "country") failingPagination () =
        (.error (.wrap (str "could not unmarshal limit offset: ") e), ()) ∧
      str "could not unmarshal limit offset" <+:
        (Error.wrap (str "could not unmarshal limit offset: ") e).Error ∧
      e ≠ json.outOfFuel) ∧
    handlers.LoadNextPage (stdlib "handlers") clock2024 (str "QAo=") (str "NL") (str "country")
        failingPagination () =
      (.error (.wrap (str "could not unmarshal limit offset: ")
        (.text (str "invalid character '@' looking for beginning of value"))), ()) ∧
    handlers.LoadNextPage (stdlib "handlers") clock2024 blankInTimeToken [] []
        failingPagination () =
      (.error (.wrap (str "could not unmarshal limit offset: ")
        (.text (str ("parsing time \"2035-07-21 18:58:29Z\" as " ++
          "\"2006-01-02T15:04:05Z07:00\": cannot parse \" 18:58:29Z\" as \"T\"")))), ()) :=
  have h := unparsable_token "handlers" clock2024 (str "QAo=") [64, 10] (by decide) (by decide)
    (str "NL") (str "country") failingPagination ()
  have hp : json.parse [64, 10] =
      .error (.text (str "invalid character '@' looking for beginning of value")) := rfl
  have hnull : json.parse [64, 10] ≠ .ok .null := by
    rw [hp]
    exact fun hx => Except.noConfusion hx
  have hobj : ¬ ∃ ms np, json.parse [64, 10] = .ok (.object ms) ∧
      json.Unmarshal (str ("handlers" ++ ".NextPage")) [64, 10] initialNextPage = .ok np := by
    rw [hp]
    exact fun ⟨_, _, hx, _⟩ => Except.noConfusion hx
  ⟨hnull, hobj, h.1 hnull hobj,
    (h.2.1 (.text (str "invalid character '@' looking for beginning of value"))
      (by decide)).1,
    by decide⟩

/-- C11 as stated fails for the token `bnVsbA==`: it is valid base64, its bytes are the JSON
literal `null`, which is valid JSON and no object, yet `json.Unmarshal` returns no error and
`LoadNextPage` takes the fresh-parameter path: with the parameter `pagination=7` it returns
limit 7 and offset 0, and with a malformed `pagination` it returns the error of the
pagination closure. -/
theorem unparsable_token_counterexample :
    base64.DecodeString nullToken = .ok (str "null") ∧
    json.parse (str "null") = .ok .null ∧
    json.Unmarshal (str "handlers.NextPage") (str "null") initialNextPage =
      .ok initialNextPage ∧
    handlers.LoadNextPage (stdlib "handlers") clock2024 nullToken [] []
        (paginationHTTP ⟨nullToken, [], [], str "7"⟩) () =
      (.ok { Limit := 7, Offset := 0, FilterBy := [], Filter := [], Time := Time.zero }, ()) ∧
    common.loadNextPage (stdlib "common") clock2024 nullToken [] []
        (paginationHTTP ⟨nullToken, [], [], str "7"⟩) () =
      (.ok { Limit := 7, Offset := 0, FilterBy := [], Filter := [], Time := Time.zero }, ()) ∧
    handlers.LoadNextPage (stdlib "handlers") clock2024 nullToken [] []
        (paginationHTTP ⟨nullToken, [], [], str "abc"⟩) () =
      (.error (.text (str "malformed pagination")), ()) :=
  ⟨by decide, rfl, by decide, by decide, by decide, by decide⟩

/-- A failure of the pagination closure is the result of the fresh-parameter path. -/
theorem freshParameters_supplierError {σ : Type} (np : handlers.NextPage)
    (filter filterBy : Bytes) (paginationFn : PaginationFn σ) (s s' : σ) (e : Error)
    (hp : paginationFn s = (.error e, s')) :
    freshParameters np filter filterBy paginationFn s = (.error e, s') := by
  simp only [freshParameters, hp]

/-- The HTTP pagination closure fails exactly on a non-empty parameter that `strconv.ParseInt`
rejects, and then with "malformed pagination". -/
theorem paginationHTTP_error_iff (r : HTTPRequest) (e : Error) :
    (paginationHTTP r ()).1 = .error e ↔
      (r.pagination ≠ [] ∧ strconv.ParseInt r.pagination = none ∧
        e = .text (str "malformed pagination")) := by
  unfold paginationHTTP
  by_cases h0 : r.pagination = []
  · simp [h0]
  · cases hp : strconv.ParseInt r.pagination with
    | none => simp [h0, hp, eq_comm]
    | some p => simp [h0, hp]

/-- What `strconv.ParseInt` accepts is a 64-bit integer. -/
theorem strconv.ParseInt_isInt64 (s : Bytes) (v : Int) (h : strconv.ParseInt s = some v) :
    isInt64 v := by
  unfold strconv.ParseInt at h
  simp only at h
  split_ifs at h with h1 h2
  all_goals
    split at h
    · cases h
    · split_ifs at h with h3
      simp only [Option.some.injEq] at h
      subst h
      exact h3

/-- C12, pagination error propagation: when the fresh-parameter path is reached (no token, or
a token that decodes and parses and has expired) and the pagination closure fails, `LoadNextPage`
returns no result and the closure's error as it is, also when the filter pair is one-sided;
this holds in both trees. The HTTP closure fails, always with "malformed pagination", exactly
when the `pagination` parameter is not empty and `strconv.ParseInt(s, 10, 64)` rejects it; an
absent parameter gives -1 without error, the decimal form of every 64-bit integer gives that
integer, and nothing but 64-bit integers is given. -/
theorem pagination_error_propagation {σ : Type} (c : Codec) (now : Time)
    (nPage filter filterBy : Bytes) (paginationFn : PaginationFn σ) (s s' : σ) (e : Error)
    (hpath : nPage = [] ∨ ∃ sDec np, c.DecodeString nPage = .ok sDec ∧
      c.Unmarshal sDec initialNextPage = .ok np ∧
      30 * 60 * 1000000000 ≤ now.unixNano - np.Time.unixNano)
    (hp : paginationFn s = (.error e, s')) :
    handlers.LoadNextPage c now nPage filter filterBy paginationFn s = (.error e, s') ∧
    common.loadNextPage c now nPage filter filterBy paginationFn s = (.error e, s') ∧
    (∀ (r : HTTPRequest) (e' : Error), (paginationHTTP r ()).1 = .error e' ↔
      (r.pagination ≠ [] ∧ strconv.ParseInt r.pagination = none ∧
        e' = .text (str "malformed pagination"))) ∧
    (∀ r : HTTPRequest, r.pagination = [] → paginationHTTP r () = (.ok (-1), ())) ∧
    (∀ (r : HTTPRequest) (i : Int), isInt64 i → r.pagination = strconv.FormatInt i →
      paginationHTTP r () = (.ok i, ())) ∧
    (∀ (r : HTTPRequest) (i : Int), (paginationHTTP r ()).1 = .ok i → isInt64 i) := by
  have h : handlers.LoadNextPage c now nPage filter filterBy paginationFn s = (.error e, s') := by
    by_cases hne : nPage = []
    · subst hne
      rw [LoadNextPage_empty, freshParameters_supplierError _ _ _ _ _ _ _ hp]
    · rcases hpath with h0 | ⟨sDec, np, hdec, hjson, hold⟩
      · exact absurd h0 hne
      · rw [LoadNextPage_wellFormed c now nPage sDec filter filterBy np paginationFn s hne hdec
          hjson]
        have hl : ¬ tokenIsLive now np = true := fun hl => by
          have := (tokenIsLive_iff now np).1 hl; omega
        rw [if_neg hl, freshParameters_supplierError _ _ _ _ _ _ _ hp]
  refine ⟨h, by rw [loadNextPage_eq]; exact h, paginationHTTP_error_iff, ?_, ?_, ?_⟩
  · intro r hr
    simp [paginationHTTP, hr]
  · intro r i hi hr
    obtain ⟨c0, tl, hf, _, _⟩ := strconv.FormatInt_head i
    have hne : strconv.FormatInt i ≠ [] := by rw [hf]; simp
    simp only [paginationHTTP, hne, ne_eq, not_false_eq_true, if_true, hr,
      strconv.ParseInt_FormatInt i hi]
  · intro r i hr
    unfold paginationHTTP at hr
    by_cases h0 : r.pagination = []
    · simp [h0] at hr
      subst hr
      decide
    · cases hp' : strconv.ParseInt r.pagination with
      | none => simp [h0, hp'] at hr
      | some p =>
        simp [h0, hp'] at hr
        subst hr
        exact strconv.ParseInt_isInt64 _ _ hp'

/-- A request without a token whose pagination is `abc` and whose filter pair is one-sided:
the error is "malformed pagination", not the pairing error. -/
theorem pagination_error_propagation_witness :
    handlers.LoadNextPage (stdlib "handlers") clock2024 [] [] (str "country")
        (paginationHTTP ⟨[], [], str "country", str "abc"⟩) () =
      (.error (.text (str "malformed pagination")), ()) ∧
    common.loadNextPage (stdlib "handlers") clock2024 [] [] (str "country")
        (paginationHTTP ⟨[], [], str "country", str "abc"⟩) () =
      (.error (.text (str "malformed pagination")), ()) :=
  have h := pagination_error_propagation (stdlib "handlers") clock2024 [] [] (str "country")
    (paginationHTTP ⟨[], [], str "country", str "abc"⟩) () () _ (Or.inl rfl) (by decide)
  ⟨h.1, h.2.1⟩

/-! ## The filter of a live token -/

/-- A token that decodes and parses and is less than 30 minutes old is the result of
`LoadNextPage`. -/
theorem LoadNextPage_live {σ : Type} (c : Codec) (now : Time) (nPage sDec : Bytes)
    (np : handlers.NextPage) (hne : nPage ≠ [])
    (hdec : c.DecodeString nPage = .ok sDec) (hjson : c.Unmarshal sDec initialNextPage = .ok np)
    (hlive : now.unixNano - np.Time.unixNano < 1800000000000)
    (filter filterBy : Bytes) (paginationFn : PaginationFn σ) (s : σ) :
    handlers.LoadNextPage c now nPage filter filterBy paginationFn s = (.ok np, s) := by
  rw [LoadNextPage_wellFormed c now nPage sDec filter filterBy np paginationFn s hne hdec hjson,
    (tokenIsLive_iff now np).2 hlive]
  rfl

/-- C13 as amended, the filter of a live token is checked like a filter of the request: for a
token that decodes and parses, is less than 30 minutes old and carries a non-empty filter_by and
filter, the decoders succeed with the limit, offset and filter pair of the token exactly when
filter_by is allowed (a member of `AllowedFilters` in the servers tree, `country` in the handlers
tree), whatever filter, filterBy and pagination the request gives, and the handlers then call the
listing of the service with these values (shown by its result being the answer when it finds no
users); when filter_by is not allowed the decoders fail with
"filterBy parameter '<filter_by>' not supported" and the handlers answer 400 with code 101
(`InvalidArgument` in gRPC) without calling the service. -/
theorem token_filter_is_checked {σ U : Type} (c : Codec) (now : Time)
    (AllowedFilters : List Bytes) (svc : UsersService σ U) (api : UsersAPI σ U)
    (nPage sDec : Bytes) (np : handlers.NextPage) (filter filterBy pagination : Bytes) (p : Int)
    (s s' : σ) (hne : nPage ≠ [])
    (hdec : c.DecodeString nPage = .ok sDec) (hjson : c.Unmarshal sDec initialNextPage = .ok np)
    (hlive : now.unixNano - np.Time.unixNano < 1800000000000)
    (hfb : np.FilterBy ≠ []) (hf : np.Filter ≠ []) :
    (np.FilterBy ∈ AllowedFilters →
      (common.ListUsers.new U).Decode c now AllowedFilters ⟨nPage, filter, filterBy, pagination⟩ =
        .ok { Users := [], NextPage := [], Limit := np.Limit, Offset := np.Offset,
              FilterBy := np.FilterBy, Filter := np.Filter } ∧
      (common.ListUsers.new U).DecodePB c now AllowedFilters ⟨nPage, filter, filterBy, p⟩ =
        .ok { Users := [], NextPage := [], Limit := np.Limit, Offset := np.Offset,
              FilterBy := np.FilterBy, Filter := np.Filter } ∧
      (api.ListUsers np.Limit np.Offset np.Filter np.FilterBy s = (.ok [], s') →
        servers.http.handler.listUsers c now AllowedFilters api
            ⟨nPage, filter, filterBy, pagination⟩ s =
          (.ListUsers { Users := [], NextPage := [], Limit := np.Limit, Offset := np.Offset,
                        FilterBy := np.FilterBy, Filter := np.Filter }, s') ∧
        servers.grpc.UserManagerHandler.ListUsers c now AllowedFilters api
            ⟨nPage, filter, filterBy, p⟩ s = (.ok { Users := [], NextPage := [] }, s'))) ∧
    (np.FilterBy ∉ AllowedFilters →
      (common.ListUsers.new U).Decode c now AllowedFilters ⟨nPage, filter, filterBy, pagination⟩ =
        .error (.text (notSupported np.FilterBy)) ∧
      (common.ListUsers.new U).DecodePB c now AllowedFilters ⟨nPage, filter, filterBy, p⟩ =
        .error (.text (notSupported np.FilterBy)) ∧
      servers.http.handler.listUsers c now AllowedFilters api
          ⟨nPage, filter, filterBy, pagination⟩ s =
        (.Error 400 101 (notSupported np.FilterBy), s) ∧
      servers.grpc.UserManagerHandler.ListUsers c now AllowedFilters api
          ⟨nPage, filter, filterBy, p⟩ s =
        (.error ⟨.InvalidArgument, notSupported np.FilterBy⟩, s)) ∧
    (np.FilterBy = service.filterByCountry →
      (handlers.http.listUsers.new U).Decode c now ⟨nPage, filter, filterBy, pagination⟩ =
        .ok { Users := [], NextPage := [], Limit := np.Limit, Offset := np.Offset,
              Filter := some ⟨np.FilterBy, np.Filter⟩ } ∧
      handlers.grpc.listUsers.new.Decode c now ⟨nPage, filter, filterBy, p⟩ =
        .ok { NextPage := [], Limit := np.Limit, Offset := np.Offset,
              Filter := some ⟨np.FilterBy, np.Filter⟩ } ∧
      (svc.ListUsers np.Limit np.Offset (some ⟨np.FilterBy, np.Filter⟩) s = (.ok [], s') →
        handlers.http.handler.listUsers c now svc ⟨nPage, filter, filterBy, pagination⟩ s =
          (.listUsers { Users := [], NextPage := [], Limit := np.Limit, Offset := np.Offset,
                        Filter := some ⟨np.FilterBy, np.Filter⟩ }, s') ∧
        handlers.grpc.UserManagerServer.ListUsers c now svc ⟨nPage, filter, filterBy, p⟩ s =
          (.ok { Users := [], NextPage := none }, s'))) ∧
    (np.FilterBy ≠ service.filterByCountry →
      (handlers.http.listUsers.new U).Decode c now ⟨nPage, filter, filterBy, pagination⟩ =
        .error (.text (notSupported np.FilterBy)) ∧
      handlers.grpc.listUsers.new.Decode c now ⟨nPage, filter, filterBy, p⟩ =
        .error (.text (notSupported np.FilterBy)) ∧
      handlers.http.handler.listUsers c now svc ⟨nPage, filter, filterBy, pagination⟩ s =
        (.Error 400 101 (notSupported np.FilterBy), s) ∧
      handlers.grpc.UserManagerServer.ListUsers c now svc ⟨nPage, filter, filterBy, p⟩ s =
        (.error ⟨.InvalidArgument, notSupported np.FilterBy⟩, s)) := by
  have l1 := LoadNextPage_live c now nPage sDec np hne hdec hjson hlive filter filterBy
    (paginationHTTP ⟨nPage, filter, filterBy, pagination⟩) ()
  have l2 := LoadNextPage_live c now nPage sDec np hne hdec hjson hlive filter filterBy
    (paginationPB ⟨nPage, filter, filterBy, p⟩) ()
  refine ⟨?_, ?_, ?_, ?_⟩
  · intro hin
    have d1 : (common.ListUsers.new U).Decode c now AllowedFilters
        ⟨nPage, filter, filterBy, pagination⟩ =
        .ok { Users := [], NextPage := [], Limit := np.Limit, Offset := np.Offset,
              FilterBy := np.FilterBy, Filter := np.Filter } := by
      simp only [common.ListUsers.Decode, common.NextPageFromHTTP, loadNextPage_eq, l1,
        common.ListUsers.decode, hfb, hf, hin, ne_eq, not_false_eq_true, not_true_eq_false,
        if_true, if_false, common.ListUsers.new]
    have d2 : (common.ListUsers.new U).DecodePB c now AllowedFilters
        ⟨nPage, filter, filterBy, p⟩ =
        .ok { Users := [], NextPage := [], Limit := np.Limit, Offset := np.Offset,
              FilterBy := np.FilterBy, Filter := np.Filter } := by
      simp only [common.ListUsers.DecodePB, common.NextPageFromPB, loadNextPage_eq, l2,
        common.ListUsers.decode, hfb, hf, hin, ne_eq, not_false_eq_true, not_true_eq_false,
        if_true, if_false, common.ListUsers.new]
    refine ⟨d1, d2, ?_⟩
    intro hlist
    constructor
    · simp [servers.http.handler.listUsers, d1, hlist]
    · simp [servers.grpc.UserManagerHandler.ListUsers, d2, hlist]
  · intro hnot
    have d1 : (common.ListUsers.new U).Decode c now AllowedFilters
        ⟨nPage, filter, filterBy, pagination⟩ = .error (.text (notSupported np.FilterBy)) := by
      simp only [common.ListUsers.Decode, common.NextPageFromHTTP, loadNextPage_eq, l1,
        common.ListUsers.decode, hfb, hnot, ne_eq, not_false_eq_true, if_true, notSupported]
    have d2 : (common.ListUsers.new U).DecodePB c now AllowedFilters
        ⟨nPage, filter, filterBy, p⟩ = .error (.text (notSupported np.FilterBy)) := by
      simp only [common.ListUsers.DecodePB, common.NextPageFromPB, loadNextPage_eq, l2,
        common.ListUsers.decode, hfb, hnot, ne_eq, not_false_eq_true, if_true, notSupported]
    refine ⟨d1, d2, ?_, ?_⟩
    · simp only [servers.http.handler.listUsers, d1, servers.http.errRequest,
        servers.http.errResponse, Error.Error]
    · simp only [servers.grpc.UserManagerHandler.ListUsers, d2, servers.grpc.errRequest,
        Error.Error]
  · intro hc
    have hnew : service.NewFilter np.FilterBy np.Filter = .ok ⟨np.FilterBy, np.Filter⟩ := by
      simp [service.NewFilter, hf, hc]
    have d1 : (handlers.http.listUsers.new U).Decode c now
        ⟨nPage, filter, filterBy, pagination⟩ =
        .ok { Users := [], NextPage := [], Limit := np.Limit, Offset := np.Offset,
              Filter := some ⟨np.FilterBy, np.Filter⟩ } := by
      simp only [handlers.http.listUsers.Decode, handlers.http.nextPage, l1,
        handlers.http.listUsers.decode, hfb, ne_eq, not_false_eq_true, if_true, hnew,
        handlers.http.listUsers.new]
    have d2 : handlers.grpc.listUsers.new.Decode c now ⟨nPage, filter, filterBy, p⟩ =
        .ok { NextPage := [], Limit := np.Limit, Offset := np.Offset,
              Filter := some ⟨np.FilterBy, np.Filter⟩ } := by
      simp only [handlers.grpc.listUsers.Decode, handlers.grpc.nextPage, l2,
        handlers.grpc.listUsers.decode, hfb, ne_eq, not_false_eq_true, if_true, hnew,
        handlers.grpc.listUsers.new]
    refine ⟨d1, d2, ?_⟩
    intro hlist
    constructor
    · simp [handlers.http.handler.listUsers, d1, hlist]
    · simp [handlers.grpc.UserManagerServer.ListUsers, d2, hlist]
  · intro hbad
    have hnew : service.NewFilter np.FilterBy np.Filter =
        .error (.text (notSupported np.FilterBy)) := by
      simp [service.NewFilter, hf, hbad, notSupported]
    have d1 : (handlers.http.listUsers.new U).Decode c now
        ⟨nPage, filter, filterBy, pagination⟩ = .error (.text (notSupported np.FilterBy)) := by
      simp only [handlers.http.listUsers.Decode, handlers.http.nextPage, l1,
        handlers.http.listUsers.decode, hfb, ne_eq, not_false_eq_true, if_true, hnew]
    have d2 : handlers.grpc.listUsers.new.Decode c now ⟨nPage, filter, filterBy, p⟩ =
        .error (.text (notSupported np.FilterBy)) := by
      simp only [handlers.grpc.listUsers.Decode, handlers.grpc.nextPage, l2,
        handlers.grpc.listUsers.decode, hfb, ne_eq, not_false_eq_true, if_true, hnew]
    refine ⟨d1, d2, ?_, ?_⟩
    · simp only [handlers.http.handler.listUsers, d1, handlers.http.errRequest,
        handlers.http.errResponse, Error.Error]
    · simp only [handlers.grpc.UserManagerServer.ListUsers, d2, handlers.grpc.errRequest,
        Error.Error]

/-- A live token for `country = NL`, with `country` the one allowed filter: the request names
another filter and a malformed pagination, which are ignored; the handlers call the service once
with the values of the token and answer with its empty listing. -/
theorem token_filter_is_checked_witness :
    (common.ListUsers.new Unit).Decode (stdlib "common") clock2024 [str "country"]
        ⟨liveTokenCountry, str "ololo", str "FirstName", str "abc"⟩ =
      .ok { Users := [], NextPage := [], Limit := 2, Offset := 2, FilterBy := str "country",
            Filter := str "NL" } ∧
    servers.http.handler.listUsers (stdlib "common") clock2024 [str "country"] countingAPI
        ⟨liveTokenCountry, str "ololo", str "FirstName", str "abc"⟩ 0 =
      (.ListUsers { Users := [], NextPage := [], Limit := 2, Offset := 2,
                    FilterBy := str "country", Filter := str "NL" }, 1) ∧
    (handlers.http.listUsers.new Unit).Decode (stdlib "common") clock2024
        ⟨liveTokenCountry, str "ololo", str "FirstName", str "abc"⟩ =
      .ok { Users := [], NextPage := [], Limit := 2, Offset := 2,
            Filter := some ⟨str "country", str "NL"⟩ } ∧
    handlers.grpc.UserManagerServer.ListUsers (stdlib "common") clock2024 countingService
        ⟨liveTokenCountry, str "ololo", str "FirstName", 7⟩ 0 =
      (.ok { Users := [], NextPage := none }, 1) :=
  have h := token_filter_is_checked (stdlib "common") clock2024 [str "country"] countingService
    countingAPI liveTokenCountry liveTokenCountryJSON liveTokenCountryValue (str "ololo")
    (str "FirstName") (str "abc") 7 0 1 (by decide) (by decide) (by decide) (by decide)
    (by decide) (by decide)
  ⟨(h.1 (by decide)).1, ((h.1 (by decide)).2.2 rfl).1, (h.2.2.1 (by decide)).1,
    ((h.2.2.1 (by decide)).2.2 rfl).2⟩

/-- C13, against the claim as stated: the token `liveTokenNickname` decodes, parses, is ten
minutes old and carries the pair `nickname = x`, and `LoadNextPage` returns it; yet with
`country` the one allowed filter every decoder rejects the request, and the handlers answer with
a client error without calling the service. -/
theorem token_filter_is_checked_counterexample :
    handlers.LoadNextPage (stdlib "handlers") clock2024 liveTokenNickname [] [] noPagination () =
      (.ok liveTokenNicknameValue, ()) ∧
    (common.ListUsers.new Unit).Decode (stdlib "common") clock2024 [str "country"]
        ⟨liveTokenNickname, [], [], []⟩ =
      .error (.text (str "filterBy parameter 'nickname' not supported")) ∧
    (common.ListUsers.new Unit).DecodePB (stdlib "common") clock2024 [str "country"]
        ⟨liveTokenNickname, [], [], 0⟩ =
      .error (.text (str "filterBy parameter 'nickname' not supported")) ∧
    (handlers.http.listUsers.new Unit).Decode (stdlib "handlers") clock2024
        ⟨liveTokenNickname, [], [], []⟩ =
      .error (.text (str "filterBy parameter 'nickname' not supported")) ∧
    handlers.grpc.listUsers.new.Decode (stdlib "handlers") clock2024
        ⟨liveTokenNickname, [], [], 0⟩ =
      .error (.text (str "filterBy parameter 'nickname' not supported")) ∧
    servers.http.handler.listUsers (stdlib "common") clock2024 [str "country"] countingAPI
        ⟨liveTokenNickname, [], [], []⟩ 0 =
      (.Error 400 101 (str "filterBy parameter 'nickname' not supported"), 0) ∧
    handlers.grpc.UserManagerServer.ListUsers (stdlib "handlers") clock2024 countingService
        ⟨liveTokenNickname, [], [], 0⟩ 0 =
      (.error ⟨.InvalidArgument, str "filterBy parameter 'nickname' not supported"⟩, 0) := by
  decide

/-! ## JSON strings: any string, written and read back -/

/-- A byte outside every well-formed encoding is written as the escape of U+FFFD and read
back as U+FFFD. -/
theorem json.Chunk.replacement : json.Chunk [92, 117, 102, 102, 102, 100] [0xEF, 0xBF, 0xBD] where
  scan := fun Y => by
    have := json.scanString_u 102 102 102 100 Y ⟨by decide, by decide, by decide, by decide⟩
    simpa using this
  unquote := fun fuel Y => by
    have hv : json.getu4 102 102 102 100 = 0xFFFD := by decide
    have := json.unquoteLoop_u fuel 102 102 102 100 Y (by rw [hv]; omega)
    rw [hv] at this
    have he : utf8.EncodeRune 0xFFFD = [0xEF, 0xBF, 0xBD] := by decide
    rw [he] at this
    simpa using this
  ne := by simp
  bytes := by intro x hx; simp at hx; omega

/-- The string writer on any string: its output is scanned up to the closing quote, unquotes
to the coerced string, and consists of bytes. -/
theorem json.appendStringLoop_coerce (fuel : Nat) : ∀ s : Bytes, s.length ≤ fuel →
    json.Written (json.appendStringLoop fuel s) (json.coerceLoop fuel s) := by
  induction fuel with
  | zero =>
    intro s hlen
    have : s = [] := List.length_eq_zero.1 (by omega)
    subst this
    exact json.Written.nil
  | succ f ih =>
    intro s hlen
    cases s with
    | nil => exact json.Written.nil
    | cons b rest =>
      simp only [List.length_cons] at hlen
      by_cases hb : b < 0x80
      · have hq := ih rest (by omega)
        cases hs : json.htmlSafeSet b with
        | true =>
          have := json.Written.cons (json.Chunk.plain b hb hs) hq
          simpa [json.appendStringLoop, json.coerceLoop, hb, hs] using this
        | false =>
          have := json.Written.cons (json.Chunk.escape b hb hs) hq
          simpa [json.appendStringLoop, json.coerceLoop, hb, hs] using this
      · cases hd : utf8.DecodeRune (b :: rest) with
        | mk c size =>
          by_cases hbad : c = utf8.RuneError ∧ size = 1
          · have hq := ih rest (by omega)
            have := json.Written.cons json.Chunk.replacement hq
            simpa [json.appendStringLoop, json.coerceLoop, hb, hd, hbad] using this
          · have hs1 : size ≠ 1 := by
              intro h1
              apply hbad
              refine ⟨?_, h1⟩
              subst h1
              unfold utf8.DecodeRune at hd
              simp only [hb, if_false] at hd
              split_ifs at hd <;> first
                | (simp only [Prod.mk.injEq] at hd; exact hd.1.symm)
                | (split at hd <;> first
                    | (simp only [Prod.mk.injEq] at hd; exact hd.1.symm)
                    | (split_ifs at hd <;> first
                        | (simp only [Prod.mk.injEq] at hd; exact hd.1.symm)
                        | (simp only [Prod.mk.injEq] at hd; omega)))
            obtain ⟨pre, tail, hrest, hsize, hpre, hb', henc, hdec⟩ :=
              utf8.DecodeRune_multi b rest c size hd (by omega) hs1
            subst hrest
            have hdrop : (pre ++ tail).drop (size - 1) = tail := by
              rw [← hsize]; simp
            have htake : (b :: (pre ++ tail)).take size = b :: pre := by
              rw [← hsize]; simp
            have hq := ih tail (by rw [List.length_append] at hlen; omega)
            by_cases hsep : c = 0x2028 ∨ c = 0x2029
            · have := json.Written.cons (json.Chunk.separator c (b :: pre) hsep henc) hq
              simpa [json.appendStringLoop, json.coerceLoop, hb, hd, hbad, hsep, hdrop, htake]
                using this
            · have := json.Written.cons
                (json.Chunk.rune b c size pre (by omega) hb' hpre hsize henc hdec) hq
              simpa [json.appendStringLoop, json.coerceLoop, hb, hd, hbad, hsep, hdrop, htake]
                using this

/-- Any string is read back from its JSON form as the coerced string. -/
theorem json.appendString_coerce (s : Bytes) :
    (∀ rest, json.scanString (json.appendStringLoop s.length s ++ 34 :: rest) =
      .ok (json.appendStringLoop s.length s, rest)) ∧
    json.unquote (json.appendStringLoop s.length s) = json.coerce s ∧
    (∀ x ∈ json.appendString s, x < 256) := by
  have hw := json.appendStringLoop_coerce s.length s (le_refl _)
  refine ⟨hw.scan, hw.unquote _ (le_refl _), ?_⟩
  intro x hx
  simp only [json.appendString, List.mem_cons, List.mem_append, List.mem_singleton,
    List.not_mem_nil, or_false] at hx
  rcases hx with h1 | h1 | h1
  · omega
  · exact hw.bytes x h1
  · omega

/-- On valid UTF-8 the coercion changes nothing. -/
theorem json.coerceLoop_valid (fuel : Nat) : ∀ s : Bytes, s.length ≤ fuel →
    utf8.validFuel fuel s = true → json.coerceLoop fuel s = s := by
  intro s hlen hv
  have h1 := (json.appendStringLoop_coerce fuel s hlen).unquote _ (le_refl _)
  have h2 := (json.appendStringLoop_written fuel s hlen hv).unquote _ (le_refl _)
  rw [← h1, h2]

/-- On valid UTF-8 the coercion changes nothing. -/
theorem json.coerce_valid (s : Bytes) (h : utf8.Valid s = true) : json.coerce s = s :=
  json.coerceLoop_valid s.length s (le_refl _) h

/-- Only the empty string is coerced to the empty string. -/
theorem json.coerce_eq_nil_iff (s : Bytes) : json.coerce s = [] ↔ s = [] := by
  constructor
  · intro h
    cases s with
    | nil => rfl
    | cons b rest =>
      exfalso
      unfold json.coerce at h
      simp only [List.length_cons, json.coerceLoop] at h
      by_cases hb : b < 0x80
      · simp [hb] at h
      · cases hd : utf8.DecodeRune (b :: rest) with
        | mk c size =>
          rw [hd] at h
          simp only [hb, if_false] at h
          by_cases hbad : c = utf8.RuneError ∧ size = 1
          · simp [hbad] at h
          · have hs0 : size ≠ 0 := by
              by_cases hs1 : size = 1
              · omega
              · obtain ⟨pre, tail, _, hsize, _⟩ :=
                  utf8.DecodeRune_multi b rest c size hd (by omega) hs1
                omega
            obtain ⟨k, rfl⟩ : ∃ k, size = k + 1 := ⟨size - 1, by omega⟩
            rw [if_neg hbad] at h
            simp at h
  · intro h
    subst h
    rfl

/-- The members of a written page token are decoded to its limit, offset and time and to its
coerced filter pair. -/
theorem json.decodeMembers_coerce (L O : Int) (FB F : Bytes) (t : Time) (v0 : handlers.NextPage)
    (hL : isInt64 L) (hO : isInt64 O) (ht : t.wellFormed) :
    json.decodeMembers [(str "limit", .number (strconv.FormatInt L)),
        (str "offset", .number (strconv.FormatInt O)),
        (str "filter_by", .string (json.appendStringLoop FB.length FB)),
        (str "filter", .string (json.appendStringLoop F.length F)),
        (str "time", .string (time.appendFormatRFC3339 t))] v0 none =
      .ok ({ Limit := L, Offset := O, FilterBy := json.coerce FB, Filter := json.coerce F,
             Time := t }, none) := by
  have k1 : json.fieldByName (json.unquote (str "limit")) = some .limit := by decide
  have k2 : json.fieldByName (json.unquote (str "offset")) = some .offset := by decide
  have k3 : json.fieldByName (json.unquote (str "filter_by")) = some .filterBy := by decide
  have k4 : json.fieldByName (json.unquote (str "filter")) = some .filter := by decide
  have k5 : json.fieldByName (json.unquote (str "time")) = some .time := by decide
  simp only [json.decodeMembers, k1, k2, k3, k4, k5, json.storeInt, json.storeString,
    strconv.ParseInt_FormatInt L hL, strconv.ParseInt_FormatInt O hO,
    (json.appendString_coerce FB).2.1, (json.appendString_coerce F).2.1, json.Value.raw,
    time.UnmarshalJSON_string t _ ht, json.saveError]

/-- The JSON text of a page token is the object of its five members, in the order of the
struct, and consists of bytes. -/
theorem json.parse_Marshal (v : handlers.NextPage) (ht : v.Time.wellFormed) :
    ∃ text, json.Marshal v = .ok text ∧
      json.parse text = .ok (.object [(str "limit", .number (strconv.FormatInt v.Limit)),
        (str "offset", .number (strconv.FormatInt v.Offset)),
        (str "filter_by", .string (json.appendStringLoop v.FilterBy.length v.FilterBy)),
        (str "filter", .string (json.appendStringLoop v.Filter.length v.Filter)),
        (str "time", .string (time.appendFormatRFC3339 v.Time))]) ∧
      (∀ x ∈ text, x < 256) ∧ text ≠ [] := by
  refine ⟨_, json.Marshal_eq v ht, ?_, ?_, by simp [json.tokenText]⟩
  · obtain ⟨sFB, _, _⟩ := json.appendString_coerce v.FilterBy
    obtain ⟨sF, _, _⟩ := json.appendString_coerce v.Filter
    have hfmt : ∀ x ∈ time.appendFormatRFC3339 v.Time, json.isPlain x := fun x hx =>
      (time.isTimeByte_plain x (time.appendFormatRFC3339_bytes v.Time x hx)).1
    obtain ⟨k, hk⟩ : ∃ k, 2 * (json.tokenText (strconv.FormatInt v.Limit)
        (strconv.FormatInt v.Offset) (json.appendStringLoop v.FilterBy.length v.FilterBy)
        (json.appendStringLoop v.Filter.length v.Filter)
        (time.appendFormatRFC3339 v.Time)).length + 2 = k + 7 := by
      refine ⟨2 * (json.tokenText (strconv.FormatInt v.Limit)
        (strconv.FormatInt v.Offset) (json.appendStringLoop v.FilterBy.length v.FilterBy)
        (json.appendStringLoop v.Filter.length v.Filter)
        (time.appendFormatRFC3339 v.Time)).length + 2 - 7, ?_⟩
      simp only [json.tokenText, List.length_cons, List.length_append]
      omega
    unfold json.parse
    rw [hk, json.parseValue_tokenText k v.Limit v.Offset _ _ _ sFB sF hfmt]
    simp only [json.skipSpace]
  · obtain ⟨_, _, _, _, bL⟩ := strconv.FormatInt_head v.Limit
    obtain ⟨_, _, _, _, bO⟩ := strconv.FormatInt_head v.Offset
    have bFB := (json.appendStringLoop_coerce _ v.FilterBy (le_refl _)).bytes
    have bF := (json.appendStringLoop_coerce _ v.Filter (le_refl _)).bytes
    have bT : ∀ x ∈ time.appendFormatRFC3339 v.Time, x < 256 := fun x hx =>
      (time.isTimeByte_plain x (time.appendFormatRFC3339_bytes v.Time x hx)).2
    have l1 : ∀ y ∈ str "limit", y < 256 := by decide
    have l2 : ∀ y ∈ str "offset", y < 256 := by decide
    have l3 : ∀ y ∈ str "filter_by", y < 256 := by decide
    have l4 : ∀ y ∈ str "filter", y < 256 := by decide
    have l5 : ∀ y ∈ str "time", y < 256 := by decide
    simp only [json.tokenText, List.forall_mem_cons, List.forall_mem_append]
    constructorm* _ ∧ _
    all_goals first | omega | assumption | simp

/-- A page token with 64-bit integers and a well-formed time is read back from its JSON form
with its filter pair coerced, whatever the struct held. -/
theorem json.Unmarshal_Marshal_coerce (typeName : Bytes) (v v0 : handlers.NextPage)
    (hL : isInt64 v.Limit) (hO : isInt64 v.Offset) (ht : v.Time.wellFormed) :
    ∃ text, json.Marshal v = .ok text ∧
      json.Unmarshal typeName text v0 =
        .ok { v with FilterBy := json.coerce v.FilterBy, Filter := json.coerce v.Filter } ∧
      (∀ x ∈ text, x < 256) ∧ text ≠ [] := by
  obtain ⟨text, hm, hp, hb, hne⟩ := json.parse_Marshal v ht
  refine ⟨text, hm, ?_, hb, hne⟩
  unfold json.Unmarshal
  rw [hp]
  simp only [json.decodeMembers_coerce v.Limit v.Offset v.FilterBy v.Filter v.Time v0 hL hO ht]

/-- A token minted by the standard library decodes and parses back to the page token with its
filter pair coerced. -/
theorem stdlib_round_trip_coerce (pkg : String) (v v0 : handlers.NextPage)
    (hL : isInt64 v.Limit) (hO : isInt64 v.Offset) (ht : v.Time.wellFormed) :
    ∃ text, (stdlib pkg).Marshal v = .ok text ∧ (stdlib pkg).EncodeToString text ≠ [] ∧
      (stdlib pkg).DecodeString ((stdlib pkg).EncodeToString text) = .ok text ∧
      (stdlib pkg).Unmarshal text v0 =
        .ok { v with FilterBy := json.coerce v.FilterBy, Filter := json.coerce v.Filter } := by
  obtain ⟨text, hm, hu, hb, hne⟩ :=
    json.Unmarshal_Marshal_coerce (str (pkg ++ ".NextPage")) v v0 hL hO ht
  exact ⟨text, hm, base64.EncodeToString_ne_nil text hne,
    base64.DecodeString_EncodeToString text hb, hu⟩

/-- What the standard library mints is never the empty token. -/
theorem stdlib_token_ne_nil (pkg : String) (v : handlers.NextPage) :
    (match (stdlib pkg).Marshal v with
      | .error err => .error err
      | .ok np => .ok ((stdlib pkg).EncodeToString np) : Except Error Bytes) ≠ .ok [] := by
  have e1 : str "\x7b\"limit\":" = 123 :: 34 :: (str "limit" ++ [34, 58]) := by decide
  simp only [stdlib, json.Marshal]
  cases time.MarshalJSON v.Time with
  | error err => simp
  | ok t =>
    simp only [e1, List.cons_append, ne_eq, Except.ok.injEq]
    exact base64.EncodeToString_ne_nil _ (by simp)

/-! ## Minting under the arithmetic of `int` -/

/-- With the standard library, `GenerateNextPage` of the handlers tree returns the empty token
exactly when its guard is false. -/
theorem handlers.GenerateNextPage_nil_iff (pkg : String) (now : Time)
    (limit offset numUsers : Int) (filter : Option service.Filter) :
    handlers.GenerateNextPage (stdlib pkg) now limit offset numUsers filter = .ok [] ↔
      ¬ nextPageExists limit offset numUsers := by
  rw [handlers.GenerateNextPage_guard]
  by_cases h : nextPageExists limit offset numUsers
  · rw [if_pos h]
    exact ⟨fun hx => absurd hx (stdlib_token_ne_nil pkg _), fun hx => absurd h hx⟩
  · rw [if_neg h]
    exact ⟨fun _ => h, fun _ => rfl⟩

/-- With the standard library, `GenerateNextPage` of the servers tree returns the empty token
exactly when its guard is false. -/
theorem common.GenerateNextPage_empty_iff (pkg : String) (now : Time)
    (limit offset numUsers : Int) (filter filterBy : Bytes) :
    common.GenerateNextPage (stdlib pkg) now limit offset numUsers filter filterBy = .ok [] ↔
      ¬ nextPageExists limit offset numUsers := by
  rw [common.GenerateNextPage_marshal]
  by_cases h : nextPageExists limit offset numUsers
  · rw [if_pos h]
    exact ⟨fun hx => absurd hx (stdlib_token_ne_nil pkg _), fun hx => absurd h hx⟩
  · rw [if_neg h]
    exact ⟨fun _ => h, fun _ => rfl⟩

/-- C14 as amended, omission under machine arithmetic: for a limit above 0, an offset and a
total of at least 0, all values of a Go `int`, with `total <= offset + limit` as integers,
`GenerateNextPage` returns the empty token when `offset + limit` is in the range of `int`; when
`offset + limit` exceeds the range it returns the empty token exactly when
`total >= offset + limit - 2^63`, and a token otherwise (the wrapped difference is then
positive). This holds in both trees, for every filter and clock. -/
theorem idempotent_omission (pkg : String) (now : Time) (limit offset numUsers : Int)
    (filter : Option service.Filter) (query fby : Bytes)
    (hl : isInt64 limit) (ho : isInt64 offset) (hn : isInt64 numUsers)
    (hlim : limit > 0) (hoff : offset ≥ 0) (hnum : numUsers ≥ 0)
    (hle : numUsers ≤ offset + limit) :
    (handlers.GenerateNextPage (stdlib pkg) now limit offset numUsers filter = .ok [] ↔
      (offset + limit < 2 ^ 63 ∨ offset + limit - 2 ^ 63 ≤ numUsers)) ∧
    (common.GenerateNextPage (stdlib pkg) now limit offset numUsers query fby = .ok [] ↔
      (offset + limit < 2 ^ 63 ∨ offset + limit - 2 ^ 63 ≤ numUsers)) := by
  have key : ¬ nextPageExists limit offset numUsers ↔
      (offset + limit < 2 ^ 63 ∨ offset + limit - 2 ^ 63 ≤ numUsers) := by
    unfold isInt64 at hl ho hn
    unfold nextPageExists sub64 add64 wrap64
    constructor
    · intro h
      by_contra hc
      apply h
      refine ⟨⟨hlim, hoff⟩, ?_⟩
      omega
    · intro h hx
      obtain ⟨_, hx⟩ := hx
      omega
  exact ⟨(handlers.GenerateNextPage_nil_iff pkg now limit offset numUsers filter).trans key,
    (common.GenerateNextPage_empty_iff pkg now limit offset numUsers query fby).trans key⟩

/-- The scenario of the specification: limit 2, offset 2 and a total of 3 give no token. -/
theorem idempotent_omission_witness :
    handlers.GenerateNextPage (stdlib "handlers") clock2024 2 2 3 none = .ok [] ∧
    common.GenerateNextPage (stdlib "common") clock2024 2 2 3 [] [] = .ok [] :=
  ⟨(idempotent_omission "handlers" clock2024 2 2 3 none [] [] (by decide) (by decide)
      (by decide) (by decide) (by decide) (by decide) (by decide)).1.2 (Or.inl (by decide)),
    (idempotent_omission "common" clock2024 2 2 3 none [] [] (by decide) (by decide)
      (by decide) (by decide) (by decide) (by decide) (by decide)).2.2 (Or.inl (by decide))⟩

/-- C14, against the claim as stated: limit and offset both 2^63 - 1 and a total of 5 are
values of a Go `int`, the limit is above 0, the offset and the total are at least 0 and the
total is at most `offset + limit`; yet `offset + limit` wraps around to -2, the difference is 7,
and both trees return a token that is not empty. -/
theorem idempotent_omission_counterexample :
    isInt64 9223372036854775807 ∧ isInt64 5 ∧ (5 : Int) ≤ 9223372036854775807 + 9223372036854775807 ∧
    add64 9223372036854775807 9223372036854775807 = -2 ∧
    sub64 5 (add64 9223372036854775807 9223372036854775807) = 7 ∧
    (∃ tok, handlers.GenerateNextPage (stdlib "handlers") clock2024 9223372036854775807
      9223372036854775807 5 none = .ok tok ∧ tok ≠ []) ∧
    (∃ tok, common.GenerateNextPage (stdlib "common") clock2024 9223372036854775807
      9223372036854775807 5 [] [] = .ok tok ∧ tok ≠ []) := by
  have hex : nextPageExists 9223372036854775807 9223372036854775807 5 := by decide
  refine ⟨by decide, by decide, by decide, by decide, by decide, ?_, ?_⟩
  · obtain ⟨text, hm, _, hne⟩ := stdlib_mint "handlers"
      (handlers.mintedNextPage clock2024 9223372036854775807 none) (by decide)
    exact ⟨_, by rw [handlers.GenerateNextPage_guard, if_pos hex, hm], hne⟩
  · obtain ⟨text, hm, _, hne⟩ := stdlib_mint "common"
      ⟨9223372036854775807, 9223372036854775807, [], [], clock2024⟩ (by decide)
    exact ⟨_, by rw [common.GenerateNextPage_marshal, if_pos hex, hm], hne⟩

/-! ## The limit and offset of the result -/

/-- The fresh-parameter path gives limit -1 or a limit above 0, and offset 0. -/
theorem freshParameters_model {σ : Type} (np0 np : handlers.NextPage) (filter filterBy : Bytes)
    (paginationFn : PaginationFn σ) (s s' : σ)
    (h : freshParameters np0 filter filterBy paginationFn s = (.ok np, s')) :
    (np.Limit = -1 ∨ np.Limit > 0) ∧ np.Offset = 0 := by
  unfold freshParameters at h
  simp only at h
  cases hp : paginationFn s with
  | mk r s1 =>
    rw [hp] at h
    cases r with
    | error e => simp at h
    | ok p =>
      simp only at h
      split_ifs at h <;>
        simp only [Prod.mk.injEq, Except.ok.injEq, reduceCtorEq, false_and] at h <;>
        obtain ⟨h, _⟩ := h <;> subst h <;> simp <;> omega

/-- A token that `GenerateNextPage` of the handlers tree returned is the base64 form of the
JSON text of the page token minted, and the limit is above 0. -/
theorem handlers.mintedToken_text (pkg : String) (t : Time) (limit offset numUsers : Int)
    (filter : Option service.Filter) (tok : Bytes) (hne : tok ≠ [])
    (hgen : handlers.GenerateNextPage (stdlib pkg) t limit offset numUsers filter = .ok tok) :
    limit > 0 ∧ ∃ text, json.Marshal (handlers.mintedNextPage t limit filter) = .ok text ∧
      tok = base64.EncodeToString text := by
  rw [handlers.GenerateNextPage_guard] at hgen
  by_cases hex : nextPageExists limit offset numUsers
  · rw [if_pos hex] at hgen
    refine ⟨hex.1.1, ?_⟩
    cases hm : (stdlib pkg).Marshal (handlers.mintedNextPage t limit filter) with
    | error e => rw [hm] at hgen; cases hgen
    | ok text =>
      rw [hm] at hgen
      simp only [Except.ok.injEq] at hgen
      exact ⟨text, hm, hgen.symm⟩
  · rw [if_neg hex] at hgen
    simp only [Except.ok.injEq] at hgen
    exact absurd hgen.symm hne

/-- A token that `GenerateNextPage` of the servers tree returned is the base64 form of the
JSON text of the page token minted, and the limit is above 0. -/
theorem common.mintedToken_json (pkg : String) (t : Time) (limit offset numUsers : Int)
    (query fby tok : Bytes) (hne : tok ≠ [])
    (hgen : common.GenerateNextPage (stdlib pkg) t limit offset numUsers query fby = .ok tok) :
    limit > 0 ∧ ∃ text, json.Marshal ⟨limit, limit, fby, query, t⟩ = .ok text ∧
      tok = base64.EncodeToString text := by
  rw [common.GenerateNextPage_marshal] at hgen
  by_cases hex : nextPageExists limit offset numUsers
  · rw [if_pos hex] at hgen
    refine ⟨hex.1.1, ?_⟩
    cases hm : (stdlib pkg).Marshal ⟨limit, limit, fby, query, t⟩ with
    | error e => rw [hm] at hgen; cases hgen
    | ok text =>
      rw [hm] at hgen
      simp only [Except.ok.injEq] at hgen
      exact ⟨text, hm, hgen.symm⟩
  · rw [if_neg hex] at hgen
    simp only [Except.ok.injEq] at hgen
    exact absurd hgen.symm hne

/-- The limit, offset and time of the page token minted in the handlers tree. -/
theorem handlers.mintedNextPage_fields (t : Time) (limit : Int) (filter : Option service.Filter) :
    (handlers.mintedNextPage t limit filter).Limit = limit ∧
    (handlers.mintedNextPage t limit filter).Offset = limit ∧
    (handlers.mintedNextPage t limit filter).Time = t := by
  unfold handlers.mintedNextPage
  cases filter with
  | none => exact ⟨rfl, rfl, rfl⟩
  | some f => cases hv : f.IsValid <;> simp [hv]

/-- What `LoadNextPage` makes of a token that was minted from a page token with 64-bit limit
and offset and a well-formed time: the page token with its filter pair coerced, if it is less
than 30 minutes old, and the fresh parameters otherwise. -/
theorem LoadNextPage_minted {σ : Type} (pkg : String) (now : Time) (v : handlers.NextPage)
    (text tok filter filterBy : Bytes) (paginationFn : PaginationFn σ) (s : σ)
    (hL : isInt64 v.Limit) (hO : isInt64 v.Offset) (ht : v.Time.wellFormed)
    (hm : json.Marshal v = .ok text) (htok : tok = base64.EncodeToString text) :
    handlers.LoadNextPage (stdlib pkg) now tok filter filterBy paginationFn s =
      if tokenIsLive now v then
        (.ok { v with FilterBy := json.coerce v.FilterBy, Filter := json.coerce v.Filter }, s)
      else freshParameters
        { v with FilterBy := json.coerce v.FilterBy, Filter := json.coerce v.Filter }
        filter filterBy paginationFn s := by
  obtain ⟨text', hm', hne, hd, hu⟩ := stdlib_round_trip_coerce pkg v initialNextPage hL hO ht
  have htext : text' = text := by
    have : (Except.ok text' : Except Error Bytes) = .ok text := by rw [← hm', ← hm]; rfl
    simpa using this
  subst htext
  subst htok
  have hw := LoadNextPage_wellFormed (stdlib pkg) now ((stdlib pkg).EncodeToString text') text'
    filter filterBy _ paginationFn s hne hd hu
  exact hw

/-- C15 as amended, the resolved limit and offset: when `LoadNextPage` succeeds, either the
result comes from the fresh-parameter path, and then the limit is -1 or above 0 and the offset is
0, or the result is a live token exactly as it was decoded and parsed, whose limit and offset are
not checked. For a token that `GenerateNextPage` returned (in either tree, with the standard
library, a well-formed clock and a limit that is a Go `int`) the limit is -1 or above 0 and the
offset is at least 0 in both cases. The servers tree decodes with the same function. -/
theorem resolved_tuple_model {σ : Type} (c : Codec) (now : Time) (nPage filter filterBy : Bytes)
    (paginationFn : PaginationFn σ) (s s' : σ) (np : handlers.NextPage)
    (h : handlers.LoadNextPage c now nPage filter filterBy paginationFn s = (.ok np, s')) :
    common.loadNextPage c now nPage filter filterBy paginationFn s = (.ok np, s') ∧
    (((np.Limit = -1 ∨ np.Limit > 0) ∧ np.Offset = 0) ∨
      (nPage ≠ [] ∧ ∃ sDec, c.DecodeString nPage = .ok sDec ∧
        c.Unmarshal sDec initialNextPage = .ok np ∧
        now.unixNano - np.Time.unixNano < 1800000000000)) ∧
    (∀ (pkg : String) (t : Time) (limit offset numUsers : Int) (filter0 : Option service.Filter)
      (query fby : Bytes), c = stdlib pkg → t.wellFormed → isInt64 limit → nPage ≠ [] →
      (handlers.GenerateNextPage (stdlib pkg) t limit offset numUsers filter0 = .ok nPage ∨
        common.GenerateNextPage (stdlib pkg) t limit offset numUsers query fby = .ok nPage) →
      (np.Limit = -1 ∨ np.Limit > 0) ∧ np.Offset ≥ 0) := by
  have hA : ((np.Limit = -1 ∨ np.Limit > 0) ∧ np.Offset = 0) ∨
      (nPage ≠ [] ∧ ∃ sDec, c.DecodeString nPage = .ok sDec ∧
        c.Unmarshal sDec initialNextPage = .ok np ∧
        now.unixNano - np.Time.unixNano < 1800000000000) := by
    by_cases hne : nPage = []
    · subst hne
      rw [LoadNextPage_empty] at h
      exact Or.inl (freshParameters_model _ _ _ _ _ _ _ h)
    · cases hdec : c.DecodeString nPage with
      | error e =>
        simp only [handlers.LoadNextPage, hne, hdec, ne_eq, not_false_eq_true, if_true] at h
        simp at h
      | ok sDec =>
        cases hjson : c.Unmarshal sDec initialNextPage with
        | error e =>
          unfold initialNextPage at hjson
          simp only [handlers.LoadNextPage, hne, hdec, hjson, ne_eq, not_false_eq_true,
            if_true] at h
          simp at h
        | ok np0 =>
          rw [LoadNextPage_wellFormed c now nPage sDec filter filterBy np0 paginationFn s hne
            hdec hjson] at h
          by_cases hl : tokenIsLive now np0 = true
          · rw [if_pos hl] at h
            simp only [Prod.mk.injEq, Except.ok.injEq] at h
            obtain ⟨h1, _⟩ := h
            subst h1
            exact Or.inr ⟨hne, sDec, rfl, hjson, (tokenIsLive_iff now np0).1 hl⟩
          · rw [if_neg hl] at h
            exact Or.inl (freshParameters_model _ _ _ _ _ _ _ h)
  refine ⟨by rw [loadNextPage_eq]; exact h, hA, ?_⟩
  intro pkg t limit offset numUsers filter0 query fby hc ht hl hne hgen
  subst hc
  have key : ∀ (v : handlers.NextPage) (text : Bytes), v.Limit = limit → v.Offset = limit →
      v.Time = t → limit > 0 → json.Marshal v = .ok text →
      nPage = base64.EncodeToString text → (np.Limit = -1 ∨ np.Limit > 0) ∧ np.Offset ≥ 0 := by
    intro v text hvL hvO hvT hpos hm htok
    rw [LoadNextPage_minted pkg now v text nPage filter filterBy paginationFn s
      (by rw [hvL]; exact hl) (by rw [hvO]; exact hl) (by rw [hvT]; exact ht) hm htok] at h
    split_ifs at h
    · simp only [Prod.mk.injEq, Except.ok.injEq] at h
      obtain ⟨h1, _⟩ := h
      subst h1
      simp only
      omega
    · have := freshParameters_model _ _ _ _ _ _ _ h
      exact ⟨this.1, by omega⟩
  rcases hgen with hg | hg
  · obtain ⟨hpos, text, hm, htok⟩ :=
      handlers.mintedToken_text pkg t limit offset numUsers filter0 nPage hne hg
    obtain ⟨f1, f2, f3⟩ := handlers.mintedNextPage_fields t limit filter0
    exact key _ text f1 f2 f3 hpos hm htok
  · obtain ⟨hpos, text, hm, htok⟩ :=
      common.mintedToken_json pkg t limit offset numUsers query fby nPage hne hg
    exact key _ text rfl rfl rfl hpos hm htok

/-- A request without a token and with `pagination=5` is resolved to limit 5 and offset 0; the
token of the repository's listing test, loaded at its minting time, gives limit 1 and offset 1. -/
theorem resolved_tuple_model_witness :
    (handlers.LoadNextPage (stdlib "handlers") clock2024 [] [] []
        (paginationHTTP ⟨[], [], [], str "5"⟩) () =
      (.ok { Limit := 5, Offset := 0, FilterBy := [], Filter := [], Time := Time.zero }, ()) ∧
      (((5 : Int) = -1 ∨ (5 : Int) > 0) ∧ (0 : Int) = 0)) ∧
    (handlers.LoadNextPage (stdlib "handlers") clock2024 expectedNextPage [] [] noPagination () =
      (.ok { Limit := 1, Offset := 1, FilterBy := str "country", Filter := str "NL",
             Time := clock2024 }, ()) ∧
      (((1 : Int) = -1 ∨ (1 : Int) > 0) ∧ (1 : Int) ≥ 0)) :=
  ⟨⟨by decide, ((resolved_tuple_model (stdlib "handlers") clock2024 [] [] []
      (paginationHTTP ⟨[], [], [], str "5"⟩) () ()
      { Limit := 5, Offset := 0, FilterBy := [], Filter := [], Time := Time.zero }
      (by decide)).2.1).resolve_right (fun h => h.1 rfl)⟩,
    ⟨by decide, (resolved_tuple_model (stdlib "handlers") clock2024 expectedNextPage [] []
      noPagination () ()
      { Limit := 1, Offset := 1, FilterBy := str "country", Filter := str "NL",
        Time := clock2024 } (by decide)).2.2 "handlers" clock2024 1 0 5
      (some ⟨str "country", str "NL"⟩) [] [] rfl (by decide) (by decide) (by decide)
      (Or.inl (by decide))⟩⟩

/-- C15, against the claim as stated: the token `liveTokenOutOfModel` decodes, parses and is
ten minutes old, and `LoadNextPage` succeeds on it in both trees with limit 0, which is neither
-1 nor above 0, and offset -5, which is below 0. -/
theorem resolved_tuple_model_counterexample :
    handlers.LoadNextPage (stdlib "handlers") clock2024 liveTokenOutOfModel [] [] noPagination ()
      = (.ok liveTokenOutOfModelValue, ()) ∧
    common.loadNextPage (stdlib "common") clock2024 liveTokenOutOfModel [] [] noPagination ()
      = (.ok liveTokenOutOfModelValue, ()) ∧
    ¬ (liveTokenOutOfModelValue.Limit = -1 ∨ liveTokenOutOfModelValue.Limit > 0) ∧
    ¬ (liveTokenOutOfModelValue.Offset ≥ 0) := by
  decide

/-! ## The form of a minted token -/

/-- Every character of the alphabet has a value. -/
theorem base64.decodeMap_encodeStd_ne_none (n : Nat) :
    base64.decodeMap (base64.encodeStd n) ≠ none := by
  unfold base64.decodeMap base64.encodeStd
  split_ifs <;> simp <;> omega

/-- The encoder writes groups of four characters, each of the standard alphabet or the padding
character. -/
theorem base64.EncodeToString_form (bs : Bytes) :
    (base64.EncodeToString bs).length % 4 = 0 ∧
    ∀ c ∈ base64.EncodeToString bs, base64.decodeMap c ≠ none ∨ c = base64.padChar := by
  induction bs using base64.EncodeToString.induct with
  | case1 => simp [base64.EncodeToString]
  | case2 a =>
    refine ⟨by simp [base64.EncodeToString], ?_⟩
    intro c hc
    simp only [base64.EncodeToString, List.mem_cons, List.mem_singleton, List.not_mem_nil,
      or_false] at hc
    rcases hc with h | h | h | h
    · subst h; exact Or.inl (base64.decodeMap_encodeStd_ne_none _)
    · subst h; exact Or.inl (base64.decodeMap_encodeStd_ne_none _)
    · exact Or.inr h
    · exact Or.inr h
  | case3 a b =>
    refine ⟨by simp [base64.EncodeToString], ?_⟩
    intro c hc
    simp only [base64.EncodeToString, List.mem_cons, List.mem_singleton, List.not_mem_nil,
      or_false] at hc
    rcases hc with h | h | h | h
    · subst h; exact Or.inl (base64.decodeMap_encodeStd_ne_none _)
    · subst h; exact Or.inl (base64.decodeMap_encodeStd_ne_none _)
    · subst h; exact Or.inl (base64.decodeMap_encodeStd_ne_none _)
    · exact Or.inr h
  | case4 a b c rest ih =>
    refine ⟨by simp only [base64.EncodeToString, List.length_cons]; omega, ?_⟩
    intro x hx
    simp only [base64.EncodeToString, List.mem_cons] at hx
    rcases hx with h | h | h | h | h
    · subst h; exact Or.inl (base64.decodeMap_encodeStd_ne_none _)
    · subst h; exact Or.inl (base64.decodeMap_encodeStd_ne_none _)
    · subst h; exact Or.inl (base64.decodeMap_encodeStd_ne_none _)
    · subst h; exact Or.inl (base64.decodeMap_encodeStd_ne_none _)
    · exact ih.2 x h

/-- The decimal form of an integer above 0 consists of digits. -/
theorem strconv.FormatInt_digits (i : Int) (h : i > 0) :
    ∀ c ∈ strconv.FormatInt i, isDigit c := by
  unfold strconv.FormatInt
  rw [if_neg (by omega)]
  exact (strconv.formatNat_spec i.natAbs).1

/-- The filter pair of the page token minted in the handlers tree: both parts of the filter
given when both are non-empty, and an empty pair otherwise. -/
theorem handlers.mintedNextPage_pair (t : Time) (limit : Int) (filter : Option service.Filter) :
    ((handlers.mintedNextPage t limit filter).FilterBy = [] ∧
      (handlers.mintedNextPage t limit filter).Filter = [] ∧
      ¬ ∃ f, filter = some f ∧ f.By ≠ [] ∧ f.Query ≠ []) ∨
    (∃ f, filter = some f ∧ f.By ≠ [] ∧ f.Query ≠ [] ∧
      (handlers.mintedNextPage t limit filter).FilterBy = f.By ∧
      (handlers.mintedNextPage t limit filter).Filter = f.Query) := by
  unfold handlers.mintedNextPage
  cases filter with
  | none => exact Or.inl ⟨rfl, rfl, by simp⟩
  | some f =>
    by_cases hv : f.By ≠ [] ∧ f.Query ≠ []
    · refine Or.inr ⟨f, rfl, hv.1, hv.2, ?_, ?_⟩ <;> simp [service.Filter.IsValid, hv]
    · refine Or.inl ⟨?_, ?_, ?_⟩
      · simp [service.Filter.IsValid, hv]
      · simp [service.Filter.IsValid, hv]
      · rintro ⟨g, hg, h1, h2⟩
        cases hg
        exact hv ⟨h1, h2⟩

/-- C16, the encoder keeps the filter pair together: every token that
`handlers.GenerateNextPage` returns (with the standard library, a well-formed clock and a limit
that is a Go `int`), for whatever limit, offset, total and filter argument (none, one with only
`By`, one with only `Query`, or a full one), base64-decodes and parses to a page token whose
filter_by and filter are both empty or both non-empty; they are non-empty exactly when the
filter argument has both parts. -/
theorem encoder_pairs_filter (pkg : String) (now : Time) (limit offset numUsers : Int)
    (filter : Option service.Filter) (tok : Bytes) (v0 : handlers.NextPage)
    (hnow : now.wellFormed) (hl : isInt64 limit) (hne : tok ≠ [])
    (hgen : handlers.GenerateNextPage (stdlib pkg) now limit offset numUsers filter = .ok tok) :
    ∃ sDec np, base64.DecodeString tok = .ok sDec ∧
      json.Unmarshal (str (pkg ++ ".NextPage")) sDec v0 = .ok np ∧
      ((np.FilterBy = [] ∧ np.Filter = []) ∨ (np.FilterBy ≠ [] ∧ np.Filter ≠ [])) ∧
      (np.FilterBy ≠ [] ↔ ∃ f, filter = some f ∧ f.By ≠ [] ∧ f.Query ≠ []) := by
  obtain ⟨_, text, hm, htok⟩ :=
    handlers.mintedToken_text pkg now limit offset numUsers filter tok hne hgen
  obtain ⟨f1, f2, f3⟩ := handlers.mintedNextPage_fields now limit filter
  obtain ⟨text', hm', _, hd, hu⟩ := stdlib_round_trip_coerce pkg
    (handlers.mintedNextPage now limit filter) v0 (by rw [f1]; exact hl) (by rw [f2]; exact hl)
    (by rw [f3]; exact hnow)
  have htext : text' = text := by
    have : (Except.ok text' : Except Error Bytes) = .ok text := by rw [← hm', ← hm]; rfl
    simpa using this
  subst htext
  subst htok
  refine ⟨text', _, hd, hu, ?_, ?_⟩
  · rcases handlers.mintedNextPage_pair now limit filter with ⟨h1, h2, _⟩ | ⟨f, _, hb, hq, h1, h2⟩
    · left
      simp only [h1, h2]
      exact ⟨rfl, rfl⟩
    · right
      simp only [h1, h2, ne_eq, json.coerce_eq_nil_iff]
      exact ⟨hb, hq⟩
  · rcases handlers.mintedNextPage_pair now limit filter with ⟨h1, _, h3⟩ | ⟨f, hf, hb, hq, h1, _⟩
    · simp only [h1]
      exact ⟨fun h => absurd rfl h, fun h => absurd h h3⟩
    · simp only [h1, ne_eq, json.coerce_eq_nil_iff]
      exact ⟨fun _ => ⟨f, hf, hb, hq⟩, fun _ => hb⟩

/-- Tokens minted at `clock2024` for limit 1: the one of the repository's listing test, for the
full filter `country = NL`, carries that pair; the one for a filter with only `By` set carries an
empty pair. -/
theorem encoder_pairs_filter_witness :
    (∃ sDec np, base64.DecodeString expectedNextPage = .ok sDec ∧
      json.Unmarshal (str ("handlers" ++ ".NextPage")) sDec initialNextPage = .ok np ∧
      ((np.FilterBy = [] ∧ np.Filter = []) ∨ (np.FilterBy ≠ [] ∧ np.Filter ≠ [])) ∧
      (np.FilterBy ≠ [] ↔ ∃ f, some (⟨str "country", str "NL"⟩ : service.Filter) = some f ∧
        f.By ≠ [] ∧ f.Query ≠ [])) ∧
    (∃ sDec np, base64.DecodeString expectedNextPageNoFilter = .ok sDec ∧
      json.Unmarshal (str ("handlers" ++ ".NextPage")) sDec initialNextPage = .ok np ∧
      ((np.FilterBy = [] ∧ np.Filter = []) ∨ (np.FilterBy ≠ [] ∧ np.Filter ≠ [])) ∧
      (np.FilterBy ≠ [] ↔ ∃ f, some (⟨str "country", []⟩ : service.Filter) = some f ∧
        f.By ≠ [] ∧ f.Query ≠ [])) :=
  ⟨encoder_pairs_filter "handlers" clock2024 1 0 5 (some ⟨str "country", str "NL"⟩)
      expectedNextPage initialNextPage (by decide) (by decide) (by decide) (by decide),
    encoder_pairs_filter "handlers" clock2024 1 0 5 (some ⟨str "country", []⟩)
      expectedNextPageNoFilter initialNextPage (by decide) (by decide) (by decide) (by decide)⟩

/-- C17, token wire format: every non-empty token that `GenerateNextPage` returns, in either
tree (with the standard library and a well-formed clock), is the padded standard-alphabet base64
encoding of a JSON text: its length is a multiple of four, its characters are of the alphabet or
the padding character, and it decodes to that text. The text parses as the JSON object with the
keys `limit`, `offset`, `filter_by`, `filter` and `time`, in this order and no others; `limit`
and `offset` are the number written with the decimal digits of the limit, `filter_by` and
`filter` are strings, which read back as the coerced filter pair of the page token minted, and
`time` is the string of the RFC 3339 form of the clock reading, which reads back as that
reading. -/
theorem token_wire_format (pkg : String) (now : Time) (limit offset numUsers : Int)
    (filter : Option service.Filter) (query fby tok : Bytes)
    (hnow : now.wellFormed) (hne : tok ≠ [])
    (hgen : handlers.GenerateNextPage (stdlib pkg) now limit offset numUsers filter = .ok tok ∨
      common.GenerateNextPage (stdlib pkg) now limit offset numUsers query fby = .ok tok) :
    ∃ (v : handlers.NextPage) (text qFB qF : Bytes),
      (v = handlers.mintedNextPage now limit filter ∨ v = ⟨limit, limit, fby, query, now⟩) ∧
      tok = base64.EncodeToString text ∧ tok.length % 4 = 0 ∧
      (∀ c ∈ tok, base64.decodeMap c ≠ none ∨ c = base64.padChar) ∧
      base64.DecodeString tok = .ok text ∧
      json.parse text = .ok (.object [(str "limit", .number (strconv.FormatInt limit)),
        (str "offset", .number (strconv.FormatInt limit)),
        (str "filter_by", .string qFB), (str "filter", .string qF),
        (str "time", .string (time.appendFormatRFC3339 now))]) ∧
      (∀ c ∈ strconv.FormatInt limit, isDigit c) ∧
      json.unquote qFB = json.coerce v.FilterBy ∧ json.unquote qF = json.coerce v.Filter ∧
      time.parseRFC3339 (time.appendFormatRFC3339 now) = some now := by
  have key : ∀ (v : handlers.NextPage) (text : Bytes), v.Limit = limit → v.Offset = limit →
      v.Time = now → limit > 0 → json.Marshal v = .ok text → tok = base64.EncodeToString text →
      ∃ (text qFB qF : Bytes),
        tok = base64.EncodeToString text ∧ tok.length % 4 = 0 ∧
        (∀ c ∈ tok, base64.decodeMap c ≠ none ∨ c = base64.padChar) ∧
        base64.DecodeString tok = .ok text ∧
        json.parse text = .ok (.object [(str "limit", .number (strconv.FormatInt limit)),
          (str "offset", .number (strconv.FormatInt limit)),
          (str "filter_by", .string qFB), (str "filter", .string qF),
          (str "time", .string (time.appendFormatRFC3339 now))]) ∧
        (∀ c ∈ strconv.FormatInt limit, isDigit c) ∧
        json.unquote qFB = json.coerce v.FilterBy ∧ json.unquote qF = json.coerce v.Filter ∧
        time.parseRFC3339 (time.appendFormatRFC3339 now) = some now := by
    intro v text hvL hvO hvT hpos hm htok
    obtain ⟨text', hm', hp, hb, _⟩ := json.parse_Marshal v (by rw [hvT]; exact hnow)
    have htext : text' = text := by
      have : (Except.ok text' : Except Error Bytes) = .ok text := by rw [← hm', ← hm]
      simpa using this
    subst htext
    rw [hvL, hvO, hvT] at hp
    obtain ⟨hlen, halpha⟩ := base64.EncodeToString_form text'
    refine ⟨text', _, _, htok, by rw [htok]; exact hlen, by rw [htok]; exact halpha,
      by rw [htok]; exact base64.DecodeString_EncodeToString text' hb, hp,
      strconv.FormatInt_digits limit hpos, (json.appendString_coerce v.FilterBy).2.1,
      (json.appendString_coerce v.Filter).2.1, time.parseRFC3339_appendFormatRFC3339 now hnow⟩
  rcases hgen with hg | hg
  · obtain ⟨hpos, text, hm, htok⟩ :=
      handlers.mintedToken_text pkg now limit offset numUsers filter tok hne hg
    obtain ⟨f1, f2, f3⟩ := handlers.mintedNextPage_fields now limit filter
    obtain ⟨t, a, b, h⟩ := key _ text f1 f2 f3 hpos hm htok
    exact ⟨_, t, a, b, Or.inl rfl, h⟩
  · obtain ⟨hpos, text, hm, htok⟩ :=
      common.mintedToken_json pkg now limit offset numUsers query fby tok hne hg
    obtain ⟨t, a, b, h⟩ := key _ text rfl rfl rfl hpos hm htok
    exact ⟨_, t, a, b, Or.inr rfl, h⟩

/-- The token of the repository's listing test, minted for limit 1 and `country = NL`. -/
theorem token_wire_format_witness :
    ∃ (v : handlers.NextPage) (text qFB qF : Bytes),
      (v = handlers.mintedNextPage clock2024 1 (some ⟨str "country", str "NL"⟩) ∨
        v = ⟨1, 1, str "country", str "NL", clock2024⟩) ∧
      expectedNextPage = base64.EncodeToString text ∧ expectedNextPage.length % 4 = 0 ∧
      (∀ c ∈ expectedNextPage, base64.decodeMap c ≠ none ∨ c = base64.padChar) ∧
      base64.DecodeString expectedNextPage = .ok text ∧
      json.parse text = .ok (.object [(str "limit", .number (strconv.FormatInt 1)),
        (str "offset", .number (strconv.FormatInt 1)),
        (str "filter_by", .string qFB), (str "filter", .string qF),
        (str "time", .string (time.appendFormatRFC3339 clock2024))]) ∧
      (∀ c ∈ strconv.FormatInt 1, isDigit c) ∧
      json.unquote qFB = json.coerce v.FilterBy ∧ json.unquote qF = json.coerce v.Filter ∧
      time.parseRFC3339 (time.appendFormatRFC3339 clock2024) = some clock2024 :=
  token_wire_format "handlers" clock2024 1 0 5 (some ⟨str "country", str "NL"⟩) (str "NL")
    (str "country") expectedNextPage (by decide) (by decide) (Or.inl (by decide))

/-! ## The `next_page` field of a listing response -/

/-- In the HTTP body of a listing the key `next_page` is present exactly when the token is not
empty, and then its value is the token as a JSON string; this holds in both trees. -/
theorem http_next_page_omitempty {U : Type} (users : Bytes) (lu : handlers.http.listUsers U)
    (lu' : common.ListUsers U) :
    (str "next_page" ∈ (lu.jsonMembers users).map Prod.fst ↔ lu.NextPage ≠ []) ∧
    (lu.NextPage ≠ [] → lu.jsonMembers users =
      [(str "users", users), (str "next_page", json.appendString lu.NextPage)]) ∧
    (str "next_page" ∈ (lu'.jsonMembers users).map Prod.fst ↔ lu'.NextPage ≠ []) ∧
    (lu'.NextPage ≠ [] → lu'.jsonMembers users =
      [(str "users", users), (str "next_page", json.appendString lu'.NextPage)]) := by
  have hk : str "next_page" ≠ str "users" := by decide
  refine ⟨?_, ?_, ?_, ?_⟩
  · unfold handlers.http.listUsers.jsonMembers
    by_cases h : lu.NextPage = [] <;> simp [h, hk]
  · intro h
    simp [handlers.http.listUsers.jsonMembers, h]
  · unfold common.ListUsers.jsonMembers
    by_cases h : lu'.NextPage = [] <;> simp [h, hk]
  · intro h
    simp [common.ListUsers.jsonMembers, h]

/-- The bodies of the repository's listing tests, with users that carry no data: an empty
listing, a listing of one user without a further page, and a listing of one user of five with
limit 1 and the filter `country = NL`. -/
theorem http_listing_bodies :
    handlers.http.response.WriteTo marshalUnits
        (handlers.http.handler.listUsers (stdlib "handlers") clock2024 countingService
          ⟨[], [], [], []⟩ 0).1 = (200, str "\x7b\"users\":[]\x7d") ∧
    handlers.http.response.WriteTo marshalUnits
        (handlers.http.handler.listUsers (stdlib "handlers") clock2024 oneUserService
          ⟨[], [], [], []⟩ 0).1 = (200, str "\x7b\"users\":[\x7b\x7d]\x7d") ∧
    servers.http.Response.WriteTo marshalUnits
        (servers.http.handler.listUsers (stdlib "common") clock2024 [str "country"]
          (oneUserAPI 5) ⟨[], str "NL", str "country", str "1"⟩ 0).1 =
      (200, str "\x7b\"users\":[\x7b\x7d],\"next_page\":\"eyJsaW1pdCI6MSwib2Zmc2V0IjoxLCJmaWx0ZXJfYnkiOiJjb3VudHJ5IiwiZmlsdGVyIjoiTkwiLCJ0aW1lIjoiMjAyNC0wOC0wN1QxMTozMDoyOS4yOTA4NDgrMDI6MDAifQ==\"\x7d") := by
  decide

/-- A listing of the HTTP handler of the handlers tree carries the token that
`GenerateNextPage` returned, or the empty string when no user was found. -/
theorem handlers.http.listing_nextPage {σ U : Type} (c : Codec) (now : Time)
    (svc : UsersService σ U) (r : HTTPRequest) (s s' : σ) (lu : handlers.http.listUsers U)
    (h : handlers.http.handler.listUsers c now svc r s = (.listUsers lu, s')) :
    (lu.Users = [] ∧ lu.NextPage = []) ∨
    (lu.Users ≠ [] ∧
      handlers.GenerateNextPage c now lu.Limit lu.Offset lu.Users.length lu.Filter =
        .ok lu.NextPage) := by
  unfold handlers.http.handler.listUsers at h
  cases hd : (handlers.http.listUsers.new U).Decode c now r with
  | error e => rw [hd] at h; simp [handlers.http.errRequest, handlers.http.errResponse] at h
  | ok lu0 =>
    have hnp : lu0.NextPage = [] := by
      unfold handlers.http.listUsers.Decode at hd
      cases hl : (handlers.http.nextPage c now r).1 with
      | error e => rw [hl] at hd; simp at hd
      | ok np =>
        rw [hl] at hd
        unfold handlers.http.listUsers.decode at hd
        simp only at hd
        split_ifs at hd
        · split at hd
          · simp at hd
          · simp only [Except.ok.injEq] at hd
            subst hd
            rfl
        · simp only [Except.ok.injEq] at hd
          subst hd
          rfl
    rw [hd] at h
    simp only at h
    cases hl : svc.ListUsers lu0.Limit lu0.Offset lu0.Filter s with
    | mk res s1 =>
      rw [hl] at h
      cases res with
      | error e =>
        simp only [handlers.http.errApi] at h
        split at h <;> try split at h
        all_goals simp [handlers.http.errResponse, handlers.http.ErrInternal] at h
      | ok users =>
        simp only at h
        split_ifs at h with hu
        · simp only [Prod.mk.injEq, handlers.http.response.listUsers.injEq] at h
          obtain ⟨h1, _⟩ := h
          subst h1
          exact Or.inl ⟨List.length_eq_zero.1 hu, hnp⟩
        · cases hg : handlers.GenerateNextPage c now lu0.Limit lu0.Offset users.length
              lu0.Filter with
          | error e =>
            rw [hg] at h
            simp [handlers.http.errRequestf, handlers.http.errResponse] at h
          | ok np =>
            rw [hg] at h
            simp only [Prod.mk.injEq, handlers.http.response.listUsers.injEq] at h
            obtain ⟨h1, _⟩ := h
            subst h1
            exact Or.inr ⟨fun hx => hu (by have hx' : users = [] := hx; simp [hx']), hg⟩

/-- A listing of the gRPC handler of the handlers tree has `next_page` unset when no user was
found, and otherwise set to whatever `GenerateNextPage` returned, the empty string included. -/
theorem handlers.grpc.response_nextPage {σ U : Type} (c : Codec) (now : Time)
    (svc : UsersService σ U) (r : ListUsersRequest) (s s' : σ)
    (resp : handlers.grpc.ListUsersResponse U)
    (h : handlers.grpc.UserManagerServer.ListUsers c now svc r s = (.ok resp, s')) :
    (resp.Users = [] ∧ resp.NextPage = none) ∨
    (resp.Users ≠ [] ∧ ∃ (lu : handlers.grpc.listUsers) (tok : Bytes),
      handlers.grpc.listUsers.new.Decode c now r = .ok lu ∧
      handlers.GenerateNextPage c now lu.Limit lu.Offset resp.Users.length lu.Filter = .ok tok ∧
      resp.NextPage = some tok) := by
  unfold handlers.grpc.UserManagerServer.ListUsers at h
  cases hd : handlers.grpc.listUsers.new.Decode c now r with
  | error e => rw [hd] at h; simp at h
  | ok lu0 =>
    rw [hd] at h
    simp only at h
    cases hl : svc.ListUsers lu0.Limit lu0.Offset lu0.Filter s with
    | mk res s1 =>
      rw [hl] at h
      cases res with
      | error e => simp at h
      | ok users =>
        simp only at h
        split_ifs at h with hu
        · simp only [Prod.mk.injEq, Except.ok.injEq] at h
          obtain ⟨h1, _⟩ := h
          subst h1
          exact Or.inl ⟨List.length_eq_zero.1 hu, rfl⟩
        · cases hg : handlers.GenerateNextPage c now lu0.Limit lu0.Offset users.length
              lu0.Filter with
          | error e => rw [hg] at h; simp at h
          | ok np =>
            rw [hg] at h
            simp only [Prod.mk.injEq, Except.ok.injEq] at h
            obtain ⟨h1, _⟩ := h
            subst h1
            exact Or.inr ⟨fun hx => hu (by have hx' : users = [] := hx; simp [hx']), lu0, np, rfl, hg,
              rfl⟩

/-- C18, evaluated on the code: a gRPC listing request without parameters, answered by a
service that finds one user, has no further page, and `GenerateNextPage` returns the empty
string; the HTTP handlers and the gRPC handler of the servers tree leave `next_page` out (the
body has the key `users` only, the plain string field keeps its default), but the gRPC handler
of the handlers tree sets its optional `next_page` to the empty string. -/
theorem grpc_next_page_set_to_empty :
    handlers.GenerateNextPage (stdlib "handlers") clock2024 (-1) 0 1 none = .ok [] ∧
    handlers.grpc.UserManagerServer.ListUsers (stdlib "handlers") clock2024 oneUserService
        ⟨[], [], [], 0⟩ 0 =
      (.ok { Users := [()], NextPage := some [] }, 1) ∧
    handlers.http.handler.listUsers (stdlib "handlers") clock2024 oneUserService
        ⟨[], [], [], []⟩ 0 =
      (.listUsers { Users := [()], Limit := -1, Offset := 0, Filter := none, NextPage := [] },
        1) ∧
    handlers.http.response.WriteTo marshalUnits
        (handlers.http.handler.listUsers (stdlib "handlers") clock2024 oneUserService
          ⟨[], [], [], []⟩ 0).1 = (200, str "\x7b\"users\":[\x7b\x7d]\x7d") ∧
    servers.grpc.UserManagerHandler.ListUsers (stdlib "common") clock2024 [str "country"]
        (oneUserAPI 1) ⟨[], [], [], 0⟩ 0 =
      (.ok { Users := [()], NextPage := [] }, 2) := by
  decide

/-! ## Errors of the handlers -/

/-- C19, decode failures are client errors: whenever the decoding of a listing request fails,
for whatever reason, the HTTP handler answers with status 400 and an error body of code 101
whose message is the message of the decoding error (the body written is the JSON object of
`code` 101 and that `message`), the gRPC handler answers with the code `InvalidArgument` and
that message, and the service is not called (its state is returned as it was). This holds for
the handlers of both trees. -/
theorem decode_failures_are_client_errors {σ U : Type} (c : Codec) (now : Time)
    (AllowedFilters : List Bytes) (svc : UsersService σ U) (api : UsersAPI σ U)
    (r : HTTPRequest) (q : ListUsersRequest) (s : σ) :
    (∀ err, (handlers.http.listUsers.new U).Decode c now r = .error err →
      handlers.http.handler.listUsers c now svc r s = (.Error 400 101 err.Error, s)) ∧
    (∀ err, handlers.grpc.listUsers.new.Decode c now q = .error err →
      handlers.grpc.UserManagerServer.ListUsers c now svc q s =
        (.error ⟨.InvalidArgument, err.Error⟩, s)) ∧
    (∀ err, (common.ListUsers.new U).Decode c now AllowedFilters r = .error err →
      servers.http.handler.listUsers c now AllowedFilters api r s =
        (.Error 400 101 err.Error, s)) ∧
    (∀ err, (common.ListUsers.new U).DecodePB c now AllowedFilters q = .error err →
      servers.grpc.UserManagerHandler.ListUsers c now AllowedFilters api q s =
        (.error ⟨.InvalidArgument, err.Error⟩, s)) ∧
    (∀ (marshalUsers : List U → Bytes) (msg : Bytes),
      handlers.http.response.WriteTo marshalUsers (.Error 400 101 msg) =
        (400, json.appendObject [(str "code", str "101"),
          (str "message", json.appendString msg)]) ∧
      servers.http.Response.WriteTo marshalUsers (.Error 400 101 msg) =
        (400, json.appendObject [(str "code", str "101"),
          (str "message", json.appendString msg)])) := by
  refine ⟨?_, ?_, ?_, ?_, ?_⟩
  · intro err h
    simp only [handlers.http.handler.listUsers, h, handlers.http.errRequest,
      handlers.http.errResponse]
  · intro err h
    simp only [handlers.grpc.UserManagerServer.ListUsers, h, handlers.grpc.errRequest]
  · intro err h
    simp only [servers.http.handler.listUsers, h, servers.http.errRequest,
      servers.http.errResponse]
  · intro err h
    simp only [servers.grpc.UserManagerHandler.ListUsers, h, servers.grpc.errRequest]
  · intro marshalUsers msg
    have h101 : strconv.FormatInt 101 = str "101" := by decide
    simp [handlers.http.response.WriteTo, servers.http.Response.WriteTo, httpErrorMembers, h101]

/-- The five causes, with the messages the repository's tests expect and a service that counts
its calls: an undecodable token and an unparsable token (HTTP), a malformed pagination (HTTP), a
one-sided filter pair (gRPC), and a field that cannot be filtered on (gRPC). -/
theorem decode_failures_are_client_errors_witness :
    handlers.http.handler.listUsers (stdlib "handlers") clock2024 countingService
        ⟨str "@", [], [], []⟩ 0 =
      (.Error 400 101 (str "could not load nextPage: could not decode next_page argument: illegal base64 data at input byte 0"), 0) ∧
    handlers.http.handler.listUsers (stdlib "handlers") clock2024 countingService
        ⟨str "QAo=", [], [], []⟩ 0 =
      (.Error 400 101 (str "could not load nextPage: could not unmarshal limit offset: invalid character '@' looking for beginning of value"), 0) ∧
    servers.http.handler.listUsers (stdlib "common") clock2024 [str "country"] countingAPI
        ⟨[], [], [], str "abc"⟩ 0 =
      (.Error 400 101 (str "could not load nextPage: malformed pagination"), 0) ∧
    handlers.grpc.UserManagerServer.ListUsers (stdlib "handlers") clock2024 countingService
        ⟨[], [], str "FirstName", 0⟩ 0 =
      (.error ⟨.InvalidArgument, str "parameters filter and filterBy should be used together"⟩,
        0) ∧
    servers.grpc.UserManagerHandler.ListUsers (stdlib "common") clock2024 [str "country"]
        countingAPI ⟨[], str "ololo", str "FirstName", 0⟩ 0 =
      (.error ⟨.InvalidArgument, str "filterBy parameter 'FirstName' not supported"⟩, 0) :=
  ⟨(decode_failures_are_client_errors (stdlib "handlers") clock2024 [] countingService
      countingAPI ⟨str "@", [], [], []⟩ ⟨[], [], [], 0⟩ 0).1
      (.text (str "could not load nextPage: could not decode next_page argument: illegal base64 data at input byte 0"))
      (by decide),
    (decode_failures_are_client_errors (stdlib "handlers") clock2024 [] countingService
      countingAPI ⟨str "QAo=", [], [], []⟩ ⟨[], [], [], 0⟩ 0).1
      (.text (str "could not load nextPage: could not unmarshal limit offset: invalid character '@' looking for beginning of value"))
      (by decide),
    (decode_failures_are_client_errors (stdlib "common") clock2024 [str "country"]
      countingService countingAPI ⟨[], [], [], str "abc"⟩ ⟨[], [], [], 0⟩ 0).2.2.1
      (.text (str "could not load nextPage: malformed pagination")) (by decide),
    (decode_failures_are_client_errors (stdlib "handlers") clock2024 [] countingService
      countingAPI ⟨[], [], [], []⟩ ⟨[], [], str "FirstName", 0⟩ 0).2.1
      (.text (str "parameters filter and filterBy should be used together")) (by decide),
    (decode_failures_are_client_errors (stdlib "common") clock2024 [str "country"]
      countingService countingAPI ⟨[], [], [], []⟩ ⟨[], str "ololo", str "FirstName", 0⟩
      0).2.2.2.1 (.text (str "filterBy parameter 'FirstName' not supported")) (by decide)⟩

/-- The answers of the repository's tests, as status and body: an undecodable token, a
service that does not find the user, and an error that is no service error. -/
theorem http_error_bodies :
    handlers.http.response.WriteTo marshalUnits
        (handlers.http.handler.listUsers (stdlib "handlers") clock2024 countingService
          ⟨str "@", [], [], []⟩ 0).1 =
      (400, str "\x7b\"code\":101,\"message\":\"could not load nextPage: could not decode next_page argument: illegal base64 data at input byte 0\"\x7d") ∧
    handlers.http.response.WriteTo marshalUnits
        (handlers.http.errApi (str "could not perform delete user: ") service.ErrUserNotFound) =
      (404, str "\x7b\"code\":200,\"message\":\"user not found\"\x7d") ∧
    handlers.http.response.WriteTo marshalUnits
        (handlers.http.errApi (str "could not perform delete user: ")
          (.text (str "something happens"))) =
      (500, str "\x7b\"code\":100,\"message\":\"internal handlers error\"\x7d") := by
  decide

/-- C20, service error to HTTP status mapping: `errApi` of the handlers tree answers an error
of the service by the code of the first service error in its chain: 200 gives status 404,
300 and 102 give 409, 101 and 103 give 400, 100 gives 500, each with the code and the message
of that service error in the body; an error without a service error in its chain, and a service
error with any other code, give status 500 with code 100 and the message
"internal handlers error". The listing handler answers a failed listing with `errApi`. -/
theorem service_error_status (σ U : Type) (pfx : Bytes) (err : Error) :
    (∀ code msg, service.ToError err = some (code, msg) →
      (code = 200 → handlers.http.errApi pfx err = (.Error 404 200 msg : handlers.http.response U)) ∧
      (code = 300 → handlers.http.errApi pfx err = (.Error 409 300 msg : handlers.http.response U)) ∧
      (code = 102 → handlers.http.errApi pfx err = (.Error 409 102 msg : handlers.http.response U)) ∧
      (code = 101 → handlers.http.errApi pfx err = (.Error 400 101 msg : handlers.http.response U)) ∧
      (code = 103 → handlers.http.errApi pfx err = (.Error 400 103 msg : handlers.http.response U)) ∧
      (code = 100 → handlers.http.errApi pfx err = (.Error 500 100 msg : handlers.http.response U)) ∧
      (code ∉ [100, 101, 102, 103, 200, 300] →
        handlers.http.errApi pfx err =
          (.Error 500 100 (str "internal handlers error") : handlers.http.response U))) ∧
    (service.ToError err = none →
      handlers.http.errApi pfx err =
        (.Error 500 100 (str "internal handlers error") : handlers.http.response U)) ∧
    (∀ (c : Codec) (now : Time) (svc : UsersService σ U) (r : HTTPRequest) (s s' : σ)
      (lu : handlers.http.listUsers U),
      (handlers.http.listUsers.new U).Decode c now r = .ok lu →
      svc.ListUsers lu.Limit lu.Offset lu.Filter s = (.error err, s') →
      handlers.http.handler.listUsers c now svc r s =
        (handlers.http.errApi (str "could not list users: ") err, s')) := by
  refine ⟨?_, ?_, ?_⟩
  · intro code msg h
    refine ⟨?_, ?_, ?_, ?_, ?_, ?_, ?_⟩ <;> intro hc
    all_goals first
      | (subst hc
         simp only [handlers.http.errApi, h, handlers.http.errResponse, Error.Error]
         rfl)
      | (simp only [List.mem_cons, List.mem_singleton, List.not_mem_nil, or_false, not_or] at hc
         obtain ⟨h1, h2, h3, h4, h5, h6⟩ := hc
         simp only [handlers.http.errApi, h, handlers.http.apiErrorCodeStatus, h1, h2, h3, h4,
           h5, h6, if_false, handlers.http.ErrInternal])
  · intro h
    simp only [handlers.http.errApi, h, handlers.http.ErrInternal]
  · intro c now svc r s s' lu hd hl
    simp only [handlers.http.handler.listUsers, hd, hl]

/-- The scenarios of the repository's tests: a user that is not found, a user that exists
already, an error of the repository that the service reports as internal, and an error that is
no service error; and a listing that fails with "user not found". -/
theorem service_error_status_witness :
    (handlers.http.errApi (str "could not perform delete user: ") service.ErrUserNotFound =
      (.Error 404 200 (str "user not found") : handlers.http.response Unit)) ∧
    (handlers.http.errApi (str "failed to perform user creation: ")
        service.ErrUserAlreadyExists =
      (.Error 409 300 (str "user already exists") : handlers.http.response Unit)) ∧
    (handlers.http.errApi (str "failed to perform user creation: ") service.ErrInternal =
      (.Error 500 100 (str "service internal error") : handlers.http.response Unit)) ∧
    (handlers.http.errApi (str "could not perform delete user: ")
        (.text (str "something happens")) =
      (.Error 500 100 (str "internal handlers error") : handlers.http.response Unit)) ∧
    handlers.http.handler.listUsers (stdlib "handlers") clock2024
        (failingService service.ErrUserNotFound) ⟨[], [], [], []⟩ 0 =
      (handlers.http.errApi (str "could not list users: ") service.ErrUserNotFound, 1) :=
  ⟨((service_error_status Nat Unit (str "could not perform delete user: ")
      service.ErrUserNotFound).1 200 _ rfl).1 rfl,
    ((service_error_status Nat Unit (str "failed to perform user creation: ")
      service.ErrUserAlreadyExists).1 300 _ rfl).2.1 rfl,
    ((service_error_status Nat Unit (str "failed to perform user creation: ")
      service.ErrInternal).1 100 _ rfl).2.2.2.2.2.1 rfl,
    (service_error_status Nat Unit (str "could not perform delete user: ")
      (.text (str "something happens"))).2.1 rfl,
    (service_error_status Nat Unit (str "could not list users: ")
      service.ErrUserNotFound).2.2 (stdlib "handlers") clock2024
      (failingService service.ErrUserNotFound) ⟨[], [], [], []⟩ 0 1
      ⟨[], -1, 0, none, []⟩ (by decide) (by decide)⟩

/-! ## The nickname rule -/

/-- Indexing at a position that is a natural number. -/
theorem index_natCast (s : Bytes) (i : Nat) : index s (i : Int) = s[i]? := by
  unfold index
  simp

/-- In ASCII the letters and digits of `unicode` are the letters and digits of the alphabet. -/
theorem unicode.alnum_ascii (lib : Libraries) (c : Nat) (h : c < 128) :
    (unicode.IsLetter lib c || unicode.IsDigit lib c) = decide (isAlnum c) := by
  have h255 : c ≤ 0xFF := by omega
  unfold unicode.IsLetter unicode.IsDigit isAlnum
  rw [if_pos h255, if_pos h255, Bool.eq_iff_iff]
  simp only [Bool.or_eq_true, decide_eq_true_eq]
  omega

/-- The special characters are the runes found in `specialCharSet`. -/
theorem strings.ContainsRune_specialCharSet (c : Nat) :
    strings.ContainsRune service.specialCharSet c = decide (isSpecial c) := by
  have hset : service.specialCharSet = [46, 95, 45] := by decide
  unfold strings.ContainsRune isSpecial
  rw [hset, Bool.eq_iff_iff]
  simp only [Bool.and_eq_true, decide_eq_true_eq, List.contains, List.elem_eq_mem,
    List.mem_cons, List.mem_singleton, List.not_mem_nil, or_false]
  omega

/-- The loop of `validateNickname` returns a value: the index it reads is guarded. -/
theorem service.validateNickname.loop_returns (lib : Libraries) (login : Bytes) :
    ∀ (rest : Bytes) (i skip : Nat),
      ∃ b, service.validateNickname.loop lib login login.length rest i skip = some b := by
  intro rest
  induction rest with
  | nil => intro i skip; exact ⟨true, by simp [service.validateNickname.loop]⟩
  | cons b rest ih =>
    intro i skip
    cases skip with
    | succ k => simpa [service.validateNickname.loop] using ih (i + 1) k
    | zero =>
      unfold service.validateNickname.loop
      cases hd : utf8.DecodeRune (b :: rest) with
      | mk r size =>
        simp only []
        split_ifs with h1 h2 h3
        · have hlt : i + 1 < login.length := by omega
          have hidx : index login ((i : Int) + 1) = some (login.get ⟨i + 1, hlt⟩) := by
            have := index_natCast login (i + 1)
            rw [Nat.cast_add, Nat.cast_one] at this
            rw [this]
            simp [hlt]
          rw [hidx]
          simp only []
          split_ifs
          · exact ⟨false, rfl⟩
          · exact ih (i + 1) (size - 1)
        · exact ih (i + 1) (size - 1)
        · exact ⟨false, rfl⟩
        · exact ih (i + 1) (size - 1)

/-- With a least length of one or more `validateNickname` returns a value. -/
theorem service.validateNickname_returns (lib : Libraries) (login : Bytes) (minL maxL : Int)
    (h : 1 ≤ minL) : ∃ b, service.validateNickname lib login minL maxL = some b := by
  unfold service.validateNickname
  simp only []
  split_ifs with hlen
  · exact ⟨false, rfl⟩
  · have hpos : 0 < login.length := by
      by_contra hc
      have : login.length = 0 := by omega
      rw [this] at hlen
      simp at hlen
      omega
    have h0 : index login 0 = some (login.get ⟨0, hpos⟩) := by
      have := index_natCast login 0
      rw [Nat.cast_zero] at this
      rw [this]
      simp [hpos]
    have hl : login.length - 1 < login.length := by omega
    have h1 : index login ((login.length : Int) - 1) =
        some (login.get ⟨login.length - 1, hl⟩) := by
      have := index_natCast login (login.length - 1)
      rw [Nat.cast_sub hpos, Nat.cast_one] at this
      rw [this]
      simp [hl]
    rw [h0, h1]
    simp only []
    split_ifs
    · exact ⟨false, rfl⟩
    · exact service.validateNickname.loop_returns lib login login 0 0

/-- On ASCII text the loop of `validateNickname` decides that every character is a letter,
a digit or special and that no two special characters are adjacent. -/
theorem service.validateNickname.loop_ascii (lib : Libraries) :
    ∀ (rest pre : Bytes), (∀ c ∈ rest, c < 128) →
      service.validateNickname.loop lib (pre ++ rest) ((pre ++ rest).length : Nat) rest
          pre.length 0 =
        some (decide ((∀ c ∈ rest, isAlnum c ∨ isSpecial c) ∧
          rest.Chain' (fun a b => ¬ (isSpecial a ∧ isSpecial b)))) := by
  intro rest
  induction rest with
  | nil => intro pre _; simp [service.validateNickname.loop]
  | cons b rest ih =>
    intro pre hascii
    have hb : b < 128 := hascii b (List.mem_cons_self _ _)
    have hrest : ∀ c ∈ rest, c < 128 := fun c hc => hascii c (List.mem_cons_of_mem _ hc)
    have hd : utf8.DecodeRune (b :: rest) = (b, 1) := by simp [utf8.DecodeRune, hb]
    have hih := ih (pre ++ [b]) hrest
    have happ : pre ++ [b] ++ rest = pre ++ b :: rest := by simp
    rw [happ] at hih
    have hlen : (pre ++ [b]).length = pre.length + 1 := by simp
    rw [hlen] at hih
    unfold service.validateNickname.loop
    rw [hd]
    simp only [strings.ContainsRune_specialCharSet, decide_eq_true_eq, Nat.sub_self]
    have haln := unicode.alnum_ascii lib b hb
    by_cases hsp : isSpecial b
    · rw [if_pos hsp]
      cases rest with
      | nil =>
        have hg : ¬ ((pre.length : Int) + 1 ≤ ((pre ++ [b]).length : Nat) - 1) := by
          simp
        rw [if_neg hg]
        simp [service.validateNickname.loop, hsp]
      | cons d rest2 =>
        have hg : (pre.length : Int) + 1 ≤ ((pre ++ b :: d :: rest2).length : Nat) - 1 := by
          simp only [List.length_append, List.length_cons, Nat.cast_add, Nat.cast_one]
          omega
        rw [if_pos hg]
        have hidx : index (pre ++ b :: d :: rest2) ((pre.length : Int) + 1) = some d := by
          have := index_natCast (pre ++ b :: d :: rest2) (pre.length + 1)
          rw [Nat.cast_add, Nat.cast_one] at this
          rw [this]
          have h2 : pre ++ b :: d :: rest2 = (pre ++ [b]) ++ d :: rest2 := by simp
          rw [h2, List.getElem?_append_right (by simp)]
          simp
        rw [hidx]
        simp only []
        by_cases hsd : isSpecial d
        · rw [if_pos hsd]
          simp [List.chain'_cons, hsp, hsd]
        · rw [if_neg hsd, hih]
          simp [List.chain'_cons, hsp, hsd]
    · rw [if_neg hsp]
      by_cases hal : isAlnum b
      · have hcond : (!unicode.IsLetter lib b && !unicode.IsDigit lib b) = false := by
          rw [← Bool.not_or, haln]
          simp [hal]
        rw [hcond]
        simp only [Bool.false_eq_true, if_false]
        rw [hih]
        cases rest with
        | nil => simp [hal]
        | cons d rest2 => simp [List.chain'_cons, hsp, hal]
      · have hcond : (!unicode.IsLetter lib b && !unicode.IsDigit lib b) = true := by
          rw [← Bool.not_or, haln]
          simp [hal]
        rw [hcond]
        simp [hal, hsp]

/-- On ASCII text `validateNickname(s, 1, 32)` decides the nickname rule. -/
theorem service.validateNickname_ascii (lib : Libraries) (s : Bytes)
    (hascii : ∀ c ∈ s, c < 128) :
    service.validateNickname lib s 1 32 = some (decide (nicknameRule s)) := by
  unfold service.validateNickname
  simp only []
  by_cases hlen : (s.length : Int) < 1 ∨ (s.length : Int) > 32
  · rw [if_pos hlen]
    congr 1
    symm
    rw [decide_eq_false_iff_not]
    unfold nicknameRule
    omega
  · rw [if_neg hlen]
    have hpos : 0 < s.length := by omega
    have h0 : index s 0 = some (s.get ⟨0, hpos⟩) := by
      have := index_natCast s 0
      rw [Nat.cast_zero] at this
      rw [this]
      simp [hpos]
    have hl : s.length - 1 < s.length := by omega
    have h1 : index s ((s.length : Int) - 1) = some (s.get ⟨s.length - 1, hl⟩) := by
      have := index_natCast s (s.length - 1)
      rw [Nat.cast_sub hpos, Nat.cast_one] at this
      rw [this]
      simp [hl]
    rw [h0, h1]
    simp only []
    have hfirst : s.head? = some (s.get ⟨0, hpos⟩) := by
      cases s with
      | nil => simp at hpos
      | cons a t => simp
    have hlast : s.getLast? = some (s.get ⟨s.length - 1, hl⟩) := by
      rw [List.getLast?_eq_getElem?]
      simp [hl]
    have ha0 := unicode.alnum_ascii lib (s.get ⟨0, hpos⟩) (hascii _ (List.get_mem _ _ _))
    have ha1 := unicode.alnum_ascii lib (s.get ⟨s.length - 1, hl⟩)
      (hascii _ (List.get_mem _ _ _))
    rw [ha0, ha1]
    have hloop := service.validateNickname.loop_ascii lib s [] hascii
    simp only [List.nil_append, List.length_nil] at hloop
    by_cases hA : isAlnum (s.get ⟨0, hpos⟩) ∧ isAlnum (s.get ⟨s.length - 1, hl⟩)
    · have hc : (!decide (isAlnum (s.get ⟨0, hpos⟩)) ||
          !decide (isAlnum (s.get ⟨s.length - 1, hl⟩))) = false := by
        rw [decide_eq_true hA.1, decide_eq_true hA.2]
        rfl
      rw [hc]
      simp only [Bool.false_eq_true, if_false]
      rw [hloop]
      congr 1
      rw [decide_eq_decide]
      unfold nicknameRule
      rw [hfirst, hlast]
      simp only [Option.mem_def, Option.some.injEq, forall_eq']
      constructor
      · intro h
        exact ⟨by omega, by omega, hA.1, hA.2, h.1, h.2⟩
      · intro h
        exact ⟨h.2.2.2.2.1, h.2.2.2.2.2⟩
    · have hc : (!decide (isAlnum (s.get ⟨0, hpos⟩)) ||
          !decide (isAlnum (s.get ⟨s.length - 1, hl⟩))) = true := by
        by_cases h0a : isAlnum (s.get ⟨0, hpos⟩)
        · have : ¬ isAlnum (s.get ⟨s.length - 1, hl⟩) := fun h => hA ⟨h0a, h⟩
          rw [decide_eq_false this]
          simp only [Bool.not_false, Bool.or_true]
        · rw [decide_eq_false h0a]
          simp only [Bool.not_false, Bool.true_or]
      rw [hc]
      simp only [if_true]
      congr 1
      symm
      rw [decide_eq_false_iff_not]
      unfold nicknameRule
      rw [hfirst, hlast]
      simp only [Option.mem_def, Option.some.injEq, forall_eq']
      intro h
      exact hA ⟨h.2.2.1, h.2.2.2.1⟩

/-- On ASCII text the library plays no part in `validateNickname(s, 1, 32)`. -/
theorem service.validateNickname_library (lib other : Libraries) (s : Bytes)
    (hascii : ∀ c ∈ s, c < 128) :
    service.validateNickname lib s 1 32 = service.validateNickname other s 1 32 := by
  rw [service.validateNickname_ascii lib s hascii, service.validateNickname_ascii other s hascii]

/-- C30. Nickname rule: on ASCII text `validateNickname(s, 1, 32)` returns true exactly when
`s` has 1 to 32 characters, begins and ends with a letter or a digit, consists of letters,
digits and the characters `.`, `_`, `-`, and has no two of these three adjacent; and with a
least length of one or more the function returns a value for every text, that is, it reads
no index outside the text. Both copies of the function are covered. -/
theorem nickname_rule (lib : Libraries) (s : Bytes) (hascii : ∀ c ∈ s, c < 128) :
    service.validateNickname lib s 1 32 = some (decide (nicknameRule s)) ∧
    models.validateNickname lib s 1 32 = some (decide (nicknameRule s)) ∧
    (∀ (login : Bytes) (minL maxL : Int), 1 ≤ minL →
      ∃ b, service.validateNickname lib login minL maxL = some b ∧
        models.validateNickname lib login minL maxL = some b) := by
  have main := service.validateNickname_ascii lib s hascii
  refine ⟨main, main, ?_⟩
  intro login minL maxL hmin
  obtain ⟨b, hb⟩ := service.validateNickname_returns lib login minL maxL hmin
  exact ⟨b, hb, hb⟩

/-- C30 at the nickname of the repository's tests, at a nickname with two dots, and at the
empty nickname with a least length of zero, where the function reads index 0 of nothing. -/
theorem nickname_rule_witness :
    (∀ c ∈ str "user5_lastname", c < 128) ∧
    service.validateNickname plainLibraries (str "user5_lastname") 1 32 = some true ∧
    nicknameRule (str "user5_lastname") ∧
    service.validateNickname plainLibraries (str "user..5") 1 32 = some false ∧
    ¬ nicknameRule (str "user..5") ∧
    service.validateNickname plainLibraries [] 0 32 = none :=
  have h1 := (nickname_rule plainLibraries (str "user5_lastname") (by decide)).1
  have v1 : service.validateNickname plainLibraries (str "user5_lastname") 1 32 = some true := by
    decide
  have h2 := (nickname_rule plainLibraries (str "user..5") (by decide)).1
  have v2 : service.validateNickname plainLibraries (str "user..5") 1 32 = some false := by
    decide
  ⟨by decide, v1, of_decide_eq_true (Option.some.inj (h1.symm.trans v1)),
    v2, of_decide_eq_false (Option.some.inj (h2.symm.trans v2)), by decide⟩

/-! ## Validation of a new user -/

/-- Lower-casing the empty string. -/
theorem strings.ToLower_nil (lib : Libraries) : strings.ToLower lib [] = [] := by
  simp [strings.ToLower]

/-- A user with names and country but no password is rejected for the password, when an
empty password is not allowed. -/
theorem service.User.Validate_emptyPassword (lib : Libraries) (su : service.User)
    (hf : su.FirstName ≠ []) (hl : su.LastName ≠ []) (hc : su.Country ≠ [])
    (hp : su.Password = []) :
    su.Validate lib false = some (.text (str "empty password")) := by
  unfold service.User.Validate
  rw [if_neg hf, if_neg hl, if_neg hc, if_neg hf, if_pos ⟨hp, rfl⟩]

/-- A user with names, country, password and an acceptable nickname but no email is rejected
for the email. -/
theorem service.User.Validate_emptyEmail (lib : Libraries) (su : service.User)
    (passwordOkEmpty : Bool)
    (hf : su.FirstName ≠ []) (hl : su.LastName ≠ []) (hc : su.Country ≠ [])
    (hp : su.Password ≠ [] ∨ passwordOkEmpty = true)
    (hn : su.NickName = [] ∨ service.validateNickname lib su.NickName 1 32 = some true)
    (he : su.Email = []) :
    su.Validate lib passwordOkEmpty = some (.text (str "empty email")) := by
  unfold service.User.Validate
  have hp' : ¬ (su.Password = [] ∧ passwordOkEmpty = false) := by
    rintro ⟨h1, h2⟩
    rcases hp with h | h
    · exact h h1
    · rw [h2] at h; exact Bool.noConfusion h
  have hn' : ¬ (su.NickName ≠ [] ∧ service.validateNickname lib su.NickName 1 32 ≠ some true) := by
    rintro ⟨h1, h2⟩
    rcases hn with h | h
    · exact h1 h
    · exact h2 h
  rw [if_neg hf, if_neg hl, if_neg hc, if_neg hf, if_neg hp', if_neg hn']
  unfold service.ValidateEmail
  rw [if_pos he]

/-- C21. Create-user validation: a user with first name, last name and country fails
`Validate(false)` with `empty password` when the password is empty, whatever the email, and
with `empty email` when the password is set, the nickname is empty or valid and the email is
empty. For a create request of either kind the HTTP handler answers 400 with code 101 and
the message `invalid user: ...`, and the state of the repository and the notifier behind the
service is the one before the request: neither was called. -/
theorem create_user_validation {σ : Type} (lib : Libraries) (u : handlers.http.User)
    (repo : service.UserRepo σ) (notify : clients.ChannelNotificator σ) (s : σ)
    (hf : u.FirstName ≠ []) (hl : u.LastName ≠ []) (hc : u.Country ≠ []) :
    (∀ su : service.User, su.FirstName ≠ [] → su.LastName ≠ [] → su.Country ≠ [] →
      (su.Password = [] → su.Validate lib false = some (.text (str "empty password"))) ∧
      (su.Password ≠ [] →
        (su.NickName = [] ∨ service.validateNickname lib su.NickName 1 32 = some true) →
        su.Email = [] → su.Validate lib false = some (.text (str "empty email")))) ∧
    (u.Password = [] →
      handlers.http.handler.createUser lib (service.Users.CreateUser repo notify) (.ok u) s =
        (.inl (.Error 400 101 (str "invalid user: empty password")), s)) ∧
    (u.Password ≠ [] →
      (u.NickName = [] ∨ service.validateNickname lib u.NickName 1 32 = some true) →
      u.Email = [] →
      handlers.http.handler.createUser lib (service.Users.CreateUser repo notify) (.ok u) s =
        (.inl (.Error 400 101 (str "invalid user: empty email")), s)) ∧
    handlers.http.response.WriteTo marshalUnits
        (.Error 400 101 (str "invalid user: empty password")) =
      (400, str "\x7b\"code\":101,\"message\":\"invalid user: empty password\"\x7d") ∧
    handlers.http.response.WriteTo marshalUnits
        (.Error 400 101 (str "invalid user: empty email")) =
      (400, str "\x7b\"code\":101,\"message\":\"invalid user: empty email\"\x7d") := by
  refine ⟨?_, ?_, ?_, by decide, by decide⟩
  · intro su h1 h2 h3
    exact ⟨fun hp => service.User.Validate_emptyPassword lib su h1 h2 h3 hp,
      fun hp hn he => service.User.Validate_emptyEmail lib su false h1 h2 h3 (Or.inl hp) hn he⟩
  · intro hp
    have hv := service.User.Validate_emptyPassword lib
      { service.User.new with
        FirstName := u.FirstName, LastName := u.LastName, NickName := u.NickName,
        Password := u.Password, Email := strings.ToLower lib u.Email, Country := u.Country }
      hf hl hc hp
    unfold handlers.http.handler.createUser handlers.http.CreateUser.Decode
    simp only [hv]
    rfl
  · intro hp hn he
    have hv := service.User.Validate_emptyEmail lib
      { service.User.new with
        FirstName := u.FirstName, LastName := u.LastName, NickName := u.NickName,
        Password := u.Password, Email := strings.ToLower lib u.Email, Country := u.Country }
      false hf hl hc (Or.inl hp) hn (by rw [he]; exact strings.ToLower_nil lib)
    unfold handlers.http.handler.createUser handlers.http.CreateUser.Decode
    simp only [hv]
    rfl

/-- C21 at the two requests of the repository's tests, `No Password Error` and
`No Email Error`, with collaborators that record their calls: nothing is recorded. -/
theorem create_user_validation_witness :
    user5.FirstName ≠ [] ∧ user5.LastName ≠ [] ∧ user5.Country ≠ [] ∧
    handlers.http.handler.createUser plainLibraries
        (service.Users.CreateUser (recordingRepo storedUser (str "id1")) (recordingNotify none))
        (.ok { user5 with Password := [] }) [] =
      (.inl (.Error 400 101 (str "invalid user: empty password")), []) ∧
    handlers.http.handler.createUser plainLibraries
        (service.Users.CreateUser (recordingRepo storedUser (str "id1")) (recordingNotify none))
        (.ok { user5 with Email := [] }) [] =
      (.inl (.Error 400 101 (str "invalid user: empty email")), []) ∧
    handlers.http.handler.createUser plainLibraries
        (service.Users.CreateUser (recordingRepo storedUser (str "id1")) (recordingNotify none))
        (.ok user5) [] =
      (.inr { decodedUser5 with ID := str "id1" },
        [.CreateUser decodedUser5,
          .Notify (str "create") (str "user with ID=id1 has been created")]) :=
  ⟨by decide, by decide, by decide,
    (create_user_validation plainLibraries { user5 with Password := [] }
      (recordingRepo storedUser (str "id1")) (recordingNotify none) []
      (by decide) (by decide) (by decide)).2.1 rfl,
    (create_user_validation plainLibraries { user5 with Email := [] }
      (recordingRepo storedUser (str "id1")) (recordingNotify none) []
      (by decide) (by decide) (by decide)).2.2.1 (by decide) (Or.inr (by decide)) rfl,
    by decide⟩

/-! ## Changing a user -/

/-- A user with names, country, an acceptable nickname and an email that parses is valid. -/
theorem service.User.Validate_valid (lib : Libraries) (su : service.User)
    (passwordOkEmpty : Bool)
    (hf : su.FirstName ≠ []) (hl : su.LastName ≠ []) (hc : su.Country ≠ [])
    (hp : su.Password ≠ [] ∨ passwordOkEmpty = true)
    (hn : su.NickName = [] ∨ service.validateNickname lib su.NickName 1 32 = some true)
    (he : su.Email ≠ []) (hparse : lib.ParseAddress su.Email = none) :
    su.Validate lib passwordOkEmpty = none := by
  unfold service.User.Validate
  have hp' : ¬ (su.Password = [] ∧ passwordOkEmpty = false) := by
    rintro ⟨h1, h2⟩
    rcases hp with h | h
    · exact h h1
    · rw [h2] at h; exact Bool.noConfusion h
  have hn' : ¬ (su.NickName ≠ [] ∧ service.validateNickname lib su.NickName 1 32 ≠ some true) := by
    rintro ⟨h1, h2⟩
    rcases hn with h | h
    · exact h1 h
    · exact h2 h
  rw [if_neg hf, if_neg hl, if_neg hc, if_neg hf, if_neg hp', if_neg hn']
  unfold service.ValidateEmail
  rw [if_neg he, hparse]

/-- What the merge of `UpdateUser` writes into the stored user: the nickname is taken from
the last name of the update. -/
theorem service.Users.UpdateUser.merge_fields (upd stored : service.User) :
    (service.Users.UpdateUser.merge upd stored).1 =
      { stored with
        FirstName := if upd.FirstName ≠ [] then upd.FirstName else stored.FirstName
        LastName := if upd.LastName ≠ [] then upd.LastName else stored.LastName
        NickName := if upd.LastName ≠ [] then upd.LastName else stored.NickName
        Country := if upd.Country ≠ [] then upd.Country else stored.Country
        Email := if upd.Email ≠ [] then upd.Email else stored.Email } ∧
    ((service.Users.UpdateUser.merge upd stored).2 = true ↔
      (upd.FirstName ≠ [] ∧ upd.FirstName ≠ stored.FirstName) ∨
      (upd.LastName ≠ [] ∧ upd.LastName ≠ stored.LastName) ∨
      (upd.LastName ≠ [] ∧ upd.LastName ≠ stored.NickName) ∨
      (upd.Country ≠ [] ∧ upd.Country ≠ stored.Country) ∨
      (upd.Email ≠ [] ∧ upd.Email ≠ stored.Email)) := by
  unfold service.Users.UpdateUser.merge service.Users.UpdateUser.takeOver
  refine ⟨?_, ?_⟩
  · simp only [service.User.mk.injEq, true_and, and_true]
    refine ⟨?_, ?_, ?_, ?_, ?_⟩ <;> split_ifs <;> simp_all
  · simp only []
    split_ifs <;> simp_all
    refine ⟨?_, ?_, ?_, ?_, ?_⟩ <;> assumption

/-- The steps of `UpdateUser` for an update without a password, once the stored user was
read. -/
theorem service.Users.UpdateUser_noPassword {σ : Type} (lib : Libraries)
    (repo : service.UserRepo σ) (notify : clients.ChannelNotificator σ)
    (upd stored : service.User) (s s1 : σ)
    (hget : repo.GetUser upd.ID s = (.ok stored, s1)) (hpw : upd.Password = []) :
    service.Users.UpdateUser lib repo notify upd s =
      if (service.Users.UpdateUser.merge upd stored).2 = false then
        (some (.of service.ErrEmptyUpdateRequest), s1)
      else
        match (service.Users.UpdateUser.merge upd stored).1.Validate lib true with
        | some err => (some (.of (.text (str "updated user not valid: " ++ err.Error))), s1)
        | none =>
          match repo.UpdateUser (service.Users.UpdateUser.merge upd stored).1 s1 with
          | ((some err, _), s2) =>
            if err.Is .DuplicateKeyError then (some (.of service.ErrDuplicateKeyError), s2)
            else (some err, s2)
          | ((none, u), s2) =>
            (none, (notify clients.ChannelUpdate
              (str "user with ID=" ++ u.ID ++ str " has been updated") s2).2) := by
  unfold service.Users.UpdateUser
  rw [hget]
  simp only [hpw, ne_eq, not_true_eq_false, if_false]

/-- The stored user of the tests is valid in every library in which its address parses. -/
theorem storedUser_valid (lib : Libraries) (last nick : Bytes)
    (hparse : lib.ParseAddress (str "user_one@gmail.com") = none)
    (hlast : last ≠ []) (hascii : ∀ c ∈ nick, c < 128)
    (hnick : service.validateNickname plainLibraries nick 1 32 = some true) :
    service.User.Validate lib { storedUser with LastName := last, NickName := nick } true =
      none :=
  service.User.Validate_valid lib _ true (show storedUser.FirstName ≠ [] by decide) hlast
    (show storedUser.Country ≠ [] by decide) (Or.inr rfl)
    (Or.inr ((service.validateNickname_library lib plainLibraries nick hascii).trans hnick))
    (show storedUser.Email ≠ [] by decide) hparse

/-- C22 fails on the code. The update that repeats the stored last name `One` and sets
nothing else has every field empty or equal to the stored value, yet `UpdateUser` does not
return `ErrEmptyUpdateRequest`: line 90 of `users.go` reads the last name where the nickname
is meant, so the nickname `userOne11` is overwritten with `One`, the repository is asked to
write the user and the notifier is called. The update that sets nothing at all is rejected
as the tests of the repository expect. -/
theorem repeated_last_name_is_written (lib : Libraries)
    (hparse : lib.ParseAddress (str "user_one@gmail.com") = none) :
    ({ service.User.new with ID := storedUser.ID, LastName := str "One" } : service.User).LastName
      = storedUser.LastName ∧
    service.Users.UpdateUser lib (recordingRepo storedUser []) (recordingNotify none)
        { service.User.new with ID := storedUser.ID, LastName := str "One" } [] =
      (none,
        [.GetUser storedUser.ID, .UpdateUser { storedUser with NickName := str "One" },
          .Notify (str "update")
            (str "user with ID=67cfa917-1cec-48ff-913c-243fe5749e92 has been updated")]) ∧
    service.Users.UpdateUser lib (recordingRepo storedUser []) (recordingNotify none)
        { service.User.new with ID := storedUser.ID } [] =
      (some (.of service.ErrEmptyUpdateRequest), [.GetUser storedUser.ID]) ∧
    service.ErrEmptyUpdateRequest = .coded 103 (str "empty request") := by
  refine ⟨by decide, ?_, ?_, rfl⟩
  · rw [service.Users.UpdateUser_noPassword lib _ _ _ storedUser [] [.GetUser storedUser.ID]
      rfl rfl]
    have hm : service.Users.UpdateUser.merge
        { service.User.new with ID := storedUser.ID, LastName := str "One" } storedUser =
        ({ storedUser with LastName := str "One", NickName := str "One" }, true) := by decide
    rw [hm, storedUser_valid lib (str "One") (str "One") hparse (by decide) (by decide)
      (by decide)]
    decide
  · rw [service.Users.UpdateUser_noPassword lib _ _ _ storedUser [] [.GetUser storedUser.ID]
      rfl rfl]
    have hm : service.Users.UpdateUser.merge
        { service.User.new with ID := storedUser.ID } storedUser = (storedUser, false) := by
      decide
    rw [hm]
    rfl

/-- C22 in the library in which every address parses. -/
theorem repeated_last_name_is_written_witness :
    plainLibraries.ParseAddress (str "user_one@gmail.com") = none ∧
    service.Users.UpdateUser plainLibraries (recordingRepo storedUser []) (recordingNotify none)
        { service.User.new with ID := storedUser.ID, LastName := str "One" } [] =
      (none,
        [.GetUser storedUser.ID, .UpdateUser { storedUser with NickName := str "One" },
          .Notify (str "update")
            (str "user with ID=67cfa917-1cec-48ff-913c-243fe5749e92 has been updated")]) :=
  ⟨rfl, (repeated_last_name_is_written plainLibraries rfl).2.1⟩

/-- C29 fails on the code, by the same line 90 of `users.go`. The request that sets only the
last name `Two` writes `Two` into the nickname as well; the request that sets only the
nickname `userTwo` changes nothing and is rejected as empty, without a call of the
repository's `UpdateUser`. -/
theorem nickname_follows_last_name (lib : Libraries)
    (hparse : lib.ParseAddress (str "user_one@gmail.com") = none) :
    handlers.http.updateUser.Decode
        (.ok { FirstName := none, LastName := some (str "Two"), Nickname := none,
               Password := none, Email := none, Country := none }) storedUser.ID =
      .ok { service.User.new with ID := storedUser.ID, LastName := str "Two" } ∧
    service.Users.UpdateUser lib (recordingRepo storedUser []) (recordingNotify none)
        { service.User.new with ID := storedUser.ID, LastName := str "Two" } [] =
      (none,
        [.GetUser storedUser.ID,
          .UpdateUser { storedUser with LastName := str "Two", NickName := str "Two" },
          .Notify (str "update")
            (str "user with ID=67cfa917-1cec-48ff-913c-243fe5749e92 has been updated")]) ∧
    handlers.http.updateUser.Decode
        (.ok { FirstName := none, LastName := none, Nickname := some (str "userTwo"),
               Password := none, Email := none, Country := none }) storedUser.ID =
      .ok { service.User.new with ID := storedUser.ID, NickName := str "userTwo" } ∧
    service.Users.UpdateUser lib (recordingRepo storedUser []) (recordingNotify none)
        { service.User.new with ID := storedUser.ID, NickName := str "userTwo" } [] =
      (some (.of service.ErrEmptyUpdateRequest), [.GetUser storedUser.ID]) := by
  refine ⟨by decide, ?_, by decide, ?_⟩
  · rw [service.Users.UpdateUser_noPassword lib _ _ _ storedUser [] [.GetUser storedUser.ID]
      rfl rfl]
    have hm : service.Users.UpdateUser.merge
        { service.User.new with ID := storedUser.ID, LastName := str "Two" } storedUser =
        ({ storedUser with LastName := str "Two", NickName := str "Two" }, true) := by decide
    rw [hm, storedUser_valid lib (str "Two") (str "Two") hparse (by decide) (by decide)
      (by decide)]
    decide
  · rw [service.Users.UpdateUser_noPassword lib _ _ _ storedUser [] [.GetUser storedUser.ID]
      rfl rfl]
    have hm : service.Users.UpdateUser.merge
        { service.User.new with ID := storedUser.ID, NickName := str "userTwo" } storedUser =
        (storedUser, false) := by decide
    rw [hm]
    rfl

/-- C29 in the library in which every address parses. -/
theorem nickname_follows_last_name_witness :
    plainLibraries.ParseAddress (str "user_one@gmail.com") = none ∧
    service.Users.UpdateUser plainLibraries (recordingRepo storedUser []) (recordingNotify none)
        { service.User.new with ID := storedUser.ID, NickName := str "userTwo" } [] =
      (some (.of service.ErrEmptyUpdateRequest), [.GetUser storedUser.ID]) :=
  ⟨rfl, (nickname_follows_last_name plainLibraries rfl).2.2.2⟩

/-- An update without a password in which every field is empty or equal to the stored value
is rejected as empty when, in addition, its last name is empty or equal to the stored
nickname; only `GetUser` was called. -/
theorem service.Users.UpdateUser_empty {σ : Type} (lib : Libraries)
    (repo : service.UserRepo σ) (notify : clients.ChannelNotificator σ)
    (upd stored : service.User) (s s1 : σ)
    (hget : repo.GetUser upd.ID s = (.ok stored, s1)) (hpw : upd.Password = [])
    (hf : upd.FirstName = [] ∨ upd.FirstName = stored.FirstName)
    (hl : upd.LastName = [] ∨ upd.LastName = stored.LastName)
    (hc : upd.Country = [] ∨ upd.Country = stored.Country)
    (he : upd.Email = [] ∨ upd.Email = stored.Email)
    (hln : upd.LastName = [] ∨ upd.LastName = stored.NickName) :
    service.Users.UpdateUser lib repo notify upd s =
      (some (.of service.ErrEmptyUpdateRequest), s1) := by
  rw [service.Users.UpdateUser_noPassword lib repo notify upd stored s s1 hget hpw]
  have hm : (service.Users.UpdateUser.merge upd stored).2 = false := by
    rw [← Bool.not_eq_true, (service.Users.UpdateUser.merge_fields upd stored).2]
    tauto
  rw [if_pos hm]

/-! ## Notification -/

/-- The steps of `UpdateUser` for an update with a password that the library hashes, once
the stored user was read. -/
theorem service.Users.UpdateUser_password {σ : Type} (lib : Libraries)
    (repo : service.UserRepo σ) (notify : clients.ChannelNotificator σ)
    (upd stored : service.User) (s s1 : σ) (hashedPwd : Bytes)
    (hget : repo.GetUser upd.ID s = (.ok stored, s1)) (hpw : upd.Password ≠ [])
    (hhash : lib.GenerateFromPassword upd.Password = .ok hashedPwd) :
    service.Users.UpdateUser lib repo notify upd s =
      match service.User.Validate lib
          { (service.Users.UpdateUser.merge upd stored).1 with Password := hashedPwd } true with
      | some err => (some (.of (.text (str "updated user not valid: " ++ err.Error))), s1)
      | none =>
        match repo.UpdateUser
            { (service.Users.UpdateUser.merge upd stored).1 with Password := hashedPwd } s1 with
        | ((some err, _), s2) =>
          if err.Is .DuplicateKeyError then (some (.of service.ErrDuplicateKeyError), s2)
          else (some err, s2)
        | ((none, u), s2) =>
          (none, (notify clients.ChannelUpdate
            (str "user with ID=" ++ u.ID ++ str " has been updated") s2).2) := by
  unfold service.Users.UpdateUser
  rw [hget]
  simp only [hpw, hhash, ne_eq, not_false_eq_true, if_true, Bool.true_eq_false, if_false]

/-- An update with a password that the library cannot hash fails after the stored user was
read. -/
theorem service.Users.UpdateUser_hashError {σ : Type} (lib : Libraries)
    (repo : service.UserRepo σ) (notify : clients.ChannelNotificator σ)
    (upd stored : service.User) (s s1 : σ) (e : Error)
    (hget : repo.GetUser upd.ID s = (.ok stored, s1)) (hpw : upd.Password ≠ [])
    (hhash : lib.GenerateFromPassword upd.Password = .error e) :
    service.Users.UpdateUser lib repo notify upd s =
      (some (.wrap (str "could not generate new hashed password for user: ") (.of e)), s1) := by
  unfold service.Users.UpdateUser
  rw [hget]
  simp only [hpw, hhash, ne_eq, not_false_eq_true, if_true]

/-- What `UpdateUser` does after the user it is about to write passed validation: it hands the
user to the repository, and notifies once when the repository reports success. -/
theorem service.Users.UpdateUser_written {σ : Type} (repo : service.UserRepo σ)
    (notify : clients.ChannelNotificator σ) (u : service.User) (s1 : σ)
    (r : Option Failure × σ)
    (h : r = match repo.UpdateUser u s1 with
      | ((some err, _), s2) =>
        if err.Is .DuplicateKeyError then (some (.of service.ErrDuplicateKeyError), s2)
        else (some err, s2)
      | ((none, u2), s2) =>
        (none, (notify clients.ChannelUpdate
          (str "user with ID=" ++ u2.ID ++ str " has been updated") s2).2)) :
    (∀ e u2 s2, repo.UpdateUser u s1 = ((some e, u2), s2) →
      r = (some (if e.Is .DuplicateKeyError then .of service.ErrDuplicateKeyError else e),
        s2)) ∧
    (∀ u2 s2, repo.UpdateUser u s1 = ((none, u2), s2) →
      r = (none, (notify clients.ChannelUpdate
        (str "user with ID=" ++ u2.ID ++ str " has been updated") s2).2)) := by
  constructor
  · intro e u2 s2 hr
    rw [h, hr]
    simp only []
    split_ifs <;> rfl
  · intro u2 s2 hr
    rw [h, hr]

/-- C23. Notification is best-effort. What `CreateUser`, `UpdateUser` and `DeleteUser` of the
service return is the same with every notifier, whatever its `Notify` returns or does.
When the repository reports an error, or the update fails before it reaches the repository,
the error is returned and the state is the one the repository left: the notifier was not
called. When the mutation of the repository succeeds, the operation succeeds and the state
is the one the repository left after exactly one call of `Notify`, on the channel of the
operation and with the identifier of the user in the message. -/
theorem notification_best_effort {σ : Type} (lib : Libraries) (repo : service.UserRepo σ)
    (notify : clients.ChannelNotificator σ) (inp upd : service.User) (id : Bytes) (s : σ) :
    (∀ other : clients.ChannelNotificator σ,
      (service.Users.CreateUser repo notify inp s).1 =
        (service.Users.CreateUser repo other inp s).1 ∧
      (service.Users.UpdateUser lib repo notify upd s).1 =
        (service.Users.UpdateUser lib repo other upd s).1 ∧
      (service.Users.DeleteUser repo notify id s).1 =
        (service.Users.DeleteUser repo other id s).1) ∧
    (∀ user inp2 s1, repo.CreateUser inp s = ((.ok user, inp2), s1) →
      service.Users.CreateUser repo notify inp s =
        (.ok { inp2 with ID := user.ID, CreatedAt := user.CreatedAt },
          (notify clients.ChannelCreate
            (str "user with ID=" ++ user.ID ++ str " has been created") s1).2)) ∧
    (∀ err inp2 s1, repo.CreateUser inp s = ((.error err, inp2), s1) →
      service.Users.CreateUser repo notify inp s =
        (.error (if err.Is .DuplicateKeyError then service.ErrUserAlreadyExists
          else service.ErrInternal), s1)) ∧
    (∀ s1, repo.DeleteUser id s = (none, s1) →
      service.Users.DeleteUser repo notify id s =
        (none, (notify clients.ChannelDelete
          (str "user with ID=" ++ id ++ str " has been deleted") s1).2)) ∧
    (∀ err s1, repo.DeleteUser id s = (some err, s1) →
      service.Users.DeleteUser repo notify id s =
        (some (if err.Is .NoUsersFoundError then .of service.ErrUserNotFound else err), s1)) ∧
    (∀ err s1, repo.GetUser upd.ID s = (.error err, s1) →
      service.Users.UpdateUser lib repo notify upd s =
        (some (if err.Is .NoUsersFoundError then .of service.ErrUserNotFound else err), s1)) ∧
    (∀ stored s1, repo.GetUser upd.ID s = (.ok stored, s1) →
      (∃ err, service.Users.UpdateUser lib repo notify upd s = (some err, s1)) ∨
      (∃ u : service.User,
        (u = (service.Users.UpdateUser.merge upd stored).1 ∨
          ∃ hashedPwd, lib.GenerateFromPassword upd.Password = .ok hashedPwd ∧
            u = { (service.Users.UpdateUser.merge upd stored).1 with
                  Password := hashedPwd }) ∧
        (∀ e u2 s2, repo.UpdateUser u s1 = ((some e, u2), s2) →
          service.Users.UpdateUser lib repo notify upd s =
            (some (if e.Is .DuplicateKeyError then .of service.ErrDuplicateKeyError else e),
              s2)) ∧
        (∀ u2 s2, repo.UpdateUser u s1 = ((none, u2), s2) →
          service.Users.UpdateUser lib repo notify upd s =
            (none, (notify clients.ChannelUpdate
              (str "user with ID=" ++ u2.ID ++ str " has been updated") s2).2)))) := by
  refine ⟨?_, ?_, ?_, ?_, ?_, ?_, ?_⟩
  · intro other
    refine ⟨?_, ?_, ?_⟩
    · unfold service.Users.CreateUser
      rcases hr : repo.CreateUser inp s with ⟨⟨r, inp2⟩, s1⟩
      cases r with
      | error err => simp only []
      | ok user => rfl
    · unfold service.Users.UpdateUser
      rcases hr : repo.GetUser upd.ID s with ⟨r, s1⟩
      cases r with
      | error err => simp only []
      | ok stored =>
        simp only []
        split
        · rfl
        · rename_i existedUser updated hh
          split_ifs
          · rfl
          · split
            · rfl
            · rcases hu : repo.UpdateUser existedUser s1 with ⟨⟨r2, u2⟩, s2⟩
              cases r2 with
              | some err => simp only []
              | none => rfl
    · unfold service.Users.DeleteUser
      rcases hr : repo.DeleteUser id s with ⟨r, s1⟩
      cases r with
      | some err => simp only []
      | none => rfl
  · intro user inp2 s1 hr
    unfold service.Users.CreateUser
    rw [hr]
  · intro err inp2 s1 hr
    unfold service.Users.CreateUser
    rw [hr]
    simp only []
    split_ifs <;> rfl
  · intro s1 hr
    unfold service.Users.DeleteUser
    rw [hr]
  · intro err s1 hr
    unfold service.Users.DeleteUser
    rw [hr]
    simp only []
    split_ifs <;> rfl
  · intro err s1 hr
    unfold service.Users.UpdateUser
    rw [hr]
    simp only []
    split_ifs <;> rfl
  · intro stored s1 hget
    by_cases hpw : upd.Password = []
    · have hstep := service.Users.UpdateUser_noPassword lib repo notify upd stored s s1 hget hpw
      by_cases hm : (service.Users.UpdateUser.merge upd stored).2 = false
      · rw [if_pos hm] at hstep
        exact Or.inl ⟨_, hstep⟩
      · rw [if_neg hm] at hstep
        cases hv : service.User.Validate lib (service.Users.UpdateUser.merge upd stored).1
            true with
        | some err =>
          rw [hv] at hstep
          exact Or.inl ⟨_, hstep⟩
        | none =>
          rw [hv] at hstep
          exact Or.inr ⟨_, Or.inl rfl,
            service.Users.UpdateUser_written repo notify _ s1 _ hstep⟩
    · cases hh : lib.GenerateFromPassword upd.Password with
      | error e =>
        exact Or.inl ⟨_, service.Users.UpdateUser_hashError lib repo notify upd stored s s1 e
          hget hpw hh⟩
      | ok hashedPwd =>
        have hstep := service.Users.UpdateUser_password lib repo notify upd stored s s1
          hashedPwd hget hpw hh
        cases hv : service.User.Validate lib
            { (service.Users.UpdateUser.merge upd stored).1 with Password := hashedPwd }
            true with
        | some err =>
          rw [hv] at hstep
          exact Or.inl ⟨_, hstep⟩
        | none =>
          rw [hv] at hstep
          exact Or.inr ⟨_, Or.inr ⟨hashedPwd, rfl, rfl⟩,
            service.Users.UpdateUser_written repo notify _ s1 _ hstep⟩

/-- C23 with collaborators that record their calls and a notifier that fails: a deletion
that the repository accepts is followed by one call of `Notify` and succeeds; a deletion, a
creation and an update that the repository refuses are not followed by any. -/
theorem notification_best_effort_witness :
    (recordingRepo storedUser (str "id1")).DeleteUser storedUser.ID [] =
      (none, [.DeleteUser storedUser.ID]) ∧
    service.Users.DeleteUser (recordingRepo storedUser (str "id1"))
        (recordingNotify (some (.of (.text (str "channel closed"))))) storedUser.ID [] =
      (none, [.DeleteUser storedUser.ID,
        .Notify (str "delete")
          (str "user with ID=67cfa917-1cec-48ff-913c-243fe5749e92 has been deleted")]) ∧
    (failingRepo (.var .NoUsersFoundError)).DeleteUser storedUser.ID [] =
      (some (.var .NoUsersFoundError), [.DeleteUser storedUser.ID]) ∧
    service.Users.DeleteUser (failingRepo (.var .NoUsersFoundError))
        (recordingNotify (some (.of (.text (str "channel closed"))))) storedUser.ID [] =
      (some (.of service.ErrUserNotFound), [.DeleteUser storedUser.ID]) ∧
    service.Users.CreateUser (failingRepo (.var .DuplicateKeyError))
        (recordingNotify (some (.of (.text (str "channel closed"))))) decodedUser5 [] =
      (.error service.ErrUserAlreadyExists, [.CreateUser decodedUser5]) ∧
    service.Users.UpdateUser plainLibraries (failingRepo (.var .NoUsersFoundError))
        (recordingNotify (some (.of (.text (str "channel closed")))))
        { service.User.new with ID := storedUser.ID, LastName := str "Two" } [] =
      (some (.of service.ErrUserNotFound), [.GetUser storedUser.ID]) :=
  have hok := notification_best_effort plainLibraries (recordingRepo storedUser (str "id1"))
    (recordingNotify (some (.of (.text (str "channel closed"))))) decodedUser5
    { service.User.new with ID := storedUser.ID, LastName := str "Two" } storedUser.ID []
  have hfail := notification_best_effort plainLibraries (failingRepo (.var .NoUsersFoundError))
    (recordingNotify (some (.of (.text (str "channel closed"))))) decodedUser5
    { service.User.new with ID := storedUser.ID, LastName := str "Two" } storedUser.ID []
  have hdup := notification_best_effort plainLibraries (failingRepo (.var .DuplicateKeyError))
    (recordingNotify (some (.of (.text (str "channel closed"))))) decodedUser5
    { service.User.new with ID := storedUser.ID, LastName := str "Two" } storedUser.ID []
  ⟨rfl, hok.2.2.2.1 _ rfl, rfl, hfail.2.2.2.2.1 _ _ rfl, hdup.2.2.1 _ _ _ rfl,
    hfail.2.2.2.2.2.1 _ _ rfl⟩

/-- A notifier that fails does not fail the creation of a user: the user is returned, and the
notifier was called once, after the repository. -/
theorem failed_notification_is_ignored :
    service.Users.CreateUser (recordingRepo storedUser (str "id1"))
        (recordingNotify (some (.of (.text (str "channel closed"))))) decodedUser5 [] =
      (.ok { decodedUser5 with ID := str "id1" },
        [.CreateUser decodedUser5,
          .Notify (str "create") (str "user with ID=id1 has been created")]) ∧
    service.Users.CreateUser (failingRepo (.var .DuplicateKeyError))
        (recordingNotify none) decodedUser5 [] =
      (.error service.ErrUserAlreadyExists, [.CreateUser decodedUser5]) := by
  decide

/-! ## Duplicate keys in the repository -/

/-- The test `isPgViolation(err, errPgForeignKeyViolation)` holds exactly for an error whose
chain has a `*pq.Error` with the code 23503. -/
theorem repository.pg.isPgViolation_foreignKey (err : Failure) :
    repository.pg.isPgViolation err [repository.pg.errPgForeignKeyViolation] = true ↔
      ∃ msg, err.AsPq = some (str "23503", msg) := by
  unfold repository.pg.isPgViolation
  cases h : err.AsPq with
  | none => simp
  | some p =>
    obtain ⟨code, msg⟩ := p
    have hne : ([repository.pg.errPgForeignKeyViolation] : List Bytes) ≠ [] := by simp
    simp only [if_neg hne, List.any_cons, List.any_nil, Bool.or_false, decide_eq_true_eq,
      Option.some.injEq, Prod.mk.injEq]
    constructor
    · intro hc
      exact ⟨msg, hc, rfl⟩
    · rintro ⟨m, hc, _⟩
      exact hc

/-- When the database rejects the statement of `CreateUser`, the repository returns
`DuplicateKeyError` exactly for a `*pq.Error` with the code 23503, the foreign-key
violation; every other error is returned wrapped and is not `DuplicateKeyError`. -/
theorem repository.pg.Repo.CreateUser_rejected {σ : Type} (lib : Libraries) (conn : sqlx.DB σ)
    (id hashedPwd : Bytes) (now : Time) (newUser : service.User) (s s1 : σ) (err : Failure)
    (hhash : lib.GenerateFromPassword newUser.Password = .ok hashedPwd)
    (hexec : conn.ExecContext repository.pg.insertUser
      [.text id, .text newUser.FirstName, .text newUser.LastName, .text newUser.NickName,
        .text hashedPwd, .text newUser.Email, .text newUser.Country, .time now] s =
      (.error err, s1)) :
    ((∃ msg, err.AsPq = some (str "23503", msg)) →
      (repository.pg.Repo.CreateUser lib conn id now newUser s).1.1 =
        .error (.var .DuplicateKeyError)) ∧
    ((¬ ∃ msg, err.AsPq = some (str "23503", msg)) →
      (repository.pg.Repo.CreateUser lib conn id now newUser s).1.1 =
        .error (.wrap (str "could not create new user: ") err) ∧
      (Failure.wrap (str "could not create new user: ") err).Is .DuplicateKeyError =
        err.Is .DuplicateKeyError) := by
  unfold repository.pg.Repo.CreateUser
  simp only [hhash, hexec]
  constructor
  · intro h
    rw [if_pos ((repository.pg.isPgViolation_foreignKey err).2 h)]
  · intro h
    have hn : ¬ repository.pg.isPgViolation err [repository.pg.errPgForeignKeyViolation] = true :=
      fun hc => h ((repository.pg.isPgViolation_foreignKey err).1 hc)
    rw [if_neg hn]
    exact ⟨rfl, rfl⟩

/-- C24 fails on the code. A statement rejected with the unique-key violation 23505 is
returned by `CreateUser` and `UpdateUser` of the repository as a wrapped generic error, in
which `errors.Is` does not find `DuplicateKeyError`, and the service answers a create request
with its internal error; a statement rejected with the foreign-key violation 23503 is
returned as `DuplicateKeyError`. Both methods test `errPgForeignKeyViolation` where
`errPgUniqueKeyViolation` is meant. The error of the driver `pgx`, which is the one the
connection is opened with, is not a `*pq.Error` and is never recognised. -/
theorem unique_violation_is_not_duplicate_key :
    (repository.pg.Repo.CreateUser plainLibraries (rejectingDB uniqueViolation) (str "id1")
        clock2024 decodedUser5 []).1.1 =
      .error (.wrap (str "could not create new user: ") uniqueViolation) ∧
    (Failure.wrap (str "could not create new user: ") uniqueViolation).Is .DuplicateKeyError =
      false ∧
    (repository.pg.Repo.CreateUser plainLibraries (rejectingDB foreignKeyViolation) (str "id1")
        clock2024 decodedUser5 []).1.1 = .error (.var .DuplicateKeyError) ∧
    (repository.pg.Repo.UpdateUser (rejectingDB uniqueViolation) clock2024 storedUser []).1.1 =
      some (.wrap (str "could not update user: ") uniqueViolation) ∧
    (repository.pg.Repo.UpdateUser (rejectingDB foreignKeyViolation) clock2024 storedUser
        []).1.1 = some (.var .DuplicateKeyError) ∧
    (repository.pg.Repo.CreateUser plainLibraries (rejectingDB uniqueViolationPgx) (str "id1")
        clock2024 decodedUser5 []).1.1 =
      .error (.wrap (str "could not create new user: ") uniqueViolationPgx) ∧
    (service.Users.CreateUser
        { failingRepo (.var .NoUsersFoundError) with
          CreateUser := repository.pg.Repo.CreateUser plainLibraries
            (rejectingDB uniqueViolation) (str "id1") clock2024 }
        (recordingNotify none) decodedUser5 []).1 = .error service.ErrInternal ∧
    repository.pg.errPgUniqueKeyViolation = str "23505" ∧
    uniqueViolation.AsPq =
      some (str "23505", str "duplicate key value violates unique constraint \"email_uq\"") := by
  decide

/-! ## The two encoders side by side -/

/-- C25 as amended, both trees encode the same token: for every limit, offset and total, at
the same instant, the two `GenerateNextPage` return the empty string in the same cases, and
they return the same string when the field `by` and the value `query` are both empty or both
non-empty. When exactly one of the two is empty, the encoder of `handlers` drops the pair by
its explicit test `filter.IsValid()`, and returns what the encoder of `common` returns for
the empty pair. -/
theorem trees_mint_the_same_token (now : Time) (limit offset total : Int) (fby query : Bytes) :
    (handlers.GenerateNextPage (stdlib "handlers") now limit offset total (some ⟨fby, query⟩) =
        .ok [] ↔
      common.GenerateNextPage (stdlib "common") now limit offset total query fby = .ok []) ∧
    ((fby = [] ↔ query = []) →
      handlers.GenerateNextPage (stdlib "handlers") now limit offset total (some ⟨fby, query⟩) =
        common.GenerateNextPage (stdlib "common") now limit offset total query fby) ∧
    (¬ (fby = [] ↔ query = []) →
      handlers.GenerateNextPage (stdlib "handlers") now limit offset total (some ⟨fby, query⟩) =
        common.GenerateNextPage (stdlib "common") now limit offset total [] []) := by
  refine ⟨?_, ?_, ?_⟩
  · rw [handlers.GenerateNextPage_nil_iff, common.GenerateNextPage_empty_iff]
  · intro h
    rw [handlers.GenerateNextPage_guard, common.GenerateNextPage_marshal]
    have hm : handlers.mintedNextPage now limit (some ⟨fby, query⟩) =
        { Limit := limit, Offset := limit, FilterBy := fby, Filter := query, Time := now } := by
      unfold handlers.mintedNextPage service.Filter.IsValid
      by_cases hb : fby = []
      · have hq : query = [] := h.1 hb
        simp [hb, hq]
      · have hq : query ≠ [] := fun hq => hb (h.2 hq)
        simp [hb, hq]
    rw [hm]
    rfl
  · intro h
    rw [handlers.GenerateNextPage_guard, common.GenerateNextPage_marshal]
    have hm : handlers.mintedNextPage now limit (some ⟨fby, query⟩) =
        { Limit := limit, Offset := limit, FilterBy := [], Filter := [], Time := now } := by
      unfold handlers.mintedNextPage service.Filter.IsValid
      by_cases hb : fby = []
      · simp [hb]
      · have hq : query = [] := by
          by_contra hq
          exact h ⟨fun h1 => absurd h1 hb, fun h2 => absurd h2 hq⟩
        simp [hq]
    rw [hm]
    rfl

/-- C25 as amended, for the filter `country = NL` and for the field `country` alone. -/
theorem trees_mint_the_same_token_witness :
    ((str "country" = [] ↔ str "NL" = []) ∧
      handlers.GenerateNextPage (stdlib "handlers") clock2024 1 0 5
          (some ⟨str "country", str "NL"⟩) =
        common.GenerateNextPage (stdlib "common") clock2024 1 0 5 (str "NL") (str "country")) ∧
    (¬ (str "country" = [] ↔ ([] : Bytes) = []) ∧
      handlers.GenerateNextPage (stdlib "handlers") clock2024 1 0 5 (some ⟨str "country", []⟩) =
        common.GenerateNextPage (stdlib "common") clock2024 1 0 5 [] []) :=
  ⟨⟨by decide, (trees_mint_the_same_token clock2024 1 0 5 (str "country") (str "NL")).2.1
      (by decide)⟩,
    ⟨by decide, (trees_mint_the_same_token clock2024 1 0 5 (str "country") []).2.2
      (by decide)⟩⟩

/-- C25 as stated fails when exactly one of the two strings is empty: for the field `country`
without a value the token of `handlers` carries no filter and the token of `common` carries
`filter_by`; for the value `NL` without a field the token of `common` carries `filter`. -/
theorem trees_mint_the_same_token_counterexample :
    handlers.GenerateNextPage (stdlib "handlers") clock2024 1 0 5 (some ⟨str "country", []⟩) =
      .ok expectedNextPageNoFilter ∧
    common.GenerateNextPage (stdlib "common") clock2024 1 0 5 [] (str "country") =
      .ok filterByOnlyToken ∧
    handlers.GenerateNextPage (stdlib "handlers") clock2024 1 0 5 (some ⟨[], str "NL"⟩) =
      .ok expectedNextPageNoFilter ∧
    common.GenerateNextPage (stdlib "common") clock2024 1 0 5 (str "NL") [] =
      .ok queryOnlyToken ∧
    filterByOnlyToken ≠ expectedNextPageNoFilter ∧
    queryOnlyToken ≠ expectedNextPageNoFilter := by
  decide

/-! ## The chain of tokens -/

/-- A token minted by either encoder holds a page whose limit and offset are both the limit
it was minted for, and `LoadNextPage` returns that page while the token is live. -/
theorem minted_token_loads (σ : Type) (pkg : String) (now : Time)
    (limit offset n : Int) (filter : Option service.Filter) (query fby tok : Bytes)
    (hnow : now.wellFormed) (hl : isInt64 limit) (hne : tok ≠ [])
    (hgen : handlers.GenerateNextPage (stdlib pkg) now limit offset n filter = .ok tok ∨
      common.GenerateNextPage (stdlib pkg) now limit offset n query fby = .ok tok) :
    ∃ text np, base64.DecodeString tok = .ok text ∧
      json.Unmarshal (str (pkg ++ ".NextPage")) text initialNextPage = .ok np ∧
      np.Limit = limit ∧ np.Offset = limit ∧
      ∀ (later : Time) (flt fb : Bytes) (paginationFn : PaginationFn σ) (s : σ),
        later.unixNano - now.unixNano < 1800000000000 →
        handlers.LoadNextPage (stdlib pkg) later tok flt fb paginationFn s = (.ok np, s) ∧
        common.loadNextPage (stdlib pkg) later tok flt fb paginationFn s = (.ok np, s) := by
  have key : ∀ v : handlers.NextPage, v.Limit = limit → v.Offset = limit → v.Time = now →
      ∀ text, json.Marshal v = .ok text → tok = base64.EncodeToString text →
      ∃ text np, base64.DecodeString tok = .ok text ∧
        json.Unmarshal (str (pkg ++ ".NextPage")) text initialNextPage = .ok np ∧
        np.Limit = limit ∧ np.Offset = limit ∧
        ∀ (later : Time) (flt fb : Bytes) (paginationFn : PaginationFn σ) (s : σ),
          later.unixNano - now.unixNano < 1800000000000 →
          handlers.LoadNextPage (stdlib pkg) later tok flt fb paginationFn s = (.ok np, s) ∧
          common.loadNextPage (stdlib pkg) later tok flt fb paginationFn s = (.ok np, s) := by
    intro v hvl hvo hvt text hm htok
    obtain ⟨text2, hm2, _, hd2, hu2⟩ := stdlib_round_trip_coerce pkg v initialNextPage
      (by rw [hvl]; exact hl) (by rw [hvo]; exact hl) (by rw [hvt]; exact hnow)
    have ht2 : text2 = text := by
      have h1 : json.Marshal v = .ok text2 := hm2
      rw [hm] at h1
      exact (Except.ok.inj h1).symm
    rw [ht2] at hd2 hu2
    refine ⟨text, _, ?_, hu2, hvl, hvo, ?_⟩
    · rw [htok]
      exact hd2
    · intro later flt fb paginationFn s hlive
      have hload := LoadNextPage_minted pkg later v text tok flt fb paginationFn s
        (by rw [hvl]; exact hl) (by rw [hvo]; exact hl) (by rw [hvt]; exact hnow) hm htok
      have hlv : tokenIsLive later v = true := by
        rw [tokenIsLive_iff, hvt]
        exact hlive
      rw [hlv] at hload
      simp only [if_true] at hload
      refine ⟨hload, ?_⟩
      rw [loadNextPage_eq]
      exact hload
  rcases hgen with hgen | hgen
  · obtain ⟨_, text, hm, htok⟩ :=
      handlers.mintedToken_text pkg now limit offset n filter tok hne hgen
    have hf := handlers.mintedNextPage_fields now limit filter
    exact key _ hf.1 hf.2.1 hf.2.2 text hm htok
  · obtain ⟨_, text, hm, htok⟩ :=
      common.mintedToken_json pkg now limit offset n query fby tok hne hgen
    exact key _ rfl rfl rfl text hm htok

/-- Either encoder returns a token when rows remain beyond the page. -/
theorem GenerateNextPage_mints (pkg : String) (now : Time) (limit offset n : Int)
    (filter : Option service.Filter) (query fby : Bytes) (hnow : now.wellFormed)
    (hex : nextPageExists limit offset n) :
    (∃ tok, handlers.GenerateNextPage (stdlib pkg) now limit offset n filter = .ok tok ∧
      tok ≠ []) ∧
    (∃ tok, common.GenerateNextPage (stdlib pkg) now limit offset n query fby = .ok tok ∧
      tok ≠ []) := by
  constructor
  · obtain ⟨text, hm, _, hne⟩ := stdlib_mint pkg (handlers.mintedNextPage now limit filter)
      (by rw [(handlers.mintedNextPage_fields now limit filter).2.2]; exact hnow)
    refine ⟨(stdlib pkg).EncodeToString text, ?_, hne⟩
    rw [handlers.GenerateNextPage_guard, if_pos hex, hm]
  · obtain ⟨text, hm, _, hne⟩ := stdlib_mint pkg
      { Limit := limit, Offset := limit, FilterBy := fby, Filter := query, Time := now } hnow
    refine ⟨(stdlib pkg).EncodeToString text, ?_, hne⟩
    rw [common.GenerateNextPage_marshal, if_pos hex, hm]

/-- C26. Token chain reaches a fixed point: for a limit `L` above 0, a total above `2 * L`
and every filter, the token minted for the page requested with limit `L` and offset `L`
exists and holds limit `L` and offset `L` again, in both trees; `LoadNextPage` returns this
page whenever the token is presented within 30 minutes. More generally every token either
encoder mints holds an offset equal to its limit, so following the tokens requests the page
at offset `L` again and again. -/
theorem token_chain_fixed_point (σ : Type) (pkg : String) (now : Time) (L total : Int)
    (filter : Option service.Filter) (query fby : Bytes)
    (hnow : now.wellFormed) (hL : 0 < L) (htot : 2 * L < total) (hint : isInt64 total) :
    (∃ tok text np, handlers.GenerateNextPage (stdlib pkg) now L L total filter = .ok tok ∧
      tok ≠ [] ∧ base64.DecodeString tok = .ok text ∧
      json.Unmarshal (str (pkg ++ ".NextPage")) text initialNextPage = .ok np ∧
      np.Limit = L ∧ np.Offset = L ∧
      ∀ (later : Time) (flt fb : Bytes) (paginationFn : PaginationFn σ) (s : σ),
        later.unixNano - now.unixNano < 1800000000000 →
        handlers.LoadNextPage (stdlib pkg) later tok flt fb paginationFn s = (.ok np, s)) ∧
    (∃ tok text np, common.GenerateNextPage (stdlib pkg) now L L total query fby = .ok tok ∧
      tok ≠ [] ∧ base64.DecodeString tok = .ok text ∧
      json.Unmarshal (str (pkg ++ ".NextPage")) text initialNextPage = .ok np ∧
      np.Limit = L ∧ np.Offset = L ∧
      ∀ (later : Time) (flt fb : Bytes) (paginationFn : PaginationFn σ) (s : σ),
        later.unixNano - now.unixNano < 1800000000000 →
        common.loadNextPage (stdlib pkg) later tok flt fb paginationFn s = (.ok np, s)) ∧
    (∀ (limit offset n : Int) (tok : Bytes), isInt64 limit → tok ≠ [] →
      (handlers.GenerateNextPage (stdlib pkg) now limit offset n filter = .ok tok ∨
        common.GenerateNextPage (stdlib pkg) now limit offset n query fby = .ok tok) →
      ∃ text np, base64.DecodeString tok = .ok text ∧
        json.Unmarshal (str (pkg ++ ".NextPage")) text initialNextPage = .ok np ∧
        np.Offset = np.Limit ∧ np.Limit = limit ∧
        ∀ (later : Time) (flt fb : Bytes) (paginationFn : PaginationFn σ) (s : σ),
          later.unixNano - now.unixNano < 1800000000000 →
          handlers.LoadNextPage (stdlib pkg) later tok flt fb paginationFn s = (.ok np, s) ∧
          common.loadNextPage (stdlib pkg) later tok flt fb paginationFn s = (.ok np, s)) := by
  have hLi : isInt64 L := by
    unfold isInt64 at hint ⊢
    omega
  have hex : nextPageExists L L total :=
    nextPageExists_of_more L L total hLi hLi hint hL (le_of_lt hL) (by omega)
  obtain ⟨⟨tok1, hg1, hn1⟩, ⟨tok2, hg2, hn2⟩⟩ :=
    GenerateNextPage_mints pkg now L L total filter query fby hnow hex
  refine ⟨?_, ?_, ?_⟩
  · obtain ⟨text, np, hd, hu, h1, h2, hload⟩ := minted_token_loads σ pkg now L L total
      filter query fby tok1 hnow hLi hn1 (Or.inl hg1)
    exact ⟨tok1, text, np, hg1, hn1, hd, hu, h1, h2,
      fun later flt fb p s hlive => (hload later flt fb p s hlive).1⟩
  · obtain ⟨text, np, hd, hu, h1, h2, hload⟩ := minted_token_loads σ pkg now L L total
      filter query fby tok2 hnow hLi hn2 (Or.inr hg2)
    exact ⟨tok2, text, np, hg2, hn2, hd, hu, h1, h2,
      fun later flt fb p s hlive => (hload later flt fb p s hlive).2⟩
  · intro limit offset n tok hl hne hgen
    obtain ⟨text, np, hd, hu, h1, h2, hload⟩ := minted_token_loads σ pkg now limit
      offset n filter query fby tok hnow hl hne hgen
    exact ⟨text, np, hd, hu, by rw [h1, h2], h1, hload⟩

/-- C26 for pages of two rows out of five, the token being presented ten minutes after it
was minted. -/
theorem token_chain_fixed_point_witness :
    tenMinutesEarlier.wellFormed ∧ (0 : Int) < 2 ∧ (2 : Int) * 2 < 5 ∧ isInt64 5 ∧
    clock2024.unixNano - tenMinutesEarlier.unixNano < 1800000000000 ∧
    ∃ tok text np, handlers.GenerateNextPage (stdlib "handlers") tenMinutesEarlier 2 2 5 none =
        .ok tok ∧ tok ≠ [] ∧ base64.DecodeString tok = .ok text ∧
      json.Unmarshal (str ("handlers" ++ ".NextPage")) text initialNextPage = .ok np ∧
      np.Limit = 2 ∧ np.Offset = 2 ∧
      handlers.LoadNextPage (stdlib "handlers") clock2024 tok [] [] noPagination () =
        (.ok np, ()) :=
  ⟨by decide, by decide, by decide, by decide, by decide,
    match (token_chain_fixed_point Unit "handlers" tenMinutesEarlier 2 5 none [] []
      (by decide) (by decide) (by decide) (by decide)).1 with
    | ⟨tok, text, np, hg, hn, hd, hu, h1, h2, hload⟩ =>
      ⟨tok, text, np, hg, hn, hd, hu, h1, h2, hload clock2024 [] [] noPagination () (by decide)⟩⟩

/-! ## The count the listing handlers of `handlers` pass on -/

/-- No page follows a page that is not full, as long as offset plus limit is a Go `int`. -/
theorem nextPageExists_page (limit offset : Int) (rows : Nat)
    (hlim : 0 < limit) (hoff : 0 ≤ offset) (hsum : offset + limit < 2 ^ 63)
    (hrows : (rows : Int) ≤ limit) : ¬ nextPageExists limit offset rows := by
  unfold nextPageExists sub64 add64 wrap64
  rintro ⟨_, h⟩
  have h1 : (offset + limit + 2 ^ 63) % 2 ^ 64 = offset + limit + 2 ^ 63 :=
    Int.emod_eq_of_lt (by omega) (by omega)
  rw [h1] at h
  have hr : (0 : Int) ≤ rows := Int.natCast_nonneg rows
  have h2 : ((rows : Int) - (offset + limit + 2 ^ 63 - 2 ^ 63) + 2 ^ 63) % 2 ^ 64 =
      (rows : Int) - (offset + limit + 2 ^ 63 - 2 ^ 63) + 2 ^ 63 :=
    Int.emod_eq_of_lt (by omega) (by omega)
  rw [h2] at h
  omega

/-- C27 as amended, the listing handlers of `handlers` count only the current page: the
count they pass to `GenerateNextPage` is the number of rows the service returned, so for every
request decoded to a limit above 0 and an offset of at least 0 whose sum is a Go `int`, when
the service returns at most `limit` rows, the token generated is the empty string: the HTTP
listing carries no `next_page` and the gRPC answer carries the empty one (none at all
when no row is returned). -/
theorem handlers_count_the_page {σ U : Type} (c : Codec) (now : Time)
    (svc : UsersService σ U) (s s1 : σ) (users : List U) :
    (∀ (r : HTTPRequest) (lu : handlers.http.listUsers U),
      (handlers.http.listUsers.new U).Decode c now r = .ok lu →
      svc.ListUsers lu.Limit lu.Offset lu.Filter s = (.ok users, s1) →
      0 < lu.Limit → 0 ≤ lu.Offset → lu.Offset + lu.Limit < 2 ^ 63 →
      (users.length : Int) ≤ lu.Limit →
      handlers.GenerateNextPage c now lu.Limit lu.Offset users.length lu.Filter = .ok [] ∧
      handlers.http.handler.listUsers c now svc r s =
        (.listUsers { lu with Users := users, NextPage := [] }, s1)) ∧
    (∀ (r : ListUsersRequest) (lu : handlers.grpc.listUsers),
      handlers.grpc.listUsers.new.Decode c now r = .ok lu →
      svc.ListUsers lu.Limit lu.Offset lu.Filter s = (.ok users, s1) →
      0 < lu.Limit → 0 ≤ lu.Offset → lu.Offset + lu.Limit < 2 ^ 63 →
      (users.length : Int) ≤ lu.Limit →
      handlers.GenerateNextPage c now lu.Limit lu.Offset users.length lu.Filter = .ok [] ∧
      handlers.grpc.UserManagerServer.ListUsers c now svc r s =
        (.ok { Users := users, NextPage := if users.length = 0 then none else some [] },
          s1)) := by
  constructor
  · intro r lu hdec hsvc hlim hoff hsum hrows
    have hgen : handlers.GenerateNextPage c now lu.Limit lu.Offset users.length lu.Filter =
        .ok [] := by
      rw [handlers.GenerateNextPage_guard,
        if_neg (nextPageExists_page lu.Limit lu.Offset users.length hlim hoff hsum hrows)]
    refine ⟨hgen, ?_⟩
    unfold handlers.http.handler.listUsers
    simp only [hdec, hsvc]
    split_ifs with h0
    · have hnil : lu.NextPage = [] := by
        unfold handlers.http.listUsers.Decode at hdec
        split at hdec
        · cases hdec
        · unfold handlers.http.listUsers.decode at hdec
          split_ifs at hdec
          · split at hdec
            · cases hdec
            · cases hdec; rfl
          · cases hdec; rfl
      rw [← hnil]
    · rw [hgen]
  · intro r lu hdec hsvc hlim hoff hsum hrows
    have hgen : handlers.GenerateNextPage c now lu.Limit lu.Offset users.length lu.Filter =
        .ok [] := by
      rw [handlers.GenerateNextPage_guard,
        if_neg (nextPageExists_page lu.Limit lu.Offset users.length hlim hoff hsum hrows)]
    refine ⟨hgen, ?_⟩
    unfold handlers.grpc.UserManagerServer.ListUsers
    simp only [hdec, hsvc]
    split_ifs with h0
    · rfl
    · rw [hgen]

/-- C27 as amended, for the request `pagination=2` answered with one row. -/
theorem handlers_count_the_page_witness :
    handlers.http.handler.listUsers (stdlib "handlers") clock2024 oneUserService
        ⟨[], [], [], str "2"⟩ 0 =
      (.listUsers { Users := [()], Limit := 2, Offset := 0, Filter := none, NextPage := [] },
        1) ∧
    handlers.grpc.UserManagerServer.ListUsers (stdlib "handlers") clock2024 oneUserService
        ⟨[], [], [], 2⟩ 0 =
      (.ok { Users := [()], NextPage := some [] }, 1) :=
  ⟨((handlers_count_the_page (stdlib "handlers") clock2024 oneUserService 0 1 [()]).1
      ⟨[], [], [], str "2"⟩
      { Users := [], Limit := 2, Offset := 0, Filter := none, NextPage := [] }
      (by decide) (by decide) (by decide) (by decide) (by decide) (by decide)).2,
    ((handlers_count_the_page (stdlib "handlers") clock2024 oneUserService 0 1 [()]).2
      ⟨[], [], [], 2⟩ { NextPage := [], Limit := 2, Offset := 0, Filter := none }
      (by decide) (by decide) (by decide) (by decide) (by decide) (by decide)).2⟩

/-- C27 as stated fails where offset plus limit is not a Go `int`: a live token written by
a client with limit and offset `9223372036854775807` is answered, after the service returned
one row, with a token for the next page. -/
theorem handlers_count_the_page_counterexample :
    handlers.http.listUsers.Decode (stdlib "handlers") clock2024
        (handlers.http.listUsers.new Unit) ⟨liveTokenLargest, [], [], []⟩ =
      .ok { Users := [], Limit := 9223372036854775807, Offset := 9223372036854775807,
            Filter := none, NextPage := [] } ∧
    oneUserService.ListUsers 9223372036854775807 9223372036854775807 none 0 = (.ok [()], 1) ∧
    (([()] : List Unit).length : Int) ≤ 9223372036854775807 ∧
    handlers.http.handler.listUsers (stdlib "handlers") clock2024 oneUserService
        ⟨liveTokenLargest, [], [], []⟩ 0 =
      (.listUsers { Users := [()], Limit := 9223372036854775807,
                    Offset := 9223372036854775807, Filter := none,
                    NextPage := mintedLargestToken }, 1) ∧
    handlers.grpc.UserManagerServer.ListUsers (stdlib "handlers") clock2024 oneUserService
        ⟨liveTokenLargest, [], [], 0⟩ 0 =
      (.ok { Users := [()], NextPage := some mintedLargestToken }, 1) ∧
    mintedLargestToken ≠ [] := by
  decide

/-! ## Tokens from the future and tokens without a time -/

/-- The zero time on the time line. -/
theorem Time.zero_unixNano : Time.zero.unixNano = -62135596800000000000 := by decide

/-- C28. Future-dated tokens never expire early: a token that decodes to a page whose time
is later than the clock reading, by any amount, is live, and `LoadNextPage` returns the page
with its limit, offset and filter, in both trees and without calling the pagination
closure. A token whose page has the zero time, as when the field is absent, is stale for
every clock reading of 1970 or later: the decoders go on to the parameters of the request. -/
theorem future_tokens_are_live {σ : Type} (c : Codec) (now : Time) (nPage sDec : Bytes)
    (np : handlers.NextPage) (filter filterBy : Bytes) (paginationFn : PaginationFn σ) (s : σ)
    (hne : nPage ≠ []) (hdec : c.DecodeString nPage = .ok sDec)
    (hjson : c.Unmarshal sDec initialNextPage = .ok np) :
    (now.unixNano < np.Time.unixNano →
      tokenIsLive now np = true ∧
      handlers.LoadNextPage c now nPage filter filterBy paginationFn s = (.ok np, s) ∧
      common.loadNextPage c now nPage filter filterBy paginationFn s = (.ok np, s)) ∧
    (np.Time = Time.zero → 0 ≤ now.unixNano →
      tokenIsLive now np = false ∧
      handlers.LoadNextPage c now nPage filter filterBy paginationFn s =
        freshParameters np filter filterBy paginationFn s ∧
      common.loadNextPage c now nPage filter filterBy paginationFn s =
        freshParameters np filter filterBy paginationFn s) := by
  have hload := LoadNextPage_wellFormed c now nPage sDec filter filterBy np paginationFn s
    hne hdec hjson
  constructor
  · intro hfut
    have hlive : tokenIsLive now np = true := by
      rw [tokenIsLive_iff]
      omega
    rw [loadNextPage_eq, hload, hlive]
    exact ⟨rfl, rfl, rfl⟩
  · intro hzero hclock
    have hstale : tokenIsLive now np = false := by
      rw [← Bool.not_eq_true, tokenIsLive_iff, hzero, Time.zero_unixNano]
      omega
    rw [loadNextPage_eq, hload, hstale]
    exact ⟨rfl, rfl, rfl⟩

/-- C28 for the token of the repository's tests, dated 2035, and for a token without a time,
both read in 2024. -/
theorem future_tokens_are_live_witness :
    nextPageNoFilter ≠ [] ∧
    clock2024.unixNano < nextPageNoFilterValue.Time.unixNano ∧
    handlers.LoadNextPage (stdlib "handlers") clock2024 nextPageNoFilter [] [] noPagination () =
      (.ok nextPageNoFilterValue, ()) ∧
    (0 : Int) ≤ clock2024.unixNano ∧
    handlers.LoadNextPage (stdlib "handlers") clock2024 tokenWithoutTime [] [] noPagination () =
      freshParameters
        { Limit := 2, Offset := 2, FilterBy := [], Filter := [], Time := Time.zero }
        [] [] noPagination () ∧
    freshParameters
        { Limit := 2, Offset := 2, FilterBy := [], Filter := [], Time := Time.zero }
        [] [] noPagination () = (.ok initialNextPage, ()) :=
  ⟨by decide, by decide,
    ((future_tokens_are_live (stdlib "handlers") clock2024 nextPageNoFilter
      nextPageNoFilterJSON nextPageNoFilterValue [] [] noPagination ()
      (by decide) (by decide) (by decide)).1 (by decide)).2.1,
    by decide,
    ((future_tokens_are_live (stdlib "handlers") clock2024 tokenWithoutTime
      (str "\x7b\"limit\":2,\"offset\":2\x7d")
      { Limit := 2, Offset := 2, FilterBy := [], Filter := [], Time := Time.zero }
      [] [] noPagination () (by decide) (by decide) (by decide)).2 rfl (by decide)).2.1,
    by decide⟩
